import Mathlib

/-!
# SimpleFS (WFS) : a shallow embedding of `src/WFS/src/disk.c` and `src/WFS/src/fs.c`

The block device is a record holding the block count, the two I/O counters and
the contents of the backing file, block by block.  A block is a list of bytes;
the views of the C union `Block` (super block, inode table, pointer page, raw
data) are little-endian 32-bit word accessors over those bytes.

The constants of the header `sfs/fs.h` are not part of the sources, so they are
gathered in a `Config` record that every definition takes as a parameter.

The namespace `SimpleShell` embeds the process queue of `src/SimpleShell/src/queue.c`
and the namespace `Malloc` the searches of the free list of
`src/malloc/src/freelist.c`.  Both work on linked records: the records live in a
memory indexed by address, a pointer is an optional address, and a loop that follows
links takes the number of iterations it may run as `fuel`.
-/

namespace SimpleFS

/-! ## Constants and block views -/

/-- The header constants `BLOCK_SIZE`, `INODES_PER_BLOCK`, `POINTERS_PER_INODE`,
`POINTERS_PER_BLOCK` and `MAGIC_NUMBER` used by `fs.c` and `disk.c`. -/
structure Config where
  BLOCK_SIZE : Nat
  INODES_PER_BLOCK : Nat
  POINTERS_PER_INODE : Nat
  POINTERS_PER_BLOCK : Nat
  MAGIC_NUMBER : Nat
deriving DecidableEq

/-- Modelled from the spec: the constant `DISK_FAILURE` of `sfs/disk.h`, the failure
sentinel of the block device, a negative `ssize_t` distinct from the byte count
`BLOCK_SIZE` returned on success. -/
def DISK_FAILURE : Int := -1

/-- A raw block: the bytes of one `BLOCK_SIZE` unit of the device. -/
abbrev Block := List Nat

/-- The block `{{0}}`: `BLOCK_SIZE` zero bytes. -/
def zeroBlock (cfg : Config) : Block := List.replicate cfg.BLOCK_SIZE 0

/-- Modelled from the spec: the members of the union `Block` of `sfs/fs.h` other than
`data` are arrays of fixed-width 32-bit unsigned integers laid over the bytes of the
block. This is word `w` of a block read as a little-endian `uint32_t`. -/
def get32 (b : Block) (w : Nat) : Nat :=
  b.getD (4 * w) 0 % 256 + 256 * (b.getD (4 * w + 1) 0 % 256)
    + 65536 * (b.getD (4 * w + 2) 0 % 256) + 16777216 * (b.getD (4 * w + 3) 0 % 256)

/-- Store of the `uint32_t` value `v % 2^32` in word `w` of a block. -/
def set32 (b : Block) (w v : Nat) : Block :=
  (((b.set (4 * w) (v % 256)).set (4 * w + 1) (v / 256 % 256)).set (4 * w + 2)
    (v / 65536 % 256)).set (4 * w + 3) (v / 16777216 % 256)

/-- Modelled from the spec: the record `SuperBlock` of `sfs/fs.h`, four fixed-width
unsigned integers (magic number, block count, inode-block count, inode count). -/
structure SuperBlock where
  magic_number : Nat
  blocks : Nat
  inode_blocks : Nat
  inodes : Nat
deriving DecidableEq

/-- View `block.super` of the union. -/
def Block.super (b : Block) : SuperBlock :=
  { magic_number := get32 b 0, blocks := get32 b 1, inode_blocks := get32 b 2,
    inodes := get32 b 3 }

/-- Modelled from the spec: the record `Inode` of `sfs/fs.h` is the `valid` flag, `size`,
`POINTERS_PER_INODE` direct block numbers and one indirect block number, each a
`uint32_t`; this is the number of words of one record. -/
def inodeWords (cfg : Config) : Nat := cfg.POINTERS_PER_INODE + 3

/-- Field `block.inodes[j].valid`. -/
def inode_valid (cfg : Config) (b : Block) (j : Nat) : Nat :=
  get32 b (j * inodeWords cfg)

/-- Field `block.inodes[j].size`. -/
def inode_size (cfg : Config) (b : Block) (j : Nat) : Nat :=
  get32 b (j * inodeWords cfg + 1)

/-- Field `block.inodes[j].direct[k]`. -/
def inode_direct (cfg : Config) (b : Block) (j k : Nat) : Nat :=
  get32 b (j * inodeWords cfg + 2 + k)

/-- Field `block.inodes[j].indirect`. -/
def inode_indirect (cfg : Config) (b : Block) (j : Nat) : Nat :=
  get32 b (j * inodeWords cfg + 2 + cfg.POINTERS_PER_INODE)

/-- Assignment `block.inodes[j].valid = v`. -/
def set_inode_valid (cfg : Config) (b : Block) (j v : Nat) : Block :=
  set32 b (j * inodeWords cfg) v

/-- Assignment `block.inodes[j].size = v`. -/
def set_inode_size (cfg : Config) (b : Block) (j v : Nat) : Block :=
  set32 b (j * inodeWords cfg + 1) v

/-- Assignment `block.inodes[j].direct[k] = v`. -/
def set_inode_direct (cfg : Config) (b : Block) (j k v : Nat) : Block :=
  set32 b (j * inodeWords cfg + 2 + k) v

/-- Assignment `block.inodes[j].indirect = v`. -/
def set_inode_indirect (cfg : Config) (b : Block) (j v : Nat) : Block :=
  set32 b (j * inodeWords cfg + 2 + cfg.POINTERS_PER_INODE) v

/-- Entry `block.pointers[p]` of the pointer-page view. -/
def pointer (b : Block) (p : Nat) : Nat := get32 b p

/-- Assignment `block.pointers[p] = v`. -/
def set_pointer (b : Block) (p v : Nat) : Block := set32 b p v

/-- The constants describe a consistent layout: the inode array and the pointer
array both fit in one block, the super block fits, the magic number is a
`uint32_t` and the largest file size fits the `uint32_t` field `size`. -/
def Config.WF (cfg : Config) : Prop :=
  16 ≤ cfg.BLOCK_SIZE ∧
  0 < cfg.INODES_PER_BLOCK ∧
  4 * (cfg.INODES_PER_BLOCK * inodeWords cfg) ≤ cfg.BLOCK_SIZE ∧
  4 * cfg.POINTERS_PER_BLOCK ≤ cfg.BLOCK_SIZE ∧
  cfg.MAGIC_NUMBER < 2 ^ 32 ∧
  (cfg.POINTERS_PER_INODE + cfg.POINTERS_PER_BLOCK) * cfg.BLOCK_SIZE < 2 ^ 32

instance (cfg : Config) : Decidable cfg.WF := by
  unfold Config.WF; infer_instance

/-! ## The block device, `disk.c` -/

/-- The record `Disk` as `disk.c` uses it: block count, I/O counters and, for the
descriptor `fd`, the contents of the backing file as a list of blocks. `disk_open`
truncates the file to `blocks * BLOCK_SIZE` bytes, so a device as opened has
`data.length = blocks`. -/
structure Disk where
  blocks : Nat
  reads : Nat
  writes : Nat
  data : List Block
deriving DecidableEq

/-- The function `disk_sanity_check`; a null pointer is `none`. -/
def disk_sanity_check (disk : Option Disk) (block : Nat) (data : Option Block) : Bool :=
  match disk with
  | none => false
  | some d =>
    if block ≥ d.blocks then false
    else match data with
      | none => false
      | some _ => true

/-- The function `disk_read`; `data` is the caller's (non-null) buffer, returned with the
block read into it. A read past the end of the backing file is a short read. -/
def disk_read (cfg : Config) (disk : Option Disk) (block : Nat) (data : Block) :
    Int × Option Disk × Block :=
  if !disk_sanity_check disk block (some data) then (DISK_FAILURE, disk, data)
  else match disk with
    | none => (DISK_FAILURE, none, data)
    | some d =>
      match d.data.get? block with
      | some b => ((cfg.BLOCK_SIZE : Int), some { d with reads := d.reads + 1 }, b)
      | none => (DISK_FAILURE, some { d with reads := d.reads + 1 }, data)

/-- The effect of `lseek` and `write` on the file contents: block `block` is replaced, and
a write past the end of the file extends it with zero blocks. -/
def writeAt (cfg : Config) (file : List Block) (block : Nat) (data : Block) : List Block :=
  if block < file.length then file.set block data
  else file ++ List.replicate (block - file.length) (zeroBlock cfg) ++ [data]

/-- The function `disk_write`. -/
def disk_write (cfg : Config) (disk : Option Disk) (block : Nat) (data : Block) :
    Int × Option Disk :=
  if !disk_sanity_check disk block (some data) then (DISK_FAILURE, disk)
  else match disk with
    | none => (DISK_FAILURE, none)
    | some d =>
      ((cfg.BLOCK_SIZE : Int),
        some { d with writes := d.writes + 1, data := writeAt cfg d.data block data })

/-! ## The file system session, `fs.c` -/

/-- The record `FileSystem`: the device reference `disk` (`none` is `NULL`; a mounted
session holds the device), the bitmap `free_blocks` (`none` is `NULL`) and the cached
super block `meta_data`. -/
structure FileSystem where
  disk : Option Disk
  free_blocks : Option (List Bool)
  meta_data : SuperBlock
deriving DecidableEq

/-- The loop `for (size_t i = 1; i < disk->blocks; i++)` of `fs_format`, run for `n` more
iterations from index `i`. -/
def format_clear (cfg : Config) : Nat → Nat → Option Disk → Bool × Option Disk
  | 0, _, disk => (true, disk)
  | n + 1, i, disk =>
    match disk_write cfg disk i (zeroBlock cfg) with
    | (r, disk1) =>
      if r = DISK_FAILURE then (false, disk1)
      else format_clear cfg n (i + 1) disk1

/-- The value of `ceil` in `fs_format`. The products `disk->blocks * 0.10` and
`disk->blocks * 0.10 + 1` are doubles converted to `uint32_t`; for every block count
below `2^53` the truncated product is `blocks / 10`, and the conversion is taken
modulo `2^32`. -/
def format_ceil (blocks : Nat) : Nat :=
  if blocks % 10 = 0 then (blocks / 10) % 2 ^ 32 else (blocks / 10 + 1) % 2 ^ 32

/-- A block `{{0}}` whose four `super` fields are then assigned. -/
def superOf (cfg : Config) (s : SuperBlock) : Block :=
  set32 (set32 (set32 (set32 (zeroBlock cfg) 0 s.magic_number) 1 s.blocks) 2
    s.inode_blocks) 3 s.inodes

/-- The super block written by `fs_format`. -/
def format_super (cfg : Config) (blocks : Nat) : Block :=
  superOf cfg ⟨cfg.MAGIC_NUMBER, blocks, format_ceil blocks,
    format_ceil blocks * cfg.INODES_PER_BLOCK⟩

/-- The function `fs_format`; returns the result and the device afterwards. -/
def fs_format (cfg : Config) (fs : Option FileSystem) (disk : Option Disk) :
    Bool × Option Disk :=
  match fs with
  | none => (false, disk)
  | some fs =>
    match disk with
    | none => (false, none)
    | some d =>
      if fs.disk.isSome then (false, some d)
      else
        match disk_write cfg (some d) 0 (format_super cfg d.blocks) with
        | (r, disk1) =>
          if r = DISK_FAILURE then (false, disk1)
          else format_clear cfg (d.blocks - 1) 1 disk1

/-- One assignment `fs->free_blocks[p] = false` guarded by `if (p)`. -/
def mark_used (fb : List Bool) (p : Nat) : List Bool :=
  if p ≠ 0 then fb.set p false else fb

/-- The loop over `k` of `fs_mount`: mark every nonzero direct pointer of inode `j`. -/
def mount_direct (cfg : Config) (B : Block) (j : Nat) (fb : List Bool) : List Bool :=
  (List.range cfg.POINTERS_PER_INODE).foldl (fun fb k => mark_used fb (inode_direct cfg B j k)) fb

/-- The loop over `p` of `fs_mount`: mark every nonzero entry of an indirect page. -/
def mount_pointers (cfg : Config) (iblock : Block) (fb : List Bool) : List Bool :=
  (List.range cfg.POINTERS_PER_BLOCK).foldl (fun fb p => mark_used fb (pointer iblock p)) fb

/-- The loop over `j` of `fs_mount` (the inodes of one table block `B`), run for `n` more
iterations from slot `j`. The first component is `false` when a read failed. -/
def mount_inodes (cfg : Config) (B : Block) :
    Nat → Nat → Option Disk → List Bool → Bool × Option Disk × List Bool
  | 0, _, disk, fb => (true, disk, fb)
  | n + 1, j, disk, fb =>
    if inode_valid cfg B j ≠ 0 then
      let fb1 := mount_direct cfg B j fb
      if inode_indirect cfg B j ≠ 0 then
        match disk_read cfg disk (inode_indirect cfg B j) (zeroBlock cfg) with
        | (r, disk1, iblock) =>
          if r = DISK_FAILURE then (false, disk1, fb1)
          else
            mount_inodes cfg B n (j + 1) disk1
              (mount_pointers cfg iblock (fb1.set (inode_indirect cfg B j) false))
      else mount_inodes cfg B n (j + 1) disk fb1
    else mount_inodes cfg B n (j + 1) disk fb

/-- The loop `for (int i = 1; i <= fs->meta_data.inode_blocks; i++)` of `fs_mount`, run
for `n` more iterations from index `i`. The counter never passes the block count, where
the read fails and the loop is left. -/
def mount_scan (cfg : Config) :
    Nat → Nat → Option Disk → List Bool → Bool × Option Disk × List Bool
  | 0, _, disk, fb => (true, disk, fb)
  | n + 1, i, disk, fb =>
    match disk_read cfg disk i (zeroBlock cfg) with
    | (r, disk1, B) =>
      if r = DISK_FAILURE then (false, disk1, fb)
      else
        match mount_inodes cfg B cfg.INODES_PER_BLOCK 0 disk1 (fb.set i false) with
        | (ok, disk2, fb2) =>
          if ok then mount_scan cfg n (i + 1) disk2 fb2
          else (false, disk2, fb2)

/-- The function `fs_mount`; returns the result, the session afterwards and the device
afterwards (which, once recorded, is also the one the session holds). -/
def fs_mount (cfg : Config) (fs : FileSystem) (disk : Option Disk) :
    Bool × FileSystem × Option Disk :=
  match disk_read cfg disk 0 (zeroBlock cfg) with
  | (r, disk1, block) =>
    if r = DISK_FAILURE then (false, fs, disk1)
    else
      match disk1 with
      | none => (false, fs, none)
      | some d =>
        if block.super.magic_number ≠ cfg.MAGIC_NUMBER then (false, fs, disk1)
        else if block.super.blocks ≠ d.blocks then (false, fs, disk1)
        else if block.super.inode_blocks < d.blocks / 10 then (false, fs, disk1)
        else if block.super.inodes
            ≠ (block.super.inode_blocks * cfg.INODES_PER_BLOCK) % 2 ^ 32 then
          (false, fs, disk1)
        else if fs.disk.isSome then (false, fs, disk1)
        else
          match mount_scan cfg block.super.inode_blocks 1 disk1
              ((List.replicate d.blocks true).set 0 false) with
          | (ok, disk2, fb) =>
            (ok, { disk := disk2, free_blocks := some fb, meta_data := block.super }, disk2)

/-- The loop over `i` of `fs_create` (the slots of one table block `B`), run for `n` more
iterations from slot `i`: the first slot whose `valid` field is zero. -/
def create_find (cfg : Config) (B : Block) : Nat → Nat → Option Nat
  | 0, _ => none
  | n + 1, i => if inode_valid cfg B i = 0 then some i else create_find cfg B n (i + 1)

/-- The loop `for (int block = 0; block < fs->meta_data.inode_blocks; block++)` of
`fs_create`, run for `n` more iterations from index `block`. -/
def create_scan (cfg : Config) : Nat → Nat → FileSystem → Int × FileSystem
  | 0, _, fs => (-1, fs)
  | n + 1, block, fs =>
    match disk_read cfg fs.disk (block + 1) (zeroBlock cfg) with
    | (r, disk1, B) =>
      if r = DISK_FAILURE then (-1, { fs with disk := disk1 })
      else
        match create_find cfg B cfg.INODES_PER_BLOCK 0 with
        | some i =>
          match disk_write cfg disk1 (block / cfg.INODES_PER_BLOCK + 1)
              (set_inode_valid cfg B i 1) with
          | (w, disk2) =>
            if w = DISK_FAILURE then (-1, { fs with disk := disk2 })
            else (((i + block * cfg.INODES_PER_BLOCK : Nat) : Int), { fs with disk := disk2 })
        | none => create_scan cfg n (block + 1) { fs with disk := disk1 }

/-- The function `fs_create`. -/
def fs_create (cfg : Config) (fs : FileSystem) : Int × FileSystem :=
  create_scan cfg fs.meta_data.inode_blocks 0 fs

/-- The loop of `gimme_block`, run for `n` more iterations from index `i`: the first
index whose bit is `true`. -/
def gimme_scan (fb : List Bool) : Nat → Nat → Option Nat
  | 0, _ => none
  | n + 1, i => if fb.getD i false = true then some i else gimme_scan fb n (i + 1)

/-- The function `gimme_block`, called on a mounted session only; `none` is the
sentinel `-1`. -/
def gimme_block (fs : FileSystem) : Option Nat × FileSystem :=
  match fs.disk, fs.free_blocks with
  | some d, some fb =>
    match gimme_scan fb (d.blocks - 1) 1 with
    | some i => (some i, { fs with free_blocks := some (fb.set i false) })
    | none => (none, fs)
  | _, _ => (none, fs)

/-- The library call `memcpy(dst + doff, src + soff, n)` on byte buffers. -/
def memcpy (dst : List Nat) (doff : Nat) (src : List Nat) (soff n : Nat) : List Nat :=
  (List.range dst.length).map (fun i =>
    if doff ≤ i ∧ i < doff + n then src.getD (soff + (i - doff)) 0 else dst.getD i 0)

/-- The value of a `size_t` returned as `ssize_t`. -/
def toSsize (x : Nat) : Int :=
  if x % 2 ^ 64 < 2 ^ 63 then ((x % 2 ^ 64 : Nat) : Int) else ((x % 2 ^ 64 : Nat) : Int) - 2 ^ 64

/-- Subtraction of `size_t` values. -/
def sub64 (a b : Nat) : Nat := (a % 2 ^ 64 + 2 ^ 64 - b % 2 ^ 64) % 2 ^ 64

/-- The first half of the body of the loop of `fs_write`, for a logical block below
`POINTERS_PER_INODE`: either an early return, or the session, the inode block, the data
block `Dblock` and the physical block number `blk`. -/
def write_direct (cfg : Config) (fs : FileSystem) (block : Block) (inum data_b nwrite : Nat) :
    Except (Int × FileSystem) (FileSystem × Block × Block × Nat) :=
  if inode_direct cfg block inum data_b = 0 then
    match gimme_block fs with
    | (none, fs1) => .error (toSsize nwrite, fs1)
    | (some b, fs1) =>
      let block1 := set_inode_direct cfg block inum data_b b
      .ok (fs1, block1, zeroBlock cfg, inode_direct cfg block1 inum data_b)
  else
    match disk_read cfg fs.disk (inode_direct cfg block inum data_b) (zeroBlock cfg) with
    | (r, disk1, Dblock) =>
      if r = DISK_FAILURE then .error (-1, { fs with disk := disk1 })
      else .ok ({ fs with disk := disk1 }, block, Dblock, inode_direct cfg block inum data_b)

/-- The step `check and find indirect block` of `fs_write`: either an early return, or
the session, the inode block and the pointer page `pblock`. -/
def write_find_indirect (cfg : Config) (fs : FileSystem) (block : Block) (inum nwrite : Nat) :
    Except (Int × FileSystem) (FileSystem × Block × Block) :=
  if inode_indirect cfg block inum = 0 then
    match gimme_block fs with
    | (none, fs1) => .error (toSsize nwrite, fs1)
    | (some i, fs1) => .ok (fs1, set_inode_indirect cfg block inum i, zeroBlock cfg)
  else
    match disk_read cfg fs.disk (inode_indirect cfg block inum) (zeroBlock cfg) with
    | (r, disk1, pblock) =>
      if r = DISK_FAILURE then .error (-2, { fs with disk := disk1 })
      else .ok ({ fs with disk := disk1 }, block, pblock)

/-- The first half of the body of the loop of `fs_write`, for a logical block from
`POINTERS_PER_INODE` on. -/
def write_indirect (cfg : Config) (fs : FileSystem) (block : Block) (inum data_b nwrite : Nat) :
    Except (Int × FileSystem) (FileSystem × Block × Block × Nat) :=
  let idata_o := data_b - cfg.POINTERS_PER_INODE
  match write_find_indirect cfg fs block inum nwrite with
  | .error e => .error e
  | .ok (fs1, block1, pblock) =>
    let found : Except (Int × FileSystem) (FileSystem × Block × Block) :=
      if pointer pblock idata_o = 0 then
        match gimme_block fs1 with
        | (none, fs2) => .error (toSsize nwrite, fs2)
        | (some p, fs2) => .ok (fs2, set_pointer pblock idata_o p, zeroBlock cfg)
      else
        match disk_read cfg fs1.disk (pointer pblock idata_o) (zeroBlock cfg) with
        | (r, disk1, Dblock) =>
          if r = DISK_FAILURE then .error (-3, { fs1 with disk := disk1 })
          else .ok ({ fs1 with disk := disk1 }, pblock, Dblock)
    match found with
    | .error e => .error e
    | .ok (fs2, pblock1, Dblock) =>
      match disk_write cfg fs2.disk (inode_indirect cfg block1 inum) pblock1 with
      | (w, disk2) =>
        if w = DISK_FAILURE then .error (-4, { fs2 with disk := disk2 })
        else .ok ({ fs2 with disk := disk2 }, block1, Dblock, pointer pblock1 idata_o)

/-- The loop `while (nwrite < length)` of `fs_write`, run for at most `fuel` iterations.
Every iteration advances `nwrite` by at least one byte, so `length` iterations are
enough. -/
def write_loop (cfg : Config) (inode_number : Nat) (data : List Nat) (length offset : Nat) :
    Nat → FileSystem → Block → Nat → Nat → Nat → Int × FileSystem
  | 0, fs, _, nwrite, _, _ => (toSsize nwrite, fs)
  | fuel + 1, fs, block, nwrite, data_b, data_o =>
    if ¬ nwrite < length then (toSsize nwrite, fs)
    else
      let iblock := inode_number / cfg.INODES_PER_BLOCK + 1
      let inum := inode_number % cfg.INODES_PER_BLOCK
      let found :=
        if data_b < cfg.POINTERS_PER_INODE then write_direct cfg fs block inum data_b nwrite
        else write_indirect cfg fs block inum data_b nwrite
      match found with
      | .error e => e
      | .ok (fs1, block1, Dblock, blk) =>
        let ncopy :=
          if ((length - nwrite) + data_o) % 2 ^ 64 < cfg.BLOCK_SIZE then length - nwrite
          else cfg.BLOCK_SIZE - data_o
        let Dblock1 := memcpy Dblock data_o data nwrite ncopy
        let nwrite1 := (nwrite + ncopy) % 2 ^ 64
        let block2 := set_inode_size cfg block1 inum ((nwrite1 + offset) % 2 ^ 64)
        match disk_write cfg fs1.disk blk Dblock1 with
        | (w, disk1) =>
          if w = DISK_FAILURE then (-5, { fs1 with disk := disk1 })
          else
            match disk_write cfg disk1 iblock block2 with
            | (w2, disk2) =>
              if w2 = DISK_FAILURE then (-1, { fs1 with disk := disk2 })
              else
                write_loop cfg inode_number data length offset fuel
                  { fs1 with disk := disk2 } block2 nwrite1 (data_b + 1) 0

/-- The function `fs_write`; `data` is the caller's buffer. -/
def fs_write (cfg : Config) (fs : FileSystem) (inode_number : Nat) (data : List Nat)
    (length offset : Nat) : Int × FileSystem :=
  match disk_read cfg fs.disk (inode_number / cfg.INODES_PER_BLOCK + 1) (zeroBlock cfg) with
  | (r, disk1, block) =>
    if r = DISK_FAILURE then (-1, { fs with disk := disk1 })
    else
      write_loop cfg inode_number data length offset length { fs with disk := disk1 } block 0
        (offset / cfg.BLOCK_SIZE) (offset % cfg.BLOCK_SIZE)

/-- The step `read data block` of the loop of `fs_read`: the device afterwards and the
data block, or `none` when a read failed. -/
def read_block (cfg : Config) (disk : Option Disk) (block : Block) (inum data_b : Nat) :
    Option Disk × Option Block :=
  if data_b < cfg.POINTERS_PER_INODE then
    match disk_read cfg disk (inode_direct cfg block inum data_b) (zeroBlock cfg) with
    | (r, disk1, Dblock) => if r = DISK_FAILURE then (disk1, none) else (disk1, some Dblock)
  else
    match disk_read cfg disk (inode_indirect cfg block inum) (zeroBlock cfg) with
    | (r, disk1, Iblock) =>
      if r = DISK_FAILURE then (disk1, none)
      else
        match disk_read cfg disk1 (pointer Iblock (data_b - cfg.POINTERS_PER_INODE))
            (zeroBlock cfg) with
        | (r2, disk2, Dblock) =>
          if r2 = DISK_FAILURE then (disk2, none) else (disk2, some Dblock)

/-- The loop `while (nread < length)` of `fs_read`, run for at most `fuel` iterations;
`buf` is the caller's buffer `data`. -/
def read_loop (cfg : Config) (block : Block) (inum length : Nat) :
    Nat → FileSystem → List Nat → Nat → Nat → Nat → Nat → Int × FileSystem × List Nat
  | 0, fs, buf, nread, _, _, _ => (toSsize nread, fs, buf)
  | fuel + 1, fs, buf, nread, ncopy, data_b, data_o =>
    if ¬ nread < length then (toSsize nread, fs, buf)
    else
      match read_block cfg fs.disk block inum data_b with
      | (disk1, none) => (-1, { fs with disk := disk1 }, buf)
      | (disk1, some Dblock) =>
        let buf1 := memcpy buf nread Dblock data_o ncopy
        let nread1 := (nread + ncopy) % 2 ^ 64
        let ncopy1 := if sub64 length nread1 > cfg.BLOCK_SIZE then cfg.BLOCK_SIZE
          else sub64 length nread1
        read_loop cfg block inum length fuel { fs with disk := disk1 } buf1 nread1 ncopy1
          (data_b + 1) 0

/-- The function `fs_read`; `data` is the caller's buffer, returned as the third
component. -/
def fs_read (cfg : Config) (fs : FileSystem) (inode_number : Nat) (data : List Nat)
    (length offset : Nat) : Int × FileSystem × List Nat :=
  let inum := inode_number % cfg.INODES_PER_BLOCK
  let data_o := offset % cfg.BLOCK_SIZE
  match disk_read cfg fs.disk (inode_number / cfg.INODES_PER_BLOCK + 1) (zeroBlock cfg) with
  | (r, disk1, block) =>
    if r = DISK_FAILURE then (-1, { fs with disk := disk1 }, data)
    else
      let size := inode_size cfg block inum
      let length1 := if (length + offset) % 2 ^ 64 > size then sub64 size offset else length
      let ncopy := if (length1 + data_o) % 2 ^ 64 < cfg.BLOCK_SIZE then length1
        else cfg.BLOCK_SIZE - data_o
      read_loop cfg block inum length1 length1 { fs with disk := disk1 } data 0 ncopy
        (offset / cfg.BLOCK_SIZE) data_o

/-- The function `fs_unmount`. -/
def fs_unmount (fs : FileSystem) : FileSystem :=
  { fs with disk := none, free_blocks := none }

/-- The function `fs_stat`; returns the result and the session afterwards (whose device
has one more read counted). -/
def fs_stat (cfg : Config) (fs : FileSystem) (inode_number : Nat) : Int × FileSystem :=
  let iblock := inode_number / cfg.INODES_PER_BLOCK
  let inum := inode_number % cfg.INODES_PER_BLOCK
  match disk_read cfg fs.disk (iblock + 1) (zeroBlock cfg) with
  | (r, disk1, block) =>
    if r = DISK_FAILURE then (-1, { fs with disk := disk1 })
    else if inode_valid cfg block inum ≠ 0 then
      (((inode_size cfg block inum : Nat) : Int), { fs with disk := disk1 })
    else (-1, { fs with disk := disk1 })

/-- One assignment `fs->free_blocks[p] = true` on the bitmap of a session. -/
def free_bit (fbs : Option (List Bool)) (p : Nat) : Option (List Bool) :=
  fbs.map (fun fb => fb.set p true)

/-- The loop over `d` of `fs_remove`: every nonzero direct pointer of slot `inum` is
marked free in the bitmap and cleared in the block. -/
def remove_direct (cfg : Config) (inum : Nat) (fbs : Option (List Bool)) (block : Block) :
    Option (List Bool) × Block :=
  (List.range cfg.POINTERS_PER_INODE).foldl
    (fun s d =>
      if inode_direct cfg s.2 inum d ≠ 0 then
        (free_bit s.1 (inode_direct cfg s.2 inum d), set_inode_direct cfg s.2 inum d 0)
      else s)
    (fbs, block)

/-- The loop over `p` of `fs_remove`: every nonzero entry of the indirect page is marked
free in the bitmap. The assignment `ipblock.pointers[p] = 0` changes only the local copy
of the page, which is never written back. -/
def remove_pointers (cfg : Config) (ipblock : Block) (fbs : Option (List Bool)) :
    Option (List Bool) :=
  (List.range cfg.POINTERS_PER_BLOCK).foldl
    (fun fbs p => if pointer ipblock p ≠ 0 then free_bit fbs (pointer ipblock p) else fbs) fbs

/-- The end of `fs_remove` (`mark free in table`, `write back to disk`): slot `inum` of
`block` gets `valid = false` and `size = 0`, and the block is written to the device. -/
def remove_finish (cfg : Config) (fs : FileSystem) (iblock inum : Nat) (disk : Option Disk)
    (fbs : Option (List Bool)) (block : Block) : Bool × FileSystem :=
  match disk_write cfg disk (iblock + 1)
      (set_inode_size cfg (set_inode_valid cfg block inum 0) inum 0) with
  | (w, disk1) =>
    if w = DISK_FAILURE then (false, { fs with disk := disk1, free_blocks := fbs })
    else (true, { fs with disk := disk1, free_blocks := fbs })

/-- The function `fs_remove`; returns the result and the session afterwards. The local
`int` copies `db` and `ib` of the pointers are kept as the block numbers they hold. -/
def fs_remove (cfg : Config) (fs : FileSystem) (inode_number : Nat) : Bool × FileSystem :=
  let iblock := inode_number / cfg.INODES_PER_BLOCK
  let inum := inode_number % cfg.INODES_PER_BLOCK
  match disk_read cfg fs.disk (iblock + 1) (zeroBlock cfg) with
  | (r, disk1, block) =>
    if r = DISK_FAILURE then (false, { fs with disk := disk1 })
    else if inode_valid cfg block inum ≠ 0 then
      match remove_direct cfg inum fs.free_blocks block with
      | (fb1, block1) =>
        if inode_indirect cfg block1 inum ≠ 0 then
          match disk_read cfg disk1 (inode_indirect cfg block1 inum) (zeroBlock cfg) with
          | (r2, disk2, ipblock) =>
            if r2 = DISK_FAILURE then (false, { fs with disk := disk2, free_blocks := fb1 })
            else
              remove_finish cfg fs iblock inum disk2
                (free_bit (remove_pointers cfg ipblock fb1) (inode_indirect cfg block1 inum))
                (set_inode_indirect cfg block1 inum 0)
        else remove_finish cfg fs iblock inum disk1 fb1 block1
    else (false, { fs with disk := disk1 })

/-! ## Concrete inputs -/

/-- The constants of the usual SimpleFS layout: blocks of 4096 bytes, 128 inodes per
block, 5 direct pointers per inode and 1024 pointers per block. -/
def stdConfig : Config :=
  { BLOCK_SIZE := 4096, INODES_PER_BLOCK := 128, POINTERS_PER_INODE := 5,
    POINTERS_PER_BLOCK := 1024, MAGIC_NUMBER := 0xf0f03410 }

/-- A small layout with the same shape: blocks of 32 bytes, 2 inodes per block, 1 direct
pointer per inode and 8 pointers per block. -/
def smallConfig : Config :=
  { BLOCK_SIZE := 32, INODES_PER_BLOCK := 2, POINTERS_PER_INODE := 1,
    POINTERS_PER_BLOCK := 8, MAGIC_NUMBER := 0xf0f03410 }

/-- A session that was never mounted: no device, no bitmap. -/
def freshSession : FileSystem :=
  { disk := none, free_blocks := none, meta_data := ⟨0, 0, 0, 0⟩ }

/-- A device of `n` zero blocks, as `disk_open` creates it. -/
def blankDisk (cfg : Config) (n : Nat) : Disk :=
  { blocks := n, reads := 0, writes := 0, data := List.replicate n (zeroBlock cfg) }

/-- A device of `n` blocks holding the super block `s` in block 0 and zero blocks after. -/
def volume (cfg : Config) (s : SuperBlock) (n : Nat) : Disk :=
  { blocks := n, reads := 0, writes := 0,
    data := superOf cfg s :: List.replicate (n - 1) (zeroBlock cfg) }

/-- A volume of 8 blocks in the small layout holding one file of 70 bytes: inode 0 is
valid with `direct[0] = 2` and `indirect = 3`, and the indirect page lists blocks 4 and 5. -/
def sampleVolume : Disk :=
  { blocks := 8, reads := 0, writes := 0,
    data :=
      [[16, 52, 240, 240, 8, 0, 0, 0, 1, 0, 0, 0, 2, 0, 0, 0,
        0, 0, 0, 0, 0, 0, 0, 0, 0, 0, 0, 0, 0, 0, 0, 0],
       [1, 0, 0, 0, 70, 0, 0, 0, 2, 0, 0, 0, 3, 0, 0, 0,
        0, 0, 0, 0, 0, 0, 0, 0, 0, 0, 0, 0, 0, 0, 0, 0],
       [1, 2, 3, 4, 5, 6, 7, 8, 9, 10, 11, 12, 13, 14, 15, 16,
        17, 18, 19, 20, 21, 22, 23, 24, 25, 26, 27, 28, 29, 30, 31, 32],
       [4, 0, 0, 0, 5, 0, 0, 0, 0, 0, 0, 0, 0, 0, 0, 0,
        0, 0, 0, 0, 0, 0, 0, 0, 0, 0, 0, 0, 0, 0, 0, 0],
       [33, 34, 35, 36, 37, 38, 39, 40, 41, 42, 43, 44, 45, 46, 47, 48,
        49, 50, 51, 52, 53, 54, 55, 56, 57, 58, 59, 60, 61, 62, 63, 64],
       [65, 66, 67, 68, 69, 70, 0, 0, 0, 0, 0, 0, 0, 0, 0, 0,
        0, 0, 0, 0, 0, 0, 0, 0, 0, 0, 0, 0, 0, 0, 0, 0],
       List.replicate 32 0,
       List.replicate 32 0] }

/-- The session that `fs_mount` leaves for the sample volume. -/
def sampleSession : FileSystem :=
  (fs_mount smallConfig freshSession (some sampleVolume)).2.1

/-- A volume of 8 blocks in the small layout whose two inodes are both valid and both
name block 2 in `direct[0]`. -/
def sharedVolume : Disk :=
  { blocks := 8, reads := 0, writes := 0,
    data :=
      [[16, 52, 240, 240, 8, 0, 0, 0, 1, 0, 0, 0, 2, 0, 0, 0,
        0, 0, 0, 0, 0, 0, 0, 0, 0, 0, 0, 0, 0, 0, 0, 0],
       [1, 0, 0, 0, 32, 0, 0, 0, 2, 0, 0, 0, 0, 0, 0, 0,
        1, 0, 0, 0, 32, 0, 0, 0, 2, 0, 0, 0, 0, 0, 0, 0],
       [1, 2, 3, 4, 5, 6, 7, 8, 9, 10, 11, 12, 13, 14, 15, 16,
        17, 18, 19, 20, 21, 22, 23, 24, 25, 26, 27, 28, 29, 30, 31, 32],
       List.replicate 32 0,
       List.replicate 32 0,
       List.replicate 32 0,
       List.replicate 32 0,
       List.replicate 32 0] }

/-- A volume of 2 blocks with the usual constants whose inode 0 is valid, has size 7 and
names block 9, past the end of the device, as its indirect page. -/
def danglingVolume : Disk :=
  ⟨2, 0, 0,
    [superOf stdConfig ⟨stdConfig.MAGIC_NUMBER, 2, 1, 128⟩,
      set_inode_indirect stdConfig
        (set_inode_size stdConfig (set_inode_valid stdConfig (zeroBlock stdConfig) 0 1) 0 7)
        0 9]⟩

/-- The session that `fs_mount` leaves for the volume with the shared block. -/
def sharedSession : FileSystem :=
  (fs_mount smallConfig freshSession (some sharedVolume)).2.1

/-- The device a session holds (an empty device when it holds none). -/
def deviceOf (fs : FileSystem) : Disk := fs.disk.getD ⟨0, 0, 0, []⟩

/-- The bitmap a session holds (empty when it holds none). -/
def bitmapOf (fs : FileSystem) : List Bool := fs.free_blocks.getD []

/-- The session obtained by formatting and mounting a blank device of 8 blocks in the
small layout. -/
def mountedSession : FileSystem :=
  (fs_mount smallConfig freshSession
    (fs_format smallConfig (some freshSession) (some (blankDisk smallConfig 8))).2).2.1

/-- The session after `fs_format` and then `fs_mount` of device `d` on session `fs`. -/
def freshVolume (cfg : Config) (fs : FileSystem) (d : Disk) : FileSystem :=
  (fs_mount cfg fs (fs_format cfg (some fs) (some d)).2).2.1

/-- The session after `fs_unmount` followed by `fs_mount` of the device the session
held. -/
def remount (cfg : Config) (fs : FileSystem) : FileSystem :=
  (fs_mount cfg (fs_unmount fs) (some (deviceOf fs))).2.1

/-- The bytes `1, 2, .., n` (modulo 256), used as file contents. -/
def sampleBytes (n : Nat) : List Nat := (List.range n).map (fun i => (i + 1) % 256)

/-! ## Specification predicates -/

/-- Block `b` is referenced by slot `j` of the inode-table block `B` of device `d`: the
slot is valid and `b` is a nonzero direct pointer, the nonzero indirect pointer, or a
nonzero entry of the page stored in the indirect block. -/
def InodeUses (cfg : Config) (d : Disk) (B : Block) (j b : Nat) : Prop :=
  inode_valid cfg B j ≠ 0 ∧ b ≠ 0 ∧
    ((∃ k, k < cfg.POINTERS_PER_INODE ∧ inode_direct cfg B j k = b) ∨
      inode_indirect cfg B j = b ∨
      (inode_indirect cfg B j ≠ 0 ∧ ∃ p, p < cfg.POINTERS_PER_BLOCK ∧
        pointer (d.data.getD (inode_indirect cfg B j) []) p = b))

instance (cfg : Config) (d : Disk) (B : Block) (j b : Nat) : Decidable (InodeUses cfg d B j b) := by
  unfold InodeUses; infer_instance

/-- Block `b` is in use on device `d` with `inode_blocks` inode-table blocks: it is the
super block, an inode-table block, or referenced by a valid inode. -/
def InUse (cfg : Config) (d : Disk) (inode_blocks b : Nat) : Prop :=
  b = 0 ∨ (1 ≤ b ∧ b ≤ inode_blocks) ∨
    ∃ i j, 1 ≤ i ∧ i ≤ inode_blocks ∧ j < cfg.INODES_PER_BLOCK ∧
      InodeUses cfg d (d.data.getD i []) j b

instance (cfg : Config) (d : Disk) (n b : Nat) : Decidable (InUse cfg d n b) :=
  decidable_of_iff
    (b = 0 ∨ (1 ≤ b ∧ b ≤ n) ∨
      ∃ i, i < n + 1 ∧ ∃ j, j < cfg.INODES_PER_BLOCK ∧
        (1 ≤ i ∧ InodeUses cfg d (d.data.getD i []) j b))
    (by
      unfold InUse
      constructor
      · rintro (h | h | ⟨i, hi, j, hj, h1, h2⟩)
        · exact Or.inl h
        · exact Or.inr (Or.inl h)
        · exact Or.inr (Or.inr ⟨i, j, h1, Nat.lt_succ_iff.mp hi, hj, h2⟩)
      · rintro (h | h | ⟨i, j, h1, hi, hj, h2⟩)
        · exact Or.inl h
        · exact Or.inr (Or.inl h)
        · exact Or.inr (Or.inr ⟨i, Nat.lt_succ_iff.mpr hi, j, hj, h1, h2⟩))

/-- Every pointer stored in slot `j` of the inode-table block `B` (direct pointers, the
indirect pointer and, when there is an indirect page, its entries) is below the block
count. -/
def InodeInRange (cfg : Config) (d : Disk) (B : Block) (j : Nat) : Prop :=
  (∀ k, k < cfg.POINTERS_PER_INODE → inode_direct cfg B j k < d.blocks) ∧
    inode_indirect cfg B j < d.blocks ∧
    (inode_indirect cfg B j ≠ 0 → ∀ p, p < cfg.POINTERS_PER_BLOCK →
      pointer (d.data.getD (inode_indirect cfg B j) []) p < d.blocks)

instance (cfg : Config) (d : Disk) (B : Block) (j : Nat) : Decidable (InodeInRange cfg d B j) := by
  unfold InodeInRange; infer_instance

/-- Every pointer stored in a valid inode of the inode table is below the block count. -/
def PointersInRange (cfg : Config) (d : Disk) (inode_blocks : Nat) : Prop :=
  ∀ i, i < inode_blocks + 1 → ∀ j, j < cfg.INODES_PER_BLOCK →
    1 ≤ i → inode_valid cfg (d.data.getD i []) j ≠ 0 → InodeInRange cfg d (d.data.getD i []) j

instance (cfg : Config) (d : Disk) (n : Nat) : Decidable (PointersInRange cfg d n) := by
  unfold PointersInRange; infer_instance

/-- The logical-to-physical translation: logical block `j` of the inode in slot `inum` of
the inode-table block `block` is `direct[j]` below `POINTERS_PER_INODE`, and otherwise
entry `j - POINTERS_PER_INODE` of the page stored in the indirect block. -/
def physical (cfg : Config) (d : Disk) (block : Block) (inum j : Nat) : Nat :=
  if j < cfg.POINTERS_PER_INODE then inode_direct cfg block inum j
  else pointer (d.data.getD (inode_indirect cfg block inum) []) (j - cfg.POINTERS_PER_INODE)

/-- Block `B` holds the bytes of logical block `j` of the `N` bytes `data`. -/
def HoldsChunk (cfg : Config) (data : List Nat) (N : Nat) (B : Block) (j : Nat) : Prop :=
  ∀ t, t < cfg.BLOCK_SIZE → j * cfg.BLOCK_SIZE + t < N →
    B.getD t 0 = data.getD (j * cfg.BLOCK_SIZE + t) 0

/-- Block `p` is a data block owned by the file: a block of the device other than
block 0, the inode-table block `iblk` and the indirect page `q`, marked used. -/
def Mapped (d : Disk) (fb : List Bool) (iblk q p : Nat) : Prop :=
  p ≠ 0 ∧ p < d.blocks ∧ fb.getD p false = false ∧ p ≠ iblk ∧ p ≠ q

/-- The number of blocks a write of `N` bytes at offset 0 to an empty file allocates: the
data blocks and, past the direct pointers, the indirect page. -/
def blocksNeeded (cfg : Config) (N : Nat) : Nat :=
  (N + cfg.BLOCK_SIZE - 1) / cfg.BLOCK_SIZE
    + if cfg.POINTERS_PER_INODE * cfg.BLOCK_SIZE < N then 1 else 0

/-- The number of free blocks recorded in the bitmap of a session. -/
def freeCount (fs : FileSystem) : Nat :=
  match fs.free_blocks with
  | some fb => fb.count true
  | none => 0

/-- The state of `fs_write` at offset 0 on an initially empty inode (slot `inum` of the
inode-table block `iblk`, held in `block`) when the first `k` logical blocks are mapped
and the first `c` of them hold their bytes of `data`; `d` is the device and `fb` the
bitmap. -/
structure WriteInv (cfg : Config) (data : List Nat) (N iblk inum k c : Nat) (d : Disk)
    (fb : List Bool) (block : Block) : Prop where
  hlen : d.data.length = d.blocks
  hb32 : d.blocks < 2 ^ 32
  hsize : ∀ i, i < d.blocks → (d.data.getD i []).length = cfg.BLOCK_SIZE
  hfb : fb.length = d.blocks
  hzero : fb.getD 0 false = false
  hiblk : iblk < d.blocks
  hiused : fb.getD iblk false = false
  hblock : block.length = cfg.BLOCK_SIZE
  hsync : c = k → d.data.getD iblk [] = block
  hfile : c = k → inode_size cfg block inum = min (k * cfg.BLOCK_SIZE) N
  hmap : ∀ j, j < k → Mapped d fb iblk (inode_indirect cfg block inum) (physical cfg d block inum j)
  hinj : ∀ j j', j < j' → j' < k → physical cfg d block inum j ≠ physical cfg d block inum j'
  hchunk : ∀ j, j < c →
    HoldsChunk cfg data N (d.data.getD (physical cfg d block inum j) []) j
  hdirect0 : ∀ j, k ≤ j → j < cfg.POINTERS_PER_INODE → inode_direct cfg block inum j = 0
  hind0 : k ≤ cfg.POINTERS_PER_INODE → inode_indirect cfg block inum = 0
  hind : cfg.POINTERS_PER_INODE < k →
    inode_indirect cfg block inum ≠ 0 ∧ inode_indirect cfg block inum < d.blocks ∧
    fb.getD (inode_indirect cfg block inum) false = false ∧
    inode_indirect cfg block inum ≠ iblk
  hptr0 : cfg.POINTERS_PER_INODE < k → ∀ p, k ≤ p + cfg.POINTERS_PER_INODE →
    p < cfg.POINTERS_PER_BLOCK →
    pointer (d.data.getD (inode_indirect cfg block inum) []) p = 0

/-- A call of the file system interface on a mounted session. -/
inductive FsOp where
  | create : FsOp
  | remove (inode_number : Nat) : FsOp
  | read (inode_number : Nat) (buf : List Nat) (length offset : Nat) : FsOp
  | write (inode_number : Nat) (data : List Nat) (length offset : Nat) : FsOp

/-- The session after one call. -/
def fs_step (cfg : Config) (fs : FileSystem) : FsOp → FileSystem
  | .create => (fs_create cfg fs).2
  | .remove n => (fs_remove cfg fs n).2
  | .read n buf length offset => (fs_read cfg fs n buf length offset).2.1
  | .write n data length offset => (fs_write cfg fs n data length offset).2

/-- The session after a sequence of calls, run from left to right. -/
def fs_run (cfg : Config) (fs : FileSystem) (ops : List FsOp) : FileSystem :=
  ops.foldl (fs_step cfg) fs

/-- The results of `m` consecutive calls of `fs_create`, in call order, and the session
afterwards. -/
def fs_creates (cfg : Config) : Nat → FileSystem → List Int × FileSystem
  | 0, fs => ([], fs)
  | m + 1, fs =>
    ((fs_create cfg fs).1 :: (fs_creates cfg m (fs_create cfg fs).2).1,
      (fs_creates cfg m (fs_create cfg fs).2).2)

/-- An inode-table block whose first `j` slots have only their `valid` flag set and whose
other bytes are zero. -/
def tableBlock (cfg : Config) (j : Nat) : Block :=
  (List.range j).foldl (fun B s => set_inode_valid cfg B s 1) (zeroBlock cfg)

/-- The device `d` is as opened, has more than two blocks, block 1 is the table block
with its first `j` slots valid and block 2 is all zero. -/
def TableState (cfg : Config) (d : Disk) (j : Nat) : Prop :=
  d.data.length = d.blocks ∧ 2 < d.blocks ∧ d.data.getD 1 [] = tableBlock cfg j ∧
    d.data.getD 2 [] = zeroBlock cfg

end SimpleFS

namespace SimpleShell

/-! ## The process queue, `queue.c` -/

/-- A pointer to a process record: `none` is `NULL`, `some a` the record at address `a`. -/
abbrev Ptr := Option Nat

/-- The members of the record `Process` that `queue.c` uses: the process identifier
`pid` and the link `next` (the record is spelled out in a comment of `process.c`). -/
structure Process where
  pid : Int
  next : Ptr
deriving DecidableEq

/-- The process records in memory, by address. -/
abbrev Memory := Nat → Process

/-- The record `Queue` as `queue.c` uses it: the pointers `head` and `tail` and the
count `size`. -/
structure Queue where
  head : Ptr
  tail : Ptr
  size : Nat
deriving DecidableEq

/-- Assignment `a->next = v` to the process record at address `a`. -/
def set_next (mem : Memory) (a : Nat) (v : Ptr) : Memory :=
  fun x => if x = a then { mem x with next := v } else mem x

/-- The function `queue_push`: the memory and the queue afterwards; `none` is the
dereference of a null `tail`. -/
def queue_push (mem : Memory) (q : Queue) (p : Nat) : Option (Memory × Queue) :=
  if q.size = 0 then some (mem, ⟨some p, some p, 1⟩)
  else
    match q.tail with
    | none => none
    | some t => some (set_next (set_next mem t (some p)) p none, ⟨q.head, some p, q.size + 1⟩)

/-- The function `queue_pop`: the pointer returned and the queue afterwards; `none` is
the dereference of a null `head`. -/
def queue_pop (mem : Memory) (q : Queue) : Option (Ptr × Queue) :=
  if q.size = 0 then some (none, q)
  else if q.size = 1 then some (q.head, ⟨none, none, q.size - 1⟩)
  else
    match q.head with
    | none => none
    | some a => some (some a, ⟨(mem a).next, q.tail, q.size - 1⟩)

/-- The loop `while (curr != NULL)` of `queue_remove`, run for at most `fuel`
iterations: the pointer returned, the memory and the queue afterwards; `none` when the
fuel runs out or the uninitialised `prev` is dereferenced. -/
def remove_loop (pid : Int) : Nat → Memory → Queue → Ptr → Ptr → Option (Ptr × Memory × Queue)
  | _, mem, q, none, _ => some (none, mem, q)
  | 0, _, _, some _, _ => none
  | fuel + 1, mem, q, some c, prev =>
    if (mem c).pid = pid then
      if some c = q.head then some (some c, mem, ⟨(mem c).next, q.tail, q.size - 1⟩)
      else
        match prev with
        | none => none
        | some pv =>
          some (some c, set_next mem pv (mem c).next, ⟨q.head, q.tail, q.size - 1⟩)
    else remove_loop pid fuel mem q (mem c).next (some c)

/-- The function `queue_remove`, its loop run for at most `fuel` iterations: the
pointer returned, the memory and the queue afterwards; `none` is the dereference of a
null `head` or a loop that does not end within the fuel. -/
def queue_remove (fuel : Nat) (mem : Memory) (q : Queue) (pid : Int) :
    Option (Ptr × Memory × Queue) :=
  if q.size = 0 then some (none, mem, q)
  else if q.head = q.tail then
    match q.head with
    | none => none
    | some c =>
      if (mem c).pid = pid then some (some c, mem, ⟨none, none, q.size - 1⟩)
      else some (none, mem, q)
  else remove_loop pid fuel mem q q.head none

/-- A call of the queue interface. -/
inductive QueueOp where
  | push (p : Nat) : QueueOp
  | pop : QueueOp
  | remove (pid : Int) : QueueOp

/-- A sequence of calls run from left to right: the pointers returned by the `pop` and
`remove` calls in order, the memory and the queue afterwards. -/
def queue_run (fuel : Nat) : Memory → Queue → List QueueOp → Option (List Ptr × Memory × Queue)
  | mem, q, [] => some ([], mem, q)
  | mem, q, .push p :: ops =>
    match queue_push mem q p with
    | none => none
    | some (mem1, q1) => queue_run fuel mem1 q1 ops
  | mem, q, .pop :: ops =>
    match queue_pop mem q with
    | none => none
    | some (r, q1) =>
      match queue_run fuel mem q1 ops with
      | none => none
      | some (rs, mem2, q2) => some (r :: rs, mem2, q2)
  | mem, q, .remove pid :: ops =>
    match queue_remove fuel mem q pid with
    | none => none
    | some (r, mem1, q1) =>
      match queue_run fuel mem1 q1 ops with
      | none => none
      | some (rs, mem2, q2) => some (r :: rs, mem2, q2)

/-- The empty queue: no head, no tail, size 0. -/
def emptyQueue : Queue := ⟨none, none, 0⟩

/-- A memory in which the process at address `a` has pid `a` and no successor. -/
def sampleProcesses : Memory := fun a => ⟨Int.ofNat a, none⟩

/-- The links from pointer `p` run through the addresses `l`, in this order, and end
with `NULL`. -/
def Chain (mem : Memory) : Ptr → List Nat → Prop
  | p, [] => p = none
  | p, a :: l => p = some a ∧ Chain mem (mem a).next l

/-- A well-formed queue holding the processes `l`: `head` reaches them through the
`next` links, `tail` is the last of them and `size` is their number. -/
def QueueHolds (mem : Memory) (q : Queue) (l : List Nat) : Prop :=
  Chain mem q.head l ∧ q.tail = l.getLast? ∧ q.size = l.length

end SimpleShell

namespace Malloc

/-! ## The free list, `freelist.c` -/

/-- A pointer to a block header: `none` is `NULL`, `some a` the header at address `a`. -/
abbrev Ptr := Option Nat

/-- The record `Block` as `freelist.c` and `block.c` use it: the `size_t` members
`capacity` and `size` and the links `prev` and `next` of the circular list; the data area
behind the header plays no part in the searches. -/
structure Block where
  capacity : Nat
  size : Nat
  prev : Ptr
  next : Ptr
deriving DecidableEq

/-- The block headers in memory, by address; the global `FreeList` is the header at the
address that the functions take as `FreeList`. -/
abbrev Memory := Nat → Block

/-- The loop of `free_list_search_ff` from `curr`, run for at most `fuel` iterations:
`some r` is the pointer returned, `none` a loop that does not end within the fuel or
reaches a null link. -/
def search_ff_loop (mem : Memory) (FreeList size : Nat) : Nat → Ptr → Option Ptr
  | 0, curr => if curr = some FreeList then some none else none
  | fuel + 1, curr =>
    match curr with
    | none => none
    | some c =>
      if c = FreeList then some none
      else if (mem c).capacity ≥ size then some (some c)
      else search_ff_loop mem FreeList size fuel (mem c).next

/-- The function `free_list_search_ff`. -/
def free_list_search_ff (mem : Memory) (FreeList size fuel : Nat) : Option Ptr :=
  search_ff_loop mem FreeList size fuel (mem FreeList).next

/-- The loop of `free_list_search_bf` from `curr` with the candidate `closest`, run for
at most `fuel` iterations. -/
def search_bf_loop (mem : Memory) (FreeList size : Nat) : Nat → Ptr → Ptr → Option Ptr
  | 0, curr, closest => if curr = some FreeList then some closest else none
  | fuel + 1, curr, closest =>
    match curr with
    | none => none
    | some c =>
      if c = FreeList then some closest
      else if (mem c).capacity = size then some (some c)
      else
        let closest1 : Ptr :=
          match closest with
          | none => if (mem c).capacity > size then some c else none
          | some k => some k
        match closest1 with
        | none => search_bf_loop mem FreeList size fuel (mem c).next none
        | some k =>
          if (mem c).capacity > size ∧ (mem c).capacity < (mem k).capacity then
            search_bf_loop mem FreeList size fuel (mem c).next (some c)
          else search_bf_loop mem FreeList size fuel (mem c).next (some k)

/-- The function `free_list_search_bf`. -/
def free_list_search_bf (mem : Memory) (FreeList size fuel : Nat) : Option Ptr :=
  search_bf_loop mem FreeList size fuel (mem FreeList).next none

/-- The loop of `free_list_search_wf` from `curr` with the candidate `worst`, run for at
most `fuel` iterations. -/
def search_wf_loop (mem : Memory) (FreeList size : Nat) : Nat → Ptr → Ptr → Option Ptr
  | 0, curr, worst => if curr = some FreeList then some worst else none
  | fuel + 1, curr, worst =>
    match curr with
    | none => none
    | some c =>
      if c = FreeList then some worst
      else
        let worst1 : Ptr :=
          match worst with
          | none => if (mem c).capacity ≥ size then some c else none
          | some k => some k
        match worst1 with
        | none => search_wf_loop mem FreeList size fuel (mem c).next none
        | some k =>
          if (mem c).capacity ≥ size ∧ (mem c).capacity > (mem k).capacity then
            search_wf_loop mem FreeList size fuel (mem c).next (some c)
          else search_wf_loop mem FreeList size fuel (mem c).next (some k)

/-- The function `free_list_search_wf`. -/
def free_list_search_wf (mem : Memory) (FreeList size fuel : Nat) : Option Ptr :=
  search_wf_loop mem FreeList size fuel (mem FreeList).next none

/-- A memory with the list head `FreeList` at address 0 and three free blocks behind
it: block 1 of capacity 64, block 2 of capacity 16 and block 3 of capacity 32. -/
def sampleBlocks : Memory := fun a =>
  match a with
  | 0 => ⟨2 ^ 64 - 1, 2 ^ 64 - 1, some 3, some 1⟩
  | 1 => ⟨64, 0, some 0, some 2⟩
  | 2 => ⟨16, 0, some 1, some 3⟩
  | 3 => ⟨32, 0, some 2, some 0⟩
  | _ => ⟨0, 0, none, none⟩

/-- The `next` links from pointer `p` run through the blocks `l`, in this order, none of
them the list head, and then reach the list head `FreeList`. -/
def ListFrom (mem : Memory) (FreeList : Nat) : Ptr → List Nat → Prop
  | p, [] => p = some FreeList
  | p, a :: l => p = some a ∧ a ≠ FreeList ∧ ListFrom mem FreeList (mem a).next l

/-- The free list holds the blocks `l`: they are the blocks between `FreeList.next` and
the list head. -/
def FreeListIs (mem : Memory) (FreeList : Nat) (l : List Nat) : Prop :=
  ListFrom mem FreeList (mem FreeList).next l

end Malloc

namespace SimpleFS

/-! ## Basic facts about blocks and the device -/

theorem getD_set_eq {α : Type} (l : List α) (i j : Nat) (a d : α) :
    (l.set i a).getD j d = if i = j ∧ i < l.length then a else l.getD j d := by
  simp only [List.getD_eq_getElem?_getD, List.getElem?_set]
  by_cases h : i = j
  · subst h
    by_cases h2 : i < l.length
    · simp [h2]
    · simp [h2, List.getElem?_eq_none (Nat.le_of_not_lt h2)]
  · simp [h]

theorem getD_replicate_self {α : Type} (n i : Nat) (d : α) :
    (List.replicate n d).getD i d = d := by
  simp only [List.getD_eq_getElem?_getD, List.getElem?_replicate]
  split <;> rfl

theorem set32_length (b : Block) (w v : Nat) : (set32 b w v).length = b.length := by
  simp [set32]

theorem get32_lt (b : Block) (w : Nat) : get32 b w < 2 ^ 32 := by
  unfold get32; omega

theorem getD_set32_of_ne (b : Block) (w v i : Nat) (h : i < 4 * w ∨ 4 * w + 4 ≤ i) :
    (set32 b w v).getD i 0 = b.getD i 0 := by
  simp only [set32, getD_set_eq]
  repeat' split
  all_goals first | rfl | omega

theorem get32_set32_same (b : Block) (w v : Nat) (h : 4 * w + 3 < b.length) :
    get32 (set32 b w v) w = v % 2 ^ 32 := by
  have h0 : 4 * w < b.length := by omega
  have h1 : 4 * w + 1 < b.length := by omega
  have h2 : 4 * w + 2 < b.length := by omega
  simp [get32, set32, getD_set_eq, h0, h1, h2, h]
  omega

theorem get32_set32_ne (b : Block) (w w' v : Nat) (h : w ≠ w') :
    get32 (set32 b w v) w' = get32 b w' := by
  unfold get32
  rw [getD_set32_of_ne b w v (4 * w') (by omega), getD_set32_of_ne b w v (4 * w' + 1) (by omega),
    getD_set32_of_ne b w v (4 * w' + 2) (by omega), getD_set32_of_ne b w v (4 * w' + 3) (by omega)]

theorem get32_zeroBlock (cfg : Config) (w : Nat) : get32 (zeroBlock cfg) w = 0 := by
  simp [get32, zeroBlock, getD_replicate_self]

theorem zeroBlock_length (cfg : Config) : (zeroBlock cfg).length = cfg.BLOCK_SIZE := by
  simp [zeroBlock]

theorem list_ext_getD {α : Type} (l l' : List α) (d : α) (hlen : l.length = l'.length)
    (h : ∀ i, i < l.length → l.getD i d = l'.getD i d) : l = l' := by
  apply List.ext_getElem hlen
  intro i h1 h2
  have := h i h1
  simpa [List.getD_eq_getElem?_getD, List.getElem?_eq_getElem, h1, h2] using this

theorem block_size_ne_failure (cfg : Config) : ¬ ((cfg.BLOCK_SIZE : Int) = DISK_FAILURE) := by
  unfold DISK_FAILURE; omega

theorem disk_read_none (cfg : Config) (i : Nat) (buf : Block) :
    disk_read cfg none i buf = (DISK_FAILURE, none, buf) := by
  simp [disk_read, disk_sanity_check]

theorem disk_read_fail (cfg : Config) (d : Disk) (i : Nat) (buf : Block) (h : d.blocks ≤ i) :
    disk_read cfg (some d) i buf = (DISK_FAILURE, some d, buf) := by
  simp [disk_read, disk_sanity_check, h]

theorem disk_read_ok (cfg : Config) (d : Disk) (i : Nat) (buf : Block)
    (hlen : d.data.length = d.blocks) (h : i < d.blocks) :
    disk_read cfg (some d) i buf
      = ((cfg.BLOCK_SIZE : Int), some { d with reads := d.reads + 1 }, d.data.getD i []) := by
  have h2 : i < d.data.length := by omega
  simp [disk_read, disk_sanity_check, h, List.getD_eq_getElem?_getD, List.getElem?_eq_getElem, h2]

theorem disk_write_none (cfg : Config) (i : Nat) (buf : Block) :
    disk_write cfg none i buf = (DISK_FAILURE, none) := by
  simp [disk_write, disk_sanity_check]

theorem disk_write_fail (cfg : Config) (d : Disk) (i : Nat) (buf : Block) (h : d.blocks ≤ i) :
    disk_write cfg (some d) i buf = (DISK_FAILURE, some d) := by
  simp [disk_write, disk_sanity_check, h]

theorem disk_write_ok (cfg : Config) (d : Disk) (i : Nat) (buf : Block)
    (hlen : d.data.length = d.blocks) (h : i < d.blocks) :
    disk_write cfg (some d) i buf
      = ((cfg.BLOCK_SIZE : Int),
          some { d with writes := d.writes + 1, data := d.data.set i buf }) := by
  have h2 : i < d.data.length := by omega
  simp [disk_write, disk_sanity_check, h, writeAt, h2]

/-- The clearing loop of `fs_format` succeeds on an in-range window and zeroes exactly
that window. -/
theorem format_clear_ok (cfg : Config) (n : Nat) : ∀ (i : Nat) (d : Disk),
    d.data.length = d.blocks → i + n ≤ d.blocks →
    ∃ d', format_clear cfg n i (some d) = (true, some d') ∧ d'.blocks = d.blocks ∧
      d'.reads = d.reads ∧ d'.writes = d.writes + n ∧ d'.data.length = d.data.length ∧
      ∀ j, d'.data.getD j [] = if i ≤ j ∧ j < i + n then zeroBlock cfg else d.data.getD j [] := by
  induction n with
  | zero =>
    intro i d _ _
    refine ⟨d, rfl, rfl, rfl, rfl, rfl, ?_⟩
    intro j
    have : ¬ (i ≤ j ∧ j < i + 0) := by omega
    rw [if_neg this]
  | succ n ih =>
    intro i d hlen hin
    have hi : i < d.blocks := by omega
    obtain ⟨d', h1, h2, h3, h4, h5, h6⟩ := ih (i + 1)
      { d with writes := d.writes + 1, data := d.data.set i (zeroBlock cfg) }
      (by simpa using hlen) (by simpa using (by omega : i + 1 + n ≤ d.blocks))
    refine ⟨d', ?_, h2, h3, ?_, ?_, ?_⟩
    · simp only [format_clear, disk_write_ok cfg d i _ hlen hi, block_size_ne_failure, if_false]
      exact h1
    · simp at h4; omega
    · simpa using h5
    · intro j
      rw [h6 j]
      simp only [getD_set_eq]
      have hi2 : i < d.data.length := by omega
      by_cases hj : i = j
      · subst hj
        have : ¬ (i + 1 ≤ i ∧ i < i + 1 + n) := by omega
        simp [this, hi2]
      · by_cases hj2 : i + 1 ≤ j ∧ j < i + 1 + n
        · have : i ≤ j ∧ j < i + (n + 1) := by omega
          simp [hj2, this]
        · have : ¬ (i ≤ j ∧ j < i + (n + 1)) := by omega
          simp [hj2, this, hj]

theorem format_ceil_eq (blocks : Nat) : format_ceil blocks = ((blocks + 9) / 10) % 2 ^ 32 := by
  unfold format_ceil
  split
  · congr 1; omega
  · congr 1; omega

theorem superOf_length (cfg : Config) (s : SuperBlock) :
    (superOf cfg s).length = cfg.BLOCK_SIZE := by
  simp [superOf, set32_length, zeroBlock_length]

theorem superOf_fields (cfg : Config) (h16 : 16 ≤ cfg.BLOCK_SIZE) (s : SuperBlock) :
    (superOf cfg s).super =
      { magic_number := s.magic_number % 2 ^ 32, blocks := s.blocks % 2 ^ 32,
        inode_blocks := s.inode_blocks % 2 ^ 32, inodes := s.inodes % 2 ^ 32 } := by
  simp only [Block.super, superOf]
  rw [get32_set32_same _ 3 _ (by simp [set32_length, zeroBlock_length]; omega)]
  rw [get32_set32_ne _ 3 2 _ (by omega), get32_set32_same _ 2 _ (by simp [set32_length, zeroBlock_length]; omega)]
  rw [get32_set32_ne _ 3 1 _ (by omega), get32_set32_ne _ 2 1 _ (by omega),
    get32_set32_same _ 1 _ (by simp [set32_length, zeroBlock_length]; omega)]
  rw [get32_set32_ne _ 3 0 _ (by omega), get32_set32_ne _ 2 0 _ (by omega),
    get32_set32_ne _ 1 0 _ (by omega),
    get32_set32_same _ 0 _ (by simp [set32_length, zeroBlock_length]; omega)]

theorem superOf_rest (cfg : Config) (s : SuperBlock) (i : Nat) (h : 16 ≤ i) :
    (superOf cfg s).getD i 0 = 0 := by
  simp only [superOf]
  rw [getD_set32_of_ne _ _ _ _ (by omega), getD_set32_of_ne _ _ _ _ (by omega),
    getD_set32_of_ne _ _ _ _ (by omega), getD_set32_of_ne _ _ _ _ (by omega)]
  simp [zeroBlock, getD_replicate_self]

theorem format_super_length (cfg : Config) (n : Nat) :
    (format_super cfg n).length = cfg.BLOCK_SIZE :=
  superOf_length cfg _

theorem format_super_fields (cfg : Config) (hcfg : cfg.WF) (n : Nat) :
    (format_super cfg n).super =
      { magic_number := cfg.MAGIC_NUMBER, blocks := n % 2 ^ 32, inode_blocks := format_ceil n,
        inodes := (format_ceil n * cfg.INODES_PER_BLOCK) % 2 ^ 32 } := by
  obtain ⟨h16, _, _, _, hm, _⟩ := hcfg
  have hc : format_ceil n % 2 ^ 32 = format_ceil n := by
    rw [format_ceil_eq]; exact Nat.mod_mod _ _
  rw [format_super, superOf_fields cfg h16]
  simp only [hc, Nat.mod_eq_of_lt hm]

theorem format_super_rest (cfg : Config) (n i : Nat) (h : 16 ≤ i) :
    (format_super cfg n).getD i 0 = 0 :=
  superOf_rest cfg _ i h

/-- On an unmounted session and a device of at least one block, `fs_format` succeeds and
leaves the super block followed by zero blocks. -/
theorem fs_format_ok (cfg : Config) (fs : FileSystem) (d : Disk) (hfs : fs.disk = none)
    (hlen : d.data.length = d.blocks) (hpos : 0 < d.blocks) :
    fs_format cfg (some fs) (some d) = (true, some
      { blocks := d.blocks, reads := d.reads, writes := d.writes + d.blocks,
        data := format_super cfg d.blocks :: List.replicate (d.blocks - 1) (zeroBlock cfg) }) := by
  obtain ⟨d', h1, h2, h3, h4, h5, h6⟩ := format_clear_ok cfg (d.blocks - 1) 1
    { d with writes := d.writes + 1, data := d.data.set 0 (format_super cfg d.blocks) }
    (by simpa using hlen) (by simp; omega)
  simp only [fs_format, hfs, Option.isSome_none, Bool.false_eq_true, if_false,
    disk_write_ok cfg d 0 _ hlen hpos, block_size_ne_failure]
  rw [h1]
  congr 2
  obtain ⟨b, r, w, dat⟩ := d'
  simp only at h2 h3 h4 h5 h6
  simp only [List.length_set] at h5
  have hw : w = d.writes + d.blocks := by omega
  subst h2 h3 hw
  congr 1
  apply list_ext_getD _ _ [] (by simp; omega)
  intro j hj
  rw [h6 j, getD_set_eq]
  cases j with
  | zero =>
    have h0 : 0 < d.data.length := by omega
    have : ¬ (1 ≤ 0 ∧ 0 < 1 + (d.blocks - 1)) := by omega
    rw [if_neg this, if_pos ⟨rfl, h0⟩]
    rfl
  | succ j =>
    have : 1 ≤ j + 1 ∧ j + 1 < 1 + (d.blocks - 1) := by
      omega
    have hj2 : j < d.blocks - 1 := by omega
    rw [if_pos this]
    simp [List.getD_eq_getElem?_getD, List.getElem?_replicate, hj2]

/-- Anything but an unmounted session and a device of at least one block makes
`fs_format` fail. -/
theorem fs_format_true (cfg : Config) (fs : Option FileSystem) (d : Disk) (r : Option Disk)
    (h : fs_format cfg fs (some d) = (true, r)) :
    (∃ s, fs = some s ∧ s.disk = none) ∧ 0 < d.blocks := by
  cases fs with
  | none => simp [fs_format] at h
  | some s =>
    cases hs : s.disk with
    | some x => simp [fs_format, hs] at h
    | none =>
      refine ⟨⟨s, rfl, hs⟩, ?_⟩
      by_contra hz
      have hz : d.blocks ≤ 0 := by omega
      simp [fs_format, hs, disk_write_fail cfg d 0 _ hz] at h

/-! ## The bitmap scan of `fs_mount` -/

theorem mark_used_length (fb : List Bool) (p : Nat) : (mark_used fb p).length = fb.length := by
  unfold mark_used; split <;> simp

theorem mark_used_getD (fb : List Bool) (p b : Nat) :
    (mark_used fb p).getD b true
      = if p ≠ 0 ∧ p = b ∧ p < fb.length then false else fb.getD b true := by
  unfold mark_used
  by_cases hp : p ≠ 0
  · rw [if_pos hp, getD_set_eq]
    by_cases h : p = b ∧ p < fb.length
    · rw [if_pos h, if_pos ⟨hp, h⟩]
    · rw [if_neg h, if_neg (fun x => h x.2)]
  · rw [if_neg hp, if_neg (fun x => hp x.1)]

theorem foldl_mark_length (f : Nat → Nat) (L : List Nat) : ∀ fb : List Bool,
    (L.foldl (fun fb k => mark_used fb (f k)) fb).length = fb.length := by
  induction L with
  | nil => intro fb; rfl
  | cons a L ih => intro fb; simp only [List.foldl_cons]; rw [ih, mark_used_length]

theorem foldl_mark_getD (f : Nat → Nat) (L : List Nat) : ∀ (fb : List Bool) (b : Nat),
    b < fb.length →
    ((L.foldl (fun fb k => mark_used fb (f k)) fb).getD b true = false
      ↔ fb.getD b true = false ∨ (b ≠ 0 ∧ ∃ k ∈ L, f k = b)) := by
  induction L with
  | nil => intro fb b _; simp
  | cons a L ih =>
    intro fb b hb
    simp only [List.foldl_cons]
    rw [ih (mark_used fb (f a)) b (by rw [mark_used_length]; exact hb), mark_used_getD]
    by_cases h : f a ≠ 0 ∧ f a = b ∧ f a < fb.length
    · rw [if_pos h]
      have hb0 : b ≠ 0 := by rw [← h.2.1]; exact h.1
      simp only [true_or, true_iff]
      exact Or.inr ⟨hb0, a, List.mem_cons_self _ _, h.2.1⟩
    · rw [if_neg h]
      constructor
      · rintro (h1 | ⟨h1, k, hk, hk2⟩)
        · exact Or.inl h1
        · exact Or.inr ⟨h1, k, List.mem_cons_of_mem _ hk, hk2⟩
      · rintro (h1 | ⟨h1, k, hk, hk2⟩)
        · exact Or.inl h1
        · rcases List.mem_cons.mp hk with rfl | hk'
          · exfalso; apply h; exact ⟨by rw [hk2]; exact h1, hk2, by rw [hk2]; exact hb⟩
          · exact Or.inr ⟨h1, k, hk', hk2⟩

theorem mount_direct_length (cfg : Config) (B : Block) (j : Nat) (fb : List Bool) :
    (mount_direct cfg B j fb).length = fb.length :=
  foldl_mark_length _ _ fb

theorem mount_direct_getD (cfg : Config) (B : Block) (j : Nat) (fb : List Bool) (b : Nat)
    (hb : b < fb.length) :
    ((mount_direct cfg B j fb).getD b true = false
      ↔ fb.getD b true = false
        ∨ (b ≠ 0 ∧ ∃ k, k < cfg.POINTERS_PER_INODE ∧ inode_direct cfg B j k = b)) := by
  unfold mount_direct
  rw [foldl_mark_getD (fun k => inode_direct cfg B j k) _ fb b hb]
  simp [List.mem_range]

theorem mount_pointers_length (cfg : Config) (P : Block) (fb : List Bool) :
    (mount_pointers cfg P fb).length = fb.length :=
  foldl_mark_length _ _ fb

theorem mount_pointers_getD (cfg : Config) (P : Block) (fb : List Bool) (b : Nat)
    (hb : b < fb.length) :
    ((mount_pointers cfg P fb).getD b true = false
      ↔ fb.getD b true = false
        ∨ (b ≠ 0 ∧ ∃ p, p < cfg.POINTERS_PER_BLOCK ∧ pointer P p = b)) := by
  unfold mount_pointers
  rw [foldl_mark_getD (fun p => pointer P p) _ fb b hb]
  simp [List.mem_range]

theorem disk_read_eq (cfg : Config) (d : Disk) (i : Nat) (buf : Block)
    (hlen : d.data.length = d.blocks) :
    disk_read cfg (some d) i buf
      = if i < d.blocks then
          ((cfg.BLOCK_SIZE : Int), some { d with reads := d.reads + 1 }, d.data.getD i [])
        else (DISK_FAILURE, some d, buf) := by
  split
  · next h => exact disk_read_ok cfg d i buf hlen h
  · next h => exact disk_read_fail cfg d i buf (by omega)

/-- The scan of the slots of one inode-table block keeps the device contents and, when
it succeeds, marks exactly the blocks referenced by the valid slots it visited. -/
theorem mount_inodes_spec (cfg : Config) (B : Block) (n : Nat) :
    ∀ (j : Nat) (d : Disk) (fb : List Bool) (ok : Bool) (r : Option Disk) (fb' : List Bool),
    d.data.length = d.blocks →
    mount_inodes cfg B n j (some d) fb = (ok, r, fb') →
    ∃ d', r = some d' ∧ d'.blocks = d.blocks ∧ d'.data = d.data ∧ fb'.length = fb.length ∧
      (ok = true → ∀ b, b < fb.length →
        (fb'.getD b true = false
          ↔ fb.getD b true = false ∨ ∃ j', j ≤ j' ∧ j' < j + n ∧ InodeUses cfg d B j' b)) := by
  induction n with
  | zero =>
    intro j d fb ok r fb' _ h
    simp only [mount_inodes, Prod.mk.injEq] at h
    obtain ⟨_, h2, h3⟩ := h
    subst h2 h3
    refine ⟨d, rfl, rfl, rfl, rfl, ?_⟩
    intro _ b _
    constructor
    · intro h; exact Or.inl h
    · rintro (h | ⟨j', h1, h2, _⟩)
      · exact h
      · omega
  | succ n ih =>
    intro j d fb ok r fb' hlen h
    rw [mount_inodes] at h
    by_cases hv : inode_valid cfg B j ≠ 0
    · rw [if_pos hv] at h
      by_cases hi : inode_indirect cfg B j ≠ 0
      · simp only [if_pos hi] at h
        rw [disk_read_eq cfg d _ _ hlen] at h
        by_cases hr : inode_indirect cfg B j < d.blocks
        · simp only [if_pos hr, block_size_ne_failure, if_false] at h
          obtain ⟨d', e1, e2, e3, e4, e5⟩ := ih (j + 1) _ _ ok r fb' (by simpa using hlen) h
          refine ⟨d', e1, e2, e3, ?_, ?_⟩
          · rw [e4, mount_pointers_length, List.length_set, mount_direct_length]
          · intro hok b hb
            have hb1 : b < (mount_direct cfg B j fb).length := by
              rw [mount_direct_length]; exact hb
            have hb2 : b < ((mount_direct cfg B j fb).set (inode_indirect cfg B j) false).length := by
              rw [List.length_set]; exact hb1
            rw [e5 hok b (by rw [mount_pointers_length]; exact hb2),
              mount_pointers_getD cfg _ _ b hb2, getD_set_eq]
            have hmd := mount_direct_getD cfg B j fb b hb
            constructor
            · rintro ((h1 | ⟨h1, p, hp, hp2⟩) | ⟨j', hj1, hj2, hu⟩)
              · by_cases hc : inode_indirect cfg B j = b
                    ∧ inode_indirect cfg B j < (mount_direct cfg B j fb).length
                · right
                  exact ⟨j, le_refl _, by omega, hv, by rw [← hc.1]; exact hi, Or.inr (Or.inl hc.1)⟩
                · rw [if_neg hc] at h1
                  rcases hmd.mp h1 with h2 | ⟨h2, k, hk, hk2⟩
                  · exact Or.inl h2
                  · right
                    exact ⟨j, le_refl _, by omega, hv, h2, Or.inl ⟨k, hk, hk2⟩⟩
              · right
                exact ⟨j, le_refl _, by omega, hv, h1, Or.inr (Or.inr ⟨hi, p, hp, hp2⟩)⟩
              · right
                exact ⟨j', by omega, by omega, hu⟩
            · rintro (h1 | ⟨j', hj1, hj2, hu⟩)
              · left; left
                split
                · rfl
                · exact hmd.mpr (Or.inl h1)
              · by_cases hjj : j' = j
                · subst hjj
                  obtain ⟨_, hb0, hk | hk | ⟨_, p, hp, hp2⟩⟩ := hu
                  · left; left
                    split
                    · rfl
                    · exact hmd.mpr (Or.inr ⟨hb0, hk⟩)
                  · left; left
                    rw [if_pos ⟨hk, by rw [hk]; exact hb1⟩]
                  · left; right
                    exact ⟨hb0, p, hp, hp2⟩
                · right
                  exact ⟨j', by omega, by omega, hu⟩
        · simp only [if_neg hr, if_true, Prod.mk.injEq] at h
          obtain ⟨h1, h2, h3⟩ := h
          subst h1 h2 h3
          refine ⟨d, rfl, rfl, rfl, mount_direct_length _ _ _ _, ?_⟩
          intro hok
          exact absurd hok (by simp)
      · simp only [if_neg hi] at h
        obtain ⟨d', e1, e2, e3, e4, e5⟩ := ih (j + 1) _ _ ok r fb' hlen h
        refine ⟨d', e1, e2, e3, ?_, ?_⟩
        · rw [e4, mount_direct_length]
        · intro hok b hb
          rw [e5 hok b (by rw [mount_direct_length]; exact hb), mount_direct_getD cfg B j fb b hb]
          have hi0 : inode_indirect cfg B j = 0 := by omega
          constructor
          · rintro ((h1 | ⟨h1, k, hk, hk2⟩) | ⟨j', hj1, hj2, hu⟩)
            · exact Or.inl h1
            · right
              exact ⟨j, le_refl _, by omega, hv, h1, Or.inl ⟨k, hk, hk2⟩⟩
            · right
              exact ⟨j', by omega, by omega, hu⟩
          · rintro (h1 | ⟨j', hj1, hj2, hu⟩)
            · exact Or.inl (Or.inl h1)
            · by_cases hjj : j' = j
              · subst hjj
                obtain ⟨_, hb0, hk | hk | ⟨hk, _⟩⟩ := hu
                · exact Or.inl (Or.inr ⟨hb0, hk⟩)
                · omega
                · omega
              · right
                exact ⟨j', by omega, by omega, hu⟩
    · rw [if_neg hv] at h
      obtain ⟨d', e1, e2, e3, e4, e5⟩ := ih (j + 1) _ _ ok r fb' hlen h
      refine ⟨d', e1, e2, e3, e4, ?_⟩
      intro hok b hb
      rw [e5 hok b hb]
      constructor
      · rintro (h1 | ⟨j', hj1, hj2, hu⟩)
        · exact Or.inl h1
        · right
          exact ⟨j', by omega, by omega, hu⟩
      · rintro (h1 | ⟨j', hj1, hj2, hu⟩)
        · exact Or.inl h1
        · by_cases hjj : j' = j
          · subst hjj
            exact absurd hu.1 hv
          · right
            exact ⟨j', by omega, by omega, hu⟩

/-- The scan of the inode table keeps the device contents and, when it succeeds, has
read only in-range blocks and marks exactly the table blocks it visited and the blocks
referenced by their valid inodes. -/
theorem mount_scan_spec (cfg : Config) (n : Nat) :
    ∀ (i : Nat) (d : Disk) (fb : List Bool) (ok : Bool) (r : Option Disk) (fb' : List Bool),
    d.data.length = d.blocks →
    mount_scan cfg n i (some d) fb = (ok, r, fb') →
    ∃ d', r = some d' ∧ d'.blocks = d.blocks ∧ d'.data = d.data ∧ fb'.length = fb.length ∧
      (ok = true → i + n ≤ d.blocks ∨ n = 0) ∧
      (ok = true → ∀ b, b < fb.length →
        (fb'.getD b true = false
          ↔ fb.getD b true = false ∨ (i ≤ b ∧ b < i + n) ∨
            ∃ i' j, i ≤ i' ∧ i' < i + n ∧ j < cfg.INODES_PER_BLOCK ∧
              InodeUses cfg d (d.data.getD i' []) j b)) := by
  induction n with
  | zero =>
    intro i d fb ok r fb' _ h
    simp only [mount_scan, Prod.mk.injEq] at h
    obtain ⟨_, h2, h3⟩ := h
    subst h2 h3
    refine ⟨d, rfl, rfl, rfl, rfl, fun _ => Or.inr rfl, ?_⟩
    intro _ b _
    constructor
    · intro h; exact Or.inl h
    · rintro (h | ⟨_, _⟩ | ⟨i', j, h1, h2, _⟩)
      · exact h
      · omega
      · omega
  | succ n ih =>
    intro i d fb ok r fb' hlen h
    rw [mount_scan, disk_read_eq cfg d _ _ hlen] at h
    by_cases hr : i < d.blocks
    · simp only [if_pos hr, block_size_ne_failure, if_false] at h
      rcases hm : mount_inodes cfg (d.data.getD i []) cfg.INODES_PER_BLOCK 0
        (some { d with reads := d.reads + 1 }) (fb.set i false) with ⟨ok1, r1, fb1⟩
      rw [hm] at h
      obtain ⟨d1, m1, m2, m3, m4, m5⟩ := mount_inodes_spec cfg _ _ _ _ _ _ _ _
        (by simpa using hlen) hm
      subst m1
      simp only at m2 m3
      rw [List.length_set] at m4
      cases ok1 with
      | false =>
        simp only [Bool.false_eq_true, if_false, Prod.mk.injEq] at h
        obtain ⟨h1, h2, h3⟩ := h
        subst h1 h2 h3
        exact ⟨d1, rfl, m2, m3, m4, fun hok => absurd hok (by simp),
          fun hok => absurd hok (by simp)⟩
      | true =>
        simp only [if_true] at h
        obtain ⟨d', e1, e2, e3, e4, e5, e6⟩ := ih (i + 1) d1 fb1 ok r fb'
          (by rw [m3, m2]; exact hlen) h
        refine ⟨d', e1, by rw [e2, m2], by rw [e3, m3], by rw [e4, m4], ?_, ?_⟩
        · intro hok
          left
          rcases e5 hok with h1 | h1
          · rw [m2] at h1; omega
          · omega
        · intro hok b hb
          rw [e6 hok b (by rw [m4]; exact hb), m5 rfl b (by rw [List.length_set]; exact hb),
            getD_set_eq, m3]
          have hu : ∀ i' j, InodeUses cfg d1 (d.data.getD i' []) j b
              ↔ InodeUses cfg d (d.data.getD i' []) j b := by
            intro i' j
            unfold InodeUses
            rw [m3]
          have hu2 : ∀ j, InodeUses cfg { d with reads := d.reads + 1 } (d.data.getD i []) j b
              ↔ InodeUses cfg d (d.data.getD i []) j b := by
            intro j
            unfold InodeUses
            rfl
          constructor
          · rintro ((h1 | ⟨j, _, hj, hj2⟩) | ⟨_, _⟩ | ⟨i', j, h1, h2, h3, h4⟩)
            · by_cases hc : i = b ∧ i < fb.length
              · right; left; omega
              · rw [if_neg hc] at h1
                exact Or.inl h1
            · right; right
              exact ⟨i, j, le_refl _, by omega, by omega, (hu2 j).mp hj2⟩
            · right; left; omega
            · right; right
              exact ⟨i', j, by omega, by omega, h3, (hu i' j).mp h4⟩
          · rintro (h1 | ⟨_, _⟩ | ⟨i', j, h1, h2, h3, h4⟩)
            · left; left
              split
              · rfl
              · exact h1
            · by_cases hc : i = b
              · left; left
                rw [if_pos ⟨hc, by omega⟩]
              · right; left; omega
            · by_cases hc : i' = i
              · subst hc
                left; right
                exact ⟨j, Nat.zero_le _, by omega, (hu2 j).mpr h4⟩
              · right; right
                exact ⟨i', j, by omega, by omega, h3, (hu i' j).mpr h4⟩
    · simp only [if_neg hr, if_true, Prod.mk.injEq] at h
      obtain ⟨h1, h2, h3⟩ := h
      subst h1 h2 h3
      exact ⟨d, rfl, rfl, rfl, rfl, fun hok => absurd hok (by simp),
        fun hok => absurd hok (by simp)⟩

/-- What a successful `fs_mount` has checked and built. -/
theorem fs_mount_true (cfg : Config) (fs : FileSystem) (d : Disk)
    (hlen : d.data.length = d.blocks) (h : (fs_mount cfg fs (some d)).1 = true) :
    0 < d.blocks ∧ fs.disk = none ∧
    (d.data.getD 0 []).super.magic_number = cfg.MAGIC_NUMBER ∧
    (d.data.getD 0 []).super.blocks = d.blocks ∧
    d.blocks / 10 ≤ (d.data.getD 0 []).super.inode_blocks ∧
    (d.data.getD 0 []).super.inodes
      = ((d.data.getD 0 []).super.inode_blocks * cfg.INODES_PER_BLOCK) % 2 ^ 32 ∧
    (d.data.getD 0 []).super.inode_blocks + 1 ≤ d.blocks ∧
    ∃ d' fb, (fs_mount cfg fs (some d)).2.2 = some d' ∧ d'.blocks = d.blocks ∧
      d'.data = d.data ∧
      (fs_mount cfg fs (some d)).2.1
        = { disk := some d', free_blocks := some fb, meta_data := (d.data.getD 0 []).super } ∧
      fb.length = d.blocks ∧
      ∀ b, b < d.blocks →
        (fb.getD b true = false ↔ InUse cfg d (d.data.getD 0 []).super.inode_blocks b) := by
  unfold fs_mount at h ⊢
  rw [disk_read_eq cfg d _ _ hlen] at h ⊢
  by_cases hpos : 0 < d.blocks
  swap
  · simp [hpos, DISK_FAILURE] at h
  simp only [if_pos hpos, block_size_ne_failure, if_false] at h ⊢
  by_cases h1 : (d.data.getD 0 []).super.magic_number ≠ cfg.MAGIC_NUMBER
  · rw [if_pos h1] at h; exact absurd h (by simp)
  rw [if_neg h1] at h ⊢
  by_cases h2 : (d.data.getD 0 []).super.blocks ≠ d.blocks
  · rw [if_pos h2] at h; exact absurd h (by simp)
  rw [if_neg h2] at h ⊢
  by_cases h3 : (d.data.getD 0 []).super.inode_blocks < d.blocks / 10
  · rw [if_pos h3] at h; exact absurd h (by simp)
  rw [if_neg h3] at h ⊢
  by_cases h4 : (d.data.getD 0 []).super.inodes
      ≠ ((d.data.getD 0 []).super.inode_blocks * cfg.INODES_PER_BLOCK) % 2 ^ 32
  · rw [if_pos h4] at h; exact absurd h (by simp)
  rw [if_neg h4] at h ⊢
  cases h5 : fs.disk with
  | some x => rw [h5] at h; exact absurd h (by simp)
  | none =>
    simp only [h5, Option.isSome_none, Bool.false_eq_true, if_false] at h ⊢
    rcases hm : mount_scan cfg (d.data.getD 0 []).super.inode_blocks 1
      (some { d with reads := d.reads + 1 }) ((List.replicate d.blocks true).set 0 false)
      with ⟨ok, r, fb⟩
    rw [hm] at h
    simp only at h ⊢
    subst h
    obtain ⟨d', e1, e2, e3, e4, e5, e6⟩ := mount_scan_spec cfg _ _ _ _ _ _ _
      (by simpa using hlen) hm
    simp only [List.length_set, List.length_replicate] at e4
    have e6 := e6 rfl
    simp only [List.length_set, List.length_replicate] at e6
    simp only at e2 e3
    have hib : (d.data.getD 0 []).super.inode_blocks + 1 ≤ d.blocks := by
      rcases e5 rfl with h | h
      · simp only at h; omega
      · omega
    refine ⟨hpos, trivial, by omega, by omega, by omega, by omega, hib, d', fb, e1, e2, e3,
      by rw [e1], e4, ?_⟩
    intro b hb
    rw [e6 b hb, getD_set_eq]
    unfold InUse
    have hrep : (List.replicate d.blocks true).getD b true = true := getD_replicate_self _ _ _
    constructor
    · rintro (h | ⟨h, h'⟩ | ⟨i, j, hi1, hi2, hj, hu⟩)
      · by_cases hc : 0 = b ∧ 0 < (List.replicate d.blocks true).length
        · exact Or.inl hc.1.symm
        · rw [if_neg hc, hrep] at h
          exact absurd h (by simp)
      · exact Or.inr (Or.inl ⟨h, by omega⟩)
      · exact Or.inr (Or.inr ⟨i, j, hi1, by omega, hj, hu⟩)
    · rintro (h | ⟨h, h'⟩ | ⟨i, j, hi1, hi2, hj, hu⟩)
      · left
        rw [if_pos ⟨h.symm, by simpa using hpos⟩]
      · exact Or.inr (Or.inl ⟨h, by omega⟩)
      · exact Or.inr (Or.inr ⟨i, j, hi1, by omega, hj, hu⟩)

theorem mount_inodes_invalid (cfg : Config) (B : Block) (hB : ∀ j, inode_valid cfg B j = 0)
    (n : Nat) : ∀ (j : Nat) (disk : Option Disk) (fb : List Bool),
    mount_inodes cfg B n j disk fb = (true, disk, fb) := by
  induction n with
  | zero => intro j disk fb; rfl
  | succ n ih =>
    intro j disk fb
    rw [mount_inodes, if_neg (by simp [hB j])]
    exact ih _ _ _

theorem mount_scan_invalid (cfg : Config) (n : Nat) : ∀ (i : Nat) (d : Disk) (fb : List Bool),
    d.data.length = d.blocks → i + n ≤ d.blocks →
    (∀ k, i ≤ k → k < i + n → ∀ j, inode_valid cfg (d.data.getD k []) j = 0) →
    (mount_scan cfg n i (some d) fb).1 = true := by
  induction n with
  | zero => intro i d fb _ _ _; rfl
  | succ n ih =>
    intro i d fb hlen hin hz
    rw [mount_scan, disk_read_eq cfg d _ _ hlen, if_pos (by omega)]
    simp only [block_size_ne_failure, if_false]
    rw [mount_inodes_invalid cfg _ (hz i (le_refl _) (by omega))]
    simp only [if_true]
    exact ih (i + 1) _ _ (by simpa using hlen) (by simp only; omega)
      (fun k hk1 hk2 j => hz k (by omega) (by omega) j)

/-! ## Mounting a volume without valid inodes -/

/-- A volume whose super block passes the checks of `fs_mount`, whose inode table fits
the device and holds no valid inode, mounts on an unmounted session. -/
theorem fs_mount_blank_ok (cfg : Config) (fs : FileSystem) (hfs : fs.disk = none) (d : Disk)
    (hlen : d.data.length = d.blocks)
    (hz : ∀ k, 1 ≤ k → k < d.blocks → d.data.getD k [] = zeroBlock cfg)
    (hm : (d.data.getD 0 []).super.magic_number = cfg.MAGIC_NUMBER)
    (hb : (d.data.getD 0 []).super.blocks = d.blocks)
    (hi : d.blocks / 10 ≤ (d.data.getD 0 []).super.inode_blocks)
    (hn : (d.data.getD 0 []).super.inodes
      = ((d.data.getD 0 []).super.inode_blocks * cfg.INODES_PER_BLOCK) % 2 ^ 32)
    (hfit : (d.data.getD 0 []).super.inode_blocks + 1 ≤ d.blocks) :
    (fs_mount cfg fs (some d)).1 = true := by
  have hpos : 0 < d.blocks := by omega
  unfold fs_mount
  rw [disk_read_eq cfg d _ _ hlen]
  simp only [if_pos hpos, block_size_ne_failure, if_false]
  rw [if_neg (not_not.mpr hm), if_neg (not_not.mpr hb), if_neg (by omega), if_neg (not_not.mpr hn)]
  simp only [hfs, Option.isSome_none, Bool.false_eq_true, if_false]
  apply mount_scan_invalid cfg _ 1 _ _ (by simpa using hlen) (by simp only; omega)
  intro k hk1 hk2 j
  have : d.data.getD k [] = zeroBlock cfg := hz k hk1 (by omega)
  simp only [this, inode_valid, get32_zeroBlock]

theorem volume_getD_zero (cfg : Config) (s : SuperBlock) (n : Nat) :
    (volume cfg s n).data.getD 0 [] = superOf cfg s := rfl

theorem volume_getD_succ (cfg : Config) (s : SuperBlock) (n k : Nat) (h1 : 1 ≤ k) (h2 : k < n) :
    (volume cfg s n).data.getD k [] = zeroBlock cfg := by
  cases k with
  | zero => omega
  | succ k =>
    have : k < n - 1 := by omega
    simp [volume, List.getD_eq_getElem?_getD, List.getElem?_replicate, this]

theorem volume_length (cfg : Config) (s : SuperBlock) (n : Nat) (h : 0 < n) :
    (volume cfg s n).data.length = (volume cfg s n).blocks := by
  simp [volume]; omega

/-! ## Format and mount: the claims -/

/-- C3: mount rebuilds the free-space bitmap exactly from the disk. For every device
(as opened, holding `blocks` blocks) whose stored pointers are all below `blocks` and on
which `fs_mount` returns true, the bitmap has one bit per block, and for every block `b`
the bit is false exactly when `b` is in use (block 0, an inode-table block
`1 .. inode_blocks`, or a nonzero direct pointer, indirect pointer or indirect-page entry
of a valid inode) and true exactly when it is not. -/
theorem fs_mount_bitmap_exact (cfg : Config) (fs : FileSystem) (d : Disk)
    (hlen : d.data.length = d.blocks)
    (_hrange : PointersInRange cfg d (d.data.getD 0 []).super.inode_blocks)
    (hmount : (fs_mount cfg fs (some d)).1 = true) :
    ∃ fb, (fs_mount cfg fs (some d)).2.1.free_blocks = some fb ∧ fb.length = d.blocks ∧
      ∀ b, b < d.blocks →
        (fb.getD b true = false ↔ InUse cfg d (d.data.getD 0 []).super.inode_blocks b) ∧
        (fb.getD b true = true ↔ ¬ InUse cfg d (d.data.getD 0 []).super.inode_blocks b) := by
  obtain ⟨_, _, _, _, _, _, _, d', fb, _, _, _, e4, e5, e6⟩ := fs_mount_true cfg fs d hlen hmount
  refine ⟨fb, by rw [e4], e5, ?_⟩
  intro b hb
  refine ⟨e6 b hb, ?_⟩
  rw [← e6 b hb]
  cases fb.getD b true <;> simp

/-- Witness of C3 on the sample volume, whose inode 0 uses a direct block, an indirect
page and two blocks listed in it. -/
theorem fs_mount_bitmap_exact_witness :
    sampleVolume.data.length = sampleVolume.blocks ∧
    PointersInRange smallConfig sampleVolume (sampleVolume.data.getD 0 []).super.inode_blocks ∧
    (fs_mount smallConfig freshSession (some sampleVolume)).1 = true ∧
    ∃ fb, (fs_mount smallConfig freshSession (some sampleVolume)).2.1.free_blocks = some fb ∧
      fb.length = sampleVolume.blocks ∧
      ∀ b, b < sampleVolume.blocks →
        (fb.getD b true = false
          ↔ InUse smallConfig sampleVolume (sampleVolume.data.getD 0 []).super.inode_blocks b) ∧
        (fb.getD b true = true
          ↔ ¬ InUse smallConfig sampleVolume (sampleVolume.data.getD 0 []).super.inode_blocks b) :=
  ⟨by decide, by decide, by decide,
    fs_mount_bitmap_exact smallConfig freshSession sampleVolume (by decide) (by decide)
      (by decide)⟩

/-- The device left by a successful `fs_format` mounts on every unmounted session as soon
as it has at least two blocks and its block count is a `uint32_t`. -/
theorem fs_mount_formatted_ok (cfg : Config) (hcfg : cfg.WF) (fs : FileSystem)
    (hfs : fs.disk = none) (n r w : Nat) (h2 : 2 ≤ n) (h32 : n < 2 ^ 32) :
    (fs_mount cfg fs (some ⟨n, r, w,
      format_super cfg n :: List.replicate (n - 1) (zeroBlock cfg)⟩)).1 = true := by
  have hsup := format_super_fields cfg hcfg n
  have hceil := format_ceil_eq n
  have hmod : (n + 9) / 10 % 2 ^ 32 = (n + 9) / 10 := Nat.mod_eq_of_lt (by omega)
  have h0 : ∀ (l : List Block), (format_super cfg n :: l).getD 0 [] = format_super cfg n :=
    fun _ => rfl
  refine fs_mount_blank_ok cfg fs hfs
    ⟨n, r, w, format_super cfg n :: List.replicate (n - 1) (zeroBlock cfg)⟩ ?_ ?_ ?_ ?_ ?_ ?_ ?_
  · simp only [List.length_cons, List.length_replicate]; omega
  · intro k hk1 hk2
    exact volume_getD_succ cfg _ n k hk1 hk2
  · simp only [h0, hsup]
  · simp only [h0, hsup]
    exact Nat.mod_eq_of_lt h32
  · simp only [h0, hsup, hceil, hmod]
    omega
  · simp only [h0, hsup]
  · simp only [h0, hsup, hceil, hmod]
    omega

/-- On an unmounted session, formatting and then mounting a device of at least two blocks
whose block count is a `uint32_t` both succeed. -/
theorem format_mount_succeed (cfg : Config) (hcfg : cfg.WF) (fs : FileSystem)
    (hfs : fs.disk = none) (d : Disk) (hlen : d.data.length = d.blocks)
    (h2 : 2 ≤ d.blocks) (h32 : d.blocks < 2 ^ 32) :
    (fs_format cfg (some fs) (some d)).1 = true ∧
    (fs_mount cfg fs (fs_format cfg (some fs) (some d)).2).1 = true := by
  rw [fs_format_ok cfg fs d hfs hlen (by omega)]
  exact ⟨rfl, fs_mount_formatted_ok cfg hcfg fs hfs _ _ _ h2 h32⟩

/-- C4 (as amended): format-then-mount succeeds for every device of at least two blocks
whose block count fits the 32-bit field of the super block: on an unmounted session
`fs_format` returns true and a following `fs_mount` of the same device returns true. -/
theorem fs_format_then_mount (cfg : Config) (hcfg : cfg.WF) (fs : FileSystem)
    (hfs : fs.disk = none) (d : Disk) (hlen : d.data.length = d.blocks)
    (h2 : 2 ≤ d.blocks) (h32 : d.blocks < 2 ^ 32) :
    (fs_format cfg (some fs) (some d)).1 = true ∧
    (fs_mount cfg fs (fs_format cfg (some fs) (some d)).2).1 = true :=
  format_mount_succeed cfg hcfg fs hfs d hlen h2 h32

/-- Witness of C4 (as amended): a blank device of 20 blocks with the usual constants. -/
theorem fs_format_then_mount_witness :
    stdConfig.WF ∧ freshSession.disk = none ∧
    (blankDisk stdConfig 20).data.length = (blankDisk stdConfig 20).blocks ∧
    2 ≤ (blankDisk stdConfig 20).blocks ∧ (blankDisk stdConfig 20).blocks < 2 ^ 32 ∧
    (fs_format stdConfig (some freshSession) (some (blankDisk stdConfig 20))).1 = true ∧
    (fs_mount stdConfig freshSession
      (fs_format stdConfig (some freshSession) (some (blankDisk stdConfig 20))).2).1 = true :=
  ⟨by decide, rfl, by decide, by decide, by decide,
    fs_format_then_mount stdConfig (by decide) freshSession rfl (blankDisk stdConfig 20)
      (by decide) (by decide) (by decide)⟩

/-- C4 (counterexample): on a device of exactly one block, with the usual constants,
`fs_format` returns true and the following `fs_mount` returns false: the super block
announces one inode-table block, and block 1 does not exist. -/
theorem fs_format_then_mount_one_block :
    (fs_format stdConfig (some freshSession) (some (blankDisk stdConfig 1))).1 = true ∧
    (fs_mount stdConfig freshSession
      (fs_format stdConfig (some freshSession) (some (blankDisk stdConfig 1))).2).1 = false := by
  decide

/-- On a volume whose inode-table blocks are zero, the blocks in use are the super block
and the inode table. -/
theorem inUse_blank (cfg : Config) (d : Disk) (ib b : Nat) (hib : ib + 1 ≤ d.blocks)
    (hz : ∀ k, 1 ≤ k → k < d.blocks → d.data.getD k [] = zeroBlock cfg) :
    InUse cfg d ib b ↔ b ≤ ib := by
  unfold InUse
  constructor
  · rintro (h | ⟨_, h⟩ | ⟨i, j, h1, h2, _, hu⟩)
    · omega
    · exact h
    · exfalso
      apply hu.1
      rw [hz i h1 (by omega)]
      simp only [inode_valid, get32_zeroBlock]
  · intro h
    by_cases h0 : b = 0
    · exact Or.inl h0
    · exact Or.inr (Or.inl ⟨by omega, h⟩)

theorem getD_append_replicate (m n b : Nat) :
    (List.replicate m false ++ List.replicate n true).getD b true = decide (m ≤ b) := by
  simp only [List.getD_eq_getElem?_getD, List.getElem?_append, List.length_replicate,
    List.getElem?_replicate]
  by_cases h : b < m
  · simp [h]
  · by_cases h2 : b - m < n
    · simp [h, h2]; omega
    · simp [h, h2]; omega

/-- C5: whenever `fs_format` followed by `fs_mount` on the same device both return true,
the bitmap right after mount has one bit per block, exactly `1 + inode_blocks` of them
false, namely those of indices `0 .. inode_blocks`, and every other bit is true. -/
theorem fs_format_mount_bitmap (cfg : Config) (fs1 : Option FileSystem) (fs2 : FileSystem)
    (d : Disk) (hlen : d.data.length = d.blocks)
    (hformat : (fs_format cfg fs1 (some d)).1 = true)
    (hmount : (fs_mount cfg fs2 (fs_format cfg fs1 (some d)).2).1 = true) :
    ∃ fb, (fs_mount cfg fs2 (fs_format cfg fs1 (some d)).2).2.1.free_blocks = some fb ∧
      fb.length = d.blocks ∧
      fb.count false
        = 1 + (fs_mount cfg fs2 (fs_format cfg fs1 (some d)).2).2.1.meta_data.inode_blocks ∧
      ∀ b, b < d.blocks →
        (fb.getD b true = false ↔
          b ≤ (fs_mount cfg fs2 (fs_format cfg fs1 (some d)).2).2.1.meta_data.inode_blocks) ∧
        (fb.getD b true = true ↔
          (fs_mount cfg fs2 (fs_format cfg fs1 (some d)).2).2.1.meta_data.inode_blocks < b) := by
  obtain ⟨⟨s, hs1, hs2⟩, hpos⟩ := fs_format_true cfg fs1 d (fs_format cfg fs1 (some d)).2
    (by rw [← hformat])
  subst hs1
  rw [fs_format_ok cfg s d hs2 hlen hpos] at hmount ⊢
  simp only at hmount ⊢
  generalize hdF : (⟨d.blocks, d.reads, d.writes + d.blocks,
    format_super cfg d.blocks :: List.replicate (d.blocks - 1) (zeroBlock cfg)⟩ : Disk) = dF
    at hmount ⊢
  have hlenF : dF.data.length = dF.blocks := by
    subst hdF; simp only [List.length_cons, List.length_replicate]; omega
  have hbl : dF.blocks = d.blocks := by subst hdF; rfl
  have hz : ∀ k, 1 ≤ k → k < dF.blocks → dF.data.getD k [] = zeroBlock cfg := by
    subst hdF
    intro k hk1 hk2
    exact volume_getD_succ cfg _ d.blocks k hk1 hk2
  obtain ⟨_, _, _, _, _, _, hib, d', fb, _, _, _, e4, e5, e6⟩ :=
    fs_mount_true cfg fs2 dF hlenF hmount
  rw [e4]
  simp only
  generalize (dF.data.getD 0 []).super.inode_blocks = ib at hib e6 ⊢
  have hget : ∀ b, b < dF.blocks → (fb.getD b true = false ↔ b ≤ ib) := by
    intro b hb
    rw [e6 b hb, inUse_blank cfg dF ib b hib hz]
  have hfb : fb = List.replicate (ib + 1) false ++ List.replicate (dF.blocks - (ib + 1)) true := by
    apply list_ext_getD _ _ true
    · simp only [List.length_append, List.length_replicate]; omega
    · intro b hb
      rw [getD_append_replicate]
      have := hget b (by omega)
      by_cases hc : b ≤ ib
      · rw [this.mpr hc]; simp; omega
      · have h1 : fb.getD b true = true := by
          cases hfb : fb.getD b true
          · exact absurd (this.mp hfb) hc
          · rfl
        rw [h1]; simp; omega
  refine ⟨fb, rfl, by rw [e5, hbl], ?_, ?_⟩
  · rw [hfb]
    simp [List.count_append, List.count_replicate]
    omega
  · intro b hb
    have := hget b (by omega)
    refine ⟨this, ?_⟩
    constructor
    · intro h
      by_contra hc
      rw [this.mpr (by omega)] at h
      exact absurd h (by simp)
    · intro h
      cases hfb : fb.getD b true
      · have := this.mp hfb; omega
      · rfl

/-- Witness of C5: a blank device of 20 blocks with the usual constants. -/
theorem fs_format_mount_bitmap_witness :
    (blankDisk stdConfig 20).data.length = (blankDisk stdConfig 20).blocks ∧
    (fs_format stdConfig (some freshSession) (some (blankDisk stdConfig 20))).1 = true ∧
    (fs_mount stdConfig freshSession
      (fs_format stdConfig (some freshSession) (some (blankDisk stdConfig 20))).2).1 = true ∧
    ∃ fb, (fs_mount stdConfig freshSession (fs_format stdConfig (some freshSession)
        (some (blankDisk stdConfig 20))).2).2.1.free_blocks = some fb ∧
      fb.length = (blankDisk stdConfig 20).blocks ∧
      fb.count false = 1 + (fs_mount stdConfig freshSession (fs_format stdConfig
        (some freshSession) (some (blankDisk stdConfig 20))).2).2.1.meta_data.inode_blocks ∧
      ∀ b, b < (blankDisk stdConfig 20).blocks →
        (fb.getD b true = false ↔ b ≤ (fs_mount stdConfig freshSession (fs_format stdConfig
          (some freshSession) (some (blankDisk stdConfig 20))).2).2.1.meta_data.inode_blocks) ∧
        (fb.getD b true = true ↔ (fs_mount stdConfig freshSession (fs_format stdConfig
          (some freshSession) (some (blankDisk stdConfig 20))).2).2.1.meta_data.inode_blocks
            < b) :=
  have hok := format_mount_succeed stdConfig (by decide) freshSession rfl
    (blankDisk stdConfig 20) (by decide) (by decide) (by decide)
  ⟨by decide, hok.1, hok.2,
    fs_format_mount_bitmap stdConfig (some freshSession) freshSession (blankDisk stdConfig 20)
      (by decide) hok.1 hok.2⟩

/-- C6: after a successful `fs_format` of a device with `blocks` blocks, block 0 is a
whole block holding the super block (`MAGIC_NUMBER`, `blocks`, `ceil(blocks / 10)`,
`ceil(blocks / 10) * INODES_PER_BLOCK`, each as the 32-bit field stores it, and exactly
these numbers when they fit 32 bits) with every byte after the four fields zero, so that
`inodes == inode_blocks * INODES_PER_BLOCK` as `fs_mount` compares them; and every block
`1 .. blocks - 1` is all zero bytes, hence holds no valid inode. -/
theorem fs_format_layout (cfg : Config) (hcfg : cfg.WF) (fs : Option FileSystem) (d : Disk)
    (hlen : d.data.length = d.blocks) (hformat : (fs_format cfg fs (some d)).1 = true) :
    ∃ d', (fs_format cfg fs (some d)).2 = some d' ∧ d'.blocks = d.blocks ∧
      d'.data.length = d.blocks ∧
      (d'.data.getD 0 []).length = cfg.BLOCK_SIZE ∧
      (d'.data.getD 0 []).super =
        { magic_number := cfg.MAGIC_NUMBER, blocks := d.blocks % 2 ^ 32,
          inode_blocks := ((d.blocks + 9) / 10) % 2 ^ 32,
          inodes := (((d.blocks + 9) / 10) % 2 ^ 32 * cfg.INODES_PER_BLOCK) % 2 ^ 32 } ∧
      (d.blocks < 2 ^ 32 → (d.blocks + 9) / 10 * cfg.INODES_PER_BLOCK < 2 ^ 32 →
        (d'.data.getD 0 []).super =
          { magic_number := cfg.MAGIC_NUMBER, blocks := d.blocks,
            inode_blocks := (d.blocks + 9) / 10,
            inodes := (d.blocks + 9) / 10 * cfg.INODES_PER_BLOCK }) ∧
      (∀ i, 16 ≤ i → (d'.data.getD 0 []).getD i 0 = 0) ∧
      (d'.data.getD 0 []).super.inodes
        = ((d'.data.getD 0 []).super.inode_blocks * cfg.INODES_PER_BLOCK) % 2 ^ 32 ∧
      (∀ k, 1 ≤ k → k < d.blocks → d'.data.getD k [] = List.replicate cfg.BLOCK_SIZE 0) ∧
      (∀ k j, 1 ≤ k → k < d.blocks → inode_valid cfg (d'.data.getD k []) j = 0) := by
  obtain ⟨⟨s, hs1, hs2⟩, hpos⟩ := fs_format_true cfg fs d (fs_format cfg fs (some d)).2
    (by rw [← hformat])
  subst hs1
  rw [fs_format_ok cfg s d hs2 hlen hpos]
  have h0 : ∀ (l : List Block), (format_super cfg d.blocks :: l).getD 0 []
      = format_super cfg d.blocks := fun _ => rfl
  have hsup := format_super_fields cfg hcfg d.blocks
  rw [format_ceil_eq] at hsup
  refine ⟨_, rfl, rfl, ?_, ?_, ?_, ?_, ?_, ?_, ?_, ?_⟩
  · simp only [List.length_cons, List.length_replicate]; omega
  · simp only [h0]; exact format_super_length cfg _
  · simp only [h0]; exact hsup
  · intro h32 hfit
    have hc : (d.blocks + 9) / 10 % 2 ^ 32 = (d.blocks + 9) / 10 :=
      Nat.mod_eq_of_lt (by omega)
    simp only [h0, hsup, hc, Nat.mod_eq_of_lt h32, Nat.mod_eq_of_lt hfit]
  · intro i hi
    simp only [h0]; exact format_super_rest cfg _ i hi
  · simp only [h0, hsup]
  · intro k hk1 hk2
    exact volume_getD_succ cfg _ d.blocks k hk1 hk2
  · intro k j hk1 hk2
    have : (format_super cfg d.blocks :: List.replicate (d.blocks - 1) (zeroBlock cfg)).getD k []
        = zeroBlock cfg := volume_getD_succ cfg _ d.blocks k hk1 hk2
    simp only [this, inode_valid, get32_zeroBlock]

/-- Witness of C6: a blank device of 20 blocks with the usual constants. -/
theorem fs_format_layout_witness :
    stdConfig.WF ∧
    (blankDisk stdConfig 20).data.length = (blankDisk stdConfig 20).blocks ∧
    (fs_format stdConfig (some freshSession) (some (blankDisk stdConfig 20))).1 = true ∧
    ∃ d', (fs_format stdConfig (some freshSession) (some (blankDisk stdConfig 20))).2 = some d' ∧
      d'.blocks = (blankDisk stdConfig 20).blocks ∧
      d'.data.length = (blankDisk stdConfig 20).blocks ∧
      (d'.data.getD 0 []).length = stdConfig.BLOCK_SIZE ∧
      (d'.data.getD 0 []).super =
        { magic_number := stdConfig.MAGIC_NUMBER,
          blocks := (blankDisk stdConfig 20).blocks % 2 ^ 32,
          inode_blocks := (((blankDisk stdConfig 20).blocks + 9) / 10) % 2 ^ 32,
          inodes := ((((blankDisk stdConfig 20).blocks + 9) / 10) % 2 ^ 32
            * stdConfig.INODES_PER_BLOCK) % 2 ^ 32 } ∧
      ((blankDisk stdConfig 20).blocks < 2 ^ 32 →
        ((blankDisk stdConfig 20).blocks + 9) / 10 * stdConfig.INODES_PER_BLOCK < 2 ^ 32 →
        (d'.data.getD 0 []).super =
          { magic_number := stdConfig.MAGIC_NUMBER, blocks := (blankDisk stdConfig 20).blocks,
            inode_blocks := ((blankDisk stdConfig 20).blocks + 9) / 10,
            inodes := ((blankDisk stdConfig 20).blocks + 9) / 10
              * stdConfig.INODES_PER_BLOCK }) ∧
      (∀ i, 16 ≤ i → (d'.data.getD 0 []).getD i 0 = 0) ∧
      (d'.data.getD 0 []).super.inodes
        = ((d'.data.getD 0 []).super.inode_blocks * stdConfig.INODES_PER_BLOCK) % 2 ^ 32 ∧
      (∀ k, 1 ≤ k → k < (blankDisk stdConfig 20).blocks →
        d'.data.getD k [] = List.replicate stdConfig.BLOCK_SIZE 0) ∧
      (∀ k j, 1 ≤ k → k < (blankDisk stdConfig 20).blocks →
        inode_valid stdConfig (d'.data.getD k []) j = 0) :=
  have hok := format_mount_succeed stdConfig (by decide) freshSession rfl
    (blankDisk stdConfig 20) (by decide) (by decide) (by decide)
  ⟨by decide, by decide, hok.1,
    fs_format_layout stdConfig (by decide) (some freshSession) (blankDisk stdConfig 20)
      (by decide) hok.1⟩

/-- C7: mount rejects foreign or corrupt volumes. For every session and every device
whose block 0 has a magic number other than `MAGIC_NUMBER`, or records a block count
other than the device's, `fs_mount` returns false and leaves the session as it was;
an unmounted session still has no device reference and no bitmap. -/
theorem fs_mount_rejects_foreign (cfg : Config) (fs : FileSystem) (d : Disk)
    (hbad : (d.data.getD 0 []).super.magic_number ≠ cfg.MAGIC_NUMBER
      ∨ (d.data.getD 0 []).super.blocks ≠ d.blocks) :
    (fs_mount cfg fs (some d)).1 = false ∧ (fs_mount cfg fs (some d)).2.1 = fs ∧
    (fs.disk = none → fs.free_blocks = none →
      (fs_mount cfg fs (some d)).2.1.disk = none ∧
      (fs_mount cfg fs (some d)).2.1.free_blocks = none) := by
  have key : (fs_mount cfg fs (some d)).1 = false ∧ (fs_mount cfg fs (some d)).2.1 = fs := by
    unfold fs_mount disk_read
    by_cases hs : disk_sanity_check (some d) 0 (some (zeroBlock cfg)) = true
    · simp only [hs, Bool.not_true, Bool.false_eq_true, if_false]
      cases hg : d.data.get? 0 with
      | none => simp [DISK_FAILURE]
      | some b =>
        have hb : d.data.getD 0 [] = b := by
          simp only [List.get?_eq_getElem?] at hg
          simp [List.getD_eq_getElem?_getD, hg]
        rw [hb] at hbad
        simp only [block_size_ne_failure, if_false]
        rcases hbad with h | h
        · rw [if_pos h]; exact ⟨rfl, rfl⟩
        · by_cases h1 : b.super.magic_number ≠ cfg.MAGIC_NUMBER
          · rw [if_pos h1]; exact ⟨rfl, rfl⟩
          · rw [if_neg h1, if_pos h]; exact ⟨rfl, rfl⟩
    · simp [hs]
  refine ⟨key.1, key.2, ?_⟩
  intro h1 h2
  rw [key.2]
  exact ⟨h1, h2⟩

/-- Witness of C7: a blank device, whose block 0 carries no magic number. -/
theorem fs_mount_rejects_foreign_witness :
    (((blankDisk smallConfig 8).data.getD 0 []).super.magic_number ≠ smallConfig.MAGIC_NUMBER
      ∨ ((blankDisk smallConfig 8).data.getD 0 []).super.blocks ≠ (blankDisk smallConfig 8).blocks) ∧
    (fs_mount smallConfig freshSession (some (blankDisk smallConfig 8))).1 = false ∧
    (fs_mount smallConfig freshSession (some (blankDisk smallConfig 8))).2.1 = freshSession ∧
    (freshSession.disk = none → freshSession.free_blocks = none →
      (fs_mount smallConfig freshSession (some (blankDisk smallConfig 8))).2.1.disk = none ∧
      (fs_mount smallConfig freshSession (some (blankDisk smallConfig 8))).2.1.free_blocks
        = none) :=
  ⟨by decide, fs_mount_rejects_foreign smallConfig freshSession (blankDisk smallConfig 8)
    (by decide)⟩

/-- C8 (the code at the failing input): with the usual constants, a device of 15 blocks
whose super block records one inode-table block, fewer than `ceil(15 / 10) = 2`, with the
right magic number, block count and inode count, is mounted: `fs_mount` compares
`inode_blocks` with `blocks / 10`, which rounds down. -/
theorem fs_mount_accepts_rounded_down :
    ((volume stdConfig ⟨0xf0f03410, 15, 1, 128⟩ 15).data.getD 0 []).super
      = ⟨stdConfig.MAGIC_NUMBER, 15, 1, 1 * stdConfig.INODES_PER_BLOCK⟩ ∧
    1 < (15 + 9) / 10 ∧
    (fs_mount stdConfig freshSession (some (volume stdConfig ⟨0xf0f03410, 15, 1, 128⟩ 15))).1
      = true := by
  have hsup : ((volume stdConfig ⟨0xf0f03410, 15, 1, 128⟩ 15).data.getD 0 []).super
      = ⟨0xf0f03410, 15, 1, 128⟩ := by
    rw [volume_getD_zero, superOf_fields stdConfig (by decide)]
    rfl
  refine ⟨hsup, by decide, ?_⟩
  apply fs_mount_blank_ok stdConfig freshSession rfl _ (volume_length _ _ _ (by decide))
  · intro k hk1 hk2
    exact volume_getD_succ _ _ _ k hk1 hk2
  · rw [hsup]; rfl
  · rw [hsup]; rfl
  · rw [hsup]; decide
  · rw [hsup]; decide
  · rw [hsup]; decide

/-- C9 (the code at the failing input): with the usual constants, on a formatted device
of one block the inode-table scan of `fs_mount` fails on block 1 and `fs_mount` returns
false, yet the session keeps the device reference and the bitmap, so that a later
`fs_format` or `fs_mount` of a sound device on that session is refused. -/
theorem fs_mount_failed_scan_keeps_device :
    (fs_mount stdConfig freshSession
      (fs_format stdConfig (some freshSession) (some (blankDisk stdConfig 1))).2).1 = false ∧
    (fs_mount stdConfig freshSession
      (fs_format stdConfig (some freshSession) (some (blankDisk stdConfig 1))).2).2.1.disk.isSome
        = true ∧
    (fs_mount stdConfig freshSession
      (fs_format stdConfig (some freshSession)
        (some (blankDisk stdConfig 1))).2).2.1.free_blocks.isSome = true ∧
    (fs_format stdConfig
      (some (fs_mount stdConfig freshSession
        (fs_format stdConfig (some freshSession) (some (blankDisk stdConfig 1))).2).2.1)
      (some (blankDisk stdConfig 20))).1 = false ∧
    (fs_mount stdConfig
      (fs_mount stdConfig freshSession
        (fs_format stdConfig (some freshSession) (some (blankDisk stdConfig 1))).2).2.1
      (fs_format stdConfig (some freshSession) (some (blankDisk stdConfig 20))).2).1 = false := by
  refine ⟨by decide, by decide, by decide, by decide, ?_⟩
  decide

/-- C10: at most one mounted device per session. For every session whose device
reference is already set and every device, `fs_mount` returns false and `fs_format`
returns false, neither changes the session (device reference, cached super block,
bitmap), and `fs_format` leaves the device exactly as it was, its write counter
included. -/
theorem fs_mounted_session_rejects (cfg : Config) (fs : FileSystem) (d0 : Disk)
    (hfs : fs.disk = some d0) (disk : Option Disk) :
    (fs_mount cfg fs disk).1 = false ∧ (fs_mount cfg fs disk).2.1 = fs ∧
    fs_format cfg (some fs) disk = (false, disk) := by
  refine ⟨?_, ?_, ?_⟩
  · unfold fs_mount
    rcases disk_read cfg disk 0 (zeroBlock cfg) with ⟨r, disk1, block⟩
    simp only
    cases disk1 with
    | none => split <;> rfl
    | some d =>
      simp only [hfs, Option.isSome_some, if_true]
      repeat' split
      all_goals rfl
  · unfold fs_mount
    rcases disk_read cfg disk 0 (zeroBlock cfg) with ⟨r, disk1, block⟩
    simp only
    cases disk1 with
    | none => split <;> rfl
    | some d =>
      simp only [hfs, Option.isSome_some, if_true]
      repeat' split
      all_goals rfl
  · cases disk with
    | none => rfl
    | some d => simp [fs_format, hfs]

/-- Witness of C10: the session obtained by mounting a formatted device of 8 blocks. -/
theorem fs_mounted_session_rejects_witness :
    mountedSession.disk
      = some ⟨8, 2, 8, format_super smallConfig 8 :: List.replicate 7 (zeroBlock smallConfig)⟩ ∧
    (fs_mount smallConfig mountedSession (some (blankDisk smallConfig 8))).1 = false ∧
    (fs_mount smallConfig mountedSession (some (blankDisk smallConfig 8))).2.1
      = mountedSession ∧
    fs_format smallConfig (some mountedSession) (some (blankDisk smallConfig 8))
      = (false, some (blankDisk smallConfig 8)) :=
  ⟨by decide, fs_mounted_session_rejects smallConfig mountedSession
    ⟨8, 2, 8, format_super smallConfig 8 :: List.replicate 7 (zeroBlock smallConfig)⟩
    (by decide) (some (blankDisk smallConfig 8))⟩

/-! ## The allocator `gimme_block` -/

theorem getD_of_lt {α : Type} (l : List α) (i : Nat) (a b : α) (h : i < l.length) :
    l.getD i a = l.getD i b := by
  simp [List.getD_eq_getElem?_getD, List.getElem?_eq_getElem, h]

theorem getD_false_true_iff (l : List Bool) (i : Nat) (h : i < l.length) :
    l.getD i false = true ↔ l.getD i true = true := by
  rw [getD_of_lt l i false true h]

theorem gimme_scan_some (fb : List Bool) (n : Nat) : ∀ (i j : Nat),
    gimme_scan fb n i = some j →
    i ≤ j ∧ j < i + n ∧ fb.getD j false = true ∧ ∀ j', i ≤ j' → j' < j → fb.getD j' false = false := by
  induction n with
  | zero => intro i j h; simp [gimme_scan] at h
  | succ n ih =>
    intro i j h
    rw [gimme_scan] at h
    by_cases hc : fb.getD i false = true
    · rw [if_pos hc] at h
      injection h with h
      subst h
      exact ⟨le_refl _, by omega, hc, fun j' h1 h2 => by omega⟩
    · rw [if_neg hc] at h
      obtain ⟨h1, h2, h3, h4⟩ := ih (i + 1) j h
      refine ⟨by omega, by omega, h3, ?_⟩
      intro j' hj1 hj2
      by_cases hj : j' = i
      · subst hj; simpa using hc
      · exact h4 j' (by omega) hj2

theorem gimme_scan_none (fb : List Bool) (n : Nat) : ∀ (i : Nat),
    gimme_scan fb n i = none → ∀ j, i ≤ j → j < i + n → fb.getD j false = false := by
  induction n with
  | zero => intro i _ j h1 h2; omega
  | succ n ih =>
    intro i h j h1 h2
    rw [gimme_scan] at h
    by_cases hc : fb.getD i false = true
    · rw [if_pos hc] at h; exact absurd h (by simp)
    · rw [if_neg hc] at h
      by_cases hj : j = i
      · subst hj; simpa using hc
      · exact ih (i + 1) h j (by omega) (by omega)

theorem count_true_pos (l : List Bool) (h : 0 < l.count true) :
    ∃ j, j < l.length ∧ l.getD j false = true := by
  have hm : true ∈ l := List.count_pos_iff.mp h
  obtain ⟨j, hj, hjt⟩ := List.getElem_of_mem hm
  exact ⟨j, hj, by simp [List.getD_eq_getElem?_getD, List.getElem?_eq_getElem, hj, hjt]⟩

theorem count_set_false (l : List Bool) : ∀ (i : Nat), l.getD i false = true →
    (l.set i false).count true + 1 = l.count true := by
  induction l with
  | nil => intro i h; simp at h
  | cons a l ih =>
    intro i h
    cases i with
    | zero =>
      simp only [List.getD_cons_zero] at h
      subst h
      simp
    | succ i =>
      simp only [List.getD_cons_succ] at h
      have := ih i h
      simp only [List.set_cons_succ, List.count_cons]
      omega

/-- With a free bit left and bit 0 in use, `gimme_block` returns a free block in
`1 .. blocks - 1` and clears exactly its bit. -/
theorem gimme_block_some (d : Disk) (fb : List Bool) (m : SuperBlock)
    (hfb : fb.length = d.blocks) (h0 : fb.getD 0 false = false) (hc : 0 < fb.count true) :
    ∃ i, gimme_block ⟨some d, some fb, m⟩ = (some i, ⟨some d, some (fb.set i false), m⟩) ∧
      1 ≤ i ∧ i < d.blocks ∧ fb.getD i false = true := by
  unfold gimme_block
  simp only
  cases hs : gimme_scan fb (d.blocks - 1) 1 with
  | none =>
    exfalso
    obtain ⟨j, hj, hjt⟩ := count_true_pos fb hc
    have := gimme_scan_none fb _ 1 hs
    by_cases hj0 : j = 0
    · subst hj0; rw [h0] at hjt; exact absurd hjt (by simp)
    · rw [this j (by omega) (by omega)] at hjt; exact absurd hjt (by simp)
  | some i =>
    obtain ⟨h1, h2, h3, _⟩ := gimme_scan_some fb _ 1 i hs
    exact ⟨i, rfl, h1, by omega, h3⟩

/-! ## Inode fields, pointer pages and `memcpy` -/

theorem memcpy_length (dst : List Nat) (doff : Nat) (src : List Nat) (soff n : Nat) :
    (memcpy dst doff src soff n).length = dst.length := by
  simp [memcpy]

theorem memcpy_getD (dst : List Nat) (doff : Nat) (src : List Nat) (soff n i : Nat)
    (h : i < dst.length) :
    (memcpy dst doff src soff n).getD i 0
      = if doff ≤ i ∧ i < doff + n then src.getD (soff + (i - doff)) 0 else dst.getD i 0 := by
  simp [memcpy, List.getD_eq_getElem?_getD, List.getElem?_map, List.getElem?_range, h]

theorem inode_word_bound (cfg : Config) (hcfg : cfg.WF) (inum f : Nat)
    (hi : inum < cfg.INODES_PER_BLOCK) (hf : f < inodeWords cfg) :
    4 * (inum * inodeWords cfg + f) + 3 < cfg.BLOCK_SIZE := by
  obtain ⟨_, _, h, _⟩ := hcfg
  have : (inum + 1) * inodeWords cfg ≤ cfg.INODES_PER_BLOCK * inodeWords cfg :=
    Nat.mul_le_mul_right _ hi
  rw [Nat.succ_mul] at this
  omega

theorem set_inode_direct_length (cfg : Config) (b : Block) (i k v : Nat) :
    (set_inode_direct cfg b i k v).length = b.length := set32_length _ _ _

theorem set_inode_indirect_length (cfg : Config) (b : Block) (i v : Nat) :
    (set_inode_indirect cfg b i v).length = b.length := set32_length _ _ _

theorem set_inode_size_length (cfg : Config) (b : Block) (i v : Nat) :
    (set_inode_size cfg b i v).length = b.length := set32_length _ _ _

theorem set_inode_valid_length (cfg : Config) (b : Block) (i v : Nat) :
    (set_inode_valid cfg b i v).length = b.length := set32_length _ _ _

theorem set_pointer_length (b : Block) (p v : Nat) :
    (set_pointer b p v).length = b.length := set32_length _ _ _

theorem direct_set_direct_same (cfg : Config) (hcfg : cfg.WF) (b : Block) (i k v : Nat)
    (hb : b.length = cfg.BLOCK_SIZE) (hi : i < cfg.INODES_PER_BLOCK)
    (hk : k < cfg.POINTERS_PER_INODE) :
    inode_direct cfg (set_inode_direct cfg b i k v) i k = v % 2 ^ 32 := by
  have := inode_word_bound cfg hcfg i (2 + k) hi (by unfold inodeWords; omega)
  exact get32_set32_same _ _ _ (by rw [hb]; omega)

theorem direct_set_direct_ne (cfg : Config) (b : Block) (i k k' v : Nat) (h : k ≠ k') :
    inode_direct cfg (set_inode_direct cfg b i k v) i k' = inode_direct cfg b i k' :=
  get32_set32_ne _ _ _ _ (by omega)

theorem indirect_set_direct (cfg : Config) (b : Block) (i k v : Nat)
    (hk : k < cfg.POINTERS_PER_INODE) :
    inode_indirect cfg (set_inode_direct cfg b i k v) i = inode_indirect cfg b i :=
  get32_set32_ne _ _ _ _ (by omega)

theorem direct_set_size (cfg : Config) (b : Block) (i k v : Nat) :
    inode_direct cfg (set_inode_size cfg b i v) i k = inode_direct cfg b i k :=
  get32_set32_ne _ _ _ _ (by omega)

theorem indirect_set_size (cfg : Config) (b : Block) (i v : Nat) :
    inode_indirect cfg (set_inode_size cfg b i v) i = inode_indirect cfg b i :=
  get32_set32_ne _ _ _ _ (by omega)

theorem size_set_size (cfg : Config) (hcfg : cfg.WF) (b : Block) (i v : Nat)
    (hb : b.length = cfg.BLOCK_SIZE) (hi : i < cfg.INODES_PER_BLOCK) :
    inode_size cfg (set_inode_size cfg b i v) i = v % 2 ^ 32 := by
  have := inode_word_bound cfg hcfg i 1 hi (by unfold inodeWords; omega)
  exact get32_set32_same _ _ _ (by rw [hb]; omega)

theorem indirect_set_indirect (cfg : Config) (hcfg : cfg.WF) (b : Block) (i v : Nat)
    (hb : b.length = cfg.BLOCK_SIZE) (hi : i < cfg.INODES_PER_BLOCK) :
    inode_indirect cfg (set_inode_indirect cfg b i v) i = v % 2 ^ 32 := by
  have := inode_word_bound cfg hcfg i (2 + cfg.POINTERS_PER_INODE) hi
    (by unfold inodeWords; omega)
  exact get32_set32_same _ _ _ (by rw [hb]; omega)

theorem direct_set_indirect (cfg : Config) (b : Block) (i k v : Nat)
    (hk : k < cfg.POINTERS_PER_INODE) :
    inode_direct cfg (set_inode_indirect cfg b i v) i k = inode_direct cfg b i k :=
  get32_set32_ne _ _ _ _ (by omega)

theorem pointer_set_pointer_same (cfg : Config) (hcfg : cfg.WF) (b : Block) (p v : Nat)
    (hb : b.length = cfg.BLOCK_SIZE) (hp : p < cfg.POINTERS_PER_BLOCK) :
    pointer (set_pointer b p v) p = v % 2 ^ 32 := by
  obtain ⟨_, _, _, h, _⟩ := hcfg
  exact get32_set32_same _ _ _ (by rw [hb]; omega)

theorem pointer_set_pointer_ne (b : Block) (p p' v : Nat) (h : p ≠ p') :
    pointer (set_pointer b p v) p' = pointer b p' :=
  get32_set32_ne _ _ _ _ h

theorem pointer_zeroBlock (cfg : Config) (p : Nat) : pointer (zeroBlock cfg) p = 0 :=
  get32_zeroBlock cfg p

/-! ## `fs_write` on an empty inode -/

theorem getD_set_false (fb : List Bool) (b x : Nat) (h : fb.getD x false = false) :
    (fb.set b false).getD x false = false := by
  rw [getD_set_eq]; split
  · rfl
  · exact h

theorem getD_set_false_self (fb : List Bool) (b : Nat) :
    (fb.set b false).getD b false = false := by
  rw [getD_set_eq]; split
  · rfl
  · next h =>
    have : ¬ b < fb.length := fun hb => h ⟨rfl, hb⟩
    simp [List.getD_eq_getElem?_getD, List.getElem?_eq_none (Nat.le_of_not_lt this)]

theorem ne_of_getD_ne (fb : List Bool) (x y : Nat) (hx : fb.getD x false = false)
    (hy : fb.getD y false = true) : x ≠ y := by
  intro h; subst h; rw [hx] at hy; exact absurd hy (by simp)

/-- The step `find new block` of `fs_write` for a direct pointer of an empty inode. -/
theorem write_direct_fresh (cfg : Config) (hcfg : cfg.WF) (data : List Nat)
    (N iblk inum k : Nat) (d : Disk) (fb : List Bool) (block : Block) (m : SuperBlock)
    (nw : Nat) (hinum : inum < cfg.INODES_PER_BLOCK)
    (inv : WriteInv cfg data N iblk inum k k d fb block) (hk : k < cfg.POINTERS_PER_INODE)
    (hc : 0 < fb.count true) :
    ∃ b, write_direct cfg ⟨some d, some fb, m⟩ block inum k nw
        = .ok (⟨some d, some (fb.set b false), m⟩, set_inode_direct cfg block inum k b,
            zeroBlock cfg, b) ∧
      fb.getD b false = true ∧
      b = physical cfg d (set_inode_direct cfg block inum k b) inum k ∧
      WriteInv cfg data N iblk inum (k + 1) k d (fb.set b false)
        (set_inode_direct cfg block inum k b) := by
  obtain ⟨b, hg, hb1, hb2, hb3⟩ := gimme_block_some d fb m inv.hfb inv.hzero hc
  have hbm : b % 2 ^ 32 = b := Nat.mod_eq_of_lt (by have := inv.hb32; omega)
  have hdk : inode_direct cfg (set_inode_direct cfg block inum k b) inum k = b := by
    rw [direct_set_direct_same cfg hcfg _ _ _ _ inv.hblock hinum hk, hbm]
  have hq : inode_indirect cfg (set_inode_direct cfg block inum k b) inum = 0 := by
    rw [indirect_set_direct cfg _ _ _ _ hk]; exact inv.hind0 (by omega)
  have hphys : ∀ j, j < k → physical cfg d (set_inode_direct cfg block inum k b) inum j
      = physical cfg d block inum j := by
    intro j hj
    unfold physical
    rw [if_pos (by omega), if_pos (by omega), direct_set_direct_ne cfg _ _ _ _ _ (by omega)]
  have hphysk : physical cfg d (set_inode_direct cfg block inum k b) inum k = b := by
    unfold physical
    rw [if_pos hk, hdk]
  refine ⟨b, ?_, hb3, hphysk.symm, ?_⟩
  · unfold write_direct
    rw [if_pos (inv.hdirect0 k (le_refl _) hk), hg]
    simp only [hdk]
  · refine ⟨inv.hlen, inv.hb32, inv.hsize, by rw [List.length_set]; exact inv.hfb,
      getD_set_false _ _ _ inv.hzero, inv.hiblk, getD_set_false _ _ _ inv.hiused,
      by rw [set_inode_direct_length]; exact inv.hblock, fun h => by omega, fun h => by omega,
      ?_, ?_, ?_, ?_, ?_, fun h => by omega, fun h => by omega⟩
    · intro j hj
      rw [hq]
      by_cases hjk : j = k
      · subst hjk
        rw [hphysk]
        exact ⟨by omega, hb2, getD_set_false_self _ _,
          (ne_of_getD_ne fb _ _ inv.hiused hb3).symm, by omega⟩
      · rw [hphys j (by omega)]
        obtain ⟨h1, h2, h3, h4, _⟩ := inv.hmap j (by omega)
        exact ⟨h1, h2, getD_set_false _ _ _ h3, h4, h1⟩
    · intro j j' hjj hj'
      by_cases hjk : j' = k
      · subst hjk
        rw [hphysk, hphys j hjj]
        exact ne_of_getD_ne fb _ _ (inv.hmap j hjj).2.2.1 hb3
      · rw [hphys j (by omega), hphys j' (by omega)]
        exact inv.hinj j j' hjj (by omega)
    · intro j hj
      rw [hphys j hj]
      exact inv.hchunk j hj
    · intro j hj1 hj2
      rw [direct_set_direct_ne cfg _ _ _ _ _ (by omega)]
      exact inv.hdirect0 j (by omega) hj2
    · intro h
      exact hq

theorem getD_set_data (l : List Block) (i j : Nat) (a : Block) (h : i < l.length) :
    (l.set i a).getD j [] = if i = j then a else l.getD j [] := by
  rw [getD_set_eq]
  by_cases hij : i = j
  · rw [if_pos ⟨hij, h⟩, if_pos hij]
  · rw [if_neg (fun x => hij x.1), if_neg hij]

/-- The indirect branch of `fs_write` when the indirect page does not exist yet: the page
and the first block it lists are allocated. -/
theorem write_indirect_first (cfg : Config) (hcfg : cfg.WF) (data : List Nat)
    (N iblk inum k : Nat) (d : Disk) (fb : List Bool) (block : Block) (m : SuperBlock)
    (nw : Nat) (hinum : inum < cfg.INODES_PER_BLOCK)
    (inv : WriteInv cfg data N iblk inum k k d fb block) (hk : k = cfg.POINTERS_PER_INODE)
    (hppb : 0 < cfg.POINTERS_PER_BLOCK) (hc : 2 ≤ fb.count true) :
    ∃ d' fb' block1 blk, write_indirect cfg ⟨some d, some fb, m⟩ block inum k nw
        = .ok (⟨some d', some fb', m⟩, block1, zeroBlock cfg, blk) ∧
      blk = physical cfg d' block1 inum k ∧
      WriteInv cfg data N iblk inum (k + 1) k d' fb' block1 ∧
      fb'.count true + 2 = fb.count true := by
  obtain ⟨i, hg, hi1, hi2, hi3⟩ := gimme_block_some d fb m inv.hfb inv.hzero (by omega)
  have hcount1 := count_set_false fb i hi3
  obtain ⟨p, hg2, hp1, hp2, hp3⟩ := gimme_block_some d (fb.set i false) m
    (by rw [List.length_set]; exact inv.hfb) (getD_set_false _ _ _ inv.hzero) (by omega)
  have hcount2 := count_set_false (fb.set i false) p hp3
  have him : i % 2 ^ 32 = i := Nat.mod_eq_of_lt (by have := inv.hb32; omega)
  have hpm : p % 2 ^ 32 = p := Nat.mod_eq_of_lt (by have := inv.hb32; omega)
  have hq : inode_indirect cfg (set_inode_indirect cfg block inum i) inum = i := by
    rw [indirect_set_indirect cfg hcfg _ _ _ inv.hblock hinum, him]
  have hpp : pointer (set_pointer (zeroBlock cfg) (k - cfg.POINTERS_PER_INODE) p)
      (k - cfg.POINTERS_PER_INODE) = p := by
    rw [pointer_set_pointer_same cfg hcfg _ _ _ (zeroBlock_length cfg) (by omega), hpm]
  have hil : i < d.data.length := by rw [inv.hlen]; exact hi2
  have hpi : p ≠ i := (ne_of_getD_ne _ _ _ (getD_set_false_self fb i) hp3).symm
  have hpfb : fb.getD p false = true := by
    rw [getD_set_eq, if_neg (fun h => hpi h.1.symm)] at hp3; exact hp3
  refine ⟨⟨d.blocks, d.reads, d.writes + 1, d.data.set i
      (set_pointer (zeroBlock cfg) (k - cfg.POINTERS_PER_INODE) p)⟩,
    (fb.set i false).set p false, set_inode_indirect cfg block inum i, p, ?_, ?_, ?_, by omega⟩
  · unfold write_indirect write_find_indirect
    rw [if_pos (inv.hind0 (by omega)), hg]
    simp only [pointer_zeroBlock, if_true, hg2, hq, hpp]
    rw [disk_write_ok cfg d i _ inv.hlen hi2]
    simp only [block_size_ne_failure, if_false]
  · unfold physical
    rw [if_neg (by omega), hq]
    simp only [getD_set_data _ _ _ _ hil, if_true, hpp]
  · have hphys : ∀ j, j < k → physical cfg ⟨d.blocks, d.reads, d.writes + 1, d.data.set i
          (set_pointer (zeroBlock cfg) (k - cfg.POINTERS_PER_INODE) p)⟩
          (set_inode_indirect cfg block inum i) inum j = physical cfg d block inum j := by
      intro j hj
      unfold physical
      rw [if_pos (by omega), if_pos (by omega), direct_set_indirect cfg _ _ _ _ (by omega)]
    have hphysk : physical cfg ⟨d.blocks, d.reads, d.writes + 1, d.data.set i
          (set_pointer (zeroBlock cfg) (k - cfg.POINTERS_PER_INODE) p)⟩
          (set_inode_indirect cfg block inum i) inum k = p := by
      unfold physical
      rw [if_neg (by omega), hq]
      simp only [getD_set_data _ _ _ _ hil, if_true, hpp]
    refine ⟨by simp only [List.length_set]; exact inv.hlen, inv.hb32, ?_,
      by rw [List.length_set, List.length_set]; exact inv.hfb,
      getD_set_false _ _ _ (getD_set_false _ _ _ inv.hzero), inv.hiblk,
      getD_set_false _ _ _ (getD_set_false _ _ _ inv.hiused),
      by rw [set_inode_indirect_length]; exact inv.hblock, fun h => by omega, fun h => by omega,
      ?_, ?_, ?_, fun j h1 h2 => by omega, fun h => by omega, ?_, ?_⟩
    · intro x hx
      simp only [getD_set_data _ _ _ _ hil]
      split
      · rw [set_pointer_length]; exact zeroBlock_length cfg
      · exact inv.hsize x hx
    · intro j hj
      rw [hq]
      by_cases hjk : j = k
      · subst hjk
        rw [hphysk]
        exact ⟨by omega, hp2, getD_set_false_self _ _,
          (ne_of_getD_ne fb _ _ inv.hiused hpfb).symm, hpi⟩
      · rw [hphys j (by omega)]
        obtain ⟨h1, h2, h3, h4, _⟩ := inv.hmap j (by omega)
        exact ⟨h1, h2, getD_set_false _ _ _ (getD_set_false _ _ _ h3), h4,
          ne_of_getD_ne fb _ _ h3 hi3⟩
    · intro j j' hjj hj'
      by_cases hjk : j' = k
      · subst hjk
        rw [hphysk, hphys j hjj]
        exact ne_of_getD_ne fb _ _ (inv.hmap j hjj).2.2.1 hpfb
      · rw [hphys j (by omega), hphys j' (by omega)]
        exact inv.hinj j j' hjj (by omega)
    · intro j hj
      rw [hphys j hj]
      have hne : i ≠ physical cfg d block inum j :=
        (ne_of_getD_ne fb _ _ (inv.hmap j hj).2.2.1 hi3).symm
      simp only [getD_set_data _ _ _ _ hil, if_neg hne]
      exact inv.hchunk j hj
    · intro _
      rw [hq]
      exact ⟨by omega, hi2, getD_set_false _ _ _ (getD_set_false_self _ _),
        (ne_of_getD_ne fb _ _ inv.hiused hi3).symm⟩
    · intro _ x hx1 hx2
      rw [hq]
      simp only [getD_set_data _ _ _ _ hil, if_true]
      rw [pointer_set_pointer_ne _ _ _ _ (by omega), pointer_zeroBlock]

/-- The indirect branch of `fs_write` when the indirect page exists: the page is read,
one more block is allocated and listed, and the page is written back. -/
theorem write_indirect_next (cfg : Config) (hcfg : cfg.WF) (data : List Nat)
    (N iblk inum k : Nat) (d : Disk) (fb : List Bool) (block : Block) (m : SuperBlock)
    (nw : Nat)
    (inv : WriteInv cfg data N iblk inum k k d fb block) (hk : cfg.POINTERS_PER_INODE < k)
    (hk2 : k < cfg.POINTERS_PER_INODE + cfg.POINTERS_PER_BLOCK) (hc : 1 ≤ fb.count true) :
    ∃ d' fb' block1 blk, write_indirect cfg ⟨some d, some fb, m⟩ block inum k nw
        = .ok (⟨some d', some fb', m⟩, block1, zeroBlock cfg, blk) ∧
      blk = physical cfg d' block1 inum k ∧
      WriteInv cfg data N iblk inum (k + 1) k d' fb' block1 ∧
      fb'.count true + 1 = fb.count true := by
  obtain ⟨hq1, hq2, hq3, hq4⟩ := inv.hind hk
  generalize hqdef : inode_indirect cfg block inum = q at hq1 hq2 hq3 hq4
  have hql : q < d.data.length := by rw [inv.hlen]; exact hq2
  have hp0 : pointer (d.data.getD q []) (k - cfg.POINTERS_PER_INODE) = 0 := by
    rw [← hqdef]; exact inv.hptr0 hk _ (by omega) (by omega)
  obtain ⟨p, hg, hp1, hp2, hp3⟩ := gimme_block_some ⟨d.blocks, d.reads + 1, d.writes, d.data⟩
    fb m inv.hfb inv.hzero (by omega)
  simp only at hp2
  have hcount := count_set_false fb p hp3
  have hpm : p % 2 ^ 32 = p := Nat.mod_eq_of_lt (by have := inv.hb32; omega)
  have hpl : (d.data.getD q []).length = cfg.BLOCK_SIZE := inv.hsize q hq2
  have hpp : pointer (set_pointer (d.data.getD q []) (k - cfg.POINTERS_PER_INODE) p)
      (k - cfg.POINTERS_PER_INODE) = p := by
    rw [pointer_set_pointer_same cfg hcfg _ _ _ hpl (by omega), hpm]
  have hphys : ∀ j, j < k → physical cfg ⟨d.blocks, d.reads + 1, d.writes + 1, d.data.set q
        (set_pointer (d.data.getD q []) (k - cfg.POINTERS_PER_INODE) p)⟩ block inum j
        = physical cfg d block inum j := by
    intro j hj
    unfold physical
    by_cases hjp : j < cfg.POINTERS_PER_INODE
    · rw [if_pos hjp, if_pos hjp]
    · rw [if_neg hjp, if_neg hjp, hqdef]
      simp only [getD_set_data _ _ _ _ hql, if_true]
      rw [pointer_set_pointer_ne _ _ _ _ (by omega)]
  have hphysk : physical cfg ⟨d.blocks, d.reads + 1, d.writes + 1, d.data.set q
        (set_pointer (d.data.getD q []) (k - cfg.POINTERS_PER_INODE) p)⟩ block inum k = p := by
    unfold physical
    rw [if_neg (by omega), hqdef]
    simp only [getD_set_data _ _ _ _ hql, if_true, hpp]
  refine ⟨⟨d.blocks, d.reads + 1, d.writes + 1, d.data.set q
      (set_pointer (d.data.getD q []) (k - cfg.POINTERS_PER_INODE) p)⟩,
    fb.set p false, block, p, ?_, hphysk.symm, ?_, by omega⟩
  · unfold write_indirect write_find_indirect
    rw [hqdef, if_neg hq1, disk_read_ok cfg d q _ inv.hlen hq2]
    simp only [block_size_ne_failure, if_false, hp0, if_true, hg, hqdef, hpp]
    rw [disk_write_ok cfg ⟨d.blocks, d.reads + 1, d.writes, d.data⟩ q _ inv.hlen hq2]
    simp only [block_size_ne_failure, if_false]
  · refine ⟨by simp only [List.length_set]; exact inv.hlen, inv.hb32, ?_,
      by rw [List.length_set]; exact inv.hfb,
      getD_set_false _ _ _ inv.hzero, inv.hiblk,
      getD_set_false _ _ _ inv.hiused,
      inv.hblock, fun h => by omega, fun h => by omega,
      ?_, ?_, ?_, fun j h1 h2 => inv.hdirect0 j (by omega) h2, fun h => by omega, ?_, ?_⟩
    · intro x hx
      simp only [getD_set_data _ _ _ _ hql]
      split
      · rw [set_pointer_length]; exact hpl
      · exact inv.hsize x hx
    · intro j hj
      rw [hqdef]
      by_cases hjk : j = k
      · subst hjk
        rw [hphysk]
        exact ⟨by omega, hp2, getD_set_false_self _ _,
          (ne_of_getD_ne fb _ _ inv.hiused hp3).symm, (ne_of_getD_ne fb _ _ hq3 hp3).symm⟩
      · rw [hphys j (by omega)]
        obtain ⟨h1, h2, h3, h4, h5⟩ := inv.hmap j (by omega)
        rw [hqdef] at h5
        exact ⟨h1, h2, getD_set_false _ _ _ h3, h4, h5⟩
    · intro j j' hjj hj'
      by_cases hjk : j' = k
      · subst hjk
        rw [hphysk, hphys j hjj]
        exact ne_of_getD_ne fb _ _ (inv.hmap j hjj).2.2.1 hp3
      · rw [hphys j (by omega), hphys j' (by omega)]
        exact inv.hinj j j' hjj (by omega)
    · intro j hj
      rw [hphys j hj]
      have hne : q ≠ physical cfg d block inum j := by
        have := (inv.hmap j hj).2.2.2.2
        rw [hqdef] at this
        exact this.symm
      simp only [getD_set_data _ _ _ _ hql, if_neg hne]
      exact inv.hchunk j hj
    · intro _
      rw [hqdef]
      exact ⟨hq1, hq2, getD_set_false _ _ _ hq3, hq4⟩
    · intro _ x hx1 hx2
      rw [hqdef]
      simp only [getD_set_data _ _ _ _ hql, if_true]
      rw [pointer_set_pointer_ne _ _ _ _ (by omega)]
      have := inv.hptr0 hk x (by omega) hx2
      rw [hqdef] at this
      exact this

/-- The second half of the body of the loop of `fs_write`: once logical block `k` is
mapped, writing its bytes and then the inode block restores the loop invariant. -/
theorem write_tail_inv (cfg : Config) (hcfg : cfg.WF) (data : List Nat)
    (N iblk inum k : Nat) (d : Disk) (fb : List Bool) (block1 Dblock1 : Block) (v r w : Nat)
    (hinum : inum < cfg.INODES_PER_BLOCK)
    (inv : WriteInv cfg data N iblk inum (k + 1) k d fb block1)
    (hD : Dblock1.length = cfg.BLOCK_SIZE) (hchunk : HoldsChunk cfg data N Dblock1 k)
    (hv : v % 2 ^ 32 = min ((k + 1) * cfg.BLOCK_SIZE) N) :
    WriteInv cfg data N iblk inum (k + 1) (k + 1)
      ⟨d.blocks, r, w, (d.data.set (physical cfg d block1 inum k) Dblock1).set iblk
        (set_inode_size cfg block1 inum v)⟩ fb (set_inode_size cfg block1 inum v) := by
  obtain ⟨hb1, hb2, hb3, hb4, hb5⟩ := inv.hmap k (by omega)
  generalize hblk : physical cfg d block1 inum k = blk at hb1 hb2 hb3 hb4 hb5
  have hbl : blk < d.data.length := by rw [inv.hlen]; exact hb2
  have hil : iblk < (d.data.set blk Dblock1).length := by
    rw [List.length_set, inv.hlen]; exact inv.hiblk
  have hget : ∀ x, x ≠ blk → x ≠ iblk →
      ((d.data.set blk Dblock1).set iblk (set_inode_size cfg block1 inum v)).getD x []
        = d.data.getD x [] := by
    intro x h1 h2
    rw [getD_set_data _ _ _ _ hil, if_neg (fun h => h2 h.symm), getD_set_data _ _ _ _ hbl,
      if_neg (fun h => h1 h.symm)]
  have hgetb : ((d.data.set blk Dblock1).set iblk (set_inode_size cfg block1 inum v)).getD blk []
      = Dblock1 := by
    rw [getD_set_data _ _ _ _ hil, if_neg (fun h => hb4 h.symm), getD_set_data _ _ _ _ hbl,
      if_pos rfl]
  have hgeti : ((d.data.set blk Dblock1).set iblk (set_inode_size cfg block1 inum v)).getD iblk []
      = set_inode_size cfg block1 inum v := by
    rw [getD_set_data _ _ _ _ hil, if_pos rfl]
  have hq : inode_indirect cfg (set_inode_size cfg block1 inum v) inum
      = inode_indirect cfg block1 inum := indirect_set_size cfg _ _ _
  have hphys : ∀ j, j < k + 1 →
      physical cfg ⟨d.blocks, r, w, (d.data.set blk Dblock1).set iblk
        (set_inode_size cfg block1 inum v)⟩ (set_inode_size cfg block1 inum v) inum j
        = physical cfg d block1 inum j := by
    intro j hj
    unfold physical
    by_cases hjp : j < cfg.POINTERS_PER_INODE
    · rw [if_pos hjp, if_pos hjp, direct_set_size]
    · rw [if_neg hjp, if_neg hjp, hq]
      have hi := inv.hind (by omega)
      simp only
      rw [hget _ (Ne.symm hb5) hi.2.2.2]
  refine ⟨by simp only [List.length_set]; exact inv.hlen, inv.hb32, ?_, inv.hfb, inv.hzero,
    inv.hiblk, inv.hiused, by rw [set_inode_size_length]; exact inv.hblock,
    fun _ => hgeti, ?_, ?_, ?_, ?_, ?_, ?_, ?_, ?_⟩
  · intro x hx
    simp only
    by_cases hxi : x = iblk
    · subst hxi
      rw [hgeti, set_inode_size_length]; exact inv.hblock
    · by_cases hxb : x = blk
      · subst hxb
        rw [hgetb]; exact hD
      · rw [hget x hxb hxi]; exact inv.hsize x hx
  · intro _
    rw [size_set_size cfg hcfg _ _ _ inv.hblock hinum]
    exact hv
  · intro j hj
    rw [hphys j hj, hq]
    exact inv.hmap j hj
  · intro j j' hjj hj'
    rw [hphys j (by omega), hphys j' hj']
    exact inv.hinj j j' hjj hj'
  · intro j hj
    rw [hphys j hj]
    simp only
    by_cases hjk : j = k
    · subst hjk
      rw [hblk, hgetb]
      exact hchunk
    · have h1 : physical cfg d block1 inum j ≠ blk := by
        rw [← hblk]; exact inv.hinj j k (by omega) (by omega)
      rw [hget _ h1 (inv.hmap j hj).2.2.2.1]
      exact inv.hchunk j (by omega)
  · intro j hj1 hj2
    rw [direct_set_size]
    exact inv.hdirect0 j hj1 hj2
  · intro h
    rw [hq]; exact inv.hind0 h
  · intro h
    rw [hq]; exact inv.hind h
  · intro h x hx1 hx2
    rw [hq]
    simp only
    rw [hget _ (Ne.symm hb5) (inv.hind h).2.2.2]
    exact inv.hptr0 h x hx1 hx2

/-- The first half of the body of the loop of `fs_write` on an empty inode maps logical
block `k` to a freshly allocated block, allocating the indirect page first when `k` is
the first block past the direct pointers. -/
theorem write_found (cfg : Config) (hcfg : cfg.WF) (data : List Nat)
    (N iblk inum k : Nat) (d : Disk) (fb : List Bool) (block : Block) (m : SuperBlock)
    (nw : Nat) (hinum : inum < cfg.INODES_PER_BLOCK)
    (inv : WriteInv cfg data N iblk inum k k d fb block)
    (hk2 : k < cfg.POINTERS_PER_INODE + cfg.POINTERS_PER_BLOCK)
    (hc : (if k = cfg.POINTERS_PER_INODE then 2 else 1) ≤ fb.count true) :
    ∃ d' fb' block1 blk,
      (if k < cfg.POINTERS_PER_INODE then write_direct cfg ⟨some d, some fb, m⟩ block inum k nw
        else write_indirect cfg ⟨some d, some fb, m⟩ block inum k nw)
        = .ok (⟨some d', some fb', m⟩, block1, zeroBlock cfg, blk) ∧
      blk = physical cfg d' block1 inum k ∧
      WriteInv cfg data N iblk inum (k + 1) k d' fb' block1 ∧
      fb'.count true + (if k = cfg.POINTERS_PER_INODE then 2 else 1) = fb.count true := by
  by_cases h1 : k < cfg.POINTERS_PER_INODE
  · rw [if_neg (by omega)] at hc
    obtain ⟨b, e1, e2, e3, e4⟩ := write_direct_fresh cfg hcfg data N iblk inum k d fb block m nw
      hinum inv h1 (by omega)
    refine ⟨d, fb.set b false, _, b, ?_, e3, e4, ?_⟩
    · rw [if_pos h1, e1]
    · rw [if_neg (by omega)]
      exact count_set_false fb b e2
  · rw [if_neg h1]
    by_cases h2 : k = cfg.POINTERS_PER_INODE
    · rw [if_pos h2] at hc ⊢
      exact write_indirect_first cfg hcfg data N iblk inum k d fb block m nw hinum inv h2
        (by omega) hc
    · rw [if_neg h2] at hc ⊢
      exact write_indirect_next cfg hcfg data N iblk inum k d fb block m nw inv (by omega)
        hk2 hc

theorem memcpy_holds_chunk (cfg : Config) (data : List Nat) (N k : Nat) (D : Block)
    (hD : D.length = cfg.BLOCK_SIZE) (n : Nat)
    (hn : n = min cfg.BLOCK_SIZE (N - k * cfg.BLOCK_SIZE)) :
    HoldsChunk cfg data N (memcpy D 0 data (k * cfg.BLOCK_SIZE) n) k := by
  intro t ht1 ht2
  rw [memcpy_getD _ _ _ _ _ _ (by rw [hD]; exact ht1), if_pos (by omega)]
  simp

/-- One iteration of the loop of `fs_write` at offset 0 on an empty inode. -/
theorem write_loop_step (cfg : Config) (hcfg : cfg.WF) (data : List Nat) (N n k : Nat)
    (hN : N ≤ (cfg.POINTERS_PER_INODE + cfg.POINTERS_PER_BLOCK) * cfg.BLOCK_SIZE)
    (d : Disk) (fb : List Bool) (block : Block) (m : SuperBlock) (fuel : Nat)
    (inv : WriteInv cfg data N (n / cfg.INODES_PER_BLOCK + 1) (n % cfg.INODES_PER_BLOCK)
      k k d fb block)
    (hkN : k * cfg.BLOCK_SIZE < N)
    (hc : (if k = cfg.POINTERS_PER_INODE then 2 else 1) ≤ fb.count true) :
    ∃ d' fb' block' nw',
      write_loop cfg n data N 0 (fuel + 1) ⟨some d, some fb, m⟩ block (k * cfg.BLOCK_SIZE) k 0
        = write_loop cfg n data N 0 fuel ⟨some d', some fb', m⟩ block' nw' (k + 1) 0 ∧
      nw' = min ((k + 1) * cfg.BLOCK_SIZE) N ∧
      WriteInv cfg data N (n / cfg.INODES_PER_BLOCK + 1) (n % cfg.INODES_PER_BLOCK)
        (k + 1) (k + 1) d' fb' block' ∧
      fb'.count true + (if k = cfg.POINTERS_PER_INODE then 2 else 1) = fb.count true := by
  have hmax := hcfg.2.2.2.2.2
  have hipb := hcfg.2.1
  have hinum : n % cfg.INODES_PER_BLOCK < cfg.INODES_PER_BLOCK := Nat.mod_lt _ hipb
  have hk2 : k < cfg.POINTERS_PER_INODE + cfg.POINTERS_PER_BLOCK :=
    Nat.lt_of_mul_lt_mul_right (lt_of_lt_of_le hkN hN)
  obtain ⟨d1, fb1, block1, blk, e1, e2, e3, e4⟩ := write_found cfg hcfg data N _ _ k d fb block m
    (k * cfg.BLOCK_SIZE) hinum inv hk2 hc
  obtain ⟨hb1, hb2, hb3, hb4, hb5⟩ := e3.hmap k (by omega)
  rw [← e2] at hb1 hb2 hb3 hb4 hb5
  have hsucc : (k + 1) * cfg.BLOCK_SIZE = k * cfg.BLOCK_SIZE + cfg.BLOCK_SIZE := Nat.succ_mul _ _
  have hnc : (if (N - k * cfg.BLOCK_SIZE + 0) % 2 ^ 64 < cfg.BLOCK_SIZE
      then N - k * cfg.BLOCK_SIZE else cfg.BLOCK_SIZE - 0)
      = min cfg.BLOCK_SIZE (N - k * cfg.BLOCK_SIZE) := by
    have : (N - k * cfg.BLOCK_SIZE + 0) % 2 ^ 64 = N - k * cfg.BLOCK_SIZE :=
      Nat.mod_eq_of_lt (by omega)
    rw [this]
    split <;> omega
  have hnw : (k * cfg.BLOCK_SIZE + min cfg.BLOCK_SIZE (N - k * cfg.BLOCK_SIZE)) % 2 ^ 64
      = min ((k + 1) * cfg.BLOCK_SIZE) N := by
    rw [Nat.mod_eq_of_lt (by omega)]
    omega
  rw [write_loop, if_neg (not_not.mpr hkN)]
  simp only [e1, hnc, hnw]
  rw [disk_write_ok cfg d1 blk _ e3.hlen hb2]
  simp only [block_size_ne_failure, if_false]
  rw [disk_write_ok cfg ⟨d1.blocks, d1.reads, d1.writes + 1, d1.data.set blk
    (memcpy (zeroBlock cfg) 0 data (k * cfg.BLOCK_SIZE)
      (min cfg.BLOCK_SIZE (N - k * cfg.BLOCK_SIZE)))⟩ _ _
    (by simp only [List.length_set]; exact e3.hlen) e3.hiblk]
  simp only [block_size_ne_failure, if_false]
  refine ⟨_, _, _, _, rfl, rfl, ?_, e4⟩
  rw [e2]
  apply write_tail_inv cfg hcfg data N _ _ k d1 fb1 block1 _ _ _ _ hinum e3
  · rw [memcpy_length]; exact zeroBlock_length cfg
  · exact memcpy_holds_chunk cfg data N k _ (zeroBlock_length cfg) _ rfl
  · rw [Nat.add_zero, Nat.mod_eq_of_lt (by omega), Nat.mod_eq_of_lt (by omega)]

theorem toSsize_small (x : Nat) (h : x < 2 ^ 32) : toSsize x = (x : Int) := by
  unfold toSsize
  rw [Nat.mod_eq_of_lt (by omega), if_pos (by omega)]

theorem lt_blocks_of_mul_lt (B N k : Nat) (hB : 0 < B) (h : k * B < N) :
    k < (N + B - 1) / B := by
  have h1 : (k + 1) * B ≤ N + B - 1 := by rw [Nat.succ_mul]; omega
  exact (Nat.le_div_iff_mul_le hB).mpr h1

/-- The loop of `fs_write` at offset 0 on an empty inode, given enough free blocks, runs
to completion: it returns `N` and leaves every logical block mapped and written. -/
theorem write_loop_total (cfg : Config) (hcfg : cfg.WF) (data : List Nat) (N n : Nat)
    (hN : N ≤ (cfg.POINTERS_PER_INODE + cfg.POINTERS_PER_BLOCK) * cfg.BLOCK_SIZE)
    (m : SuperBlock) (fuel : Nat) :
    ∀ (k : Nat) (d : Disk) (fb : List Bool) (block : Block),
    WriteInv cfg data N (n / cfg.INODES_PER_BLOCK + 1) (n % cfg.INODES_PER_BLOCK) k k d fb block →
    N ≤ k * cfg.BLOCK_SIZE + fuel →
    ((N + cfg.BLOCK_SIZE - 1) / cfg.BLOCK_SIZE - k)
      + (if k ≤ cfg.POINTERS_PER_INODE ∧ cfg.POINTERS_PER_INODE * cfg.BLOCK_SIZE < N
          then 1 else 0) ≤ fb.count true →
    ∃ K d' fb' block',
      write_loop cfg n data N 0 fuel ⟨some d, some fb, m⟩ block (min (k * cfg.BLOCK_SIZE) N) k 0
        = ((N : Int), ⟨some d', some fb', m⟩) ∧
      WriteInv cfg data N (n / cfg.INODES_PER_BLOCK + 1) (n % cfg.INODES_PER_BLOCK)
        K K d' fb' block' ∧
      N ≤ K * cfg.BLOCK_SIZE := by
  have hmax := hcfg.2.2.2.2.2
  have hbs : 0 < cfg.BLOCK_SIZE := by have := hcfg.1; omega
  induction fuel with
  | zero =>
    intro k d fb block inv hf _
    refine ⟨k, d, fb, block, ?_, inv, by omega⟩
    rw [write_loop, Nat.min_eq_right (by omega), toSsize_small N (by omega)]
  | succ fuel ih =>
    intro k d fb block inv hf hc
    by_cases hkN : k * cfg.BLOCK_SIZE < N
    · have hlt := lt_blocks_of_mul_lt cfg.BLOCK_SIZE N k hbs hkN
      have hc' : (if k = cfg.POINTERS_PER_INODE then 2 else 1) ≤ fb.count true := by
        split
        · next h => subst h; rw [if_pos ⟨le_refl _, hkN⟩] at hc; omega
        · omega
      obtain ⟨d1, fb1, block1, nw1, e1, e2, e3, e4⟩ := write_loop_step cfg hcfg data N n k hN d fb
        block m fuel inv hkN hc'
      subst e2
      have hsucc : (k + 1) * cfg.BLOCK_SIZE = k * cfg.BLOCK_SIZE + cfg.BLOCK_SIZE :=
        Nat.succ_mul _ _
      obtain ⟨K, d', fb', block', r1, r2, r3⟩ := ih (k + 1) d1 fb1 block1 e3 (by omega) (by
        by_cases hkp : k = cfg.POINTERS_PER_INODE
        · rw [if_pos hkp] at e4
          rw [if_neg (by omega)]
          rw [if_pos ⟨by omega, by rw [← hkp]; exact hkN⟩] at hc
          omega
        · rw [if_neg hkp] at e4
          by_cases hk1 : k ≤ cfg.POINTERS_PER_INODE
          · by_cases hpn : cfg.POINTERS_PER_INODE * cfg.BLOCK_SIZE < N
            · rw [if_pos ⟨hk1, hpn⟩] at hc
              rw [if_pos ⟨by omega, hpn⟩]
              omega
            · rw [if_neg (fun h => hpn h.2)] at hc ⊢
              omega
          · rw [if_neg (fun h => hk1 h.1)] at hc
            rw [if_neg (fun h => hk1 (by omega))]
            omega)
      refine ⟨K, d', fb', block', ?_, r2, r3⟩
      rw [Nat.min_eq_left (by omega), e1, r1]
    · refine ⟨k, d, fb, block, ?_, inv, by omega⟩
      rw [write_loop, Nat.min_eq_right (by omega), if_pos (by omega), toSsize_small N (by omega)]

/-! ## `fs_read` of a file just written -/

/-- The step `read data block` of `fs_read` on a mapped logical block returns the
contents of its physical block and leaves the device contents alone. -/
theorem read_block_ok (cfg : Config) (data : List Nat) (N iblk inum K : Nat) (d0 : Disk)
    (fb : List Bool) (block : Block) (inv : WriteInv cfg data N iblk inum K K d0 fb block)
    (d : Disk) (hd1 : d.blocks = d0.blocks) (hd2 : d.data = d0.data) (j : Nat) (hj : j < K) :
    ∃ d', read_block cfg (some d) block inum j
        = (some d', some (d0.data.getD (physical cfg d0 block inum j) [])) ∧
      d'.blocks = d0.blocks ∧ d'.data = d0.data := by
  obtain ⟨b, r, w, dat⟩ := d
  simp only at hd1 hd2
  subst hd1 hd2
  have hlen := inv.hlen
  obtain ⟨_, hm2, _, _, _⟩ := inv.hmap j hj
  unfold read_block
  by_cases hjp : j < cfg.POINTERS_PER_INODE
  · have hp : physical cfg d0 block inum j = inode_direct cfg block inum j := by
      unfold physical; rw [if_pos hjp]
    rw [hp] at hm2 ⊢
    rw [if_pos hjp, disk_read_ok cfg ⟨d0.blocks, r, w, d0.data⟩ _ _ hlen hm2]
    simp only [block_size_ne_failure, if_false]
    exact ⟨_, rfl, rfl, rfl⟩
  · have hp : physical cfg d0 block inum j
        = pointer (d0.data.getD (inode_indirect cfg block inum) []) (j - cfg.POINTERS_PER_INODE) := by
      unfold physical; rw [if_neg hjp]
    rw [hp] at hm2 ⊢
    obtain ⟨_, hq2, _, _⟩ := inv.hind (by omega)
    rw [if_neg hjp, disk_read_ok cfg ⟨d0.blocks, r, w, d0.data⟩ _ _ hlen hq2]
    simp only [block_size_ne_failure, if_false]
    rw [disk_read_ok cfg ⟨d0.blocks, r + 1, w, d0.data⟩ _ _ hlen hm2]
    simp only [block_size_ne_failure, if_false]
    exact ⟨_, rfl, rfl, rfl⟩

theorem sub64_small (a b : Nat) (ha : a < 2 ^ 32) (hb : b ≤ a) : sub64 a b = a - b := by
  unfold sub64
  rw [Nat.mod_eq_of_lt (by omega : a < 2 ^ 64), Nat.mod_eq_of_lt (by omega : b < 2 ^ 64)]
  have : a + 2 ^ 64 - b = (a - b) + 2 ^ 64 := by omega
  rw [this, Nat.add_mod_right, Nat.mod_eq_of_lt (by omega)]

/-- The loop of `fs_read` at offset 0 over a file whose logical blocks are all mapped
and hold `data` runs to completion and fills the buffer with `data`. -/
theorem read_loop_total (cfg : Config) (hcfg : cfg.WF) (data : List Nat) (N iblk inum K : Nat)
    (hN : N ≤ (cfg.POINTERS_PER_INODE + cfg.POINTERS_PER_BLOCK) * cfg.BLOCK_SIZE)
    (d0 : Disk) (fb : List Bool) (block : Block)
    (inv : WriteInv cfg data N iblk inum K K d0 fb block) (hK : N ≤ K * cfg.BLOCK_SIZE)
    (hdata : data.length = N) (fbs : Option (List Bool)) (m : SuperBlock) (fuel : Nat) :
    ∀ (j : Nat) (d : Disk) (buf : List Nat),
    d.blocks = d0.blocks → d.data = d0.data → buf.length = N →
    (∀ i, i < min (j * cfg.BLOCK_SIZE) N → buf.getD i 0 = data.getD i 0) →
    N ≤ j * cfg.BLOCK_SIZE + fuel →
    ∃ d', read_loop cfg block inum N fuel ⟨some d, fbs, m⟩ buf (min (j * cfg.BLOCK_SIZE) N)
        (min cfg.BLOCK_SIZE (N - min (j * cfg.BLOCK_SIZE) N)) j 0
        = ((N : Int), ⟨some d', fbs, m⟩, data) ∧
      d'.blocks = d0.blocks ∧ d'.data = d0.data := by
  have hmax := hcfg.2.2.2.2.2
  have hbs : 0 < cfg.BLOCK_SIZE := by have := hcfg.1; omega
  have hexit : ∀ (j : Nat) (buf : List Nat), buf.length = N →
      (∀ i, i < min (j * cfg.BLOCK_SIZE) N → buf.getD i 0 = data.getD i 0) →
      N ≤ j * cfg.BLOCK_SIZE → buf = data := by
    intro j buf hb hpre hj
    apply list_ext_getD _ _ 0 (by rw [hb, hdata])
    intro i hi
    exact hpre i (by rw [Nat.min_eq_right hj]; omega)
  induction fuel with
  | zero =>
    intro j d buf hd1 hd2 hb hpre hf
    refine ⟨d, ?_, hd1, hd2⟩
    rw [read_loop, Nat.min_eq_right (by omega), toSsize_small N (by omega),
      hexit j buf hb hpre (by omega)]
  | succ fuel ih =>
    intro j d buf hd1 hd2 hb hpre hf
    by_cases hjN : j * cfg.BLOCK_SIZE < N
    · have hjK : j < K := Nat.lt_of_mul_lt_mul_right (lt_of_lt_of_le hjN hK)
      obtain ⟨d1, r1, r2, r3⟩ := read_block_ok cfg data N iblk inum K d0 fb block inv d hd1 hd2 j hjK
      have hsucc : (j + 1) * cfg.BLOCK_SIZE = j * cfg.BLOCK_SIZE + cfg.BLOCK_SIZE :=
        Nat.succ_mul _ _
      have hmin : min (j * cfg.BLOCK_SIZE) N = j * cfg.BLOCK_SIZE := Nat.min_eq_left (by omega)
      have hnr : (j * cfg.BLOCK_SIZE + min cfg.BLOCK_SIZE (N - j * cfg.BLOCK_SIZE)) % 2 ^ 64
          = min ((j + 1) * cfg.BLOCK_SIZE) N := by
        rw [Nat.mod_eq_of_lt (by omega)]; omega
      have hsub : sub64 N (min ((j + 1) * cfg.BLOCK_SIZE) N)
          = N - min ((j + 1) * cfg.BLOCK_SIZE) N := sub64_small _ _ (by omega) (by omega)
      have hnc : (if N - min ((j + 1) * cfg.BLOCK_SIZE) N > cfg.BLOCK_SIZE then cfg.BLOCK_SIZE
          else N - min ((j + 1) * cfg.BLOCK_SIZE) N)
          = min cfg.BLOCK_SIZE (N - min ((j + 1) * cfg.BLOCK_SIZE) N) := by
        split <;> omega
      obtain ⟨d', e1, e2, e3⟩ := ih (j + 1) d1
        (memcpy buf (j * cfg.BLOCK_SIZE) (d0.data.getD (physical cfg d0 block inum j) []) 0
          (min cfg.BLOCK_SIZE (N - j * cfg.BLOCK_SIZE)))
        r2 r3 (by rw [memcpy_length]; exact hb)
        (by
          intro i hi
          rw [memcpy_getD _ _ _ _ _ _ (by rw [hb]; omega)]
          by_cases hw : j * cfg.BLOCK_SIZE ≤ i
          · rw [if_pos ⟨hw, by omega⟩, Nat.zero_add]
            have := inv.hchunk j hjK (i - j * cfg.BLOCK_SIZE) (by omega) (by omega)
            rw [this]
            congr 1
            omega
          · rw [if_neg (fun h => hw h.1)]
            exact hpre i (by omega))
        (by omega)
      refine ⟨d', ?_, e2, e3⟩
      rw [read_loop, hmin, if_neg (not_not.mpr hjN)]
      simp only [r1, hnr, hsub, hnc]
      exact e1
    · refine ⟨d, ?_, hd1, hd2⟩
      rw [read_loop, Nat.min_eq_right (by omega), if_pos (by omega), toSsize_small N (by omega),
        hexit j buf hb hpre (by omega)]

theorem writeInv_congr (cfg : Config) (data : List Nat) (N iblk inum k c : Nat) (d d' : Disk)
    (fb : List Bool) (block : Block) (h1 : d'.blocks = d.blocks) (h2 : d'.data = d.data)
    (h : WriteInv cfg data N iblk inum k c d fb block) :
    WriteInv cfg data N iblk inum k c d' fb block := by
  obtain ⟨b, r, w, dat⟩ := d
  obtain ⟨b', r', w', dat'⟩ := d'
  simp only at h1 h2
  subst h1 h2
  exact ⟨h.hlen, h.hb32, h.hsize, h.hfb, h.hzero, h.hiblk, h.hiused, h.hblock, h.hsync, h.hfile,
    h.hmap, h.hinj, h.hchunk, h.hdirect0, h.hind0, h.hind, h.hptr0⟩

/-- On an empty inode whose slot is in sync with the device, with enough free blocks,
`fs_write` of `N` bytes at offset 0 returns `N` and leaves every logical block mapped and
written. -/
theorem fs_write_total (cfg : Config) (hcfg : cfg.WF) (data : List Nat) (N n : Nat)
    (hN : N ≤ (cfg.POINTERS_PER_INODE + cfg.POINTERS_PER_BLOCK) * cfg.BLOCK_SIZE)
    (d : Disk) (fb : List Bool) (m : SuperBlock)
    (inv : WriteInv cfg data N (n / cfg.INODES_PER_BLOCK + 1) (n % cfg.INODES_PER_BLOCK) 0 0
      d fb (d.data.getD (n / cfg.INODES_PER_BLOCK + 1) []))
    (hfree : blocksNeeded cfg N ≤ fb.count true) :
    ∃ K d' fb' block',
      fs_write cfg ⟨some d, some fb, m⟩ n data N 0 = ((N : Int), ⟨some d', some fb', m⟩) ∧
      WriteInv cfg data N (n / cfg.INODES_PER_BLOCK + 1) (n % cfg.INODES_PER_BLOCK)
        K K d' fb' block' ∧
      N ≤ K * cfg.BLOCK_SIZE := by
  have inv' := writeInv_congr cfg data N _ _ 0 0 d ⟨d.blocks, d.reads + 1, d.writes, d.data⟩
    fb _ rfl rfl inv
  have h := write_loop_total cfg hcfg data N n hN m N 0 _ fb _ inv' (by omega) (by
    unfold blocksNeeded at hfree
    generalize (N + cfg.BLOCK_SIZE - 1) / cfg.BLOCK_SIZE = nb at hfree ⊢
    by_cases hp : cfg.POINTERS_PER_INODE * cfg.BLOCK_SIZE < N
    · rw [if_pos hp] at hfree
      rw [if_pos ⟨Nat.zero_le _, hp⟩]
      omega
    · rw [if_neg hp] at hfree
      rw [if_neg (fun h => hp h.2)]
      omega)
  have h0 : min (0 * cfg.BLOCK_SIZE) N = 0 := by simp
  rw [h0] at h
  unfold fs_write
  rw [disk_read_ok cfg d _ _ inv.hlen inv.hiblk]
  simp only [block_size_ne_failure, if_false, Nat.zero_div, Nat.zero_mod]
  exact h

/-- Reading back `N` bytes at offset 0 from a file whose logical blocks are all mapped
and hold `data` returns `N` and fills the buffer with `data`. -/
theorem fs_read_total (cfg : Config) (hcfg : cfg.WF) (data : List Nat) (N n K : Nat)
    (hN : N ≤ (cfg.POINTERS_PER_INODE + cfg.POINTERS_PER_BLOCK) * cfg.BLOCK_SIZE)
    (d : Disk) (fb : List Bool) (block : Block) (m : SuperBlock)
    (inv : WriteInv cfg data N (n / cfg.INODES_PER_BLOCK + 1) (n % cfg.INODES_PER_BLOCK)
      K K d fb block)
    (hK : N ≤ K * cfg.BLOCK_SIZE) (hdata : data.length = N) (buf : List Nat)
    (hbuf : buf.length = N) :
    ∃ d', fs_read cfg ⟨some d, some fb, m⟩ n buf N 0 = ((N : Int), ⟨some d', some fb, m⟩, data) := by
  have hmax := hcfg.2.2.2.2.2
  have h := read_loop_total cfg hcfg data N _ _ K hN d fb block inv hK hdata (some fb) m N 0
    ⟨d.blocks, d.reads + 1, d.writes, d.data⟩ buf rfl rfl hbuf (by intro i hi; simp at hi)
    (by omega)
  have h0 : min (0 * cfg.BLOCK_SIZE) N = 0 := by simp
  rw [h0, Nat.sub_zero] at h
  obtain ⟨d', h, _, _⟩ := h
  refine ⟨d', ?_⟩
  have hsz : inode_size cfg block (n % cfg.INODES_PER_BLOCK) = N := by
    rw [inv.hfile rfl]; exact Nat.min_eq_right hK
  have hnc : (if (N + 0) % 2 ^ 64 < cfg.BLOCK_SIZE then N else cfg.BLOCK_SIZE - 0)
      = min cfg.BLOCK_SIZE N := by
    rw [Nat.add_zero, Nat.mod_eq_of_lt (by omega)]
    split <;> omega
  unfold fs_read
  rw [disk_read_ok cfg d _ _ inv.hlen inv.hiblk]
  simp only [block_size_ne_failure, if_false, Nat.zero_div, Nat.zero_mod, inv.hsync rfl, hsz]
  rw [if_neg (by rw [Nat.add_zero, Nat.mod_eq_of_lt (by omega)]; omega), hnc]
  exact h

/-! ## A freshly formatted and mounted volume -/

/-- On a mounted volume whose first inode-table block is zero, `fs_create` claims
inode 0: it sets the `valid` field of slot 0 and writes the block back. -/
theorem fs_create_first (cfg : Config) (hipb : 0 < cfg.INODES_PER_BLOCK) (d1 : Disk)
    (fbs : Option (List Bool)) (m : SuperBlock) (hlen : d1.data.length = d1.blocks)
    (hib : 1 ≤ m.inode_blocks) (h1 : 1 < d1.blocks) (hz : d1.data.getD 1 [] = zeroBlock cfg) :
    fs_create cfg ⟨some d1, fbs, m⟩
      = (0, ⟨some ⟨d1.blocks, d1.reads + 1, d1.writes + 1,
          d1.data.set 1 (set_inode_valid cfg (zeroBlock cfg) 0 1)⟩, fbs, m⟩) := by
  unfold fs_create
  obtain ⟨ib, hib'⟩ : ∃ ib, m.inode_blocks = ib + 1 := ⟨m.inode_blocks - 1, by omega⟩
  obtain ⟨p, hp⟩ : ∃ p, cfg.INODES_PER_BLOCK = p + 1 := ⟨cfg.INODES_PER_BLOCK - 1, by omega⟩
  simp only [hib']
  rw [create_scan]
  simp only [Nat.zero_add]
  rw [disk_read_ok cfg d1 1 _ hlen h1]
  simp only [block_size_ne_failure, if_false, hz]
  have hf : create_find cfg (zeroBlock cfg) cfg.INODES_PER_BLOCK 0 = some 0 := by
    rw [hp, create_find, if_pos (by simp only [inode_valid, get32_zeroBlock])]
  rw [hf]
  simp only [Nat.zero_div, Nat.zero_add]
  rw [disk_write_ok cfg ⟨d1.blocks, d1.reads + 1, d1.writes, d1.data⟩ 1 _ hlen h1]
  simp only [block_size_ne_failure, if_false, Nat.zero_mul, Nat.add_zero]
  rfl

/-- The state after `fs_format`, `fs_mount` and `fs_create` on a device: inode 0 is
created, empty and in sync with the device, and the bitmap has exactly the super block
and the inode table in use. -/
theorem fresh_volume_created (cfg : Config) (hcfg : cfg.WF) (fs : FileSystem) (d : Disk)
    (hlen : d.data.length = d.blocks)
    (hformat : (fs_format cfg (some fs) (some d)).1 = true)
    (hmount : (fs_mount cfg fs (fs_format cfg (some fs) (some d)).2).1 = true)
    (data : List Nat) (N : Nat) :
    ∃ d2 fb m, fs_create cfg (freshVolume cfg fs d) = (0, ⟨some d2, some fb, m⟩) ∧
      d2.blocks = d.blocks ∧
      (d2.data.getD 0 []).super.magic_number = cfg.MAGIC_NUMBER ∧
      WriteInv cfg data N 1 0 0 0 d2 fb (d2.data.getD 1 []) := by
  obtain ⟨⟨s, hs1, hs2⟩, hpos⟩ := fs_format_true cfg (some fs) d _ (by rw [← hformat])
  injection hs1 with hs1
  subst hs1
  unfold freshVolume
  rw [fs_format_ok cfg fs d hs2 hlen hpos] at hmount ⊢
  simp only at hmount ⊢
  have hlenF : (format_super cfg d.blocks :: List.replicate (d.blocks - 1) (zeroBlock cfg)).length
      = d.blocks := by
    simp only [List.length_cons, List.length_replicate]; omega
  obtain ⟨_, _, _, t4, _, _, t7, d1, fb, _, e2, e3, e4, e5, e6⟩ :=
    fs_mount_true cfg fs _ hlenF hmount
  rw [e4]
  simp only at e2 e3 e5 e6 t4 t7 ⊢
  have h0 : ∀ (l : List Block), (format_super cfg d.blocks :: l).getD 0 []
      = format_super cfg d.blocks := fun _ => rfl
  have hsup := format_super_fields cfg hcfg d.blocks
  simp only [h0, hsup] at t4 t7 e6 ⊢
  have h32 : d.blocks < 2 ^ 32 := by
    have := Nat.mod_lt d.blocks (by decide : 0 < 2 ^ 32)
    omega
  have hibv : format_ceil d.blocks = (d.blocks + 9) / 10 := by
    rw [format_ceil_eq, Nat.mod_eq_of_lt (by omega)]
  have hib1 : 1 ≤ format_ceil d.blocks := by rw [hibv]; omega
  have hz : ∀ k, 1 ≤ k → k < d.blocks → d1.data.getD k [] = zeroBlock cfg := by
    intro k hk1 hk2
    rw [e3]
    exact volume_getD_succ cfg _ d.blocks k hk1 hk2
  have hlen1 : d1.data.length = d1.blocks := by rw [e3, e2]; exact hlenF
  have h1lt : 1 < d1.blocks := by rw [e2]; omega
  rw [fs_create_first cfg hcfg.2.1 d1 (some fb) _ hlen1 hib1 h1lt (hz 1 (le_refl _) (by omega))]
  have h1l : 1 < d1.data.length := by rw [hlen1]; exact h1lt
  have hB : ∀ w, w ≠ 0 * inodeWords cfg →
      get32 (set_inode_valid cfg (zeroBlock cfg) 0 1) w = 0 := by
    intro w hw
    unfold set_inode_valid
    rw [get32_set32_ne _ _ _ _ (Ne.symm hw), get32_zeroBlock]
  have hg1 : (d1.data.set 1 (set_inode_valid cfg (zeroBlock cfg) 0 1)).getD 1 []
      = set_inode_valid cfg (zeroBlock cfg) 0 1 := by
    rw [getD_set_data _ _ _ _ h1l, if_pos rfl]
  refine ⟨_, fb, _, rfl, e2, ?_, ?_⟩
  · simp only [getD_set_data _ _ _ _ h1l, if_neg (by omega : ¬ (1 = 0))]
    rw [e3, h0, hsup]
  · simp only [hg1]
    refine ⟨by simp only [List.length_set]; exact hlen1, by rw [e2]; exact h32, ?_,
      by rw [e5]; exact e2.symm, ?_, h1lt, ?_, by rw [set_inode_valid_length]; exact zeroBlock_length cfg,
      fun _ => hg1, ?_, fun j hj => by omega, fun j j' _ hj => by omega, fun j hj => by omega,
      ?_, ?_, fun h => by omega, fun h => by omega⟩
    · intro i hi
      simp only [getD_set_data _ _ _ _ h1l]
      split
      · rw [set_inode_valid_length]; exact zeroBlock_length cfg
      · next hne =>
        by_cases hi0 : i = 0
        · subst hi0
          rw [e3, h0]; exact format_super_length cfg _
        · rw [hz i (by omega) (by rw [← e2]; exact hi)]
          exact zeroBlock_length cfg
    · rw [getD_of_lt fb 0 false true (by rw [e5]; omega)]
      exact (e6 0 hpos).mpr (Or.inl rfl)
    · rw [getD_of_lt fb 1 false true (by rw [e5]; omega)]
      exact (e6 1 (by omega)).mpr (Or.inr (Or.inl ⟨le_refl _, hib1⟩))
    · intro _
      rw [Nat.zero_mul, Nat.min_eq_left (Nat.zero_le _)]
      exact hB _ (by omega)
    · intro j _ _
      exact hB _ (by omega)
    · intro _
      exact hB _ (by omega)

/-! ## Write-then-read identity -/

/-- C1: write-then-read identity. On a freshly formatted and mounted volume, for the
inode `n` returned by `fs_create` and every byte string `data` of length
`N <= (POINTERS_PER_INODE + POINTERS_PER_BLOCK) * BLOCK_SIZE`, if the bitmap has enough
free blocks for the data blocks (and for the indirect page when
`N > POINTERS_PER_INODE * BLOCK_SIZE`), then `fs_write(n, data, N, 0)` returns `N` and a
following `fs_read(n, buf, N, 0)` returns `N` with `buf` equal to `data`, whether only
direct pointers or also the indirect page are used. -/
theorem fs_write_read_identity (cfg : Config) (hcfg : cfg.WF) (fs : FileSystem) (d : Disk)
    (hlen : d.data.length = d.blocks)
    (hformat : (fs_format cfg (some fs) (some d)).1 = true)
    (hmount : (fs_mount cfg fs (fs_format cfg (some fs) (some d)).2).1 = true)
    (data buf : List Nat) (N : Nat)
    (hN : N ≤ (cfg.POINTERS_PER_INODE + cfg.POINTERS_PER_BLOCK) * cfg.BLOCK_SIZE)
    (hdata : data.length = N) (hbuf : buf.length = N)
    (hfree : blocksNeeded cfg N ≤ freeCount (fs_create cfg (freshVolume cfg fs d)).2) :
    0 ≤ (fs_create cfg (freshVolume cfg fs d)).1 ∧
    (fs_write cfg (fs_create cfg (freshVolume cfg fs d)).2
      (fs_create cfg (freshVolume cfg fs d)).1.toNat data N 0).1 = (N : Int) ∧
    (fs_read cfg
      (fs_write cfg (fs_create cfg (freshVolume cfg fs d)).2
        (fs_create cfg (freshVolume cfg fs d)).1.toNat data N 0).2
      (fs_create cfg (freshVolume cfg fs d)).1.toNat buf N 0).1 = (N : Int) ∧
    (fs_read cfg
      (fs_write cfg (fs_create cfg (freshVolume cfg fs d)).2
        (fs_create cfg (freshVolume cfg fs d)).1.toNat data N 0).2
      (fs_create cfg (freshVolume cfg fs d)).1.toNat buf N 0).2.2 = data := by
  obtain ⟨d2, fb, m, hc, _, _, inv⟩ := fresh_volume_created cfg hcfg fs d hlen hformat hmount data N
  rw [hc] at hfree ⊢
  simp only [freeCount] at hfree
  simp only [Int.toNat_zero]
  have hi : 0 / cfg.INODES_PER_BLOCK + 1 = 1 := by rw [Nat.zero_div]
  have hm : 0 % cfg.INODES_PER_BLOCK = 0 := Nat.zero_mod _
  have inv0 : WriteInv cfg data N (0 / cfg.INODES_PER_BLOCK + 1) (0 % cfg.INODES_PER_BLOCK) 0 0
      d2 fb (d2.data.getD (0 / cfg.INODES_PER_BLOCK + 1) []) := by
    rw [hi, hm]; exact inv
  obtain ⟨K, d3, fb3, block3, hw, inv3, hK⟩ :=
    fs_write_total cfg hcfg data N 0 hN d2 fb m inv0 hfree
  obtain ⟨d4, hr⟩ := fs_read_total cfg hcfg data N 0 K hN d3 fb3 block3 m inv3 hK hdata buf hbuf
  rw [hw]
  simp only
  rw [hr]
  exact ⟨le_refl _, trivial, rfl, rfl⟩

/-- Witness of C1: 70 bytes on a blank device of 12 blocks in the small layout, where
the file takes one direct block, the indirect page and two blocks listed in it. -/
theorem fs_write_read_identity_witness :
    smallConfig.WF ∧
    (blankDisk smallConfig 12).data.length = (blankDisk smallConfig 12).blocks ∧
    (fs_format smallConfig (some freshSession) (some (blankDisk smallConfig 12))).1 = true ∧
    (fs_mount smallConfig freshSession
      (fs_format smallConfig (some freshSession) (some (blankDisk smallConfig 12))).2).1 = true ∧
    70 ≤ (smallConfig.POINTERS_PER_INODE + smallConfig.POINTERS_PER_BLOCK)
      * smallConfig.BLOCK_SIZE ∧
    smallConfig.POINTERS_PER_INODE * smallConfig.BLOCK_SIZE < 70 ∧
    (sampleBytes 70).length = 70 ∧ (List.replicate 70 0).length = 70 ∧
    blocksNeeded smallConfig 70
      ≤ freeCount (fs_create smallConfig
          (freshVolume smallConfig freshSession (blankDisk smallConfig 12))).2 ∧
    0 ≤ (fs_create smallConfig
      (freshVolume smallConfig freshSession (blankDisk smallConfig 12))).1 ∧
    (fs_write smallConfig
      (fs_create smallConfig (freshVolume smallConfig freshSession (blankDisk smallConfig 12))).2
      (fs_create smallConfig
        (freshVolume smallConfig freshSession (blankDisk smallConfig 12))).1.toNat
      (sampleBytes 70) 70 0).1 = ((70 : Nat) : Int) ∧
    (fs_read smallConfig
      (fs_write smallConfig
        (fs_create smallConfig
          (freshVolume smallConfig freshSession (blankDisk smallConfig 12))).2
        (fs_create smallConfig
          (freshVolume smallConfig freshSession (blankDisk smallConfig 12))).1.toNat
        (sampleBytes 70) 70 0).2
      (fs_create smallConfig
        (freshVolume smallConfig freshSession (blankDisk smallConfig 12))).1.toNat
      (List.replicate 70 0) 70 0).1 = ((70 : Nat) : Int) ∧
    (fs_read smallConfig
      (fs_write smallConfig
        (fs_create smallConfig
          (freshVolume smallConfig freshSession (blankDisk smallConfig 12))).2
        (fs_create smallConfig
          (freshVolume smallConfig freshSession (blankDisk smallConfig 12))).1.toNat
        (sampleBytes 70) 70 0).2
      (fs_create smallConfig
        (freshVolume smallConfig freshSession (blankDisk smallConfig 12))).1.toNat
      (List.replicate 70 0) 70 0).2.2 = sampleBytes 70 :=
  ⟨by decide, by decide, by decide, by decide, by decide, by decide, by decide, by decide,
    by decide,
    fs_write_read_identity smallConfig (by decide) freshSession (blankDisk smallConfig 12)
      (by decide) (by decide) (by decide) (sampleBytes 70) (List.replicate 70 0) 70
      (by decide) (by decide) (by decide) (by decide)⟩

/-! ## Reading past the end of a file -/

/-- On an empty inode without indirect page, `fs_read` of one byte at offset
`POINTERS_PER_INODE * BLOCK_SIZE` fails: the length wraps around to
`2^64 - offset`, the loop runs, reads block 0 as the indirect page and then the block
whose number is the magic number, which is out of range. -/
theorem read_wraps_past_eof (cfg : Config) (hcfg : cfg.WF) (hppi : 0 < cfg.POINTERS_PER_INODE)
    (data : List Nat) (N n : Nat) (d : Disk) (fb : List Bool) (block : Block)
    (fbs : Option (List Bool)) (m : SuperBlock)
    (inv : WriteInv cfg data N (n / cfg.INODES_PER_BLOCK + 1) (n % cfg.INODES_PER_BLOCK) 0 0
      d fb block)
    (hsize : inode_size cfg block (n % cfg.INODES_PER_BLOCK) = 0)
    (hmagic : (d.data.getD 0 []).super.magic_number = cfg.MAGIC_NUMBER)
    (hbig : d.blocks ≤ cfg.MAGIC_NUMBER) (buf : List Nat) :
    (fs_read cfg ⟨some d, fbs, m⟩ n buf 1 (cfg.POINTERS_PER_INODE * cfg.BLOCK_SIZE)).1 = -1 := by
  have hmax := hcfg.2.2.2.2.2
  have hbs : 0 < cfg.BLOCK_SIZE := by have := hcfg.1; omega
  have hpb : cfg.POINTERS_PER_INODE * cfg.BLOCK_SIZE < 2 ^ 32 := by
    have : cfg.POINTERS_PER_INODE * cfg.BLOCK_SIZE
        ≤ (cfg.POINTERS_PER_INODE + cfg.POINTERS_PER_BLOCK) * cfg.BLOCK_SIZE :=
      Nat.mul_le_mul_right _ (Nat.le_add_right _ _)
    omega
  have hpos : 0 < cfg.POINTERS_PER_INODE * cfg.BLOCK_SIZE := Nat.mul_pos hppi hbs
  have hbs32 : cfg.BLOCK_SIZE < 2 ^ 32 := by
    have : 1 * cfg.BLOCK_SIZE ≤ cfg.POINTERS_PER_INODE * cfg.BLOCK_SIZE :=
      Nat.mul_le_mul_right _ hppi
    omega
  have hsub : sub64 0 (cfg.POINTERS_PER_INODE * cfg.BLOCK_SIZE)
      = 2 ^ 64 - cfg.POINTERS_PER_INODE * cfg.BLOCK_SIZE := by
    unfold sub64
    rw [Nat.zero_mod, Nat.zero_add, Nat.mod_eq_of_lt (by omega : _ < 2 ^ 64),
      Nat.mod_eq_of_lt (by omega)]
  obtain ⟨f, hf⟩ : ∃ f, 2 ^ 64 - cfg.POINTERS_PER_INODE * cfg.BLOCK_SIZE = f + 1 :=
    ⟨2 ^ 64 - cfg.POINTERS_PER_INODE * cfg.BLOCK_SIZE - 1, by omega⟩
  have h0 : 0 < d.blocks := Nat.lt_of_le_of_lt (Nat.zero_le _) inv.hiblk
  unfold fs_read
  rw [disk_read_ok cfg d _ _ inv.hlen inv.hiblk]
  simp only [block_size_ne_failure, if_false, inv.hsync rfl, hsize, Nat.mul_mod_left,
    Nat.mul_div_cancel _ hbs]
  rw [if_pos (by rw [Nat.mod_eq_of_lt (by omega)]; omega), hsub, hf, read_loop]
  rw [if_neg (by omega)]
  unfold read_block
  rw [if_neg (by omega), inv.hind0 (Nat.zero_le _)]
  rw [disk_read_ok cfg ⟨d.blocks, d.reads + 1, d.writes, d.data⟩ 0 _ inv.hlen h0]
  simp only [block_size_ne_failure, if_false, Nat.sub_self]
  have hp : pointer (d.data.getD 0 []) 0 = cfg.MAGIC_NUMBER := hmagic
  rw [hp, disk_read_fail cfg ⟨d.blocks, d.reads + 1 + 1, d.writes, d.data⟩ _ _ hbig]
  simp only [if_true]

/-- C2 (the code at the failing input): with the usual constants, on a formatted and
mounted device of 20 blocks, the inode 0 returned by `fs_create` has size 0, and
`fs_read` of one byte at offset 20480, which is past the end of the file, returns -1
and not 0. -/
theorem fs_read_past_eof_fails :
    (fs_create stdConfig (freshVolume stdConfig freshSession (blankDisk stdConfig 20))).1 = 0 ∧
    (fs_read stdConfig
      (fs_create stdConfig (freshVolume stdConfig freshSession (blankDisk stdConfig 20))).2
      0 [0] 1 20480).1 = -1 := by
  have hok := format_mount_succeed stdConfig (by decide) freshSession rfl
    (blankDisk stdConfig 20) (by decide) (by decide) (by decide)
  obtain ⟨d2, fb, m, hc, hb, hmagic, inv⟩ := fresh_volume_created stdConfig (by decide)
    freshSession (blankDisk stdConfig 20) (by decide) hok.1 hok.2 [] 0
  rw [hc]
  refine ⟨rfl, ?_⟩
  have hsz := inv.hfile rfl
  rw [Nat.zero_mul, Nat.min_eq_left (Nat.zero_le _)] at hsz
  exact read_wraps_past_eof stdConfig (by decide) (by decide) [] 0 0 d2 fb _ (some fb) m inv hsz
    hmagic (by rw [hb]; decide) [0]

/-! ## `fs_stat` and `fs_remove` -/

/-- Whatever it returns, `disk_read` leaves the contents, the block count and the write
counter of the device alone, and a successful read returns the stored block. -/
theorem disk_read_frame (cfg : Config) (d : Disk) (i : Nat) (buf : Block) :
    ∃ d', (disk_read cfg (some d) i buf).2.1 = some d' ∧ d'.data = d.data ∧
      d'.blocks = d.blocks ∧ d'.writes = d.writes ∧
      ((disk_read cfg (some d) i buf).1 ≠ DISK_FAILURE →
        (disk_read cfg (some d) i buf).2.2 = d.data.getD i []) := by
  unfold disk_read
  by_cases hs : disk_sanity_check (some d) i (some buf) = true
  · simp only [hs, Bool.not_true, Bool.false_eq_true, if_false]
    cases hg : d.data.get? i with
    | none => exact ⟨_, rfl, rfl, rfl, rfl, fun h => absurd rfl h⟩
    | some b =>
      refine ⟨_, rfl, rfl, rfl, rfl, fun _ => ?_⟩
      simp only [List.get?_eq_getElem?] at hg
      simp [List.getD_eq_getElem?_getD, hg]
  · simp only [hs, Bool.not_false, if_true]
    exact ⟨d, rfl, rfl, rfl, rfl, fun h => absurd rfl h⟩

/-- C16: remove of an inode that is not valid has no effect. For every session holding a
device and every inode number whose slot has `valid == false`, `fs_remove` returns
false, performs no device write (contents, block count and write counter are as before)
and leaves the free-space bitmap and the cached super block unchanged. -/
theorem fs_remove_invalid (cfg : Config) (fs : FileSystem) (d : Disk) (n : Nat)
    (hfs : fs.disk = some d)
    (hinv : inode_valid cfg (d.data.getD (n / cfg.INODES_PER_BLOCK + 1) [])
      (n % cfg.INODES_PER_BLOCK) = 0) :
    (fs_remove cfg fs n).1 = false ∧
    (fs_remove cfg fs n).2.free_blocks = fs.free_blocks ∧
    (fs_remove cfg fs n).2.meta_data = fs.meta_data ∧
    ∃ d', (fs_remove cfg fs n).2.disk = some d' ∧ d'.data = d.data ∧
      d'.blocks = d.blocks ∧ d'.writes = d.writes := by
  obtain ⟨d', h1, h2, h3, h4, h5⟩ :=
    disk_read_frame cfg d (n / cfg.INODES_PER_BLOCK + 1) (zeroBlock cfg)
  rcases hr : disk_read cfg (some d) (n / cfg.INODES_PER_BLOCK + 1) (zeroBlock cfg)
    with ⟨r, disk1, block⟩
  rw [hr] at h1 h5
  simp only at h1 h5
  subst h1
  unfold fs_remove
  rw [hfs]
  simp only [hr]
  by_cases hf : r = DISK_FAILURE
  · rw [if_pos hf]
    exact ⟨rfl, rfl, rfl, d', rfl, h2, h3, h4⟩
  · rw [if_neg hf, h5 hf, if_neg (not_not.mpr hinv)]
    exact ⟨rfl, rfl, rfl, d', rfl, h2, h3, h4⟩

/-- Witness of C16: inode 1 of the sample volume, which was never created. -/
theorem fs_remove_invalid_witness :
    (fs_mount smallConfig freshSession (some sampleVolume)).2.1.disk
      = some ⟨8, 3, 0, sampleVolume.data⟩ ∧
    inode_valid smallConfig (sampleVolume.data.getD (1 / smallConfig.INODES_PER_BLOCK + 1) [])
      (1 % smallConfig.INODES_PER_BLOCK) = 0 ∧
    (fs_remove smallConfig (fs_mount smallConfig freshSession (some sampleVolume)).2.1 1).1
      = false ∧
    (fs_remove smallConfig (fs_mount smallConfig freshSession (some sampleVolume)).2.1
      1).2.free_blocks
      = (fs_mount smallConfig freshSession (some sampleVolume)).2.1.free_blocks ∧
    (fs_remove smallConfig (fs_mount smallConfig freshSession (some sampleVolume)).2.1
      1).2.meta_data
      = (fs_mount smallConfig freshSession (some sampleVolume)).2.1.meta_data ∧
    ∃ d', (fs_remove smallConfig (fs_mount smallConfig freshSession (some sampleVolume)).2.1
        1).2.disk = some d' ∧
      d'.data = sampleVolume.data ∧ d'.blocks = 8 ∧ d'.writes = 0 :=
  ⟨by decide, by decide,
    fs_remove_invalid smallConfig (fs_mount smallConfig freshSession (some sampleVolume)).2.1
      ⟨8, 3, 0, sampleVolume.data⟩ 1 (by decide) (by decide)⟩

/-- With the table block of the inode on the device, `fs_stat` reads it and reports the
`size` field of a valid slot. -/
theorem fs_stat_eq (cfg : Config) (fs : FileSystem) (d : Disk) (n : Nat)
    (hfs : fs.disk = some d) (hlen : d.data.length = d.blocks)
    (hin : n / cfg.INODES_PER_BLOCK + 1 < d.blocks) :
    fs_stat cfg fs n
      = (if inode_valid cfg (d.data.getD (n / cfg.INODES_PER_BLOCK + 1) [])
            (n % cfg.INODES_PER_BLOCK) ≠ 0 then
          ((inode_size cfg (d.data.getD (n / cfg.INODES_PER_BLOCK + 1) [])
            (n % cfg.INODES_PER_BLOCK) : Nat) : Int)
        else -1,
        { fs with disk := some ⟨d.blocks, d.reads + 1, d.writes, d.data⟩ }) := by
  unfold fs_stat
  rw [hfs]
  simp only [disk_read_ok cfg d _ _ hlen hin, if_neg (block_size_ne_failure cfg)]
  split <;> rfl

/-- C17: stat returns the stored size or the sentinel. For every mounted volume (device
as opened, the inode table of `inode_blocks` blocks on the device, `inodes` the number
of its slots) and every inode number `n < inodes`, `fs_stat` equals the on-disk `size`
field of inode `n` when its `valid` flag is set and `-1` otherwise, and it changes
neither the device (contents, block count, write counter) nor the bitmap nor the cached
super block. -/
theorem fs_stat_reports_size (cfg : Config) (fs : FileSystem) (d : Disk) (n : Nat)
    (hfs : fs.disk = some d) (hlen : d.data.length = d.blocks)
    (hinodes : fs.meta_data.inodes = fs.meta_data.inode_blocks * cfg.INODES_PER_BLOCK)
    (hfit : fs.meta_data.inode_blocks + 1 ≤ d.blocks)
    (hn : n < fs.meta_data.inodes) :
    (fs_stat cfg fs n).1
      = (if inode_valid cfg (d.data.getD (n / cfg.INODES_PER_BLOCK + 1) [])
            (n % cfg.INODES_PER_BLOCK) ≠ 0 then
          ((inode_size cfg (d.data.getD (n / cfg.INODES_PER_BLOCK + 1) [])
            (n % cfg.INODES_PER_BLOCK) : Nat) : Int)
        else -1) ∧
    (fs_stat cfg fs n).2.free_blocks = fs.free_blocks ∧
    (fs_stat cfg fs n).2.meta_data = fs.meta_data ∧
    ∃ d', (fs_stat cfg fs n).2.disk = some d' ∧ d'.data = d.data ∧
      d'.blocks = d.blocks ∧ d'.writes = d.writes := by
  have hdiv : n / cfg.INODES_PER_BLOCK < fs.meta_data.inode_blocks := by
    apply Nat.div_lt_of_lt_mul
    rw [Nat.mul_comm, ← hinodes]
    exact hn
  rw [fs_stat_eq cfg fs d n hfs hlen (by omega)]
  exact ⟨rfl, rfl, rfl, _, rfl, rfl, rfl, rfl⟩

/-- Witness of C17 on the mounted sample volume: inode 0 holds a file of 70 bytes. -/
theorem fs_stat_reports_size_witness :
    (fs_mount smallConfig freshSession (some sampleVolume)).2.1.disk
      = some ⟨8, 3, 0, sampleVolume.data⟩ ∧
    (0 : Nat) < (fs_mount smallConfig freshSession (some sampleVolume)).2.1.meta_data.inodes ∧
    (fs_stat smallConfig (fs_mount smallConfig freshSession (some sampleVolume)).2.1 0).1
      = (if inode_valid smallConfig
            (sampleVolume.data.getD (0 / smallConfig.INODES_PER_BLOCK + 1) [])
            (0 % smallConfig.INODES_PER_BLOCK) ≠ 0 then
          ((inode_size smallConfig
            (sampleVolume.data.getD (0 / smallConfig.INODES_PER_BLOCK + 1) [])
            (0 % smallConfig.INODES_PER_BLOCK) : Nat) : Int)
        else -1) ∧
    (fs_stat smallConfig (fs_mount smallConfig freshSession (some sampleVolume)).2.1
      0).2.free_blocks
      = (fs_mount smallConfig freshSession (some sampleVolume)).2.1.free_blocks ∧
    (fs_stat smallConfig (fs_mount smallConfig freshSession (some sampleVolume)).2.1
      0).2.meta_data
      = (fs_mount smallConfig freshSession (some sampleVolume)).2.1.meta_data ∧
    ∃ d', (fs_stat smallConfig (fs_mount smallConfig freshSession (some sampleVolume)).2.1
        0).2.disk = some d' ∧
      d'.data = sampleVolume.data ∧ d'.blocks = 8 ∧ d'.writes = 0 :=
  ⟨by decide, by decide,
    fs_stat_reports_size smallConfig (fs_mount smallConfig freshSession (some sampleVolume)).2.1
      ⟨8, 3, 0, sampleVolume.data⟩ 0 (by decide) (by decide) (by decide) (by decide)
      (by decide)⟩

theorem getD_set_true (fb : List Bool) (p b : Nat) :
    (fb.set p true).getD b false = true ↔ fb.getD b false = true ∨ (p = b ∧ b < fb.length) := by
  rw [getD_set_eq]
  by_cases h : p = b ∧ p < fb.length
  · rw [if_pos h]
    obtain ⟨h1, h2⟩ := h
    subst h1
    simp [h2]
  · rw [if_neg h]
    constructor
    · intro h'; exact Or.inl h'
    · rintro (h' | ⟨h1, h2⟩)
      · exact h'
      · exact absurd ⟨h1, h1 ▸ h2⟩ h

/-- The loop over the direct pointers of `fs_remove`, run over the indices `L`: every
block named by a nonzero pointer is marked free, the pointers are cleared and no other
word of the table block changes. -/
theorem remove_direct_fold (cfg : Config) (inum : Nat) (L : List Nat) (hnd : L.Nodup) :
    ∀ (fb : List Bool) (blk : Block),
    ∃ fb' blk',
      L.foldl
        (fun (s : Option (List Bool) × Block) d =>
          if inode_direct cfg s.2 inum d ≠ 0 then
            (free_bit s.1 (inode_direct cfg s.2 inum d), set_inode_direct cfg s.2 inum d 0)
          else s)
        (some fb, blk) = (some fb', blk') ∧
      fb'.length = fb.length ∧ blk'.length = blk.length ∧
      (∀ b, fb'.getD b false = true ↔
        fb.getD b false = true ∨
          (b < fb.length ∧ b ≠ 0 ∧ ∃ k ∈ L, inode_direct cfg blk inum k = b)) ∧
      (∀ w, (∀ k ∈ L, w ≠ inum * inodeWords cfg + 2 + k) → get32 blk' w = get32 blk w) ∧
      (∀ k ∈ L, 4 * (inum * inodeWords cfg + 2 + k) + 3 < blk.length →
        inode_direct cfg blk' inum k = 0) := by
  induction L with
  | nil =>
    intro fb blk
    exact ⟨fb, blk, rfl, rfl, rfl, fun b => by simp, fun _ _ => rfl, fun k hk => by simp at hk⟩
  | cons a t ih =>
    intro fb blk
    have hat : a ∉ t := (List.nodup_cons.mp hnd).1
    have ht : t.Nodup := (List.nodup_cons.mp hnd).2
    rw [List.foldl_cons]
    by_cases hz : inode_direct cfg blk inum a ≠ 0
    · simp only [if_pos hz]
      obtain ⟨fb', blk', e1, e2, e3, e4, e5, e6⟩ :=
        ih ht (fb.set (inode_direct cfg blk inum a) true) (set_inode_direct cfg blk inum a 0)
      have hsame : ∀ k ∈ t, inode_direct cfg (set_inode_direct cfg blk inum a 0) inum k
          = inode_direct cfg blk inum k := fun k hk =>
        direct_set_direct_ne cfg blk inum a k 0 (fun h => hat (h ▸ hk))
      refine ⟨fb', blk', e1, ?_, ?_, ?_, ?_, ?_⟩
      · rw [e2, List.length_set]
      · rw [e3, set_inode_direct_length]
      · intro b
        rw [e4 b, getD_set_true, List.length_set]
        constructor
        · rintro ((h | ⟨h1, h2⟩) | ⟨h1, h2, k, hk, h3⟩)
          · exact Or.inl h
          · exact Or.inr ⟨h2, fun h0 => hz (h1.trans h0), a, List.mem_cons_self _ _, h1⟩
          · exact Or.inr ⟨h1, h2, k, List.mem_cons_of_mem _ hk, (hsame k hk) ▸ h3⟩
        · rintro (h | ⟨h1, h2, k, hk, h3⟩)
          · exact Or.inl (Or.inl h)
          · rcases List.mem_cons.mp hk with rfl | hk'
            · exact Or.inl (Or.inr ⟨h3, h1⟩)
            · exact Or.inr ⟨h1, h2, k, hk', (hsame k hk').trans h3⟩
      · intro w hw
        rw [e5 w (fun k hk => hw k (List.mem_cons_of_mem _ hk))]
        exact get32_set32_ne _ _ _ _ (fun h => hw a (List.mem_cons_self _ _) h.symm)
      · intro k hk hlt
        rcases List.mem_cons.mp hk with rfl | hk'
        · unfold inode_direct
          rw [e5 _ (fun k' hk' h => hat (by
            have : k = k' := by omega
            exact this ▸ hk'))]
          exact get32_set32_same _ _ _ hlt
        · exact e6 k hk' (by rw [set_inode_direct_length]; exact hlt)
    · simp only [if_neg hz]
      obtain ⟨fb', blk', e1, e2, e3, e4, e5, e6⟩ := ih ht fb blk
      refine ⟨fb', blk', e1, e2, e3, ?_, ?_, ?_⟩
      · intro b
        rw [e4 b]
        constructor
        · rintro (h | ⟨h1, h2, k, hk, h3⟩)
          · exact Or.inl h
          · exact Or.inr ⟨h1, h2, k, List.mem_cons_of_mem _ hk, h3⟩
        · rintro (h | ⟨h1, h2, k, hk, h3⟩)
          · exact Or.inl h
          · rcases List.mem_cons.mp hk with rfl | hk'
            · exact absurd (h3 ▸ (not_not.mp hz)) h2
            · exact Or.inr ⟨h1, h2, k, hk', h3⟩
      · intro w hw
        exact e5 w (fun k hk => hw k (List.mem_cons_of_mem _ hk))
      · intro k hk hlt
        rcases List.mem_cons.mp hk with rfl | hk'
        · unfold inode_direct
          rw [e5 _ (fun k' hk' h => hat (by
            have : k = k' := by omega
            exact this ▸ hk'))]
          exact not_not.mp hz
        · exact e6 k hk' hlt

/-- The loop over the entries of the indirect page of `fs_remove`, run over the indices
`L`: every block named by a nonzero entry is marked free. -/
theorem remove_pointers_fold (ip : Block) (L : List Nat) : ∀ (fb : List Bool),
    ∃ fb',
      L.foldl (fun fbs p => if pointer ip p ≠ 0 then free_bit fbs (pointer ip p) else fbs)
        (some fb) = some fb' ∧
      fb'.length = fb.length ∧
      ∀ b, fb'.getD b false = true ↔
        fb.getD b false = true ∨ (b < fb.length ∧ b ≠ 0 ∧ ∃ p ∈ L, pointer ip p = b) := by
  induction L with
  | nil => intro fb; exact ⟨fb, rfl, rfl, fun b => by simp⟩
  | cons a t ih =>
    intro fb
    rw [List.foldl_cons]
    by_cases hz : pointer ip a ≠ 0
    · simp only [if_pos hz]
      obtain ⟨fb', e1, e2, e4⟩ := ih (fb.set (pointer ip a) true)
      refine ⟨fb', e1, by rw [e2, List.length_set], ?_⟩
      intro b
      rw [e4 b, getD_set_true, List.length_set]
      constructor
      · rintro ((h | ⟨h1, h2⟩) | ⟨h1, h2, k, hk, h3⟩)
        · exact Or.inl h
        · exact Or.inr ⟨h2, fun h0 => hz (h1.trans h0), a, List.mem_cons_self _ _, h1⟩
        · exact Or.inr ⟨h1, h2, k, List.mem_cons_of_mem _ hk, h3⟩
      · rintro (h | ⟨h1, h2, k, hk, h3⟩)
        · exact Or.inl (Or.inl h)
        · rcases List.mem_cons.mp hk with rfl | hk'
          · exact Or.inl (Or.inr ⟨h3, h1⟩)
          · exact Or.inr ⟨h1, h2, k, hk', h3⟩
    · simp only [if_neg hz]
      obtain ⟨fb', e1, e2, e4⟩ := ih fb
      refine ⟨fb', e1, e2, ?_⟩
      intro b
      rw [e4 b]
      constructor
      · rintro (h | ⟨h1, h2, k, hk, h3⟩)
        · exact Or.inl h
        · exact Or.inr ⟨h1, h2, k, List.mem_cons_of_mem _ hk, h3⟩
      · rintro (h | ⟨h1, h2, k, hk, h3⟩)
        · exact Or.inl h
        · rcases List.mem_cons.mp hk with rfl | hk'
          · exact absurd (h3 ▸ (not_not.mp hz)) h2
          · exact Or.inr ⟨h1, h2, k, hk', h3⟩

/-- A call of `fs_remove` that returns true read the table block of the inode, found
the slot valid, read the indirect page when there is one, and wrote the table block back
with the slot cleared. -/
theorem fs_remove_true (cfg : Config) (fs : FileSystem) (d : Disk) (n : Nat)
    (hfs : fs.disk = some d) (hlen : d.data.length = d.blocks)
    (h : (fs_remove cfg fs n).1 = true) :
    n / cfg.INODES_PER_BLOCK + 1 < d.blocks ∧
    inode_valid cfg (d.data.getD (n / cfg.INODES_PER_BLOCK + 1) [])
      (n % cfg.INODES_PER_BLOCK) ≠ 0 ∧
    (inode_indirect cfg (remove_direct cfg (n % cfg.INODES_PER_BLOCK) fs.free_blocks
        (d.data.getD (n / cfg.INODES_PER_BLOCK + 1) [])).2 (n % cfg.INODES_PER_BLOCK) ≠ 0 →
      inode_indirect cfg (remove_direct cfg (n % cfg.INODES_PER_BLOCK) fs.free_blocks
        (d.data.getD (n / cfg.INODES_PER_BLOCK + 1) [])).2 (n % cfg.INODES_PER_BLOCK)
        < d.blocks) ∧
    ∃ r w, (fs_remove cfg fs n).2 =
      ⟨some ⟨d.blocks, r, w, d.data.set (n / cfg.INODES_PER_BLOCK + 1)
        (set_inode_size cfg (set_inode_valid cfg
          (if inode_indirect cfg (remove_direct cfg (n % cfg.INODES_PER_BLOCK) fs.free_blocks
              (d.data.getD (n / cfg.INODES_PER_BLOCK + 1) [])).2
              (n % cfg.INODES_PER_BLOCK) ≠ 0 then
            set_inode_indirect cfg (remove_direct cfg (n % cfg.INODES_PER_BLOCK)
              fs.free_blocks (d.data.getD (n / cfg.INODES_PER_BLOCK + 1) [])).2
              (n % cfg.INODES_PER_BLOCK) 0
          else (remove_direct cfg (n % cfg.INODES_PER_BLOCK) fs.free_blocks
            (d.data.getD (n / cfg.INODES_PER_BLOCK + 1) [])).2)
          (n % cfg.INODES_PER_BLOCK) 0) (n % cfg.INODES_PER_BLOCK) 0)⟩,
        if inode_indirect cfg (remove_direct cfg (n % cfg.INODES_PER_BLOCK) fs.free_blocks
            (d.data.getD (n / cfg.INODES_PER_BLOCK + 1) [])).2
            (n % cfg.INODES_PER_BLOCK) ≠ 0 then
          free_bit (remove_pointers cfg
            (d.data.getD (inode_indirect cfg (remove_direct cfg (n % cfg.INODES_PER_BLOCK)
              fs.free_blocks (d.data.getD (n / cfg.INODES_PER_BLOCK + 1) [])).2
              (n % cfg.INODES_PER_BLOCK)) [])
            (remove_direct cfg (n % cfg.INODES_PER_BLOCK) fs.free_blocks
              (d.data.getD (n / cfg.INODES_PER_BLOCK + 1) [])).1)
            (inode_indirect cfg (remove_direct cfg (n % cfg.INODES_PER_BLOCK) fs.free_blocks
              (d.data.getD (n / cfg.INODES_PER_BLOCK + 1) [])).2 (n % cfg.INODES_PER_BLOCK))
        else (remove_direct cfg (n % cfg.INODES_PER_BLOCK) fs.free_blocks
          (d.data.getD (n / cfg.INODES_PER_BLOCK + 1) [])).1,
        fs.meta_data⟩ := by
  unfold fs_remove at h ⊢
  rw [hfs] at h ⊢
  simp only [disk_read_eq cfg d _ _ hlen] at h ⊢
  by_cases hin : n / cfg.INODES_PER_BLOCK + 1 < d.blocks
  · simp only [if_pos hin, if_neg (block_size_ne_failure cfg)] at h ⊢
    by_cases hv : inode_valid cfg (d.data.getD (n / cfg.INODES_PER_BLOCK + 1) [])
        (n % cfg.INODES_PER_BLOCK) ≠ 0
    · simp only [if_pos hv] at h ⊢
      generalize remove_direct cfg (n % cfg.INODES_PER_BLOCK) fs.free_blocks
        (d.data.getD (n / cfg.INODES_PER_BLOCK + 1) []) = R at h ⊢
      by_cases hi : inode_indirect cfg R.2 (n % cfg.INODES_PER_BLOCK) ≠ 0
      · simp only [if_pos hi] at h ⊢
        have hlen1 : (⟨d.blocks, d.reads + 1, d.writes, d.data⟩ : Disk).data.length
            = (⟨d.blocks, d.reads + 1, d.writes, d.data⟩ : Disk).blocks := hlen
        simp only [disk_read_eq cfg ⟨d.blocks, d.reads + 1, d.writes, d.data⟩ _ _ hlen1]
          at h ⊢
        by_cases hi2 : inode_indirect cfg R.2 (n % cfg.INODES_PER_BLOCK) < d.blocks
        · simp only [if_pos hi2, if_neg (block_size_ne_failure cfg)] at h ⊢
          unfold remove_finish at h ⊢
          have hlen2 : (⟨d.blocks, d.reads + 1 + 1, d.writes, d.data⟩ : Disk).data.length
              = (⟨d.blocks, d.reads + 1 + 1, d.writes, d.data⟩ : Disk).blocks := hlen
          simp only [disk_write_ok cfg ⟨d.blocks, d.reads + 1 + 1, d.writes, d.data⟩ _ _ hlen2
            hin, if_neg (block_size_ne_failure cfg)] at h ⊢
          exact ⟨hin, hv, fun _ => hi2, _, _, rfl⟩
        · simp only [if_neg hi2, if_true] at h
          exact absurd h (by simp)
      · simp only [if_neg hi] at h ⊢
        unfold remove_finish at h ⊢
        have hlen1 : (⟨d.blocks, d.reads + 1, d.writes, d.data⟩ : Disk).data.length
            = (⟨d.blocks, d.reads + 1, d.writes, d.data⟩ : Disk).blocks := hlen
        simp only [disk_write_ok cfg ⟨d.blocks, d.reads + 1, d.writes, d.data⟩ _ _ hlen1
          hin, if_neg (block_size_ne_failure cfg)] at h ⊢
        exact ⟨hin, hv, fun h' => absurd h' hi, _, _, rfl⟩
    · simp only [if_neg hv] at h
      exact absurd h (by simp)
  · simp only [if_neg hin, if_true] at h
    exact absurd h (by simp)

theorem slot_disjoint (W j i f : Nat) (hne : j ≠ i) (hf : f < W) :
    j * W + f < i * W ∨ i * W + W ≤ j * W + f := by
  rcases Nat.lt_or_gt_of_ne hne with h | h
  · left
    have h1 : (j + 1) * W ≤ i * W := Nat.mul_le_mul_right W h
    rw [Nat.succ_mul] at h1
    omega
  · right
    have h1 : (i + 1) * W ≤ j * W := Nat.mul_le_mul_right W h
    rw [Nat.succ_mul] at h1
    omega

/-- The table block `fs_remove` writes back: outside the record of slot `inum` it is the
block read, and the record itself is all zero. -/
theorem remove_block_words (cfg : Config) (hcfg : cfg.WF) (B blk1 : Block) (inum : Nat)
    (hinum : inum < cfg.INODES_PER_BLOCK) (hB : B.length = cfg.BLOCK_SIZE)
    (h1 : blk1.length = B.length)
    (h5 : ∀ w, (∀ k ∈ List.range cfg.POINTERS_PER_INODE, w ≠ inum * inodeWords cfg + 2 + k) →
      get32 blk1 w = get32 B w)
    (h6 : ∀ k ∈ List.range cfg.POINTERS_PER_INODE,
      4 * (inum * inodeWords cfg + 2 + k) + 3 < B.length → inode_direct cfg blk1 inum k = 0) :
    (∀ w, w < inum * inodeWords cfg ∨ inum * inodeWords cfg + inodeWords cfg ≤ w →
      get32 (set_inode_size cfg (set_inode_valid cfg
        (if inode_indirect cfg blk1 inum ≠ 0 then set_inode_indirect cfg blk1 inum 0 else blk1)
        inum 0) inum 0) w = get32 B w) ∧
    (∀ f, f < inodeWords cfg →
      get32 (set_inode_size cfg (set_inode_valid cfg
        (if inode_indirect cfg blk1 inum ≠ 0 then set_inode_indirect cfg blk1 inum 0 else blk1)
        inum 0) inum 0) (inum * inodeWords cfg + f) = 0) := by
  have hW : inodeWords cfg = cfg.POINTERS_PER_INODE + 3 := rfl
  have hlen2 : (if inode_indirect cfg blk1 inum ≠ 0 then set_inode_indirect cfg blk1 inum 0
      else blk1).length = cfg.BLOCK_SIZE := by
    split
    · rw [set_inode_indirect_length, h1, hB]
    · rw [h1, hB]
  constructor
  · intro w hw
    unfold set_inode_size set_inode_valid
    rw [get32_set32_ne _ _ _ _ (by omega), get32_set32_ne _ _ _ _ (by omega)]
    have hk : ∀ k ∈ List.range cfg.POINTERS_PER_INODE, w ≠ inum * inodeWords cfg + 2 + k := by
      intro k hk
      have := List.mem_range.mp hk
      omega
    split
    · unfold set_inode_indirect
      rw [get32_set32_ne _ _ _ _ (by omega)]
      exact h5 w hk
    · exact h5 w hk
  · intro f hf
    unfold set_inode_size set_inode_valid
    by_cases f1 : f = 1
    · subst f1
      rw [get32_set32_same _ _ _ (by
        rw [set32_length, hlen2]
        exact inode_word_bound cfg hcfg inum 1 hinum (by omega))]
      rfl
    · rw [get32_set32_ne _ _ _ _ (by omega)]
      by_cases f0 : f = 0
      · subst f0
        rw [Nat.add_zero, get32_set32_same _ _ _ (by
          rw [hlen2]
          have := inode_word_bound cfg hcfg inum 0 hinum (by omega)
          omega)]
        rfl
      · rw [get32_set32_ne _ _ _ _ (by omega)]
        by_cases fi : f = 2 + cfg.POINTERS_PER_INODE
        · subst fi
          by_cases hz : inode_indirect cfg blk1 inum ≠ 0
          · rw [if_pos hz, ← Nat.add_assoc]
            have := indirect_set_indirect cfg hcfg blk1 inum 0 (by rw [h1, hB]) hinum
            unfold inode_indirect at this
            exact this
          · rw [if_neg hz, ← Nat.add_assoc]
            exact not_not.mp hz
        · have hkk : f - 2 < cfg.POINTERS_PER_INODE := by omega
          have hd : inode_direct cfg blk1 inum (f - 2) = 0 :=
            h6 (f - 2) (List.mem_range.mpr hkk) (by
              rw [hB]
              have := inode_word_bound cfg hcfg inum (2 + (f - 2)) hinum (by omega)
              rw [← Nat.add_assoc] at this
              exact this)
          have hfe : inum * inodeWords cfg + f = inum * inodeWords cfg + 2 + (f - 2) := by omega
          rw [hfe]
          split
          · unfold set_inode_indirect
            rw [get32_set32_ne _ _ _ _ (by omega)]
            exact hd
          · exact hd

/-- C15: remove clears the inode on disk. For every mounted volume (consistent layout,
device as opened, the table block of inode `n` of full size) on which `fs_remove n`
returns true, afterwards the on-disk inode `n` has `valid == 0`, `size == 0`, every
direct pointer `== 0` and `indirect == 0`, `fs_stat n` returns `-1`, every other inode
slot of the same inode-table block has the fields it had, and every other block of the
device is unchanged. -/
theorem fs_remove_clears_inode (cfg : Config) (hcfg : cfg.WF) (fs : FileSystem) (d : Disk)
    (fb : List Bool) (n : Nat)
    (hfs : fs.disk = some d) (hfb : fs.free_blocks = some fb)
    (hlen : d.data.length = d.blocks)
    (hsize : (d.data.getD (n / cfg.INODES_PER_BLOCK + 1) []).length = cfg.BLOCK_SIZE)
    (hrem : (fs_remove cfg fs n).1 = true) :
    ∃ d', (fs_remove cfg fs n).2.disk = some d' ∧ d'.blocks = d.blocks ∧
      inode_valid cfg (d'.data.getD (n / cfg.INODES_PER_BLOCK + 1) [])
        (n % cfg.INODES_PER_BLOCK) = 0 ∧
      inode_size cfg (d'.data.getD (n / cfg.INODES_PER_BLOCK + 1) [])
        (n % cfg.INODES_PER_BLOCK) = 0 ∧
      (∀ k, k < cfg.POINTERS_PER_INODE →
        inode_direct cfg (d'.data.getD (n / cfg.INODES_PER_BLOCK + 1) [])
          (n % cfg.INODES_PER_BLOCK) k = 0) ∧
      inode_indirect cfg (d'.data.getD (n / cfg.INODES_PER_BLOCK + 1) [])
        (n % cfg.INODES_PER_BLOCK) = 0 ∧
      (fs_stat cfg (fs_remove cfg fs n).2 n).1 = -1 ∧
      (∀ j, j ≠ n % cfg.INODES_PER_BLOCK →
        inode_valid cfg (d'.data.getD (n / cfg.INODES_PER_BLOCK + 1) []) j
          = inode_valid cfg (d.data.getD (n / cfg.INODES_PER_BLOCK + 1) []) j ∧
        inode_size cfg (d'.data.getD (n / cfg.INODES_PER_BLOCK + 1) []) j
          = inode_size cfg (d.data.getD (n / cfg.INODES_PER_BLOCK + 1) []) j ∧
        (∀ k, k < cfg.POINTERS_PER_INODE →
          inode_direct cfg (d'.data.getD (n / cfg.INODES_PER_BLOCK + 1) []) j k
            = inode_direct cfg (d.data.getD (n / cfg.INODES_PER_BLOCK + 1) []) j k) ∧
        inode_indirect cfg (d'.data.getD (n / cfg.INODES_PER_BLOCK + 1) []) j
          = inode_indirect cfg (d.data.getD (n / cfg.INODES_PER_BLOCK + 1) []) j) ∧
      ∀ b, b ≠ n / cfg.INODES_PER_BLOCK + 1 → d'.data.getD b [] = d.data.getD b [] := by
  have hinum : n % cfg.INODES_PER_BLOCK < cfg.INODES_PER_BLOCK := Nat.mod_lt _ hcfg.2.1
  have hW : inodeWords cfg = cfg.POINTERS_PER_INODE + 3 := rfl
  obtain ⟨hin, hv, _, r, w, e⟩ := fs_remove_true cfg fs d n hfs hlen hrem
  rw [hfb] at e
  obtain ⟨fb1, blk1, e1, _, e3, _, e5, e6⟩ :=
    remove_direct_fold cfg (n % cfg.INODES_PER_BLOCK) (List.range cfg.POINTERS_PER_INODE)
      (List.nodup_range _) fb (d.data.getD (n / cfg.INODES_PER_BLOCK + 1) [])
  have hrd : remove_direct cfg (n % cfg.INODES_PER_BLOCK) (some fb)
      (d.data.getD (n / cfg.INODES_PER_BLOCK + 1) []) = (some fb1, blk1) := e1
  rw [hrd] at e
  simp only at e
  obtain ⟨hout, hslot⟩ := remove_block_words cfg hcfg
    (d.data.getD (n / cfg.INODES_PER_BLOCK + 1) []) blk1 (n % cfg.INODES_PER_BLOCK)
    hinum hsize e3 e5 e6
  have hget : (d.data.set (n / cfg.INODES_PER_BLOCK + 1)
      (set_inode_size cfg (set_inode_valid cfg
        (if inode_indirect cfg blk1 (n % cfg.INODES_PER_BLOCK) ≠ 0 then
          set_inode_indirect cfg blk1 (n % cfg.INODES_PER_BLOCK) 0 else blk1)
        (n % cfg.INODES_PER_BLOCK) 0) (n % cfg.INODES_PER_BLOCK) 0)).getD
        (n / cfg.INODES_PER_BLOCK + 1) []
      = set_inode_size cfg (set_inode_valid cfg
        (if inode_indirect cfg blk1 (n % cfg.INODES_PER_BLOCK) ≠ 0 then
          set_inode_indirect cfg blk1 (n % cfg.INODES_PER_BLOCK) 0 else blk1)
        (n % cfg.INODES_PER_BLOCK) 0) (n % cfg.INODES_PER_BLOCK) 0 := by
    rw [getD_set_data _ _ _ _ (by rw [hlen]; exact hin), if_pos rfl]
  have hvalid0 := hslot 0 (by omega)
  rw [Nat.add_zero] at hvalid0
  rw [e]
  refine ⟨_, rfl, rfl, ?_, ?_, ?_, ?_, ?_, ?_, ?_⟩
  · simp only [hget]
    exact hvalid0
  · simp only [hget]
    exact hslot 1 (by omega)
  · intro k hk
    simp only [hget]
    have := hslot (2 + k) (by omega)
    rw [← Nat.add_assoc] at this
    exact this
  · simp only [hget]
    have := hslot (2 + cfg.POINTERS_PER_INODE) (by omega)
    rw [← Nat.add_assoc] at this
    exact this
  · rw [fs_stat_eq cfg _ _ n rfl (by simp only [List.length_set]; exact hlen)
      (by exact hin)]
    simp only [hget]
    rw [if_neg]
    exact not_not.mpr hvalid0
  · intro j hj
    simp only [hget]
    refine ⟨?_, ?_, ?_, ?_⟩
    · have := hout (j * inodeWords cfg + 0) (slot_disjoint _ _ _ 0 hj (by omega))
      rw [Nat.add_zero] at this
      exact this
    · exact hout _ (slot_disjoint _ _ _ 1 hj (by omega))
    · intro k hk
      have := hout _ (slot_disjoint (inodeWords cfg) j (n % cfg.INODES_PER_BLOCK) (2 + k) hj
        (by omega))
      rw [← Nat.add_assoc] at this
      exact this
    · have := hout _ (slot_disjoint (inodeWords cfg) j (n % cfg.INODES_PER_BLOCK)
        (2 + cfg.POINTERS_PER_INODE) hj (by omega))
      rw [← Nat.add_assoc] at this
      exact this
  · intro b hb
    simp only
    rw [getD_set_data _ _ _ _ (by rw [hlen]; exact hin), if_neg (fun h => hb h.symm)]

/-- The bitmap after a successful `fs_remove`: a block is free afterwards exactly when it
was free before or was referenced by the removed inode. -/
theorem fs_remove_bitmap (cfg : Config) (fs : FileSystem) (d : Disk) (fb : List Bool) (n : Nat)
    (hfs : fs.disk = some d) (hfb : fs.free_blocks = some fb)
    (hlen : d.data.length = d.blocks) (hfblen : fb.length = d.blocks)
    (hrem : (fs_remove cfg fs n).1 = true) :
    ∃ fb', (fs_remove cfg fs n).2.free_blocks = some fb' ∧ fb'.length = d.blocks ∧
      ∀ b, b < d.blocks →
        (fb'.getD b false = true ↔
          fb.getD b false = true ∨
            InodeUses cfg d (d.data.getD (n / cfg.INODES_PER_BLOCK + 1) [])
              (n % cfg.INODES_PER_BLOCK) b) := by
  obtain ⟨_, hv, _, r, w, e⟩ := fs_remove_true cfg fs d n hfs hlen hrem
  rw [hfb] at e
  obtain ⟨fb1, blk1, e1, e2, _, e4, e5, _⟩ :=
    remove_direct_fold cfg (n % cfg.INODES_PER_BLOCK) (List.range cfg.POINTERS_PER_INODE)
      (List.nodup_range _) fb (d.data.getD (n / cfg.INODES_PER_BLOCK + 1) [])
  have hrd : remove_direct cfg (n % cfg.INODES_PER_BLOCK) (some fb)
      (d.data.getD (n / cfg.INODES_PER_BLOCK + 1) []) = (some fb1, blk1) := e1
  rw [hrd] at e
  simp only at e
  have hind : inode_indirect cfg blk1 (n % cfg.INODES_PER_BLOCK)
      = inode_indirect cfg (d.data.getD (n / cfg.INODES_PER_BLOCK + 1) [])
        (n % cfg.INODES_PER_BLOCK) := by
    unfold inode_indirect
    apply e5
    intro k hk
    have := List.mem_range.mp hk
    omega
  rw [hind] at e
  rw [e]
  simp only [List.mem_range] at e4
  unfold InodeUses
  by_cases hz : inode_indirect cfg (d.data.getD (n / cfg.INODES_PER_BLOCK + 1) [])
      (n % cfg.INODES_PER_BLOCK) ≠ 0
  · obtain ⟨fb2, p1, p2, p4⟩ := remove_pointers_fold
      (d.data.getD (inode_indirect cfg (d.data.getD (n / cfg.INODES_PER_BLOCK + 1) [])
        (n % cfg.INODES_PER_BLOCK)) []) (List.range cfg.POINTERS_PER_BLOCK) fb1
    have hrp : remove_pointers cfg
        (d.data.getD (inode_indirect cfg (d.data.getD (n / cfg.INODES_PER_BLOCK + 1) [])
          (n % cfg.INODES_PER_BLOCK)) []) (some fb1) = some fb2 := p1
    simp only [List.mem_range] at p4
    simp only [if_pos hz, hrp]
    refine ⟨_, rfl, by rw [List.length_set, p2, e2, hfblen], ?_⟩
    intro b hb
    rw [getD_set_true, p4 b, e4 b, p2, e2, hfblen]
    constructor
    · rintro (((h | ⟨_, h2, k, hk, h3⟩) | ⟨_, h2, p, hp, h3⟩) | ⟨h1, _⟩)
      · exact Or.inl h
      · exact Or.inr ⟨hv, h2, Or.inl ⟨k, hk, h3⟩⟩
      · exact Or.inr ⟨hv, h2, Or.inr (Or.inr ⟨hz, p, hp, h3⟩)⟩
      · exact Or.inr ⟨hv, fun h0 => hz (h1.trans h0), Or.inr (Or.inl h1)⟩
    · rintro (h | ⟨_, h2, (⟨k, hk, h3⟩ | h3 | ⟨_, p, hp, h3⟩)⟩)
      · exact Or.inl (Or.inl (Or.inl h))
      · exact Or.inl (Or.inl (Or.inr ⟨hb, h2, k, hk, h3⟩))
      · exact Or.inr ⟨h3, hb⟩
      · exact Or.inl (Or.inr ⟨hb, h2, p, hp, h3⟩)
  · simp only [if_neg hz]
    refine ⟨_, rfl, by rw [e2, hfblen], ?_⟩
    intro b hb
    rw [e4 b, hfblen]
    constructor
    · rintro (h | ⟨_, h2, k, hk, h3⟩)
      · exact Or.inl h
      · exact Or.inr ⟨hv, h2, Or.inl ⟨k, hk, h3⟩⟩
    · rintro (h | ⟨_, h2, (⟨k, hk, h3⟩ | h3 | ⟨h4, _⟩)⟩)
      · exact Or.inl h
      · exact Or.inr ⟨hb, h2, k, hk, h3⟩
      · exact absurd ((not_not.mp hz).symm.trans h3).symm h2
      · exact absurd h4 hz

/-- C14, amended: remove releases the blocks of the inode and nothing else. For every
mounted volume (device as opened, one bitmap bit per block, the pointers of inode `n`
below the block count) on which `fs_remove n` returns true, every block that was
referenced by a nonzero direct pointer of inode `n`, by its nonzero indirect pointer or
by a nonzero entry of its indirect page is marked free afterwards, and the bit of every
block the inode did not reference is unchanged; so a block referenced by another valid
inode stays in use unless inode `n` referenced it too. -/
theorem fs_remove_frees_blocks (cfg : Config) (fs : FileSystem) (d : Disk) (fb : List Bool)
    (n : Nat) (hfs : fs.disk = some d) (hfb : fs.free_blocks = some fb)
    (hlen : d.data.length = d.blocks) (hfblen : fb.length = d.blocks)
    (_hrange : InodeInRange cfg d (d.data.getD (n / cfg.INODES_PER_BLOCK + 1) [])
      (n % cfg.INODES_PER_BLOCK))
    (hrem : (fs_remove cfg fs n).1 = true) :
    ∃ fb', (fs_remove cfg fs n).2.free_blocks = some fb' ∧ fb'.length = d.blocks ∧
      ∀ b, b < d.blocks →
        (InodeUses cfg d (d.data.getD (n / cfg.INODES_PER_BLOCK + 1) [])
            (n % cfg.INODES_PER_BLOCK) b → fb'.getD b false = true) ∧
        (¬ InodeUses cfg d (d.data.getD (n / cfg.INODES_PER_BLOCK + 1) [])
            (n % cfg.INODES_PER_BLOCK) b → fb'.getD b false = fb.getD b false) := by
  obtain ⟨fb', h1, h2, h3⟩ := fs_remove_bitmap cfg fs d fb n hfs hfb hlen hfblen hrem
  refine ⟨fb', h1, h2, fun b hb => ⟨fun hu => (h3 b hb).mpr (Or.inr hu), fun hu => ?_⟩⟩
  have := h3 b hb
  cases h : fb.getD b false
  · cases h' : fb'.getD b false
    · rfl
    · rcases this.mp h' with h'' | h''
      · rw [h] at h''; exact absurd h'' (by decide)
      · exact absurd h'' hu
  · exact this.mpr (Or.inl h)

/-- Witness of C15: removing inode 0 of the mounted sample volume. -/
theorem fs_remove_clears_inode_witness :
    smallConfig.WF ∧
    sampleSession.disk = some ⟨8, 3, 0, sampleVolume.data⟩ ∧
    (fs_remove smallConfig sampleSession 0).1 = true ∧
    ∃ d', (fs_remove smallConfig sampleSession 0).2.disk = some d' ∧ d'.blocks = 8 ∧
      inode_valid smallConfig (d'.data.getD (0 / smallConfig.INODES_PER_BLOCK + 1) [])
        (0 % smallConfig.INODES_PER_BLOCK) = 0 ∧
      inode_size smallConfig (d'.data.getD (0 / smallConfig.INODES_PER_BLOCK + 1) [])
        (0 % smallConfig.INODES_PER_BLOCK) = 0 ∧
      (∀ k, k < smallConfig.POINTERS_PER_INODE →
        inode_direct smallConfig (d'.data.getD (0 / smallConfig.INODES_PER_BLOCK + 1) [])
          (0 % smallConfig.INODES_PER_BLOCK) k = 0) ∧
      inode_indirect smallConfig (d'.data.getD (0 / smallConfig.INODES_PER_BLOCK + 1) [])
        (0 % smallConfig.INODES_PER_BLOCK) = 0 ∧
      (fs_stat smallConfig (fs_remove smallConfig sampleSession 0).2 0).1 = -1 ∧
      (∀ j, j ≠ 0 % smallConfig.INODES_PER_BLOCK →
        inode_valid smallConfig (d'.data.getD (0 / smallConfig.INODES_PER_BLOCK + 1) []) j
          = inode_valid smallConfig
            (sampleVolume.data.getD (0 / smallConfig.INODES_PER_BLOCK + 1) []) j ∧
        inode_size smallConfig (d'.data.getD (0 / smallConfig.INODES_PER_BLOCK + 1) []) j
          = inode_size smallConfig
            (sampleVolume.data.getD (0 / smallConfig.INODES_PER_BLOCK + 1) []) j ∧
        (∀ k, k < smallConfig.POINTERS_PER_INODE →
          inode_direct smallConfig (d'.data.getD (0 / smallConfig.INODES_PER_BLOCK + 1) []) j k
            = inode_direct smallConfig
              (sampleVolume.data.getD (0 / smallConfig.INODES_PER_BLOCK + 1) []) j k) ∧
        inode_indirect smallConfig (d'.data.getD (0 / smallConfig.INODES_PER_BLOCK + 1) []) j
          = inode_indirect smallConfig
            (sampleVolume.data.getD (0 / smallConfig.INODES_PER_BLOCK + 1) []) j) ∧
      ∀ b, b ≠ 0 / smallConfig.INODES_PER_BLOCK + 1 →
        d'.data.getD b [] = sampleVolume.data.getD b [] :=
  ⟨by decide, by decide, by decide,
    fs_remove_clears_inode smallConfig (by decide) sampleSession ⟨8, 3, 0, sampleVolume.data⟩
      [false, false, false, false, false, false, true, true] 0 (by decide) (by decide)
      (by decide) (by decide) (by decide)⟩

/-- Witness of C14: removing inode 0 of the mounted sample volume frees blocks 2, 3, 4
and 5. -/
theorem fs_remove_frees_blocks_witness :
    sampleSession.disk = some ⟨8, 3, 0, sampleVolume.data⟩ ∧
    sampleSession.free_blocks = some [false, false, false, false, false, false, true, true] ∧
    InodeInRange smallConfig ⟨8, 3, 0, sampleVolume.data⟩
      (sampleVolume.data.getD (0 / smallConfig.INODES_PER_BLOCK + 1) [])
      (0 % smallConfig.INODES_PER_BLOCK) ∧
    (fs_remove smallConfig sampleSession 0).1 = true ∧
    ∃ fb', (fs_remove smallConfig sampleSession 0).2.free_blocks = some fb' ∧ fb'.length = 8 ∧
      ∀ b, b < 8 →
        (InodeUses smallConfig ⟨8, 3, 0, sampleVolume.data⟩
            (sampleVolume.data.getD (0 / smallConfig.INODES_PER_BLOCK + 1) [])
            (0 % smallConfig.INODES_PER_BLOCK) b → fb'.getD b false = true) ∧
        (¬ InodeUses smallConfig ⟨8, 3, 0, sampleVolume.data⟩
            (sampleVolume.data.getD (0 / smallConfig.INODES_PER_BLOCK + 1) [])
            (0 % smallConfig.INODES_PER_BLOCK) b →
          fb'.getD b false
            = [false, false, false, false, false, false, true, true].getD b false) :=
  ⟨by decide, by decide, by decide, by decide,
    fs_remove_frees_blocks smallConfig sampleSession ⟨8, 3, 0, sampleVolume.data⟩
      [false, false, false, false, false, false, true, true] 0 (by decide) (by decide)
      (by decide) (by decide) (by decide) (by decide)⟩

/-- C14, the claim as stated fails: on the volume whose two valid inodes both name block 2,
`fs_mount` succeeds and marks block 2 used, `fs_remove 0` returns true, and afterwards
block 2 is marked free although inode 1 is still valid on the device and still
references it. -/
theorem fs_remove_frees_shared_block :
    (fs_mount smallConfig freshSession (some sharedVolume)).1 = true ∧
    InodeUses smallConfig (deviceOf sharedSession) ((deviceOf sharedSession).data.getD 1 []) 0 2 ∧
    InodeUses smallConfig (deviceOf sharedSession) ((deviceOf sharedSession).data.getD 1 []) 1 2 ∧
    (bitmapOf sharedSession).getD 2 false = false ∧
    (fs_remove smallConfig sharedSession 0).1 = true ∧
    InodeUses smallConfig (deviceOf (fs_remove smallConfig sharedSession 0).2)
      ((deviceOf (fs_remove smallConfig sharedSession 0).2).data.getD 1 []) 1 2 ∧
    (bitmapOf (fs_remove smallConfig sharedSession 0).2).getD 2 false = true := by
  decide

/-! ## `fs_create` -/

theorem create_find_some (cfg : Config) (B : Block) (n : Nat) : ∀ (i j : Nat),
    create_find cfg B n i = some j →
    i ≤ j ∧ j < i + n ∧ inode_valid cfg B j = 0 ∧
      ∀ j', i ≤ j' → j' < j → inode_valid cfg B j' ≠ 0 := by
  induction n with
  | zero => intro i j h; simp [create_find] at h
  | succ n ih =>
    intro i j h
    rw [create_find] at h
    by_cases hc : inode_valid cfg B i = 0
    · rw [if_pos hc] at h
      injection h with h
      subst h
      exact ⟨le_refl _, by omega, hc, fun j' h1 h2 => by omega⟩
    · rw [if_neg hc] at h
      obtain ⟨h1, h2, h3, h4⟩ := ih (i + 1) j h
      refine ⟨by omega, by omega, h3, ?_⟩
      intro j' hj1 hj2
      by_cases hj : j' = i
      · subst hj; exact hc
      · exact h4 j' (by omega) hj2

theorem create_find_none (cfg : Config) (B : Block) (n : Nat) : ∀ (i : Nat),
    create_find cfg B n i = none → ∀ j, i ≤ j → j < i + n → inode_valid cfg B j ≠ 0 := by
  induction n with
  | zero => intro i _ j h1 h2; omega
  | succ n ih =>
    intro i h j h1 h2
    rw [create_find] at h
    by_cases hc : inode_valid cfg B i = 0
    · rw [if_pos hc] at h; exact absurd h (by simp)
    · rw [if_neg hc] at h
      by_cases hj : j = i
      · subst hj; exact hc
      · exact ih (i + 1) h j (by omega) (by omega)

/-- The scan of `fs_create` over the table blocks `blk .. blk + n - 1` of a device on
which they all exist: either every slot is valid and the result is `-1`, or the first
slot in scan order whose `valid` field is zero is found in table block `i`, slot `j`; the
result is then `j + i * INODES_PER_BLOCK` and the block read, with the flag set, is
written to device block `i / INODES_PER_BLOCK + 1`. -/
theorem create_scan_spec (cfg : Config) (fbs : Option (List Bool)) (m : SuperBlock) (n : Nat) :
    ∀ (blk : Nat) (d : Disk), d.data.length = d.blocks → blk + n + 1 ≤ d.blocks →
    ((create_scan cfg n blk ⟨some d, fbs, m⟩).1 = -1 ∧
      ∀ i, blk ≤ i → i < blk + n → ∀ j, j < cfg.INODES_PER_BLOCK →
        inode_valid cfg (d.data.getD (i + 1) []) j ≠ 0) ∨
    (∃ i j, blk ≤ i ∧ i < blk + n ∧ j < cfg.INODES_PER_BLOCK ∧
      inode_valid cfg (d.data.getD (i + 1) []) j = 0 ∧
      (∀ j', j' < j → inode_valid cfg (d.data.getD (i + 1) []) j' ≠ 0) ∧
      (∀ i', blk ≤ i' → i' < i → ∀ j', j' < cfg.INODES_PER_BLOCK →
        inode_valid cfg (d.data.getD (i' + 1) []) j' ≠ 0) ∧
      ∃ r w, create_scan cfg n blk ⟨some d, fbs, m⟩
        = (((j + i * cfg.INODES_PER_BLOCK : Nat) : Int),
          ⟨some ⟨d.blocks, r, w, d.data.set (i / cfg.INODES_PER_BLOCK + 1)
            (set_inode_valid cfg (d.data.getD (i + 1) []) j 1)⟩, fbs, m⟩)) := by
  induction n with
  | zero =>
    intro blk d _ _
    exact Or.inl ⟨rfl, fun i h1 h2 => by omega⟩
  | succ n ih =>
    intro blk d hlen hfit
    rw [create_scan]
    simp only [disk_read_ok cfg d (blk + 1) _ hlen (by omega),
      if_neg (block_size_ne_failure cfg)]
    cases hf : create_find cfg (d.data.getD (blk + 1) []) cfg.INODES_PER_BLOCK 0 with
    | some j =>
      obtain ⟨_, h2, h3, h4⟩ := create_find_some cfg _ _ 0 j hf
      have hw : blk / cfg.INODES_PER_BLOCK + 1 < d.blocks := by
        have := Nat.div_le_self blk cfg.INODES_PER_BLOCK
        omega
      have hlen1 : (⟨d.blocks, d.reads + 1, d.writes, d.data⟩ : Disk).data.length
          = (⟨d.blocks, d.reads + 1, d.writes, d.data⟩ : Disk).blocks := hlen
      simp only [disk_write_ok cfg ⟨d.blocks, d.reads + 1, d.writes, d.data⟩ _ _ hlen1 hw,
        if_neg (block_size_ne_failure cfg)]
      exact Or.inr ⟨blk, j, le_refl _, by omega, by omega, h3,
        fun j' hj' => h4 j' (Nat.zero_le _) hj', fun i' h1 h2 => by omega, _, _, rfl⟩
    | none =>
      have hall := create_find_none cfg _ _ 0 hf
      simp only
      have hlen1 : (⟨d.blocks, d.reads + 1, d.writes, d.data⟩ : Disk).data.length
          = (⟨d.blocks, d.reads + 1, d.writes, d.data⟩ : Disk).blocks := hlen
      rcases ih (blk + 1) ⟨d.blocks, d.reads + 1, d.writes, d.data⟩ hlen1
        (by simp only; omega) with ⟨h1, h2⟩ | ⟨i, j, h1, h2, h3, h4, h5, h6, r, w, h7⟩
      · refine Or.inl ⟨h1, ?_⟩
        intro i hi1 hi2 j hj
        by_cases hib : i = blk
        · subst hib; exact hall j (Nat.zero_le _) (by omega)
        · exact h2 i (by omega) (by omega) j hj
      · refine Or.inr ⟨i, j, by omega, by omega, h3, h4, h5, ?_, r, w, h7⟩
        intro i' hi1 hi2 j' hj'
        by_cases hib : i' = blk
        · subst hib; exact hall j' (Nat.zero_le _) (by omega)
        · exact h6 i' (by omega) hi2 j' hj'

/-- C11: create is first-fit over the flat inode space. On a mounted volume (device as
opened, the `inode_blocks` table blocks on the device, `inodes` the number of their
slots) `fs_create` returns `-1` if and only if every slot of every inode-table block is
valid, and otherwise returns the smallest inode number `n < inodes` whose on-disk slot
(slot `n mod INODES_PER_BLOCK` of table block `n / INODES_PER_BLOCK`) has
`valid == 0`. -/
theorem fs_create_first_fit (cfg : Config) (hipb : 0 < cfg.INODES_PER_BLOCK)
    (fs : FileSystem) (d : Disk) (hfs : fs.disk = some d) (hlen : d.data.length = d.blocks)
    (hinodes : fs.meta_data.inodes = fs.meta_data.inode_blocks * cfg.INODES_PER_BLOCK)
    (hfit : fs.meta_data.inode_blocks + 1 ≤ d.blocks) :
    ((fs_create cfg fs).1 = -1 ↔
      ∀ n, n < fs.meta_data.inodes →
        inode_valid cfg (d.data.getD (n / cfg.INODES_PER_BLOCK + 1) [])
          (n % cfg.INODES_PER_BLOCK) ≠ 0) ∧
    ((fs_create cfg fs).1 ≠ -1 →
      ∃ n : Nat, (fs_create cfg fs).1 = (n : Int) ∧ n < fs.meta_data.inodes ∧
        inode_valid cfg (d.data.getD (n / cfg.INODES_PER_BLOCK + 1) [])
          (n % cfg.INODES_PER_BLOCK) = 0 ∧
        ∀ n', n' < n →
          inode_valid cfg (d.data.getD (n' / cfg.INODES_PER_BLOCK + 1) [])
            (n' % cfg.INODES_PER_BLOCK) ≠ 0) := by
  obtain ⟨disk, fbs, m⟩ := fs
  simp only at hfs hinodes hfit ⊢
  subst hfs
  unfold fs_create
  simp only
  rcases create_scan_spec cfg fbs m m.inode_blocks 0 d hlen (by omega)
    with ⟨h1, h2⟩ | ⟨i, j, _, h2, h3, h4, h5, h6, r, w, h7⟩
  · have hall : ∀ n, n < m.inodes →
        inode_valid cfg (d.data.getD (n / cfg.INODES_PER_BLOCK + 1) [])
          (n % cfg.INODES_PER_BLOCK) ≠ 0 := by
      intro n hn
      have hdiv : n / cfg.INODES_PER_BLOCK < m.inode_blocks := by
        apply Nat.div_lt_of_lt_mul
        rw [Nat.mul_comm, ← hinodes]
        exact hn
      exact h2 _ (Nat.zero_le _) (by omega) _ (Nat.mod_lt _ hipb)
    exact ⟨⟨fun _ => hall, fun _ => h1⟩, fun h => absurd h1 h⟩
  · have hdiv : (j + i * cfg.INODES_PER_BLOCK) / cfg.INODES_PER_BLOCK = i := by
      rw [Nat.add_mul_div_right _ _ hipb, Nat.div_eq_of_lt h3, Nat.zero_add]
    have hmod : (j + i * cfg.INODES_PER_BLOCK) % cfg.INODES_PER_BLOCK = j := by
      rw [Nat.add_mul_mod_self_right, Nat.mod_eq_of_lt h3]
    have hlt : j + i * cfg.INODES_PER_BLOCK < m.inodes := by
      rw [hinodes]
      have h1 : (i + 1) * cfg.INODES_PER_BLOCK ≤ m.inode_blocks * cfg.INODES_PER_BLOCK :=
        Nat.mul_le_mul_right _ (by omega)
      rw [Nat.succ_mul] at h1
      omega
    have hfree : inode_valid cfg
        (d.data.getD ((j + i * cfg.INODES_PER_BLOCK) / cfg.INODES_PER_BLOCK + 1) [])
        ((j + i * cfg.INODES_PER_BLOCK) % cfg.INODES_PER_BLOCK) = 0 := by
      rw [hdiv, hmod]; exact h4
    rw [h7]
    simp only
    refine ⟨⟨fun h => ?_, fun h => absurd hfree (h _ hlt)⟩, fun _ =>
      ⟨j + i * cfg.INODES_PER_BLOCK, rfl, hlt, hfree, ?_⟩⟩
    · omega
    · intro n' hn'
      have hle : n' / cfg.INODES_PER_BLOCK ≤ i := by
        have := Nat.div_le_div_right (c := cfg.INODES_PER_BLOCK) (Nat.le_of_lt hn')
        rw [hdiv] at this
        exact this
      rcases Nat.lt_or_eq_of_le hle with hlt' | heq
      · exact h6 _ (Nat.zero_le _) hlt' _ (Nat.mod_lt _ hipb)
      · rw [heq]
        apply h5
        have hdm := Nat.div_add_mod n' cfg.INODES_PER_BLOCK
        rw [heq, Nat.mul_comm] at hdm
        omega

/-- Witness of C11 on the mounted sample volume, whose inode 0 is valid and whose
inode 1 is free. -/
theorem fs_create_first_fit_witness :
    sampleSession.disk = some ⟨8, 3, 0, sampleVolume.data⟩ ∧
    (fs_create smallConfig sampleSession).1 = 1 ∧
    ((fs_create smallConfig sampleSession).1 = -1 ↔
      ∀ n, n < sampleSession.meta_data.inodes →
        inode_valid smallConfig (sampleVolume.data.getD (n / smallConfig.INODES_PER_BLOCK + 1) [])
          (n % smallConfig.INODES_PER_BLOCK) ≠ 0) ∧
    ((fs_create smallConfig sampleSession).1 ≠ -1 →
      ∃ n : Nat, (fs_create smallConfig sampleSession).1 = (n : Int) ∧
        n < sampleSession.meta_data.inodes ∧
        inode_valid smallConfig (sampleVolume.data.getD (n / smallConfig.INODES_PER_BLOCK + 1) [])
          (n % smallConfig.INODES_PER_BLOCK) = 0 ∧
        ∀ n', n' < n →
          inode_valid smallConfig
            (sampleVolume.data.getD (n' / smallConfig.INODES_PER_BLOCK + 1) [])
            (n' % smallConfig.INODES_PER_BLOCK) ≠ 0) :=
  ⟨by decide, by decide,
    fs_create_first_fit smallConfig (by decide) sampleSession ⟨8, 3, 0, sampleVolume.data⟩
      (by decide) (by decide) (by decide) (by decide)⟩

/-- The session after `fs_format` and `fs_mount` of a device of at least two blocks on an
unmounted session: the device holds the super block and zero blocks, the bitmap has the
super block and the inode table in use and every other block free. -/
theorem fresh_volume_state (cfg : Config) (hcfg : cfg.WF) (fs : FileSystem)
    (hfs : fs.disk = none) (d : Disk) (hlen : d.data.length = d.blocks)
    (h2 : 2 ≤ d.blocks) (h32 : d.blocks < 2 ^ 32) :
    ∃ d1, freshVolume cfg fs d
        = ⟨some d1,
          some (List.replicate ((d.blocks + 9) / 10 + 1) false
            ++ List.replicate (d.blocks - ((d.blocks + 9) / 10 + 1)) true),
          ⟨cfg.MAGIC_NUMBER, d.blocks, (d.blocks + 9) / 10,
            ((d.blocks + 9) / 10 * cfg.INODES_PER_BLOCK) % 2 ^ 32⟩⟩ ∧
      d1.blocks = d.blocks ∧
      d1.data = format_super cfg d.blocks :: List.replicate (d.blocks - 1) (zeroBlock cfg) := by
  have hmount := fs_mount_formatted_ok cfg hcfg fs hfs d.blocks d.reads (d.writes + d.blocks)
    h2 h32
  unfold freshVolume
  rw [fs_format_ok cfg fs d hfs hlen (by omega)]
  simp only
  have hlenF : (format_super cfg d.blocks :: List.replicate (d.blocks - 1) (zeroBlock cfg)).length
      = d.blocks := by
    simp only [List.length_cons, List.length_replicate]; omega
  obtain ⟨_, _, _, _, _, _, hib, d1, fb, _, e2, e3, e4, e5, e6⟩ :=
    fs_mount_true cfg fs _ hlenF hmount
  have h0 : ∀ (l : List Block), (format_super cfg d.blocks :: l).getD 0 []
      = format_super cfg d.blocks := fun _ => rfl
  have hibv : format_ceil d.blocks = (d.blocks + 9) / 10 := by
    rw [format_ceil_eq, Nat.mod_eq_of_lt (by omega)]
  have hsup := format_super_fields cfg hcfg d.blocks
  rw [hibv, Nat.mod_eq_of_lt h32] at hsup
  simp only [h0, hsup] at e2 e3 e4 e5 e6 hib
  have hz : ∀ k, 1 ≤ k → k < d.blocks →
      (format_super cfg d.blocks :: List.replicate (d.blocks - 1) (zeroBlock cfg)).getD k []
        = zeroBlock cfg := fun k hk1 hk2 => volume_getD_succ cfg _ d.blocks k hk1 hk2
  have hget : ∀ b, b < d.blocks → (fb.getD b true = false ↔ b ≤ (d.blocks + 9) / 10) := by
    intro b hb
    rw [e6 b hb]
    exact inUse_blank cfg ⟨d.blocks, d.reads, d.writes + d.blocks,
      format_super cfg d.blocks :: List.replicate (d.blocks - 1) (zeroBlock cfg)⟩ _ b hib hz
  have hfb : fb = List.replicate ((d.blocks + 9) / 10 + 1) false
      ++ List.replicate (d.blocks - ((d.blocks + 9) / 10 + 1)) true := by
    apply list_ext_getD _ _ true
    · simp only [List.length_append, List.length_replicate]; omega
    · intro b hb
      rw [getD_append_replicate]
      have := hget b (by omega)
      by_cases hc : b ≤ (d.blocks + 9) / 10
      · rw [this.mpr hc]; simp; omega
      · have h1 : fb.getD b true = true := by
          cases hfb : fb.getD b true
          · exact absurd (this.mp hfb) hc
          · rfl
        rw [h1]; simp; omega
  refine ⟨d1, ?_, e2, e3⟩
  rw [e4, hfb]

/-! ## Consecutive calls of `fs_create` -/

theorem tableBlock_succ (cfg : Config) (j : Nat) :
    tableBlock cfg (j + 1) = set_inode_valid cfg (tableBlock cfg j) j 1 := by
  unfold tableBlock
  rw [List.range_succ, List.foldl_append]
  rfl

theorem tableBlock_length (cfg : Config) (j : Nat) :
    (tableBlock cfg j).length = cfg.BLOCK_SIZE := by
  induction j with
  | zero => exact zeroBlock_length cfg
  | succ j ih => rw [tableBlock_succ, set_inode_valid_length, ih]

theorem tableBlock_valid (cfg : Config) (hcfg : cfg.WF) (s : Nat)
    (hs : s < cfg.INODES_PER_BLOCK) : ∀ j, j ≤ cfg.INODES_PER_BLOCK →
    inode_valid cfg (tableBlock cfg j) s = if s < j then 1 else 0 := by
  intro j
  induction j with
  | zero =>
    intro _
    rw [if_neg (by omega)]
    exact get32_zeroBlock cfg _
  | succ j ih =>
    intro hj
    rw [tableBlock_succ]
    unfold inode_valid set_inode_valid
    by_cases hsj : s = j
    · subst hsj
      rw [get32_set32_same _ _ _ (by
        rw [tableBlock_length]
        have := inode_word_bound cfg hcfg s 0 hs (by unfold inodeWords; omega)
        omega), if_pos (by omega)]
      rfl
    · have hW : 0 < inodeWords cfg := by unfold inodeWords; omega
      have hne : j * inodeWords cfg ≠ s * inodeWords cfg := by
        have := slot_disjoint (inodeWords cfg) s j 0 hsj hW
        omega
      rw [get32_set32_ne _ _ _ _ hne]
      have := ih (by omega)
      unfold inode_valid at this
      rw [this]
      by_cases h1 : s < j
      · rw [if_pos h1, if_pos (by omega)]
      · rw [if_neg h1, if_neg (by omega)]

/-- With the first `j` slots of table block 1 valid and a free slot left in it,
`fs_create` returns `j` and sets the flag of slot `j` in block 1. -/
theorem create_step_first (cfg : Config) (hcfg : cfg.WF) (d : Disk)
    (fbs : Option (List Bool)) (m : SuperBlock) (j : Nat) (hj : j < cfg.INODES_PER_BLOCK)
    (hst : TableState cfg d j) (hib : 1 ≤ m.inode_blocks) (hfit : m.inode_blocks + 1 ≤ d.blocks) :
    ∃ d', fs_create cfg ⟨some d, fbs, m⟩ = ((j : Int), ⟨some d', fbs, m⟩) ∧
      d'.blocks = d.blocks ∧ TableState cfg d' (j + 1) := by
  obtain ⟨hlen, h2, hb1, hb2⟩ := hst
  have hvj : inode_valid cfg (d.data.getD (0 + 1) []) j = 0 := by
    rw [Nat.zero_add, hb1, tableBlock_valid cfg hcfg j hj j (by omega), if_neg (by omega)]
  unfold fs_create
  simp only
  rcases create_scan_spec cfg fbs m m.inode_blocks 0 d hlen (by omega)
    with ⟨_, h2'⟩ | ⟨i, j', _, _, h3, h4, h5, h6, r, w, h7⟩
  · exact absurd hvj (h2' 0 (le_refl _) (by omega) j hj)
  · have hi : i = 0 := by
      by_contra hne
      exact absurd hvj (h6 0 (le_refl _) (by omega) j hj)
    subst hi
    have hjj : j' = j := by
      rw [Nat.zero_add, hb1, tableBlock_valid cfg hcfg j' h3 j (by omega)] at h4
      have h8 : ¬ j' < j := fun h => by rw [if_pos h] at h4; omega
      have h9 : ¬ j < j' := fun h => absurd hvj (h5 j h)
      omega
    subst hjj
    rw [h7]
    simp only [Nat.zero_mul, Nat.add_zero, Nat.zero_div, Nat.zero_add, hb1, ← tableBlock_succ]
    have h1l : 1 < d.data.length := by omega
    refine ⟨_, rfl, rfl, ?_, h2, ?_, ?_⟩
    · simp only [List.length_set]; exact hlen
    · simp only [getD_set_data _ _ _ _ h1l, if_pos]
    · simp only [getD_set_data _ _ _ _ h1l, if_neg (by omega : ¬ (1 = 2))]
      exact hb2

/-- With every slot of table block 1 valid and table block 2 all zero, `fs_create`
returns `INODES_PER_BLOCK`, the first inode of table block 2, but writes the block it
read, with the flag set, to block 1: block 2 stays zero and block 1 is left with only
its first slot valid. -/
theorem create_step_second (cfg : Config) (hcfg : cfg.WF) (hipb : 2 ≤ cfg.INODES_PER_BLOCK)
    (d : Disk) (fbs : Option (List Bool)) (m : SuperBlock)
    (hst : TableState cfg d cfg.INODES_PER_BLOCK) (hib : 2 ≤ m.inode_blocks)
    (hfit : m.inode_blocks + 1 ≤ d.blocks) :
    ∃ d', fs_create cfg ⟨some d, fbs, m⟩
        = ((cfg.INODES_PER_BLOCK : Int), ⟨some d', fbs, m⟩) ∧
      d'.blocks = d.blocks ∧ TableState cfg d' 1 := by
  obtain ⟨hlen, h2, hb1, hb2⟩ := hst
  have hv1 : ∀ s, s < cfg.INODES_PER_BLOCK → inode_valid cfg (d.data.getD (0 + 1) []) s ≠ 0 := by
    intro s hs
    rw [Nat.zero_add, hb1, tableBlock_valid cfg hcfg s hs _ (le_refl _), if_pos hs]
    omega
  have hv2 : ∀ s, inode_valid cfg (d.data.getD (1 + 1) []) s = 0 := by
    intro s
    rw [hb2]
    exact get32_zeroBlock cfg _
  unfold fs_create
  simp only
  rcases create_scan_spec cfg fbs m m.inode_blocks 0 d hlen (by omega)
    with ⟨_, h2'⟩ | ⟨i, j', _, _, h3, h4, h5, h6, r, w, h7⟩
  · exact absurd (hv2 0) (h2' 1 (by omega) (by omega) 0 (by omega))
  · have hi0 : i ≠ 0 := by
      intro h
      subst h
      exact absurd h4 (hv1 j' h3)
    have hi : i = 1 := by
      by_contra hne
      exact absurd (hv2 0) (h6 1 (by omega) (by omega) 0 (by omega))
    subst hi
    have hjj : j' = 0 := by
      by_contra hne
      exact absurd (hv2 0) (h5 0 (by omega))
    subst hjj
    rw [h7]
    have hdiv : 1 / cfg.INODES_PER_BLOCK = 0 := Nat.div_eq_of_lt (by omega)
    have htb : set_inode_valid cfg (zeroBlock cfg) 0 1 = tableBlock cfg 1 := by
      rw [tableBlock_succ]; rfl
    simp only [Nat.one_mul, Nat.zero_add, hdiv, hb2, htb]
    have h1l : 1 < d.data.length := by omega
    refine ⟨_, rfl, rfl, ?_, h2, ?_, ?_⟩
    · simp only [List.length_set]; exact hlen
    · simp only [getD_set_data _ _ _ _ h1l, if_pos]
    · simp only [getD_set_data _ _ _ _ h1l, if_neg (by omega : ¬ (1 = 2))]
      exact hb2

theorem fs_creates_add (cfg : Config) (a b : Nat) : ∀ (fs : FileSystem),
    fs_creates cfg (a + b) fs
      = ((fs_creates cfg a fs).1 ++ (fs_creates cfg b (fs_creates cfg a fs).2).1,
        (fs_creates cfg b (fs_creates cfg a fs).2).2) := by
  induction a with
  | zero => intro fs; simp only [Nat.zero_add, fs_creates, List.nil_append]
  | succ a ih =>
    intro fs
    rw [Nat.add_right_comm, fs_creates, ih]
    simp only [fs_creates, List.cons_append]

/-- While table block 1 has free slots, consecutive calls of `fs_create` return
consecutive inode numbers. -/
theorem fs_creates_first_block (cfg : Config) (hcfg : cfg.WF) (fbs : Option (List Bool))
    (m : SuperBlock) (hib : 1 ≤ m.inode_blocks) (k : Nat) :
    ∀ (j : Nat) (d : Disk), j + k ≤ cfg.INODES_PER_BLOCK → TableState cfg d j →
    m.inode_blocks + 1 ≤ d.blocks →
    ∃ d', fs_creates cfg k ⟨some d, fbs, m⟩
        = ((List.range' j k).map Int.ofNat, ⟨some d', fbs, m⟩) ∧
      d'.blocks = d.blocks ∧ TableState cfg d' (j + k) := by
  induction k with
  | zero => intro j d _ hst _; exact ⟨d, rfl, rfl, hst⟩
  | succ k ih =>
    intro j d hjk hst hfit
    obtain ⟨d1, e1, e2, e3⟩ := create_step_first cfg hcfg d fbs m j (by omega) hst hib hfit
    obtain ⟨d2, f1, f2, f3⟩ := ih (j + 1) d1 (by omega) e3 (by omega)
    refine ⟨d2, ?_, by omega, by rw [← Nat.add_assoc, Nat.add_right_comm]; exact f3⟩
    rw [fs_creates, e1]
    simp only [f1, List.range'_succ, List.map_cons]
    rfl

/-- On a freshly formatted and mounted device of at least 11 blocks (two inode-table
blocks) with at least two inodes per block, the first `INODES_PER_BLOCK + 1` calls of
`fs_create` return `0, 1, .., INODES_PER_BLOCK`; the last of them leaves table block 2,
which holds the inode it returned, all zero, and leaves table block 1 with only slot 0
valid. -/
theorem fs_creates_fresh (cfg : Config) (hcfg : cfg.WF) (hipb : 2 ≤ cfg.INODES_PER_BLOCK)
    (fs : FileSystem) (hfs : fs.disk = none) (d : Disk) (hlen : d.data.length = d.blocks)
    (h11 : 11 ≤ d.blocks) (h32 : d.blocks < 2 ^ 32) :
    ∃ d' fbs m, fs_creates cfg (cfg.INODES_PER_BLOCK + 1) (freshVolume cfg fs d)
        = ((List.range (cfg.INODES_PER_BLOCK + 1)).map Int.ofNat,
          ⟨some d', fbs, m⟩) ∧
      TableState cfg d' 1 ∧ 2 ≤ m.inode_blocks ∧ m.inode_blocks + 1 ≤ d'.blocks := by
  obtain ⟨d1, e1, e2, e3⟩ := fresh_volume_state cfg hcfg fs hfs d hlen (by omega) h32
  have hst0 : TableState cfg d1 0 := by
    refine ⟨?_, by omega, ?_, ?_⟩
    · rw [e3, e2]; simp only [List.length_cons, List.length_replicate]; omega
    · rw [e3]; exact volume_getD_succ cfg _ d.blocks 1 (by omega) (by omega)
    · rw [e3]; exact volume_getD_succ cfg _ d.blocks 2 (by omega) (by omega)
  rw [e1]
  generalize (some (List.replicate ((d.blocks + 9) / 10 + 1) false
    ++ List.replicate (d.blocks - ((d.blocks + 9) / 10 + 1)) true) : Option (List Bool)) = fbs
  obtain ⟨m, hm1, hm2⟩ : ∃ m : SuperBlock,
      m = ⟨cfg.MAGIC_NUMBER, d.blocks, (d.blocks + 9) / 10,
        ((d.blocks + 9) / 10 * cfg.INODES_PER_BLOCK) % 2 ^ 32⟩ ∧
      m.inode_blocks = (d.blocks + 9) / 10 := ⟨_, rfl, rfl⟩
  rw [← hm1]
  obtain ⟨d2, f1, f2, f3⟩ := fs_creates_first_block cfg hcfg fbs m (by omega)
    cfg.INODES_PER_BLOCK 0 d1 (by omega) hst0 (by omega)
  rw [Nat.zero_add] at f3
  obtain ⟨d3, g1, g2, g3⟩ := create_step_second cfg hcfg hipb d2 fbs m f3 (by omega) (by omega)
  refine ⟨d3, fbs, m, ?_, g3, by omega, by omega⟩
  rw [fs_creates_add, f1]
  simp only [fs_creates, g1, List.range_succ, List.map_append, List.map_cons, List.map_nil,
    List.range_eq_range']
  rfl

/-- C13, the code at a failing input: on a freshly formatted and mounted device of 20
blocks with the usual constants (2 inode-table blocks, 256 inodes, 128 per block), 130
consecutive calls of `fs_create` return `0, 1, .., 128` and then `1` again: the 130th
call returns the inode number the second call returned, not 129. -/
theorem fs_create_repeats_inode :
    (freshVolume stdConfig freshSession (blankDisk stdConfig 20)).meta_data.inodes = 256 ∧
    (fs_creates stdConfig 130 (freshVolume stdConfig freshSession (blankDisk stdConfig 20))).1
      = (List.range 129).map Int.ofNat ++ [1] := by
  have hlen : (blankDisk stdConfig 20).data.length = (blankDisk stdConfig 20).blocks := by
    simp [blankDisk]
  constructor
  · obtain ⟨d1, e1, _, _⟩ := fresh_volume_state stdConfig (by decide) freshSession rfl
      (blankDisk stdConfig 20) hlen (by decide) (by decide)
    rw [e1]
    rfl
  · obtain ⟨d', fbs, m, e, hst, hib, hfit⟩ := fs_creates_fresh stdConfig (by decide) (by decide)
      freshSession rfl (blankDisk stdConfig 20) hlen (by decide) (by decide)
    obtain ⟨d2, g1, _, _⟩ := create_step_first stdConfig (by decide) d' fbs m 1 (by decide) hst
      (by omega) hfit
    have e' : fs_creates stdConfig 129 (freshVolume stdConfig freshSession
        (blankDisk stdConfig 20))
        = ((List.range 129).map Int.ofNat, ⟨some d', fbs, m⟩) := e
    rw [fs_creates_add stdConfig 129 1, e']
    simp only [fs_creates, g1]
    rfl

/-- C12, the code at a failing input: on a freshly formatted and mounted device of 20
blocks with the usual constants, the 129th consecutive call of `fs_create` returns 128,
and immediately afterwards the on-disk inode 128 (slot 0 of inode-table block
`1 + 128 / 128`) still has `valid == 0` and `fs_stat 128` returns `-1`: the call wrote
the block it had claimed the slot in to block 1 instead. -/
theorem fs_create_not_persisted :
    (fs_creates stdConfig 129 (freshVolume stdConfig freshSession
      (blankDisk stdConfig 20))).1.getLast? = some 128 ∧
    inode_valid stdConfig
      ((deviceOf (fs_creates stdConfig 129 (freshVolume stdConfig freshSession
        (blankDisk stdConfig 20))).2).data.getD (1 + 128 / stdConfig.INODES_PER_BLOCK) [])
      (128 % stdConfig.INODES_PER_BLOCK) = 0 ∧
    (fs_stat stdConfig (fs_creates stdConfig 129 (freshVolume stdConfig freshSession
      (blankDisk stdConfig 20))).2 128).1 = -1 := by
  have hlen : (blankDisk stdConfig 20).data.length = (blankDisk stdConfig 20).blocks := by
    simp [blankDisk]
  obtain ⟨d', fbs, m, e, hst, hib, hfit⟩ := fs_creates_fresh stdConfig (by decide) (by decide)
    freshSession rfl (blankDisk stdConfig 20) hlen (by decide) (by decide)
  have e' : fs_creates stdConfig 129 (freshVolume stdConfig freshSession
      (blankDisk stdConfig 20))
      = ((List.range (128 + 1)).map Int.ofNat, ⟨some d', fbs, m⟩) := e
  obtain ⟨h1, h2, _, h4⟩ := hst
  have hz : inode_valid stdConfig (d'.data.getD 2 []) 0 = 0 := by
    rw [h4]; exact get32_zeroBlock stdConfig _
  rw [e']
  refine ⟨?_, hz, ?_⟩
  · simp only [List.range_succ, List.map_append, List.map_cons, List.map_nil,
      List.getLast?_append, List.getLast?_singleton]
    rfl
  · rw [fs_stat_eq stdConfig _ d' 128 rfl h1 (by
      show 128 / 128 + 1 < d'.blocks
      omega)]
    exact if_neg (not_not.mpr hz)

/-! ## `fs_write` when the free blocks run out -/

theorem getD_false_of_count_zero (fb : List Bool) (h : fb.count true = 0) (j : Nat) :
    fb.getD j false = false := by
  cases hj : fb.getD j false
  · rfl
  · exfalso
    have hlt : j < fb.length := by
      by_contra hge
      rw [List.getD_eq_default _ _ (by omega)] at hj
      exact absurd hj (by decide)
    have hmem : true ∈ fb := by
      rw [List.getD_eq_getElem _ _ hlt] at hj
      rw [← hj]
      exact List.getElem_mem _
    exact (List.count_eq_zero.mp h) hmem

theorem gimme_scan_all_false (fb : List Bool) (h : ∀ j, fb.getD j false = false) (n : Nat) :
    ∀ i, gimme_scan fb n i = none := by
  induction n with
  | zero => intro i; rfl
  | succ n ih =>
    intro i
    rw [gimme_scan, if_neg (by rw [h i]; decide)]
    exact ih (i + 1)

/-- With no free bit in the bitmap `gimme_block` returns the sentinel and changes
nothing. -/
theorem gimme_block_none (d : Disk) (fb : List Bool) (m : SuperBlock)
    (hc : fb.count true = 0) :
    gimme_block ⟨some d, some fb, m⟩ = (none, ⟨some d, some fb, m⟩) := by
  unfold gimme_block
  simp only [gimme_scan_all_false fb (getD_false_of_count_zero fb hc)]

/-- The first half of the body of the loop of `fs_write` assigns, in the inode block, only
fields of the inode it writes to. -/
theorem write_found_frame (cfg : Config) (fs fs1 : FileSystem) (block block1 Dblock : Block)
    (inum k nw blk : Nat)
    (h : (if k < cfg.POINTERS_PER_INODE then write_direct cfg fs block inum k nw
      else write_indirect cfg fs block inum k nw) = .ok (fs1, block1, Dblock, blk)) :
    ∀ w, w < inum * inodeWords cfg ∨ inum * inodeWords cfg + inodeWords cfg ≤ w →
      get32 block1 w = get32 block w := by
  have hW : inodeWords cfg = cfg.POINTERS_PER_INODE + 3 := rfl
  intro w hw
  by_cases hk : k < cfg.POINTERS_PER_INODE
  · rw [if_pos hk] at h
    unfold write_direct at h
    split at h
    · split at h
      · exact absurd h (by simp)
      · simp only [Except.ok.injEq, Prod.mk.injEq] at h
        rw [← h.2.1]
        exact get32_set32_ne _ _ _ _ (by omega)
    · split at h
      split at h
      · exact absurd h (by simp)
      · simp only [Except.ok.injEq, Prod.mk.injEq] at h
        rw [← h.2.1]
  · rw [if_neg hk] at h
    unfold write_indirect at h
    have hfind : ∀ fsa blocka pblocka,
        write_find_indirect cfg fs block inum nw = .ok (fsa, blocka, pblocka) →
        get32 blocka w = get32 block w := by
      intro fsa blocka pblocka hf
      unfold write_find_indirect at hf
      split at hf
      · split at hf
        · exact absurd hf (by simp)
        · simp only [Except.ok.injEq, Prod.mk.injEq] at hf
          rw [← hf.2.1]
          exact get32_set32_ne _ _ _ _ (by omega)
      · split at hf
        split at hf
        · exact absurd hf (by simp)
        · simp only [Except.ok.injEq, Prod.mk.injEq] at hf
          rw [← hf.2.1]
    cases hf : write_find_indirect cfg fs block inum nw with
    | error e => rw [hf] at h; exact absurd h (by simp)
    | ok r =>
      obtain ⟨fsa, blocka, pblocka⟩ := r
      have hfr := hfind fsa blocka pblocka hf
      rw [hf] at h
      simp only at h
      split at h
      · exact absurd h (by simp)
      · split at h
        · exact absurd h (by simp)
        · simp only [Except.ok.injEq, Prod.mk.injEq] at h
          rw [← h.2.1]
          exact hfr

theorem gimme_block_mono (fs : FileSystem) (fb : List Bool) (h : fs.free_blocks = some fb) :
    ∃ fb1, (gimme_block fs).2.free_blocks = some fb1 ∧
      ∀ x, fb1.getD x false = true → fb.getD x false = true := by
  obtain ⟨disk, fbs, m⟩ := fs
  simp only at h
  subst h
  unfold gimme_block
  cases disk with
  | none => exact ⟨fb, rfl, fun _ h => h⟩
  | some d =>
    simp only
    cases hs : gimme_scan fb (d.blocks - 1) 1 with
    | none => exact ⟨fb, rfl, fun _ h => h⟩
    | some i =>
      refine ⟨fb.set i false, rfl, ?_⟩
      intro x hx
      rw [getD_set_eq] at hx
      split at hx
      · exact absurd hx (by decide)
      · exact hx

/-- The first half of the body of the loop of `fs_write` changes the bitmap only by
marking blocks used. -/
theorem write_found_mono (cfg : Config) (fs fs1 : FileSystem) (fb : List Bool)
    (block block1 Dblock : Block) (inum k nw blk : Nat) (hfb : fs.free_blocks = some fb)
    (h : (if k < cfg.POINTERS_PER_INODE then write_direct cfg fs block inum k nw
      else write_indirect cfg fs block inum k nw) = .ok (fs1, block1, Dblock, blk)) :
    ∃ fb1, fs1.free_blocks = some fb1 ∧
      ∀ x, fb1.getD x false = true → fb.getD x false = true := by
  by_cases hk : k < cfg.POINTERS_PER_INODE
  · rw [if_pos hk] at h
    unfold write_direct at h
    split at h
    · obtain ⟨fb1, g1, g2⟩ := gimme_block_mono fs fb hfb
      split at h
      · exact absurd h (by simp)
      · next b fsx heq =>
        simp only [Except.ok.injEq, Prod.mk.injEq] at h
        rw [heq] at g1
        rw [← h.1]
        exact ⟨fb1, g1, g2⟩
    · split at h
      split at h
      · exact absurd h (by simp)
      · simp only [Except.ok.injEq, Prod.mk.injEq] at h
        rw [← h.1]
        exact ⟨fb, hfb, fun _ hx => hx⟩
  · rw [if_neg hk] at h
    unfold write_indirect at h
    have hfind : ∀ fsa blocka pblocka,
        write_find_indirect cfg fs block inum nw = .ok (fsa, blocka, pblocka) →
        ∃ fba, fsa.free_blocks = some fba ∧
          ∀ x, fba.getD x false = true → fb.getD x false = true := by
      intro fsa blocka pblocka hf
      unfold write_find_indirect at hf
      split at hf
      · obtain ⟨fb1, g1, g2⟩ := gimme_block_mono fs fb hfb
        split at hf
        · exact absurd hf (by simp)
        · next b fsx heq =>
          simp only [Except.ok.injEq, Prod.mk.injEq] at hf
          rw [heq] at g1
          rw [← hf.1]
          exact ⟨fb1, g1, g2⟩
      · split at hf
        split at hf
        · exact absurd hf (by simp)
        · simp only [Except.ok.injEq, Prod.mk.injEq] at hf
          rw [← hf.1]
          exact ⟨fb, hfb, fun _ hx => hx⟩
    cases hf : write_find_indirect cfg fs block inum nw with
    | error e => rw [hf] at h; exact absurd h (by simp)
    | ok r =>
      obtain ⟨fsa, blocka, pblocka⟩ := r
      obtain ⟨fba, ga1, ga2⟩ := hfind fsa blocka pblocka hf
      rw [hf] at h
      simp only at h
      split at h
      · exact absurd h (by simp)
      · next fs2 pblock1 Dblock2 heq =>
        have hfs2 : ∃ fb2, fs2.free_blocks = some fb2 ∧
            ∀ x, fb2.getD x false = true → fb.getD x false = true := by
          split at heq
          · obtain ⟨fb1, g1, g2⟩ := gimme_block_mono fsa fba ga1
            split at heq
            · exact absurd heq (by simp)
            · next b fsx heq2 =>
              simp only [Except.ok.injEq, Prod.mk.injEq] at heq
              rw [heq2] at g1
              rw [← heq.1]
              exact ⟨fb1, g1, fun x hx => ga2 x (g2 x hx)⟩
          · split at heq
            · exact absurd heq (by simp)
            · simp only [Except.ok.injEq, Prod.mk.injEq] at heq
              rw [← heq.1]
              exact ⟨fba, ga1, ga2⟩
        split at h
        · exact absurd h (by simp)
        · simp only [Except.ok.injEq, Prod.mk.injEq] at h
          rw [← h.1]
          exact hfs2

/-- One iteration of the loop of `fs_write` at offset 0 on an empty inode, for a length
that is a `size_t` and a logical block the inode can map: with a free block for the data
(and one for the indirect page when it is due) the iteration maps and writes logical
block `k`. -/
theorem write_loop_step_gen (cfg : Config) (hcfg : cfg.WF) (data : List Nat) (N n k : Nat)
    (hN64 : N < 2 ^ 64) (hk2 : k < cfg.POINTERS_PER_INODE + cfg.POINTERS_PER_BLOCK)
    (d : Disk) (fb : List Bool) (block : Block) (m : SuperBlock) (fuel : Nat)
    (inv : WriteInv cfg data N (n / cfg.INODES_PER_BLOCK + 1) (n % cfg.INODES_PER_BLOCK)
      k k d fb block)
    (hkN : k * cfg.BLOCK_SIZE < N)
    (hc : (if k = cfg.POINTERS_PER_INODE then 2 else 1) ≤ fb.count true) :
    ∃ d' fb' block' nw',
      write_loop cfg n data N 0 (fuel + 1) ⟨some d, some fb, m⟩ block (k * cfg.BLOCK_SIZE) k 0
        = write_loop cfg n data N 0 fuel ⟨some d', some fb', m⟩ block' nw' (k + 1) 0 ∧
      nw' = min ((k + 1) * cfg.BLOCK_SIZE) N ∧
      WriteInv cfg data N (n / cfg.INODES_PER_BLOCK + 1) (n % cfg.INODES_PER_BLOCK)
        (k + 1) (k + 1) d' fb' block' ∧
      fb'.count true + (if k = cfg.POINTERS_PER_INODE then 2 else 1) = fb.count true ∧
      (∀ w, w < n % cfg.INODES_PER_BLOCK * inodeWords cfg
          ∨ n % cfg.INODES_PER_BLOCK * inodeWords cfg + inodeWords cfg ≤ w →
        get32 block' w = get32 block w) ∧
      ∀ x, fb'.getD x false = true → fb.getD x false = true := by
  have hmax := hcfg.2.2.2.2.2
  have hipb := hcfg.2.1
  have hinum : n % cfg.INODES_PER_BLOCK < cfg.INODES_PER_BLOCK := Nat.mod_lt _ hipb
  have hk32 : (k + 1) * cfg.BLOCK_SIZE
      ≤ (cfg.POINTERS_PER_INODE + cfg.POINTERS_PER_BLOCK) * cfg.BLOCK_SIZE :=
    Nat.mul_le_mul_right _ hk2
  obtain ⟨d1, fb1, block1, blk, e1, e2, e3, e4⟩ := write_found cfg hcfg data N _ _ k d fb block m
    (k * cfg.BLOCK_SIZE) hinum inv hk2 hc
  obtain ⟨hb1, hb2, hb3, hb4, hb5⟩ := e3.hmap k (by omega)
  rw [← e2] at hb1 hb2 hb3 hb4 hb5
  have hsucc : (k + 1) * cfg.BLOCK_SIZE = k * cfg.BLOCK_SIZE + cfg.BLOCK_SIZE := Nat.succ_mul _ _
  have hnc : (if (N - k * cfg.BLOCK_SIZE + 0) % 2 ^ 64 < cfg.BLOCK_SIZE
      then N - k * cfg.BLOCK_SIZE else cfg.BLOCK_SIZE - 0)
      = min cfg.BLOCK_SIZE (N - k * cfg.BLOCK_SIZE) := by
    have : (N - k * cfg.BLOCK_SIZE + 0) % 2 ^ 64 = N - k * cfg.BLOCK_SIZE :=
      Nat.mod_eq_of_lt (by omega)
    rw [this]
    split <;> omega
  have hnw : (k * cfg.BLOCK_SIZE + min cfg.BLOCK_SIZE (N - k * cfg.BLOCK_SIZE)) % 2 ^ 64
      = min ((k + 1) * cfg.BLOCK_SIZE) N := by
    rw [Nat.mod_eq_of_lt (by omega)]
    omega
  rw [write_loop, if_neg (not_not.mpr hkN)]
  simp only [e1, hnc, hnw]
  rw [disk_write_ok cfg d1 blk _ e3.hlen hb2]
  simp only [block_size_ne_failure, if_false]
  rw [disk_write_ok cfg ⟨d1.blocks, d1.reads, d1.writes + 1, d1.data.set blk
    (memcpy (zeroBlock cfg) 0 data (k * cfg.BLOCK_SIZE)
      (min cfg.BLOCK_SIZE (N - k * cfg.BLOCK_SIZE)))⟩ _ _
    (by simp only [List.length_set]; exact e3.hlen) e3.hiblk]
  simp only [block_size_ne_failure, if_false]
  have hframe := write_found_frame cfg _ _ _ _ _ _ _ _ _ e1
  obtain ⟨fbm, hm1, hm2⟩ := write_found_mono cfg _ _ fb _ _ _ _ _ _ _ rfl e1
  injection hm1 with hm1
  subst hm1
  refine ⟨_, _, _, _, rfl, rfl, ?_, e4, ?_, hm2⟩
  · rw [e2]
    apply write_tail_inv cfg hcfg data N _ _ k d1 fb1 block1 _ _ _ _ hinum e3
    · rw [memcpy_length]; exact zeroBlock_length cfg
    · exact memcpy_holds_chunk cfg data N k _ (zeroBlock_length cfg) _ rfl
    · rw [Nat.add_zero, Nat.mod_eq_of_lt (by omega), Nat.mod_eq_of_lt (by omega)]
  · intro w hw
    unfold set_inode_size
    rw [get32_set32_ne _ _ _ _ (by unfold inodeWords at hw ⊢; omega)]
    exact hframe w hw

/-- The iteration of the loop of `fs_write` that finds no free block returns the bytes
written so far and leaves the device contents alone: when the bitmap has no free block,
or when logical block `POINTERS_PER_INODE` is due and the one free block `i` goes to the
indirect page, which stays marked used in the bitmap although neither the page nor the
inode block is written. -/
theorem write_loop_full (cfg : Config) (hcfg : cfg.WF) (data : List Nat) (N n k : Nat)
    (d : Disk) (fb : List Bool) (block : Block) (m : SuperBlock) (fuel : Nat)
    (inv : WriteInv cfg data N (n / cfg.INODES_PER_BLOCK + 1) (n % cfg.INODES_PER_BLOCK)
      k k d fb block)
    (hkN : k * cfg.BLOCK_SIZE < N)
    (hk2 : cfg.POINTERS_PER_INODE < k → k < cfg.POINTERS_PER_INODE + cfg.POINTERS_PER_BLOCK)
    (hk3 : k ≤ cfg.POINTERS_PER_INODE + cfg.POINTERS_PER_BLOCK)
    (hc : fb.count true = 0 ∨ (k = cfg.POINTERS_PER_INODE ∧ fb.count true = 1)) :
    ∃ d' fb',
      write_loop cfg n data N 0 (fuel + 1) ⟨some d, some fb, m⟩ block (k * cfg.BLOCK_SIZE) k 0
        = (((k * cfg.BLOCK_SIZE : Nat) : Int), ⟨some d', some fb', m⟩) ∧
      d'.blocks = d.blocks ∧ d'.data = d.data ∧
      ((fb.count true = 0 ∧ fb' = fb) ∨
        (k = cfg.POINTERS_PER_INODE ∧ fb.count true = 1 ∧
          ∃ i, 1 ≤ i ∧ i < d.blocks ∧ fb.getD i false = true ∧ fb' = fb.set i false)) := by
  have hmax := hcfg.2.2.2.2.2
  have hk32 : k * cfg.BLOCK_SIZE
      ≤ (cfg.POINTERS_PER_INODE + cfg.POINTERS_PER_BLOCK) * cfg.BLOCK_SIZE :=
    Nat.mul_le_mul_right _ hk3
  have hss : toSsize (k * cfg.BLOCK_SIZE) = ((k * cfg.BLOCK_SIZE : Nat) : Int) :=
    toSsize_small _ (by omega)
  rw [write_loop, if_neg (not_not.mpr hkN)]
  by_cases h1 : k < cfg.POINTERS_PER_INODE
  · have hc0 : fb.count true = 0 := by
      rcases hc with h | ⟨h, _⟩
      · exact h
      · omega
    simp only [if_pos h1]
    unfold write_direct
    rw [if_pos (inv.hdirect0 k (le_refl _) h1), gimme_block_none d fb m hc0]
    simp only [hss]
    exact ⟨d, fb, rfl, rfl, rfl, Or.inl ⟨hc0, rfl⟩⟩
  · simp only [if_neg h1]
    unfold write_indirect write_find_indirect
    by_cases h2 : k = cfg.POINTERS_PER_INODE
    · rw [if_pos (inv.hind0 (by omega))]
      rcases hc with hc0 | ⟨_, hc1⟩
      · rw [gimme_block_none d fb m hc0]
        simp only [hss]
        exact ⟨d, fb, rfl, rfl, rfl, Or.inl ⟨hc0, rfl⟩⟩
      · obtain ⟨i, hg, hi1, hi2, hi3⟩ := gimme_block_some d fb m inv.hfb inv.hzero (by omega)
        have hcount := count_set_false fb i hi3
        rw [hg]
        simp only [pointer_zeroBlock, if_true]
        rw [gimme_block_none d (fb.set i false) m (by omega)]
        simp only [hss]
        exact ⟨d, fb.set i false, rfl, rfl, rfl, Or.inr ⟨h2, hc1, i, hi1, hi2, hi3, rfl⟩⟩
    · have hk : cfg.POINTERS_PER_INODE < k := by omega
      have hc0 : fb.count true = 0 := by
        rcases hc with h | ⟨h, _⟩
        · exact h
        · omega
      obtain ⟨hq1, hq2, _, _⟩ := inv.hind hk
      rw [if_neg hq1, disk_read_ok cfg d _ _ inv.hlen hq2]
      simp only [block_size_ne_failure, if_false]
      rw [if_pos (inv.hptr0 hk _ (by omega) (by have := hk2 hk; omega))]
      rw [gimme_block_none _ fb m hc0]
      simp only [hss]
      exact ⟨_, fb, rfl, rfl, rfl, Or.inl ⟨hc0, rfl⟩⟩

/-- The loop of `fs_write` at offset 0 on an empty inode, for a length the free blocks do
not suffice for: it returns the bytes of the `T` logical blocks it could map, where the
indirect page takes one of the free blocks when the direct pointers do not suffice. The
state it returns in is the state of the first `T` blocks mapped and written, except
that, when the indirect page was allocated last, its block `i` is marked used. -/
theorem write_loop_exhaust (cfg : Config) (hcfg : cfg.WF) (data : List Nat) (N n : Nat)
    (hN64 : N < 2 ^ 64) (m : SuperBlock) (T : Nat) (hT : T * cfg.BLOCK_SIZE < N)
    (hT2 : cfg.POINTERS_PER_INODE < T → T < cfg.POINTERS_PER_INODE + cfg.POINTERS_PER_BLOCK)
    (fuel : Nat) :
    ∀ (k : Nat) (d : Disk) (fb : List Bool) (block : Block),
    WriteInv cfg data N (n / cfg.INODES_PER_BLOCK + 1) (n % cfg.INODES_PER_BLOCK) k k d fb block →
    T = (if k ≤ cfg.POINTERS_PER_INODE ∧ cfg.POINTERS_PER_INODE < k + fb.count true
      then k + fb.count true - 1 else k + fb.count true) →
    T + 1 ≤ k + fuel →
    ∃ d' fb' block' fbf,
      write_loop cfg n data N 0 fuel ⟨some d, some fb, m⟩ block (k * cfg.BLOCK_SIZE) k 0
        = (((T * cfg.BLOCK_SIZE : Nat) : Int), ⟨some d', some fbf, m⟩) ∧
      WriteInv cfg data N (n / cfg.INODES_PER_BLOCK + 1) (n % cfg.INODES_PER_BLOCK)
        T T d' fb' block' ∧
      (∀ w, w < n % cfg.INODES_PER_BLOCK * inodeWords cfg
          ∨ n % cfg.INODES_PER_BLOCK * inodeWords cfg + inodeWords cfg ≤ w →
        get32 block' w = get32 block w) ∧
      (∀ x, fb'.getD x false = true → fb.getD x false = true) ∧
      ((¬ (k ≤ cfg.POINTERS_PER_INODE ∧ k + fb.count true = cfg.POINTERS_PER_INODE + 1) ∧
          fb'.count true = 0 ∧ fbf = fb') ∨
        ((k ≤ cfg.POINTERS_PER_INODE ∧ k + fb.count true = cfg.POINTERS_PER_INODE + 1) ∧
          T = cfg.POINTERS_PER_INODE ∧ fb'.count true = 1 ∧
          ∃ i, 1 ≤ i ∧ i < d'.blocks ∧ fb'.getD i false = true ∧ fbf = fb'.set i false)) := by
  induction fuel with
  | zero =>
    intro k d fb block _ hT1 hf
    exfalso
    split at hT1 <;> omega
  | succ fuel ih =>
    intro k d fb block inv hT1 hf
    by_cases hfull : fb.count true = 0 ∨ (k = cfg.POINTERS_PER_INODE ∧ fb.count true = 1)
    · have hTk : T = k := by
        rcases hfull with h | ⟨h1, h2⟩
        · rw [h] at hT1
          rw [hT1]
          split <;> omega
        · rw [h2, if_pos ⟨by omega, by omega⟩] at hT1
          omega
      subst hTk
      obtain ⟨d', fb', e1, e2, e3, e4⟩ := write_loop_full cfg hcfg data N n T d fb block m fuel
        inv hT hT2
        (by
          by_cases h : cfg.POINTERS_PER_INODE < T
          · have := hT2 h; omega
          · omega)
        hfull
      refine ⟨d', fb, block, fb', e1,
        writeInv_congr cfg data N _ _ T T d d' fb block e2 e3 inv, fun _ _ => rfl,
        fun _ hx => hx, ?_⟩
      rcases e4 with ⟨h1, h2⟩ | ⟨h1, h2, i, h3, h4, h5, h6⟩
      · exact Or.inl ⟨fun h => by omega, h1, h2⟩
      · exact Or.inr ⟨⟨by omega, by omega⟩, h1, h2, i, h3, by rw [e2]; exact h4, h5, h6⟩
    · have hc : (if k = cfg.POINTERS_PER_INODE then 2 else 1) ≤ fb.count true := by
        split
        · next h => by_contra hlt; exact hfull (by omega)
        · by_contra hlt; exact hfull (Or.inl (by omega))
      have hkT : k + 1 ≤ T := by
        rw [hT1]
        split at hc <;> split <;> omega
      have hk2 : k < cfg.POINTERS_PER_INODE + cfg.POINTERS_PER_BLOCK := by
        by_cases h : cfg.POINTERS_PER_INODE < T
        · have := hT2 h; omega
        · omega
      have hle : (k + 1) * cfg.BLOCK_SIZE ≤ T * cfg.BLOCK_SIZE := Nat.mul_le_mul_right _ hkT
      have hsucc : (k + 1) * cfg.BLOCK_SIZE = k * cfg.BLOCK_SIZE + cfg.BLOCK_SIZE :=
        Nat.succ_mul _ _
      obtain ⟨d1, fb1, block1, nw1, e1, e2, e3, e4, e5, e6⟩ :=
        write_loop_step_gen cfg hcfg data N n k hN64 hk2 d fb block m fuel inv (by omega) hc
      rw [Nat.min_eq_left (by omega)] at e2
      subst e2
      rw [e1]
      obtain ⟨d', fb', block', fbf, r1, r2, r3, r5, r4⟩ := ih (k + 1) d1 fb1 block1 e3 (by
        rw [hT1]
        by_cases hkp : k = cfg.POINTERS_PER_INODE
        · rw [if_pos hkp] at e4 hc
          rw [if_pos ⟨by omega, by omega⟩, if_neg (by omega)]
          omega
        · rw [if_neg hkp] at e4
          by_cases hcond : k ≤ cfg.POINTERS_PER_INODE
              ∧ cfg.POINTERS_PER_INODE < k + fb.count true
          · rw [if_pos hcond, if_pos ⟨by omega, by omega⟩]
            omega
          · rw [if_neg hcond, if_neg (by omega)]
            omega) (by omega)
      refine ⟨d', fb', block', fbf, r1, r2, fun w hw => (r3 w hw).trans (e5 w hw),
        fun x hx => e6 x (r5 x hx), ?_⟩
      by_cases hkp : k = cfg.POINTERS_PER_INODE
      · rw [if_pos hkp] at e4 hc
        rcases r4 with ⟨_, h2, h3⟩ | ⟨h1, _⟩
        · exact Or.inl ⟨fun h => by omega, h2, h3⟩
        · omega
      · rw [if_neg hkp] at e4
        rcases r4 with ⟨h1, h2, h3⟩ | ⟨h1, h2⟩
        · exact Or.inl ⟨fun h => h1 ⟨by omega, by omega⟩, h2, h3⟩
        · exact Or.inr ⟨⟨by omega, by omega⟩, h2⟩

/-- On an empty inode whose slot is in sync with the device, `fs_write` at offset 0 of
more bytes than the `F` free blocks hold returns `F * BLOCK_SIZE` when the direct
pointers suffice for `F` blocks and `(F - 1) * BLOCK_SIZE` when the indirect page is
needed. It returns in the state of the blocks it could map and write, except that, when
the indirect page was the last block allocated, its block `i` is marked used in the
bitmap while the inode on the device has no indirect page. -/
theorem fs_write_exhaust (cfg : Config) (hcfg : cfg.WF) (data : List Nat) (N n : Nat)
    (hN64 : N < 2 ^ 64) (d : Disk) (fb : List Bool) (m : SuperBlock)
    (inv : WriteInv cfg data N (n / cfg.INODES_PER_BLOCK + 1) (n % cfg.INODES_PER_BLOCK) 0 0
      d fb (d.data.getD (n / cfg.INODES_PER_BLOCK + 1) []))
    (hfree : fb.count true * cfg.BLOCK_SIZE < N)
    (hcap : fb.count true ≤ cfg.POINTERS_PER_INODE + cfg.POINTERS_PER_BLOCK) :
    ∃ T d' fb' block' fbf,
      T = (if cfg.POINTERS_PER_INODE < fb.count true then fb.count true - 1
        else fb.count true) ∧
      fs_write cfg ⟨some d, some fb, m⟩ n data N 0
        = (((T * cfg.BLOCK_SIZE : Nat) : Int), ⟨some d', some fbf, m⟩) ∧
      WriteInv cfg data N (n / cfg.INODES_PER_BLOCK + 1) (n % cfg.INODES_PER_BLOCK)
        T T d' fb' block' ∧
      (∀ w, w < n % cfg.INODES_PER_BLOCK * inodeWords cfg
          ∨ n % cfg.INODES_PER_BLOCK * inodeWords cfg + inodeWords cfg ≤ w →
        get32 block' w = get32 (d.data.getD (n / cfg.INODES_PER_BLOCK + 1) []) w) ∧
      (∀ x, fb'.getD x false = true → fb.getD x false = true) ∧
      ((fb.count true ≠ cfg.POINTERS_PER_INODE + 1 ∧ fb'.count true = 0 ∧ fbf = fb') ∨
        (fb.count true = cfg.POINTERS_PER_INODE + 1 ∧
          T = cfg.POINTERS_PER_INODE ∧ fb'.count true = 1 ∧
          ∃ i, 1 ≤ i ∧ i < d'.blocks ∧ fb'.getD i false = true ∧ fbf = fb'.set i false)) := by
  have hbs : 0 < cfg.BLOCK_SIZE := by have := hcfg.1; omega
  have inv' := writeInv_congr cfg data N _ _ 0 0 d ⟨d.blocks, d.reads + 1, d.writes, d.data⟩
    fb _ rfl rfl inv
  have hTle : (if cfg.POINTERS_PER_INODE < fb.count true then fb.count true - 1
      else fb.count true) ≤ fb.count true := by split <;> omega
  have hTN : (if cfg.POINTERS_PER_INODE < fb.count true then fb.count true - 1
      else fb.count true) * cfg.BLOCK_SIZE < N :=
    Nat.lt_of_le_of_lt (Nat.mul_le_mul_right _ hTle) hfree
  have hTlt : (if cfg.POINTERS_PER_INODE < fb.count true then fb.count true - 1
      else fb.count true) < N :=
    Nat.lt_of_le_of_lt (Nat.le_mul_of_pos_right _ hbs) hTN
  obtain ⟨d', fb', block', fbf, h1, h2, h3, h5, h4⟩ :=
    write_loop_exhaust cfg hcfg data N n hN64 m _ hTN (by split <;> omega) N 0
      ⟨d.blocks, d.reads + 1, d.writes, d.data⟩ fb _ inv'
      (by
        rw [Nat.zero_add]
        by_cases hp : cfg.POINTERS_PER_INODE < fb.count true
        · rw [if_pos hp, if_pos ⟨Nat.zero_le _, hp⟩]
        · rw [if_neg hp, if_neg (fun h => hp h.2)])
      (by omega)
  rw [Nat.zero_mul] at h1
  refine ⟨_, d', fb', block', fbf, rfl, ?_, h2, h3, h5, ?_⟩
  · unfold fs_write
    rw [disk_read_ok cfg d _ _ inv.hlen inv.hiblk]
    simp only [block_size_ne_failure, if_false, Nat.zero_div, Nat.zero_mod]
    exact h1
  · rcases h4 with ⟨g1, g2⟩ | ⟨g1, g2⟩
    · exact Or.inl ⟨fun h => g1 ⟨Nat.zero_le _, by omega⟩, g2⟩
    · exact Or.inr ⟨by omega, g2⟩

theorem count_append_replicate (a b : Nat) :
    (List.replicate a false ++ List.replicate b true).count true = b := by
  simp [List.count_append, List.count_replicate]

theorem getD_append_replicate_false (a b i : Nat) (h : i < a) :
    (List.replicate a false ++ List.replicate b true).getD i false = false := by
  rw [getD_of_lt _ i false true (by simp; omega), getD_append_replicate]
  simp; omega

/-- The state after `fs_format`, `fs_mount` and `fs_create` on a device of at least two
blocks, with the bitmap, the cached super block and the first inode-table block
spelled out. -/
theorem fresh_created_state (cfg : Config) (hcfg : cfg.WF) (fs : FileSystem)
    (hfs : fs.disk = none) (d : Disk) (hlen : d.data.length = d.blocks)
    (h2 : 2 ≤ d.blocks) (h32 : d.blocks < 2 ^ 32) (data : List Nat) (N : Nat) :
    ∃ d2, fs_create cfg (freshVolume cfg fs d)
        = (0, ⟨some d2,
          some (List.replicate ((d.blocks + 9) / 10 + 1) false
            ++ List.replicate (d.blocks - ((d.blocks + 9) / 10 + 1)) true),
          ⟨cfg.MAGIC_NUMBER, d.blocks, (d.blocks + 9) / 10,
            ((d.blocks + 9) / 10 * cfg.INODES_PER_BLOCK) % 2 ^ 32⟩⟩) ∧
      d2.data.getD 1 [] = set_inode_valid cfg (zeroBlock cfg) 0 1 ∧
      WriteInv cfg data N 1 0 0 0 d2
        (List.replicate ((d.blocks + 9) / 10 + 1) false
          ++ List.replicate (d.blocks - ((d.blocks + 9) / 10 + 1)) true)
        (d2.data.getD 1 []) := by
  have hok := format_mount_succeed cfg hcfg fs hfs d hlen h2 h32
  obtain ⟨d2, fb, m, hc, _, _, inv⟩ :=
    fresh_volume_created cfg hcfg fs d hlen hok.1 hok.2 data N
  obtain ⟨d1, e1, e2, e3⟩ := fresh_volume_state cfg hcfg fs hfs d hlen h2 h32
  have hc2 := hc
  rw [e1] at hc2
  have hlen1 : d1.data.length = d1.blocks := by
    rw [e3, e2]; simp only [List.length_cons, List.length_replicate]; omega
  rw [fs_create_first cfg hcfg.2.1 d1 _ _ hlen1 (by show 1 ≤ (d.blocks + 9) / 10; omega)
    (by omega) (by rw [e3]; exact volume_getD_succ cfg _ d.blocks 1 (by omega) (by omega))] at hc2
  injection hc2 with _ hc3
  injection hc3 with hc6 hc4 hc7
  injection hc4 with hc5
  injection hc6 with hc8
  subst hc5 hc7
  refine ⟨d2, hc, ?_, inv⟩
  rw [← hc8]
  simp only
  rw [getD_set_data _ _ _ _ (by rw [hlen1, e2]; omega), if_pos rfl]

/-- On a freshly formatted and mounted device every inode of the table is empty and in
sync with the device, whether or not it was created. -/
theorem fresh_volume_writeInv (cfg : Config) (hcfg : cfg.WF) (fs : FileSystem)
    (hfs : fs.disk = none) (d : Disk) (hlen : d.data.length = d.blocks)
    (h2 : 2 ≤ d.blocks) (h32 : d.blocks < 2 ^ 32) (data : List Nat) (N n : Nat)
    (hn : n / cfg.INODES_PER_BLOCK < (d.blocks + 9) / 10) :
    ∃ d1 m, freshVolume cfg fs d
        = ⟨some d1,
          some (List.replicate ((d.blocks + 9) / 10 + 1) false
            ++ List.replicate (d.blocks - ((d.blocks + 9) / 10 + 1)) true), m⟩ ∧
      d1.data.getD (n / cfg.INODES_PER_BLOCK + 1) [] = zeroBlock cfg ∧
      WriteInv cfg data N (n / cfg.INODES_PER_BLOCK + 1) (n % cfg.INODES_PER_BLOCK) 0 0 d1
        (List.replicate ((d.blocks + 9) / 10 + 1) false
          ++ List.replicate (d.blocks - ((d.blocks + 9) / 10 + 1)) true)
        (d1.data.getD (n / cfg.INODES_PER_BLOCK + 1) []) := by
  obtain ⟨d1, e1, e2, e3⟩ := fresh_volume_state cfg hcfg fs hfs d hlen h2 h32
  generalize n / cfg.INODES_PER_BLOCK = q at hn ⊢
  have hlen1 : d1.data.length = d1.blocks := by
    rw [e3, e2]; simp only [List.length_cons, List.length_replicate]; omega
  have hib : (d.blocks + 9) / 10 + 1 ≤ d.blocks := by omega
  have hz : ∀ k, 1 ≤ k → k < d.blocks → d1.data.getD k [] = zeroBlock cfg := by
    intro k hk1 hk2
    rw [e3]
    exact volume_getD_succ cfg _ d.blocks k hk1 hk2
  have hzb := hz (q + 1) (by omega) (by omega)
  refine ⟨d1, _, e1, hzb, ?_⟩
  rw [hzb]
  refine ⟨hlen1, by rw [e2]; exact h32, ?_, ?_, ?_, by rw [e2]; omega, ?_, zeroBlock_length cfg,
    fun _ => hzb, ?_, fun j hj => by omega, fun j j' _ hj => by omega, fun j hj => by omega,
    ?_, ?_, fun h => by omega, fun h => by omega⟩
  · intro i hi
    by_cases hi0 : i = 0
    · subst hi0
      rw [e3]
      exact format_super_length cfg _
    · rw [hz i (by omega) (by rw [← e2]; exact hi)]
      exact zeroBlock_length cfg
  · rw [e2]
    simp only [List.length_append, List.length_replicate]
    omega
  · exact getD_append_replicate_false _ _ 0 (by omega)
  · exact getD_append_replicate_false _ _ _ (by omega)
  · intro _
    rw [Nat.zero_mul, Nat.min_eq_left (Nat.zero_le _)]
    exact get32_zeroBlock cfg _
  · intro j _ _
    exact get32_zeroBlock cfg _
  · intro _
    exact get32_zeroBlock cfg _

theorem write_loop_done (cfg : Config) (n : Nat) (data : List Nat) (N offset fuel : Nat)
    (fs : FileSystem) (block : Block) (nwrite data_b data_o : Nat) (h : N ≤ nwrite) :
    write_loop cfg n data N offset fuel fs block nwrite data_b data_o = (toSsize nwrite, fs) := by
  cases fuel with
  | zero => rfl
  | succ fuel => rw [write_loop, if_pos (by omega)]

/-- A write of at most one block at offset 0 to an empty inode, with a free block in the
bitmap: `fs_write` returns the length, takes one block from the bitmap and leaves the
inode with one mapped block and the new size on the device. The `valid` flag of the
inode plays no part. -/
theorem fs_write_one_block (cfg : Config) (hcfg : cfg.WF) (hppi : 0 < cfg.POINTERS_PER_INODE)
    (data : List Nat) (N n : Nat) (hN0 : 0 < N) (hN1 : N ≤ cfg.BLOCK_SIZE)
    (d : Disk) (fb : List Bool) (m : SuperBlock)
    (inv : WriteInv cfg data N (n / cfg.INODES_PER_BLOCK + 1) (n % cfg.INODES_PER_BLOCK) 0 0
      d fb (d.data.getD (n / cfg.INODES_PER_BLOCK + 1) []))
    (hc : 1 ≤ fb.count true) :
    ∃ d' fb' block',
      fs_write cfg ⟨some d, some fb, m⟩ n data N 0 = ((N : Int), ⟨some d', some fb', m⟩) ∧
      WriteInv cfg data N (n / cfg.INODES_PER_BLOCK + 1) (n % cfg.INODES_PER_BLOCK)
        1 1 d' fb' block' ∧
      fb'.count true + 1 = fb.count true := by
  have hmax := hcfg.2.2.2.2.2
  have hcap : 1 * cfg.BLOCK_SIZE
      ≤ (cfg.POINTERS_PER_INODE + cfg.POINTERS_PER_BLOCK) * cfg.BLOCK_SIZE :=
    Nat.mul_le_mul_right _ (by omega)
  have inv' := writeInv_congr cfg data N _ _ 0 0 d ⟨d.blocks, d.reads + 1, d.writes, d.data⟩
    fb _ rfl rfl inv
  obtain ⟨f, hf⟩ : ∃ f, N = f + 1 := ⟨N - 1, by omega⟩
  obtain ⟨d1, fb1, block1, nw1, e1, e2, e3, e4, _⟩ := write_loop_step_gen cfg hcfg data N n 0
    (by omega) (by omega) ⟨d.blocks, d.reads + 1, d.writes, d.data⟩ fb _ m f inv' (by omega)
    (by rw [if_neg (by omega)]; exact hc)
  rw [if_neg (by omega)] at e4
  rw [Nat.zero_add, Nat.min_eq_right (by omega)] at e2
  rw [e2] at e1
  refine ⟨d1, fb1, block1, ?_, e3, e4⟩
  unfold fs_write
  rw [disk_read_ok cfg d _ _ inv.hlen inv.hiblk]
  simp only [block_size_ne_failure, if_false, Nat.zero_div, Nat.zero_mod]
  rw [Nat.zero_mul] at e1
  have e1' : write_loop cfg n data N 0 N ⟨some ⟨d.blocks, d.reads + 1, d.writes, d.data⟩,
      some fb, m⟩ (d.data.getD (n / cfg.INODES_PER_BLOCK + 1) []) 0 0 0
      = write_loop cfg n data N 0 f ⟨some d1, some fb1, m⟩ block1 N (0 + 1) 0 := by
    rw [← e1]
    congr 1
  rw [e1', write_loop_done _ _ _ _ _ _ _ _ _ _ _ (le_refl _), toSsize_small N (by omega)]

/-- Reading one byte at offset 0 from an inode whose `size` field is zero returns 0,
whatever its `valid` flag. -/
theorem fs_read_empty (cfg : Config) (d : Disk) (fbs : Option (List Bool)) (m : SuperBlock)
    (n : Nat) (buf : List Nat) (hlen : d.data.length = d.blocks)
    (hin : n / cfg.INODES_PER_BLOCK + 1 < d.blocks)
    (hsz : inode_size cfg (d.data.getD (n / cfg.INODES_PER_BLOCK + 1) [])
      (n % cfg.INODES_PER_BLOCK) = 0) :
    (fs_read cfg ⟨some d, fbs, m⟩ n buf 1 0).1 = 0 := by
  unfold fs_read
  rw [disk_read_ok cfg d _ _ hlen hin]
  simp only [block_size_ne_failure, if_false, hsz]
  have h1 : (1 + 0) % 2 ^ 64 > 0 := by decide
  have h2 : sub64 0 0 = 0 := by decide
  rw [if_pos h1, h2]
  rfl

/-- Exhaustion through the interface alone: on a
freshly formatted and mounted volume, for the inode returned by `fs_create`, with `F`
free blocks in the bitmap (`F <= POINTERS_PER_INODE + POINTERS_PER_BLOCK`) and every
length `N` with `F * BLOCK_SIZE < N < 2^64`, `fs_write` at offset 0 returns
`F * BLOCK_SIZE` when `F <= POINTERS_PER_INODE`, and `(F - 1) * BLOCK_SIZE` when
`F > POINTERS_PER_INODE`, where one free block goes to the indirect page; in both cases
a non-negative partial count. -/
theorem fresh_volume_exhaust (cfg : Config) (hcfg : cfg.WF) (fs : FileSystem) (d : Disk)
    (hlen : d.data.length = d.blocks)
    (hformat : (fs_format cfg (some fs) (some d)).1 = true)
    (hmount : (fs_mount cfg fs (fs_format cfg (some fs) (some d)).2).1 = true)
    (data : List Nat) (N : Nat) (hN64 : N < 2 ^ 64)
    (hfree : freeCount (fs_create cfg (freshVolume cfg fs d)).2 * cfg.BLOCK_SIZE < N)
    (hcap : freeCount (fs_create cfg (freshVolume cfg fs d)).2
      ≤ cfg.POINTERS_PER_INODE + cfg.POINTERS_PER_BLOCK) :
    0 ≤ (fs_create cfg (freshVolume cfg fs d)).1 ∧
    (fs_write cfg (fs_create cfg (freshVolume cfg fs d)).2
      (fs_create cfg (freshVolume cfg fs d)).1.toNat data N 0).1
      = (((if cfg.POINTERS_PER_INODE < freeCount (fs_create cfg (freshVolume cfg fs d)).2
          then freeCount (fs_create cfg (freshVolume cfg fs d)).2 - 1
          else freeCount (fs_create cfg (freshVolume cfg fs d)).2) * cfg.BLOCK_SIZE : Nat) : Int) := by
  obtain ⟨d2, fb, m, hc, _, _, inv⟩ := fresh_volume_created cfg hcfg fs d hlen hformat hmount data N
  rw [hc] at hfree hcap ⊢
  simp only [freeCount] at hfree hcap ⊢
  simp only [Int.toNat_zero]
  have hi : 0 / cfg.INODES_PER_BLOCK + 1 = 1 := by rw [Nat.zero_div]
  have hm : 0 % cfg.INODES_PER_BLOCK = 0 := Nat.zero_mod _
  have inv0 : WriteInv cfg data N (0 / cfg.INODES_PER_BLOCK + 1) (0 % cfg.INODES_PER_BLOCK) 0 0
      d2 fb (d2.data.getD (0 / cfg.INODES_PER_BLOCK + 1) []) := by
    rw [hi, hm]; exact inv
  obtain ⟨T, d', fb', block', fbf, hT, hw, _⟩ :=
    fs_write_exhaust cfg hcfg data N 0 hN64 d2 fb m inv0 hfree hcap
  rw [hw, hT]
  exact ⟨le_refl _, rfl⟩

/-- The loop invariant of `fs_write` at its start on an inode without blocks: the device
is as opened, the bitmap has one bit per block and marks block 0 and the inode-table
block used, and the inode has size 0 and all pointers 0. -/
theorem writeInv_empty (cfg : Config) (data : List Nat) (N iblk inum : Nat) (d : Disk)
    (fb : List Bool) (hlen : d.data.length = d.blocks) (hb32 : d.blocks < 2 ^ 32)
    (hsize : ∀ i, i < d.blocks → (d.data.getD i []).length = cfg.BLOCK_SIZE)
    (hfb : fb.length = d.blocks) (hzero : fb.getD 0 false = false) (hiblk : iblk < d.blocks)
    (hiused : fb.getD iblk false = false)
    (hsz : inode_size cfg (d.data.getD iblk []) inum = 0)
    (hdir : ∀ j, j < cfg.POINTERS_PER_INODE → inode_direct cfg (d.data.getD iblk []) inum j = 0)
    (hind : inode_indirect cfg (d.data.getD iblk []) inum = 0) :
    WriteInv cfg data N iblk inum 0 0 d fb (d.data.getD iblk []) :=
  ⟨hlen, hb32, hsize, hfb, hzero, hiblk, hiused, hsize _ hiblk, fun _ => rfl,
    fun _ => by rw [Nat.zero_mul, Nat.min_eq_left (Nat.zero_le _)]; exact hsz,
    fun j hj => absurd hj (by omega), fun j j' _ hj => absurd hj (by omega),
    fun j hj => absurd hj (by omega), fun j _ hj => hdir j hj, fun _ => hind,
    fun h => absurd h (by omega), fun h => absurd h (by omega)⟩

/-- C20, the claim as stated fails past the direct pointers: with the usual constants, on
a freshly formatted and mounted device of 8 blocks the inode returned by `fs_create`
finds 6 free blocks, one more than `POINTERS_PER_INODE`, and `fs_write` of 28672 bytes
(more than `6 * 4096`) at offset 0 returns `20480 = 5 * 4096`, not `6 * 4096`: the sixth
free block became the indirect page. -/
theorem fs_write_indirect_page_costs_block :
    (fs_create stdConfig (freshVolume stdConfig freshSession (blankDisk stdConfig 8))).1 = 0 ∧
    freeCount (fs_create stdConfig
      (freshVolume stdConfig freshSession (blankDisk stdConfig 8))).2 = 6 ∧
    (fs_write stdConfig
      (fs_create stdConfig (freshVolume stdConfig freshSession (blankDisk stdConfig 8))).2
      0 (sampleBytes 28672) 28672 0).1 = 20480 := by
  have hlen : (blankDisk stdConfig 8).data.length = (blankDisk stdConfig 8).blocks := by
    simp [blankDisk]
  obtain ⟨d2, hc, _, inv⟩ := fresh_created_state stdConfig (by decide) freshSession rfl
    (blankDisk stdConfig 8) hlen (by decide) (by decide) (sampleBytes 28672) 28672
  have hcount : (List.replicate (((blankDisk stdConfig 8).blocks + 9) / 10 + 1) false
      ++ List.replicate ((blankDisk stdConfig 8).blocks
        - (((blankDisk stdConfig 8).blocks + 9) / 10 + 1)) true).count true = 6 :=
    count_append_replicate _ _
  rw [hc]
  refine ⟨rfl, hcount, ?_⟩
  obtain ⟨T, d', fb', block', fbf, hT, hw, _⟩ :=
    fs_write_exhaust stdConfig (by decide) (sampleBytes 28672) 28672 0 (by decide)
      d2 _ _ inv (by rw [hcount]; decide) (by rw [hcount]; decide)
  rw [hcount] at hT
  rw [hw, hT]
  rfl

/-- C18, the code at a failing input: with the usual constants, on a freshly formatted
and mounted device of 20 blocks, inode 0 was never created and its slot has
`valid == 0`; yet `fs_write` of 3 bytes to it returns 3, takes a block from the bitmap
and stores the new size 3 in the inode table on the device, and `fs_read` of one byte
from it returns 0. Neither returns `-1`. -/
theorem fs_write_read_unallocated :
    inode_valid stdConfig
      ((deviceOf (freshVolume stdConfig freshSession (blankDisk stdConfig 20))).data.getD 1 [])
      0 = 0 ∧
    (fs_write stdConfig (freshVolume stdConfig freshSession (blankDisk stdConfig 20))
      0 [1, 2, 3] 3 0).1 = 3 ∧
    freeCount (fs_write stdConfig (freshVolume stdConfig freshSession (blankDisk stdConfig 20))
      0 [1, 2, 3] 3 0).2 + 1
      = freeCount (freshVolume stdConfig freshSession (blankDisk stdConfig 20)) ∧
    inode_size stdConfig
      ((deviceOf (fs_write stdConfig (freshVolume stdConfig freshSession
        (blankDisk stdConfig 20)) 0 [1, 2, 3] 3 0).2).data.getD 1 []) 0 = 3 ∧
    (fs_read stdConfig (freshVolume stdConfig freshSession (blankDisk stdConfig 20))
      0 [0] 1 0).1 = 0 := by
  have hlen : (blankDisk stdConfig 20).data.length = (blankDisk stdConfig 20).blocks := by
    simp [blankDisk]
  obtain ⟨d1, m, e1, hz, inv⟩ := fresh_volume_writeInv stdConfig (by decide) freshSession rfl
    (blankDisk stdConfig 20) hlen (by decide) (by decide) [1, 2, 3] 3 0 (by decide)
  have hcount : (List.replicate (((blankDisk stdConfig 20).blocks + 9) / 10 + 1) false
      ++ List.replicate ((blankDisk stdConfig 20).blocks
        - (((blankDisk stdConfig 20).blocks + 9) / 10 + 1)) true).count true = 17 :=
    count_append_replicate _ _
  obtain ⟨d', fb', block', hw, inv', hc'⟩ := fs_write_one_block stdConfig (by decide) (by decide)
    [1, 2, 3] 3 0 (by decide) (by decide) d1 _ m inv (by rw [hcount]; decide)
  have hz1 : d1.data.getD 1 [] = zeroBlock stdConfig := hz
  rw [e1, hw]
  refine ⟨?_, rfl, hc', ?_, ?_⟩
  · show inode_valid stdConfig (d1.data.getD 1 []) 0 = 0
    rw [hz1]
    exact get32_zeroBlock stdConfig _
  · show inode_size stdConfig (d'.data.getD 1 []) 0 = 3
    have h1 := inv'.hsync rfl
    have h2 := inv'.hfile rfl
    have h1' : d'.data.getD 1 [] = block' := h1
    have h2' : inode_size stdConfig block' 0 = min (1 * 4096) 3 := h2
    rw [h1', h2']
    rfl
  · exact fs_read_empty stdConfig d1 _ m 0 [0] inv.hlen inv.hiblk (by
      have : inode_size stdConfig (d1.data.getD 1 []) 0 = 0 := by
        rw [hz1]; exact get32_zeroBlock stdConfig _
      exact this)

/-- With exactly `POINTERS_PER_INODE + 1` free blocks, `fs_write` at offset 0 of more
bytes than they hold, to an empty inode in sync with the device, fills the direct
pointers, allocates a block `i` for the indirect page, fails to allocate the next data
block and returns the bytes written so far. Block `i` stays marked used in the bitmap,
but the inode on the device has `indirect == 0` and no direct pointer equal to `i`; the
other slots of the inode-table block are as they were. -/
theorem fs_write_leak (cfg : Config) (hcfg : cfg.WF) (hppb : 0 < cfg.POINTERS_PER_BLOCK)
    (data : List Nat) (N n : Nat) (hN64 : N < 2 ^ 64) (d : Disk) (fb : List Bool)
    (m : SuperBlock)
    (inv : WriteInv cfg data N (n / cfg.INODES_PER_BLOCK + 1) (n % cfg.INODES_PER_BLOCK) 0 0
      d fb (d.data.getD (n / cfg.INODES_PER_BLOCK + 1) []))
    (hcount : fb.count true = cfg.POINTERS_PER_INODE + 1)
    (hN : (cfg.POINTERS_PER_INODE + 1) * cfg.BLOCK_SIZE < N) :
    ∃ i d' fbf,
      fs_write cfg ⟨some d, some fb, m⟩ n data N 0
        = (((cfg.POINTERS_PER_INODE * cfg.BLOCK_SIZE : Nat) : Int),
          ⟨some d', some fbf, m⟩) ∧
      1 ≤ i ∧ i ≠ n / cfg.INODES_PER_BLOCK + 1 ∧ fb.getD i false = true ∧
      fbf.getD i true = false ∧
      inode_indirect cfg (d'.data.getD (n / cfg.INODES_PER_BLOCK + 1) [])
        (n % cfg.INODES_PER_BLOCK) = 0 ∧
      (∀ k, k < cfg.POINTERS_PER_INODE →
        inode_direct cfg (d'.data.getD (n / cfg.INODES_PER_BLOCK + 1) [])
          (n % cfg.INODES_PER_BLOCK) k ≠ i) ∧
      ∀ w, w < n % cfg.INODES_PER_BLOCK * inodeWords cfg
          ∨ n % cfg.INODES_PER_BLOCK * inodeWords cfg + inodeWords cfg ≤ w →
        get32 (d'.data.getD (n / cfg.INODES_PER_BLOCK + 1) []) w
          = get32 (d.data.getD (n / cfg.INODES_PER_BLOCK + 1) []) w := by
  obtain ⟨T, d', fb', block', fbf, hT, hw, inv', hframe, hmono, hcase⟩ :=
    fs_write_exhaust cfg hcfg data N n hN64 d fb m inv (by rw [hcount]; exact hN)
      (by rw [hcount]; omega)
  rcases hcase with ⟨h1, _⟩ | ⟨_, hTp, hc1, i, hi1, hi2, hi3, hi4⟩
  · exact absurd hcount h1
  · subst hTp
    have hsync := inv'.hsync rfl
    refine ⟨i, d', fbf, hw, hi1, ?_, hmono i hi3, ?_, ?_, ?_, ?_⟩
    · intro h
      have := inv'.hiused
      rw [← h, hi3] at this
      exact absurd this (by decide)
    · rw [hi4, getD_set_eq, if_pos ⟨rfl, by rw [inv'.hfb]; exact hi2⟩]
    · rw [hsync]
      exact inv'.hind0 (le_refl _)
    · intro k hk h
      rw [hsync] at h
      obtain ⟨_, _, hm3, _, _⟩ := inv'.hmap k hk
      unfold physical at hm3
      rw [if_pos hk, h, hi3] at hm3
      exact absurd hm3 (by decide)
    · intro w hw'
      rw [hsync]
      exact hframe w hw'

theorem fs_run_create_write (cfg : Config) (fs : FileSystem) (n : Nat) (data : List Nat)
    (length offset : Nat) :
    fs_run cfg fs [.create, .write n data length offset]
      = (fs_write cfg (fs_create cfg fs).2 n data length offset).2 := rfl

/-- C19, the code at a failing sequence: with the usual constants, on a freshly
formatted and mounted device of 8 blocks (6 free blocks), `fs_create` returns inode 0
and `fs_write` of 28672 bytes to it stops early for lack of free blocks and returns
20480; in the state after these two calls some block is marked used in the bitmap
although it is not block 0, not an inode-table block and not referenced by any valid
inode: the block allocated for the indirect page, which the inode on the device does
not name. -/
theorem fs_write_breaks_bitmap_invariant :
    (fs_create stdConfig (freshVolume stdConfig freshSession (blankDisk stdConfig 8))).1 = 0 ∧
    (fs_write stdConfig
      (fs_create stdConfig (freshVolume stdConfig freshSession (blankDisk stdConfig 8))).2
      0 (sampleBytes 28672) 28672 0).1 = 20480 ∧
    ∃ b,
      (bitmapOf (fs_run stdConfig (freshVolume stdConfig freshSession (blankDisk stdConfig 8))
        [.create, .write 0 (sampleBytes 28672) 28672 0])).getD b true = false ∧
      ¬ InUse stdConfig
        (deviceOf (fs_run stdConfig (freshVolume stdConfig freshSession (blankDisk stdConfig 8))
          [.create, .write 0 (sampleBytes 28672) 28672 0]))
        (fs_run stdConfig (freshVolume stdConfig freshSession (blankDisk stdConfig 8))
          [.create, .write 0 (sampleBytes 28672) 28672 0]).meta_data.inode_blocks b := by
  have hlen : (blankDisk stdConfig 8).data.length = (blankDisk stdConfig 8).blocks := by
    simp [blankDisk]
  obtain ⟨d2, hc, hb1, inv⟩ := fresh_created_state stdConfig (by decide) freshSession rfl
    (blankDisk stdConfig 8) hlen (by decide) (by decide) (sampleBytes 28672) 28672
  have hcount : (List.replicate (((blankDisk stdConfig 8).blocks + 9) / 10 + 1) false
      ++ List.replicate ((blankDisk stdConfig 8).blocks
        - (((blankDisk stdConfig 8).blocks + 9) / 10 + 1)) true).count true = 5 + 1 :=
    count_append_replicate _ _
  obtain ⟨i, d', fbf, hw, hi1, hi2, _, hi3, hind, hdir, hframe⟩ :=
    fs_write_leak stdConfig (by decide) (by decide) (sampleBytes 28672) 28672 0 (by decide)
      d2 _
      ⟨stdConfig.MAGIC_NUMBER, (blankDisk stdConfig 8).blocks,
        ((blankDisk stdConfig 8).blocks + 9) / 10,
        ((blankDisk stdConfig 8).blocks + 9) / 10 * stdConfig.INODES_PER_BLOCK % 2 ^ 32⟩
      inv hcount (by decide)
  rw [fs_run_create_write, hc, hw]
  refine ⟨rfl, rfl, i, hi3, ?_⟩
  have hi2' : i ≠ 1 := hi2
  have hind' : inode_indirect stdConfig (d'.data.getD 1 []) 0 = 0 := hind
  have hdir' : ∀ k, k < 5 → inode_direct stdConfig (d'.data.getD 1 []) 0 k ≠ i := hdir
  have hframe' : ∀ w, 8 ≤ w → get32 (d'.data.getD 1 []) w = get32 (d2.data.getD 1 []) w :=
    fun w h8 => hframe w (Or.inr h8)
  show ¬ InUse stdConfig d' 1 i
  unfold InUse
  rintro (h0 | ⟨_, h1⟩ | ⟨t, j, ht1, ht2, _, hv, _, hu⟩)
  · omega
  · omega
  · have ht : t = 1 := by omega
    subst ht
    by_cases hj : j = 0
    · subst hj
      rcases hu with ⟨k, hk, hk2⟩ | hq | ⟨hq, _⟩
      · exact hdir' k hk hk2
      · rw [hind'] at hq; omega
      · exact hq hind'
    · apply hv
      have h8 : 8 ≤ j * inodeWords stdConfig := by
        show 8 ≤ j * 8
        omega
      show get32 (d'.data.getD 1 []) (j * inodeWords stdConfig) = 0
      rw [hframe' _ h8, hb1]
      unfold set_inode_valid
      rw [get32_set32_ne _ _ _ _ (by omega), get32_zeroBlock]

/-! ## `gimme_block` and the block device -/

/-- C21: block allocation is first-fit and touches one bit. For every mounted session
whose bitmap `fb` has one bit per block of the device, either `gimme_block` returns the
least index `i` with `1 <= i < blocks` whose bit is true, and the bitmap afterwards is
`fb` with exactly bit `i` set to false (every other bit and the length unchanged), or no
index in `1 .. blocks - 1` has a true bit and `gimme_block` returns the failure sentinel
and leaves the session unchanged. The device is untouched in both cases and the index
returned is never 0. -/
theorem gimme_block_first_fit (d : Disk) (fb : List Bool) (m : SuperBlock)
    (hfb : fb.length = d.blocks) :
    (∃ i, gimme_block ⟨some d, some fb, m⟩ = (some i, ⟨some d, some (fb.set i false), m⟩) ∧
      1 ≤ i ∧ i < d.blocks ∧ fb.getD i false = true ∧
      (∀ j, 1 ≤ j → j < i → fb.getD j false = false) ∧
      (fb.set i false).getD i true = false ∧
      (∀ j, j ≠ i → (fb.set i false).getD j true = fb.getD j true) ∧
      (fb.set i false).length = fb.length) ∨
    (gimme_block ⟨some d, some fb, m⟩ = (none, ⟨some d, some fb, m⟩) ∧
      ∀ j, 1 ≤ j → j < d.blocks → fb.getD j false = false) := by
  unfold gimme_block
  simp only
  cases hs : gimme_scan fb (d.blocks - 1) 1 with
  | none =>
    right
    refine ⟨rfl, ?_⟩
    intro j hj1 hj2
    exact gimme_scan_none fb _ 1 hs j hj1 (by omega)
  | some i =>
    left
    obtain ⟨h1, h2, h3, h4⟩ := gimme_scan_some fb _ 1 i hs
    refine ⟨i, rfl, h1, by omega, h3, h4, ?_, ?_, List.length_set _ _ _⟩
    · rw [getD_set_eq, if_pos ⟨rfl, by omega⟩]
    · intro j hj
      rw [getD_set_eq, if_neg (fun h => hj h.1.symm)]

/-- Witness of C21: the bitmap of the mounted sample volume, whose first free block
is 6. -/
theorem gimme_block_first_fit_witness :
    [false, false, false, false, false, false, true, true].length = sampleVolume.blocks ∧
    gimme_block ⟨some sampleVolume, some [false, false, false, false, false, false, true, true],
        (sampleVolume.data.getD 0 []).super⟩
      = (some 6, ⟨some sampleVolume,
          some [false, false, false, false, false, false, false, true],
          (sampleVolume.data.getD 0 []).super⟩) ∧
    ((∃ i, gimme_block ⟨some sampleVolume,
          some [false, false, false, false, false, false, true, true],
          (sampleVolume.data.getD 0 []).super⟩
        = (some i, ⟨some sampleVolume,
            some ([false, false, false, false, false, false, true, true].set i false),
            (sampleVolume.data.getD 0 []).super⟩) ∧
      1 ≤ i ∧ i < sampleVolume.blocks ∧
      [false, false, false, false, false, false, true, true].getD i false = true ∧
      (∀ j, 1 ≤ j → j < i →
        [false, false, false, false, false, false, true, true].getD j false = false) ∧
      ([false, false, false, false, false, false, true, true].set i false).getD i true = false ∧
      (∀ j, j ≠ i →
        ([false, false, false, false, false, false, true, true].set i false).getD j true
          = [false, false, false, false, false, false, true, true].getD j true) ∧
      ([false, false, false, false, false, false, true, true].set i false).length
        = [false, false, false, false, false, false, true, true].length) ∨
    (gimme_block ⟨some sampleVolume, some [false, false, false, false, false, false, true, true],
        (sampleVolume.data.getD 0 []).super⟩
      = (none, ⟨some sampleVolume, some [false, false, false, false, false, false, true, true],
          (sampleVolume.data.getD 0 []).super⟩) ∧
      ∀ j, 1 ≤ j → j < sampleVolume.blocks →
        [false, false, false, false, false, false, true, true].getD j false = false)) :=
  ⟨by decide, by decide,
    gimme_block_first_fit sampleVolume [false, false, false, false, false, false, true, true]
      (sampleVolume.data.getD 0 []).super (by decide)⟩

/-- C24: the block device rejects out-of-range indices. For every device and every block
index at or past its block count, `disk_read` and `disk_write` return `DISK_FAILURE` and
leave the device (contents and both counters) and the buffer as they were; and
`disk_sanity_check` returns true if and only if the device is non-null, the index is
below its block count and the buffer is non-null. -/
theorem disk_rejects_out_of_range (cfg : Config) (d : Disk) (i : Nat) (buf : Block)
    (h : d.blocks ≤ i) :
    disk_read cfg (some d) i buf = (DISK_FAILURE, some d, buf) ∧
    disk_write cfg (some d) i buf = (DISK_FAILURE, some d) ∧
    ∀ (disk : Option Disk) (block : Nat) (data : Option Block),
      disk_sanity_check disk block data = true ↔
        (∃ d', disk = some d' ∧ block < d'.blocks) ∧ data.isSome = true := by
  refine ⟨disk_read_fail cfg d i buf h, disk_write_fail cfg d i buf h, ?_⟩
  intro disk block data
  unfold disk_sanity_check
  cases disk with
  | none => simp
  | some d' =>
    by_cases hb : block ≥ d'.blocks
    · simp only [if_pos hb]
      constructor
      · intro h'; exact absurd h' (by decide)
      · rintro ⟨⟨d'', h1, h2⟩, _⟩
        injection h1 with h1
        subst h1
        omega
    · simp only [if_neg hb]
      cases data with
      | none => simp
      | some b =>
        simp only [Option.isSome_some, and_true, true_iff]
        exact ⟨d', rfl, by omega⟩

/-- Witness of C24: block 8 of the sample volume, which has blocks 0 to 7. -/
theorem disk_rejects_out_of_range_witness :
    sampleVolume.blocks ≤ 8 ∧
    disk_read smallConfig (some sampleVolume) 8 (zeroBlock smallConfig)
      = (DISK_FAILURE, some sampleVolume, zeroBlock smallConfig) ∧
    disk_write smallConfig (some sampleVolume) 8 (zeroBlock smallConfig)
      = (DISK_FAILURE, some sampleVolume) ∧
    ∀ (disk : Option Disk) (block : Nat) (data : Option Block),
      disk_sanity_check disk block data = true ↔
        (∃ d', disk = some d' ∧ block < d'.blocks) ∧ data.isSome = true :=
  ⟨by decide,
    disk_rejects_out_of_range smallConfig sampleVolume 8 (zeroBlock smallConfig) (by decide)⟩

/-! ## Sessions without a device -/

theorem create_scan_none (cfg : Config) (fbs : Option (List Bool)) (m : SuperBlock) (n : Nat) :
    ∀ blk, create_scan cfg n blk ⟨none, fbs, m⟩ = (-1, ⟨none, fbs, m⟩) := by
  intro blk
  cases n with
  | zero => rfl
  | succ n =>
    rw [create_scan]
    simp only [disk_read_none]
    rfl

/-- Right after `fs_unmount` every operation fails and the session still holds no
device: `fs_create`, `fs_stat`, `fs_read` and `fs_write` return `-1` and `fs_remove`
returns false, for every argument. -/
theorem fs_unmount_ops_fail (cfg : Config) (fs : FileSystem) (n : Nat) (data : List Nat)
    (length offset : Nat) :
    (fs_unmount fs).disk = none ∧
    fs_create cfg (fs_unmount fs) = (-1, fs_unmount fs) ∧
    fs_remove cfg (fs_unmount fs) n = (false, fs_unmount fs) ∧
    fs_stat cfg (fs_unmount fs) n = (-1, fs_unmount fs) ∧
    fs_read cfg (fs_unmount fs) n data length offset = (-1, fs_unmount fs, data) ∧
    fs_write cfg (fs_unmount fs) n data length offset = (-1, fs_unmount fs) := by
  refine ⟨rfl, ?_, ?_, ?_, ?_, ?_⟩
  · unfold fs_create
    exact create_scan_none cfg _ _ _ 0
  · unfold fs_remove fs_unmount
    simp only [disk_read_none]
    rfl
  · unfold fs_stat fs_unmount
    simp only [disk_read_none]
    rfl
  · unfold fs_read fs_unmount
    simp only [disk_read_none]
    rfl
  · unfold fs_write fs_unmount
    simp only [disk_read_none]
    rfl

/-- For a session that holds no device, what `fs_mount` does depends on the session only
where it returns it unchanged. -/
theorem fs_mount_unmounted (cfg : Config) (fs fs' : FileSystem) (disk : Option Disk)
    (h : fs.disk = none) (h' : fs'.disk = none)
    (hs : (fs_mount cfg fs' disk).2.1.disk.isSome = true) :
    fs_mount cfg fs disk = fs_mount cfg fs' disk := by
  rcases hr : disk_read cfg disk 0 (zeroBlock cfg) with ⟨r, disk1, block⟩
  unfold fs_mount at hs ⊢
  simp only [hr] at hs ⊢
  by_cases h1 : r = DISK_FAILURE
  · rw [if_pos h1] at hs; simp only [h'] at hs; exact absurd hs (by decide)
  · rw [if_neg h1] at hs ⊢
    cases disk1 with
    | none => simp only [h'] at hs; exact absurd hs (by decide)
    | some d =>
      simp only at hs ⊢
      by_cases h2 : block.super.magic_number ≠ cfg.MAGIC_NUMBER
      · rw [if_pos h2] at hs; simp only [h'] at hs; exact absurd hs (by decide)
      · rw [if_neg h2] at hs ⊢
        by_cases h3 : block.super.blocks ≠ d.blocks
        · rw [if_pos h3] at hs; simp only [h'] at hs; exact absurd hs (by decide)
        · rw [if_neg h3] at hs ⊢
          by_cases h4 : block.super.inode_blocks < d.blocks / 10
          · rw [if_pos h4] at hs; simp only [h'] at hs; exact absurd hs (by decide)
          · rw [if_neg h4] at hs ⊢
            by_cases h5 : block.super.inodes
                ≠ (block.super.inode_blocks * cfg.INODES_PER_BLOCK) % 2 ^ 32
            · rw [if_pos h5] at hs; simp only [h'] at hs; exact absurd hs (by decide)
            · rw [if_neg h5] at hs ⊢
              simp only [h, h', Option.isSome_none, Bool.false_eq_true, if_false]
              rw [if_neg h1, if_neg h2, if_neg h3, if_neg h4, if_neg h5]

/-- C22, the code at a failing input: with the usual constants, take any session, call
`fs_unmount`, and then `fs_mount` on the device of 2 blocks whose inode 0 names a block
past the end as its indirect page. The mount returns false, yet afterwards the
operations do not fail: `fs_stat 0` returns 7, `fs_read` of 7 bytes from inode 0
returns 7 and `fs_create` returns 1 and writes the inode table, on a session on which no
`fs_mount` has succeeded since the `fs_unmount`. -/
theorem fs_unmount_then_failed_mount (fs : FileSystem) :
    (fs_unmount fs).disk = none ∧
    (fs_mount stdConfig (fs_unmount fs) (some danglingVolume)).1 = false ∧
    (fs_stat stdConfig (fs_mount stdConfig (fs_unmount fs) (some danglingVolume)).2.1 0).1
      = 7 ∧
    (fs_read stdConfig (fs_mount stdConfig (fs_unmount fs) (some danglingVolume)).2.1 0
      (List.replicate 7 0) 7 0).1 = 7 ∧
    (fs_create stdConfig (fs_mount stdConfig (fs_unmount fs) (some danglingVolume)).2.1).1
      = 1 ∧
    (deviceOf (fs_create stdConfig
      (fs_mount stdConfig (fs_unmount fs) (some danglingVolume)).2.1).2).writes = 1 := by
  rw [fs_mount_unmounted stdConfig (fs_unmount fs) freshSession (some danglingVolume) rfl rfl
    (by decide)]
  exact ⟨rfl, by decide, by decide, by decide, by decide, by decide⟩

/-! ## What `fs_write` and `fs_create` leave on the device -/

/-- C29, the code at a failing input: with the usual constants, on a freshly formatted
and mounted device of 8 blocks (6 free blocks), `fs_create` returns inode 0 and
`fs_write` of 28672 bytes to it returns 20480; some block `i` that was free before the
call is marked used afterwards and no free block is left, but the inode on the device
has `indirect == 0` and none of its direct pointers is `i`: the block allocated for the
indirect page is not recorded in the on-disk inode when `fs_write` returns. -/
theorem fs_write_indirect_not_persisted :
    (fs_create stdConfig (freshVolume stdConfig freshSession (blankDisk stdConfig 8))).1 = 0 ∧
    (fs_write stdConfig
      (fs_create stdConfig (freshVolume stdConfig freshSession (blankDisk stdConfig 8))).2
      0 (sampleBytes 28672) 28672 0).1 = 20480 ∧
    ∃ i, 1 ≤ i ∧
      (bitmapOf (fs_create stdConfig
        (freshVolume stdConfig freshSession (blankDisk stdConfig 8))).2).getD i false = true ∧
      (bitmapOf (fs_write stdConfig
        (fs_create stdConfig (freshVolume stdConfig freshSession (blankDisk stdConfig 8))).2
        0 (sampleBytes 28672) 28672 0).2).getD i true = false ∧
      inode_indirect stdConfig
        ((deviceOf (fs_write stdConfig
          (fs_create stdConfig (freshVolume stdConfig freshSession (blankDisk stdConfig 8))).2
          0 (sampleBytes 28672) 28672 0).2).data.getD 1 []) 0 = 0 ∧
      ∀ k, k < 5 →
        inode_direct stdConfig
          ((deviceOf (fs_write stdConfig
            (fs_create stdConfig (freshVolume stdConfig freshSession (blankDisk stdConfig 8))).2
            0 (sampleBytes 28672) 28672 0).2).data.getD 1 []) 0 k ≠ i := by
  have hlen : (blankDisk stdConfig 8).data.length = (blankDisk stdConfig 8).blocks := by
    simp [blankDisk]
  obtain ⟨d2, hc, hb1, inv⟩ := fresh_created_state stdConfig (by decide) freshSession rfl
    (blankDisk stdConfig 8) hlen (by decide) (by decide) (sampleBytes 28672) 28672
  have hcount : (List.replicate (((blankDisk stdConfig 8).blocks + 9) / 10 + 1) false
      ++ List.replicate ((blankDisk stdConfig 8).blocks
        - (((blankDisk stdConfig 8).blocks + 9) / 10 + 1)) true).count true = 5 + 1 :=
    count_append_replicate _ _
  obtain ⟨i, d', fbf, hw, hi1, hi2, hfree, hi3, hind, hdir, hframe⟩ :=
    fs_write_leak stdConfig (by decide) (by decide) (sampleBytes 28672) 28672 0 (by decide)
      d2 _
      ⟨stdConfig.MAGIC_NUMBER, (blankDisk stdConfig 8).blocks,
        ((blankDisk stdConfig 8).blocks + 9) / 10,
        ((blankDisk stdConfig 8).blocks + 9) / 10 * stdConfig.INODES_PER_BLOCK % 2 ^ 32⟩
      inv hcount (by decide)
  rw [hc, hw]
  exact ⟨rfl, rfl, i, hi1, hfree, hi3, hind, hdir⟩

/-- C30, the code at a failing input: with the usual constants, on a freshly formatted
and mounted device of 20 blocks, 128 calls of `fs_create` return `0 .. 127` and inode 1
is valid on the device; the next call returns 128, an inode of the second inode-table
block, and afterwards inode 1 (slot 1 of inode-table block 1) has `valid == 0` on the
device: the call changed an inode other than the one it claimed. -/
theorem fs_create_clobbers_first_block :
    (fs_creates stdConfig 128 (freshVolume stdConfig freshSession (blankDisk stdConfig 20))).1
      = (List.range 128).map Int.ofNat ∧
    inode_valid stdConfig
      ((deviceOf (fs_creates stdConfig 128
        (freshVolume stdConfig freshSession (blankDisk stdConfig 20))).2).data.getD 1 []) 1 = 1 ∧
    (fs_create stdConfig (fs_creates stdConfig 128
      (freshVolume stdConfig freshSession (blankDisk stdConfig 20))).2).1 = 128 ∧
    inode_valid stdConfig
      ((deviceOf (fs_create stdConfig (fs_creates stdConfig 128
        (freshVolume stdConfig freshSession (blankDisk stdConfig 20))).2).2).data.getD 1 [])
      1 = 0 := by
  have hlen : (blankDisk stdConfig 20).data.length = (blankDisk stdConfig 20).blocks := by
    simp [blankDisk]
  obtain ⟨d1, e1, e2, e3⟩ := fresh_volume_state stdConfig (by decide) freshSession rfl
    (blankDisk stdConfig 20) hlen (by decide) (by decide)
  have hb : (blankDisk stdConfig 20).blocks = 20 := rfl
  have hst0 : TableState stdConfig d1 0 := by
    refine ⟨?_, by rw [e2, hb]; decide, ?_, ?_⟩
    · rw [e3, e2]; simp only [List.length_cons, List.length_replicate]; rfl
    · rw [e3]; exact volume_getD_succ stdConfig _ _ 1 (by decide) (by decide)
    · rw [e3]; exact volume_getD_succ stdConfig _ _ 2 (by decide) (by decide)
  rw [e1]
  generalize (some (List.replicate (((blankDisk stdConfig 20).blocks + 9) / 10 + 1) false
    ++ List.replicate ((blankDisk stdConfig 20).blocks
      - (((blankDisk stdConfig 20).blocks + 9) / 10 + 1)) true) : Option (List Bool)) = fbs
  obtain ⟨m, hm1, hm2⟩ : ∃ m : SuperBlock,
      m = ⟨stdConfig.MAGIC_NUMBER, (blankDisk stdConfig 20).blocks,
        ((blankDisk stdConfig 20).blocks + 9) / 10,
        (((blankDisk stdConfig 20).blocks + 9) / 10 * stdConfig.INODES_PER_BLOCK) % 2 ^ 32⟩ ∧
      m.inode_blocks = 2 := ⟨_, rfl, rfl⟩
  rw [← hm1]
  have hd1 : d1.blocks = 20 := e2
  obtain ⟨d2, f1, f2, f3⟩ := fs_creates_first_block stdConfig (by decide) fbs m (by omega)
    128 0 d1 (by decide) hst0 (by omega)
  obtain ⟨d3, g1, g2, g3⟩ := create_step_second stdConfig (by decide) (by decide) d2 fbs m f3
    (by omega) (by omega)
  rw [f1, g1]
  refine ⟨?_, ?_, rfl, ?_⟩
  · simp only [List.range_eq_range']
  · show inode_valid stdConfig (d2.data.getD 1 []) 1 = 1
    rw [f3.2.2.1]
    exact tableBlock_valid stdConfig (by decide) 1 (by decide) 128 (by decide)
  · show inode_valid stdConfig (d3.data.getD 1 []) 1 = 0
    rw [g3.2.2.1]
    exact tableBlock_valid stdConfig (by decide) 1 (by decide) 1 (by decide)

/-! ## The size stored by `fs_write` -/

theorem gimme_block_disk (fs : FileSystem) : (gimme_block fs).2.disk = fs.disk := by
  unfold gimme_block
  split
  · split <;> rfl
  · rfl

theorem disk_write_eq (cfg : Config) (d : Disk) (i : Nat) (buf : Block)
    (hlen : d.data.length = d.blocks) :
    disk_write cfg (some d) i buf
      = if i < d.blocks then
          ((cfg.BLOCK_SIZE : Int),
            some { d with writes := d.writes + 1, data := d.data.set i buf })
        else (DISK_FAILURE, some d) := by
  by_cases h : i < d.blocks
  · rw [if_pos h]; exact disk_write_ok cfg d i buf hlen h
  · rw [if_neg h]; exact disk_write_fail cfg d i buf (by omega)

theorem disk_failure_neg : DISK_FAILURE < 0 := by decide

/-- The step `check and find indirect block` of `fs_write` on a mounted session: an
early return is a negative code or the count `nwrite` with the device contents as
before; otherwise the device contents are as before and the inode block keeps its
length. -/
theorem write_find_indirect_cases (cfg : Config) (fs : FileSystem) (d : Disk)
    (hfs : fs.disk = some d) (block : Block) (inum nw : Nat) :
    (∀ e, write_find_indirect cfg fs block inum nw = .error e →
      e.1 < 0 ∨ (e.1 = toSsize nw ∧ ∃ d1, e.2.disk = some d1 ∧ d1.data = d.data ∧
        d1.blocks = d.blocks)) ∧
    (∀ fsa blocka pblocka, write_find_indirect cfg fs block inum nw = .ok (fsa, blocka, pblocka) →
      (∃ d1, fsa.disk = some d1 ∧ d1.data = d.data ∧ d1.blocks = d.blocks) ∧
        blocka.length = block.length) := by
  rcases hgm : gimme_block fs with ⟨o, fs1⟩
  have hgd := gimme_block_disk fs
  rw [hgm, hfs] at hgd
  simp only at hgd
  rcases hrd : disk_read cfg fs.disk (inode_indirect cfg block inum) (zeroBlock cfg)
    with ⟨r, disk1, pblock⟩
  have hrf := disk_read_frame cfg d (inode_indirect cfg block inum) (zeroBlock cfg)
  rw [← hfs, hrd] at hrf
  obtain ⟨d1, hr1, hr2, hr3, -, -⟩ := hrf
  simp only at hr1
  unfold write_find_indirect
  simp only [hgm, hrd]
  constructor
  · intro e h
    split at h
    · cases o with
      | none =>
        simp only [Except.error.injEq] at h
        subst h
        exact Or.inr ⟨rfl, d, hgd, rfl, rfl⟩
      | some b => simp at h
    · split at h
      · simp only [Except.error.injEq] at h
        subst h
        exact Or.inl (by show (-2 : Int) < 0; decide)
      · simp at h
  · intro fsa blocka pblocka h
    split at h
    · cases o with
      | none => simp at h
      | some b =>
        simp only [Except.ok.injEq, Prod.mk.injEq] at h
        obtain ⟨h1, h2, -⟩ := h
        subst h1
        subst h2
        exact ⟨⟨d, hgd, rfl, rfl⟩, by unfold set_inode_indirect; rw [set32_length]⟩
    · split at h
      · simp at h
      · simp only [Except.ok.injEq, Prod.mk.injEq] at h
        obtain ⟨h1, h2, -⟩ := h
        subst h1
        subst h2
        exact ⟨⟨d1, hr1, hr2, hr3⟩, rfl⟩

/-- The first half of the body of the loop of `fs_write` on a mounted session with the
device as opened: an early return is a negative code or the count `nwrite` with the
device contents as before; otherwise the device is still as opened and the inode block
keeps its length. -/
theorem write_found_cases (cfg : Config) (fs : FileSystem) (d : Disk)
    (hfs : fs.disk = some d) (hlen : d.data.length = d.blocks) (block : Block)
    (inum k nw : Nat) :
    (∀ e, (if k < cfg.POINTERS_PER_INODE then write_direct cfg fs block inum k nw
        else write_indirect cfg fs block inum k nw) = .error e →
      e.1 < 0 ∨ (e.1 = toSsize nw ∧ ∃ d1, e.2.disk = some d1 ∧ d1.data = d.data ∧
        d1.blocks = d.blocks)) ∧
    (∀ fs1 block1 Dblock blk,
      (if k < cfg.POINTERS_PER_INODE then write_direct cfg fs block inum k nw
        else write_indirect cfg fs block inum k nw) = .ok (fs1, block1, Dblock, blk) →
      ∃ d1, fs1.disk = some d1 ∧ d1.data.length = d1.blocks ∧ d1.blocks = d.blocks ∧
        block1.length = block.length) := by
  by_cases hk : k < cfg.POINTERS_PER_INODE
  · simp only [if_pos hk]
    rcases hgm : gimme_block fs with ⟨o, fs1⟩
    have hgd := gimme_block_disk fs
    rw [hgm, hfs] at hgd
    simp only at hgd
    rcases hrd : disk_read cfg fs.disk (inode_direct cfg block inum k) (zeroBlock cfg)
      with ⟨r, disk1, Dblock⟩
    have hrf := disk_read_frame cfg d (inode_direct cfg block inum k) (zeroBlock cfg)
    rw [← hfs, hrd] at hrf
    obtain ⟨d1, hr1, hr2, hr3, -, -⟩ := hrf
    simp only at hr1
    unfold write_direct
    simp only [hgm, hrd]
    constructor
    · intro e h
      split at h
      · cases o with
        | none =>
          simp only [Except.error.injEq] at h
          subst h
          exact Or.inr ⟨rfl, d, hgd, rfl, rfl⟩
        | some b => simp at h
      · split at h
        · simp only [Except.error.injEq] at h
          subst h
          exact Or.inl (by show (-1 : Int) < 0; decide)
        · simp at h
    · intro fsa blocka Da blk h
      split at h
      · cases o with
        | none => simp at h
        | some b =>
          simp only [Except.ok.injEq, Prod.mk.injEq] at h
          obtain ⟨h1, h2, -, -⟩ := h
          subst h1
          subst h2
          exact ⟨d, hgd, hlen, rfl, by unfold set_inode_direct; rw [set32_length]⟩
      · split at h
        · simp at h
        · simp only [Except.ok.injEq, Prod.mk.injEq] at h
          obtain ⟨h1, h2, -, -⟩ := h
          subst h1
          subst h2
          exact ⟨d1, hr1, by rw [hr2, hr3]; exact hlen, hr3, rfl⟩
  · simp only [if_neg hk]
    obtain ⟨hfe, hfo⟩ := write_find_indirect_cases cfg fs d hfs block inum nw
    unfold write_indirect
    cases hf : write_find_indirect cfg fs block inum nw with
    | error e0 =>
      simp only
      constructor
      · intro e h
        simp only [Except.error.injEq] at h
        subst h
        exact hfe e0 hf
      · intro fsa blocka Da blk h
        simp at h
    | ok r0 =>
      obtain ⟨fsa, blocka, pblocka⟩ := r0
      obtain ⟨⟨da, ha1, ha2, ha3⟩, hbl⟩ := hfo fsa blocka pblocka hf
      simp only
      rcases hgm : gimme_block fsa with ⟨o, fs2⟩
      have hgd := gimme_block_disk fsa
      rw [hgm, ha1] at hgd
      simp only at hgd
      rcases hrd : disk_read cfg fsa.disk (pointer pblocka (k - cfg.POINTERS_PER_INODE))
        (zeroBlock cfg) with ⟨r, disk1, Dblock⟩
      have hrf := disk_read_frame cfg da (pointer pblocka (k - cfg.POINTERS_PER_INODE))
        (zeroBlock cfg)
      rw [← ha1, hrd] at hrf
      obtain ⟨d1, hr1, hr2, hr3, -, -⟩ := hrf
      simp only at hr1
      have hlena : da.data.length = da.blocks := by rw [ha2, ha3]; exact hlen
      have hlen1 : d1.data.length = d1.blocks := by rw [hr2, hr3]; exact hlena
      by_cases hp : pointer pblocka (k - cfg.POINTERS_PER_INODE) = 0
      · simp only [if_pos hp]
        cases o with
        | none =>
          simp only
          constructor
          · intro e h
            simp only [Except.error.injEq] at h
            subst h
            exact Or.inr ⟨rfl, da, hgd, ha2, ha3⟩
          · intro fsb blockb Db blk h
            simp at h
        | some p =>
          simp only [hgd]
          rw [disk_write_eq cfg da _ _ hlena]
          by_cases hq : inode_indirect cfg blocka inum < da.blocks
          · simp only [if_pos hq, block_size_ne_failure, if_false]
            constructor
            · intro e h
              simp at h
            · intro fsb blockb Db blk h
              simp only [Except.ok.injEq, Prod.mk.injEq] at h
              obtain ⟨h1, h2, -, -⟩ := h
              subst h1
              subst h2
              exact ⟨_, rfl, by simp only [List.length_set]; exact hlena, ha3, hbl⟩
          · simp only [if_neg hq, if_true]
            constructor
            · intro e h
              simp only [Except.error.injEq] at h
              subst h
              exact Or.inl (by show (-4 : Int) < 0; decide)
            · intro fsb blockb Db blk h
              simp at h
      · simp only [if_neg hp]
        by_cases hr : r = DISK_FAILURE
        · simp only [if_pos hr]
          constructor
          · intro e h
            simp only [Except.error.injEq] at h
            subst h
            exact Or.inl (by show (-3 : Int) < 0; decide)
          · intro fsb blockb Db blk h
            simp at h
        · simp only [if_neg hr, hr1]
          rw [disk_write_eq cfg d1 _ _ hlen1]
          by_cases hq : inode_indirect cfg blocka inum < d1.blocks
          · simp only [if_pos hq, block_size_ne_failure, if_false]
            constructor
            · intro e h
              simp at h
            · intro fsb blockb Db blk h
              simp only [Except.ok.injEq, Prod.mk.injEq] at h
              obtain ⟨h1, h2, -, -⟩ := h
              subst h1
              subst h2
              exact ⟨_, rfl, by simp only [List.length_set]; exact hlen1,
                by rw [← ha3, ← hr3], hbl⟩
          · simp only [if_neg hq, if_true]
            constructor
            · intro e h
              simp only [Except.error.injEq] at h
              subst h
              exact Or.inl (by show (-4 : Int) < 0; decide)
            · intro fsb blockb Db blk h
              simp at h

/-- The loop of `fs_write` keeps the stored size in step with the count: when it returns
a positive count `r`, the inode on the device has size `r + offset`. -/
theorem write_loop_size (cfg : Config) (hcfg : cfg.WF) (n : Nat) (data : List Nat) (L O : Nat)
    (hLO : L + O < 2 ^ 32) :
    ∀ (fuel : Nat) (fs : FileSystem) (d : Disk) (block : Block) (nw data_b data_o : Nat),
      fs.disk = some d → d.data.length = d.blocks → block.length = cfg.BLOCK_SIZE →
      nw ≤ L → data_o < cfg.BLOCK_SIZE → data_o ≤ O →
      (0 < nw → inode_size cfg (d.data.getD (n / cfg.INODES_PER_BLOCK + 1) [])
        (n % cfg.INODES_PER_BLOCK) = nw + O) →
      ∀ r : Nat, 0 < r →
        (write_loop cfg n data L O fuel fs block nw data_b data_o).1 = (r : Int) →
        r ≤ L ∧
        ∃ d', (write_loop cfg n data L O fuel fs block nw data_b data_o).2.disk = some d' ∧
          d'.data.length = d'.blocks ∧ d'.blocks = d.blocks ∧
          inode_size cfg (d'.data.getD (n / cfg.INODES_PER_BLOCK + 1) [])
            (n % cfg.INODES_PER_BLOCK) = r + O := by
  obtain ⟨hw1, hw2, hw3, hw4, hw5, hw6⟩ := hcfg
  have hcfg : cfg.WF := ⟨hw1, hw2, hw3, hw4, hw5, hw6⟩
  have hdone : ∀ (fs : FileSystem) (d : Disk) (nw : Nat), fs.disk = some d →
      d.data.length = d.blocks → nw ≤ L →
      (0 < nw → inode_size cfg (d.data.getD (n / cfg.INODES_PER_BLOCK + 1) [])
        (n % cfg.INODES_PER_BLOCK) = nw + O) →
      ∀ r : Nat, 0 < r → toSsize nw = (r : Int) →
        r ≤ L ∧ ∃ d', fs.disk = some d' ∧ d'.data.length = d'.blocks ∧ d'.blocks = d.blocks ∧
          inode_size cfg (d'.data.getD (n / cfg.INODES_PER_BLOCK + 1) [])
            (n % cfg.INODES_PER_BLOCK) = r + O := by
    intro fs d nw hfs hlen hnw hsz r hr h
    rw [toSsize_small nw (by omega)] at h
    have hnr : nw = r := by exact_mod_cast h
    subst hnr
    exact ⟨hnw, d, hfs, hlen, rfl, hsz hr⟩
  intro fuel
  induction fuel with
  | zero =>
    intro fs d block nw data_b data_o hfs hlen hb hnw hdo hdO hsz r hr h
    exact hdone fs d nw hfs hlen hnw hsz r hr h
  | succ fuel ih =>
    intro fs d block nw data_b data_o hfs hlen hb hnw hdo hdO hsz r hr h
    by_cases hlt : nw < L
    · obtain ⟨hce, hco⟩ := write_found_cases cfg fs d hfs hlen block
        (n % cfg.INODES_PER_BLOCK) data_b nw
      rw [write_loop, if_neg (not_not.mpr hlt)] at h ⊢
      cases hfound : (if data_b < cfg.POINTERS_PER_INODE then
          write_direct cfg fs block (n % cfg.INODES_PER_BLOCK) data_b nw
        else write_indirect cfg fs block (n % cfg.INODES_PER_BLOCK) data_b nw) with
      | error e =>
        simp only [hfound] at h ⊢
        rcases hce e hfound with hneg | ⟨he1, d1, he2, he3, he4⟩
        · rw [h] at hneg
          omega
        · rw [he1] at h
          obtain ⟨h1, d', h2, h3, h4, h5⟩ := hdone e.2 d1 nw he2 (by rw [he3, he4]; exact hlen)
            hnw (by rw [he3]; exact hsz) r hr h
          exact ⟨h1, d', h2, h3, by rw [h4, he4], h5⟩
      | ok res =>
        obtain ⟨fs1, block1, Dblock, blk⟩ := res
        obtain ⟨d1, hd1, hlen1, hbk1, hbl1⟩ := hco fs1 block1 Dblock blk hfound
        have hnc : (if ((L - nw) + data_o) % 2 ^ 64 < cfg.BLOCK_SIZE then L - nw
            else cfg.BLOCK_SIZE - data_o) ≤ L - nw ∧
            0 < (if ((L - nw) + data_o) % 2 ^ 64 < cfg.BLOCK_SIZE then L - nw
            else cfg.BLOCK_SIZE - data_o) := by
          rw [Nat.mod_eq_of_lt (by omega)]
          split <;> omega
        generalize (if ((L - nw) + data_o) % 2 ^ 64 < cfg.BLOCK_SIZE then L - nw
            else cfg.BLOCK_SIZE - data_o) = ncopy at hnc h ⊢
        simp only [hfound, hd1] at h ⊢
        rw [disk_write_eq cfg d1 _ _ hlen1] at h ⊢
        by_cases hq : blk < d1.blocks
        · simp only [if_pos hq, block_size_ne_failure, if_false] at h ⊢
          rw [disk_write_eq cfg _ _ _ (by simp only [List.length_set]; exact hlen1)] at h ⊢
          by_cases hi : n / cfg.INODES_PER_BLOCK + 1 < d1.blocks
          · simp only [if_pos hi, block_size_ne_failure, if_false] at h ⊢
            have hmod : (nw + ncopy) % 2 ^ 64 = nw + ncopy := Nat.mod_eq_of_lt (by omega)
            rw [hmod] at h ⊢
            have hih := ih _ _ (set_inode_size cfg block1 (n % cfg.INODES_PER_BLOCK)
                ((nw + ncopy + O) % 2 ^ 64)) (nw + ncopy) (data_b + 1) 0 rfl
              (by simp only [List.length_set]; exact hlen1)
              (by unfold set_inode_size; rw [set32_length, hbl1, hb])
              (by omega) (by omega) (by omega)
              (by
                intro _
                simp only
                rw [getD_set_data _ _ _ _
                  (by simp only [List.length_set]; rw [hlen1]; exact hi), if_pos rfl,
                  size_set_size cfg hcfg _ _ _ (by rw [hbl1, hb])
                    (Nat.mod_lt _ hw2)]
                omega)
              r hr h
            obtain ⟨h1, d', h2, h3, h4, h5⟩ := hih
            exact ⟨h1, d', h2, h3, by rw [h4, hbk1], h5⟩
          · simp only [if_neg hi, if_true] at h
            omega
        · simp only [if_neg hq, if_true] at h
          omega
    · rw [write_loop, if_pos hlt] at h ⊢
      exact hdone fs d nw hfs hlen hnw hsz r hr h

/-- On a mounted session with the device as opened, `fs_write` that returns a positive
count `r` leaves the inode on the device with size `r + offset`. -/
theorem fs_write_size (cfg : Config) (hcfg : cfg.WF) (fs : FileSystem) (d : Disk)
    (hfs : fs.disk = some d) (hlen : d.data.length = d.blocks)
    (hsize : ∀ i, i < d.blocks → (d.data.getD i []).length = cfg.BLOCK_SIZE)
    (n : Nat) (data : List Nat) (L O : Nat) (hLO : L + O < 2 ^ 32)
    (r : Nat) (hr : 0 < r) (h : (fs_write cfg fs n data L O).1 = (r : Int)) :
    r ≤ L ∧
    ∃ d', (fs_write cfg fs n data L O).2.disk = some d' ∧
      d'.data.length = d'.blocks ∧ d'.blocks = d.blocks ∧
      inode_size cfg (d'.data.getD (n / cfg.INODES_PER_BLOCK + 1) [])
        (n % cfg.INODES_PER_BLOCK) = r + O := by
  have hB : 0 < cfg.BLOCK_SIZE := by have := hcfg.1; omega
  unfold fs_write at h ⊢
  rw [hfs, disk_read_eq cfg d _ _ hlen] at h ⊢
  by_cases hi : n / cfg.INODES_PER_BLOCK + 1 < d.blocks
  · simp only [if_pos hi, block_size_ne_failure, if_false] at h ⊢
    exact write_loop_size cfg hcfg n data L O hLO L _ ⟨d.blocks, d.reads + 1, d.writes, d.data⟩
      _ 0 _ _ rfl hlen (hsize _ hi) (Nat.zero_le _) (Nat.mod_lt _ hB) (Nat.mod_le _ _)
      (fun h0 => absurd h0 (by omega)) r hr h
  · simp only [if_neg hi, if_true] at h
    omega

/-- C27: on a mounted session with the device as opened and `length + offset` below
`2 ^ 32` (the width of the size field), whenever `fs_write` returns a positive count `r`,
then `r` is at most `length` and the size of the inode on the device afterwards is exactly
`offset + r`, whatever it was before; a call with length 0 on an inode whose table block
is on the device returns 0 and leaves the device contents, the write counter, the bitmap
and the super block as they were (it counts one read). Consequently a write can shrink a
file: in the small layout the sample volume holds inode 0 with size 70, writing one byte
at offset 0 returns 1 and `fs_stat` then reports 1. -/
theorem fs_write_sets_size (cfg : Config) (hcfg : cfg.WF) (fs : FileSystem) (d : Disk)
    (hfs : fs.disk = some d) (hlen : d.data.length = d.blocks)
    (hsize : ∀ i, i < d.blocks → (d.data.getD i []).length = cfg.BLOCK_SIZE)
    (n : Nat) (data : List Nat) (length offset : Nat) (hLO : length + offset < 2 ^ 32) :
    (∀ r : Nat, 0 < r → (fs_write cfg fs n data length offset).1 = (r : Int) →
      r ≤ length ∧
      ∃ d', (fs_write cfg fs n data length offset).2.disk = some d' ∧
        inode_size cfg (d'.data.getD (n / cfg.INODES_PER_BLOCK + 1) [])
          (n % cfg.INODES_PER_BLOCK) = offset + r) ∧
    (n / cfg.INODES_PER_BLOCK + 1 < d.blocks →
      fs_write cfg fs n data 0 offset
        = (0, { fs with disk := some ⟨d.blocks, d.reads + 1, d.writes, d.data⟩ })) ∧
    ((fs_stat smallConfig sampleSession 0).1 = 70 ∧
      (fs_write smallConfig sampleSession 0 [9] 1 0).1 = 1 ∧
      (fs_stat smallConfig (fs_write smallConfig sampleSession 0 [9] 1 0).2 0).1 = 1) := by
  refine ⟨?_, ?_, by decide⟩
  · intro r hr h
    obtain ⟨h1, d', h2, -, -, h3⟩ :=
      fs_write_size cfg hcfg fs d hfs hlen hsize n data length offset hLO r hr h
    exact ⟨h1, d', h2, by rw [h3]; omega⟩
  · intro hi
    unfold fs_write
    rw [hfs, disk_read_eq cfg d _ _ hlen]
    simp only [if_pos hi, block_size_ne_failure, if_false]
    rfl

/-- Witness of C27: the sample session of the small layout and a write of one byte at
offset 0 to inode 0, which returns 1; the call with length 0 returns 0. -/
theorem fs_write_sets_size_witness :
    smallConfig.WF ∧ sampleSession.disk = some ⟨8, 3, 0, sampleVolume.data⟩ ∧
    (fs_write smallConfig sampleSession 0 [9] 1 0).1 = ((1 : Nat) : Int) ∧
    (∃ d', (fs_write smallConfig sampleSession 0 [9] 1 0).2.disk = some d' ∧
      inode_size smallConfig (d'.data.getD (0 / smallConfig.INODES_PER_BLOCK + 1) [])
        (0 % smallConfig.INODES_PER_BLOCK) = 0 + 1) ∧
    fs_write smallConfig sampleSession 0 [9] 0 0
      = (0, { sampleSession with disk := some ⟨8, 3 + 1, 0, sampleVolume.data⟩ }) :=
  ⟨by decide, by decide, by decide,
    ((fs_write_sets_size smallConfig (by decide) sampleSession ⟨8, 3, 0, sampleVolume.data⟩
      (by decide) (by decide) (by decide) 0 [9] 1 0 (by decide)).1 1 (by decide)
        (by decide)).2,
    (fs_write_sets_size smallConfig (by decide) sampleSession ⟨8, 3, 0, sampleVolume.data⟩
      (by decide) (by decide) (by decide) 0 [9] 1 0 (by decide)).2.1 (by decide)⟩

/-! ## Writes past the two-level scheme -/

theorem get32_past_end (b : Block) (w : Nat) (h : b.length ≤ 4 * w) : get32 b w = 0 := by
  unfold get32
  rw [List.getD_eq_default _ _ (by omega), List.getD_eq_default _ _ (by omega),
    List.getD_eq_default _ _ (by omega), List.getD_eq_default _ _ (by omega)]

/-- The final iteration of the loop of `fs_write`: when the first half of the body
succeeds with a block number on the device and the chunk copied completes the length,
the loop returns the length. -/
theorem write_loop_last (cfg : Config) (n : Nat) (data : List Nat) (L O fuel : Nat)
    (fs fs1 : FileSystem) (d1 : Disk) (block block1 Dblock : Block) (nw data_b data_o blk : Nat)
    (hnw : nw < L) (hL : L < 2 ^ 32) (hB : cfg.BLOCK_SIZE < 2 ^ 32)
    (hdo : data_o < cfg.BLOCK_SIZE)
    (hlast : L - nw + data_o ≤ cfg.BLOCK_SIZE)
    (hfound : (if data_b < cfg.POINTERS_PER_INODE then
        write_direct cfg fs block (n % cfg.INODES_PER_BLOCK) data_b nw
      else write_indirect cfg fs block (n % cfg.INODES_PER_BLOCK) data_b nw)
      = .ok (fs1, block1, Dblock, blk))
    (hd1 : fs1.disk = some d1) (hlen1 : d1.data.length = d1.blocks) (hblk : blk < d1.blocks)
    (hi : n / cfg.INODES_PER_BLOCK + 1 < d1.blocks) :
    write_loop cfg n data L O (fuel + 1) fs block nw data_b data_o
      = ((L : Int),
        { fs1 with disk := some ⟨d1.blocks, d1.reads, d1.writes + 1 + 1,
          (d1.data.set blk (memcpy Dblock data_o data nw (L - nw))).set
            (n / cfg.INODES_PER_BLOCK + 1)
            (set_inode_size cfg block1 (n % cfg.INODES_PER_BLOCK) (L + O))⟩ }) := by
  have hnc : (if ((L - nw) + data_o) % 2 ^ 64 < cfg.BLOCK_SIZE then L - nw
      else cfg.BLOCK_SIZE - data_o) = L - nw := by
    rw [Nat.mod_eq_of_lt (by omega)]
    split <;> omega
  rw [write_loop, if_neg (not_not.mpr hnw)]
  simp only [hfound, hnc, hd1]
  rw [disk_write_ok cfg d1 blk _ hlen1 hblk]
  simp only [block_size_ne_failure, if_false]
  rw [disk_write_ok cfg ⟨d1.blocks, d1.reads, d1.writes + 1,
    d1.data.set blk (memcpy Dblock data_o data nw (L - nw))⟩ _ _
    (by simp only [List.length_set]; exact hlen1) hi]
  simp only [block_size_ne_failure, if_false]
  have e1 : (nw + (L - nw)) % 2 ^ 64 = L := by
    rw [Nat.mod_eq_of_lt (by omega)]; omega
  rw [e1, write_loop_done cfg n data L O fuel _ _ L _ _ (le_refl _), toSsize_small L hL]
  have e2 : set_inode_size cfg block1 (n % cfg.INODES_PER_BLOCK) ((L + O) % 2 ^ 64)
      = set_inode_size cfg block1 (n % cfg.INODES_PER_BLOCK) (L + O) := by
    unfold set_inode_size set32
    have h64 : (2 : Nat) ^ 64 = 256 * (256 * (256 * (256 * 2 ^ 32))) := by norm_num
    have a1 : (L + O) % 2 ^ 64 % 256 = (L + O) % 256 :=
      Nat.mod_mod_of_dvd _ (by rw [h64]; exact Dvd.intro _ rfl)
    have a2 : (L + O) % 2 ^ 64 / 256 % 256 = (L + O) / 256 % 256 := by omega
    have a3 : (L + O) % 2 ^ 64 / 65536 % 256 = (L + O) / 65536 % 256 := by omega
    have a4 : (L + O) % 2 ^ 64 / 16777216 % 256 = (L + O) / 16777216 % 256 := by omega
    rw [a1, a2, a3, a4]
  rw [e2]

/-- The first half of the loop body for the logical block just past the two-level
scheme, on an inode without indirect page: with two free blocks it allocates a page and a
data block, stores the data block number at index `POINTERS_PER_BLOCK` of the page view
and reads the physical block number back from there. When the page fills the whole block
that word lies past the end of the block (where the model reads 0). -/
theorem write_indirect_past_page (cfg : Config) (hcfg : cfg.WF)
    (hpage : cfg.BLOCK_SIZE ≤ 4 * cfg.POINTERS_PER_BLOCK)
    (d : Disk) (fb : List Bool) (m : SuperBlock) (block : Block) (inum nw : Nat)
    (hlen : d.data.length = d.blocks) (hb32 : d.blocks < 2 ^ 32)
    (hfb : fb.length = d.blocks) (hzero : fb.getD 0 false = false)
    (hc : 2 ≤ fb.count true) (hblock : block.length = cfg.BLOCK_SIZE)
    (hinum : inum < cfg.INODES_PER_BLOCK) (hind : inode_indirect cfg block inum = 0) :
    ∃ fs1 block1 d1,
      write_indirect cfg ⟨some d, some fb, m⟩ block inum
          (cfg.POINTERS_PER_INODE + cfg.POINTERS_PER_BLOCK) nw
        = .ok (fs1, block1, zeroBlock cfg, 0) ∧
      fs1.disk = some d1 ∧ d1.data.length = d1.blocks ∧ d1.blocks = d.blocks ∧
      block1.length = cfg.BLOCK_SIZE := by
  obtain ⟨i, hg, hi1, hi2, hi3⟩ := gimme_block_some d fb m hfb hzero (by omega)
  have hcnt := count_set_false fb i hi3
  obtain ⟨p, hg2, hp1, hp2, hp3⟩ := gimme_block_some d (fb.set i false) m
    (by rw [List.length_set]; exact hfb)
    (by rw [getD_set_eq]; rw [if_neg (by omega)]; exact hzero) (by omega)
  have hidx : cfg.POINTERS_PER_INODE + cfg.POINTERS_PER_BLOCK - cfg.POINTERS_PER_INODE
      = cfg.POINTERS_PER_BLOCK := by omega
  have hp0 : pointer (zeroBlock cfg) cfg.POINTERS_PER_BLOCK = 0 := get32_zeroBlock cfg _
  have hblk : pointer (set_pointer (zeroBlock cfg) cfg.POINTERS_PER_BLOCK p)
      cfg.POINTERS_PER_BLOCK = 0 := by
    unfold pointer set_pointer
    exact get32_past_end _ _ (by rw [set32_length, zeroBlock_length]; exact hpage)
  unfold write_indirect write_find_indirect
  rw [if_pos hind, hg]
  simp only [hidx, hp0, if_true, hg2]
  rw [indirect_set_indirect cfg hcfg block inum i hblock hinum, Nat.mod_eq_of_lt (by omega),
    disk_write_ok cfg d i _ hlen hi2]
  simp only [block_size_ne_failure, if_false, hblk]
  exact ⟨_, _, _, rfl, rfl, by simp only [List.length_set]; exact hlen, rfl,
    by unfold set_inode_indirect; rw [set32_length]; exact hblock⟩

/-- A write of one byte at the offset `(POINTERS_PER_INODE + POINTERS_PER_BLOCK) *
BLOCK_SIZE`, the first byte past the two-level scheme, to an empty inode with two free
blocks in the bitmap: `fs_write` returns 1. -/
theorem fs_write_past_scheme (cfg : Config) (hcfg : cfg.WF)
    (hpage : cfg.BLOCK_SIZE ≤ 4 * cfg.POINTERS_PER_BLOCK)
    (data : List Nat) (N n : Nat) (x : List Nat) (d : Disk) (fb : List Bool) (m : SuperBlock)
    (inv : WriteInv cfg data N (n / cfg.INODES_PER_BLOCK + 1) (n % cfg.INODES_PER_BLOCK) 0 0
      d fb (d.data.getD (n / cfg.INODES_PER_BLOCK + 1) []))
    (hc : 2 ≤ fb.count true) :
    (fs_write cfg ⟨some d, some fb, m⟩ n x 1
      ((cfg.POINTERS_PER_INODE + cfg.POINTERS_PER_BLOCK) * cfg.BLOCK_SIZE)).1 = ((1 : Nat) : Int) := by
  have hB : 0 < cfg.BLOCK_SIZE := by have := hcfg.1; omega
  have hB32 : cfg.BLOCK_SIZE < 2 ^ 32 := by
    have h6 := hcfg.2.2.2.2.2
    have h4 := hcfg.2.2.2.1
    have hppb : 0 < cfg.POINTERS_PER_INODE + cfg.POINTERS_PER_BLOCK := by omega
    have := Nat.le_mul_of_pos_left cfg.BLOCK_SIZE hppb
    omega
  obtain ⟨fs1, block1, d1, hwi, hd1, hlen1, hbk1, hbl1⟩ :=
    write_indirect_past_page cfg hcfg hpage ⟨d.blocks, d.reads + 1, d.writes, d.data⟩ fb m
      (d.data.getD (n / cfg.INODES_PER_BLOCK + 1) []) (n % cfg.INODES_PER_BLOCK) 0
      inv.hlen inv.hb32 inv.hfb inv.hzero hc inv.hblock (Nat.mod_lt _ hcfg.2.1)
      (inv.hind0 (Nat.zero_le _))
  have hib : n / cfg.INODES_PER_BLOCK + 1 < d1.blocks := by rw [hbk1]; exact inv.hiblk
  have hblk0 : 0 < d1.blocks := Nat.lt_of_le_of_lt (Nat.zero_le _) hib
  unfold fs_write
  rw [disk_read_ok cfg d _ _ inv.hlen inv.hiblk]
  simp only [block_size_ne_failure, if_false]
  rw [Nat.mul_div_cancel _ hB, Nat.mul_mod_left]
  rw [write_loop_last cfg n x 1 _ 0 _ fs1 d1 _ block1 (zeroBlock cfg) 0 _ 0 0 (by omega)
    (by omega) hB32 hB (by omega)
    (by rw [if_neg (by omega)]; exact hwi) hd1 hlen1 hblk0 hib]

/-- C23, the code at a failing input: with the usual constants, on a freshly formatted
and mounted device of 20 blocks, `fs_create` returns inode 0 and `fs_write` of one byte at
offset 4214784, which is `(POINTERS_PER_INODE + POINTERS_PER_BLOCK) * BLOCK_SIZE`, returns
1. The loop runs for logical block 1029 and uses `1029 - POINTERS_PER_INODE = 1024 =
POINTERS_PER_BLOCK` as index into the pointer page, whose entries are numbered 0 to 1023
(the embedding reads 0 past the end of a block and ignores a store there), and the inode
on the device afterwards has size 4214785, more than the bound of the two-level scheme. -/
theorem fs_write_exceeds_max_size :
    (fs_create stdConfig (freshVolume stdConfig freshSession (blankDisk stdConfig 20))).1 = 0 ∧
    4214784 = (stdConfig.POINTERS_PER_INODE + stdConfig.POINTERS_PER_BLOCK)
      * stdConfig.BLOCK_SIZE ∧
    4214784 / stdConfig.BLOCK_SIZE - stdConfig.POINTERS_PER_INODE
      = stdConfig.POINTERS_PER_BLOCK ∧
    (fs_write stdConfig
      (fs_create stdConfig (freshVolume stdConfig freshSession (blankDisk stdConfig 20))).2
      0 [7] 1 4214784).1 = 1 ∧
    (stdConfig.POINTERS_PER_INODE + stdConfig.POINTERS_PER_BLOCK) * stdConfig.BLOCK_SIZE
      < inode_size stdConfig
        ((deviceOf (fs_write stdConfig
          (fs_create stdConfig (freshVolume stdConfig freshSession (blankDisk stdConfig 20))).2
          0 [7] 1 4214784).2).data.getD 1 []) 0 ∧
    inode_size stdConfig
      ((deviceOf (fs_write stdConfig
        (fs_create stdConfig (freshVolume stdConfig freshSession (blankDisk stdConfig 20))).2
        0 [7] 1 4214784).2).data.getD 1 []) 0 = 4214785 := by
  have hlen : (blankDisk stdConfig 20).data.length = (blankDisk stdConfig 20).blocks := by
    simp [blankDisk]
  obtain ⟨d2, hc, hb1, inv⟩ := fresh_created_state stdConfig (by decide) freshSession rfl
    (blankDisk stdConfig 20) hlen (by decide) (by decide) [7] 1
  have hcount : (List.replicate (((blankDisk stdConfig 20).blocks + 9) / 10 + 1) false
      ++ List.replicate ((blankDisk stdConfig 20).blocks
        - (((blankDisk stdConfig 20).blocks + 9) / 10 + 1)) true).count true = 17 :=
    count_append_replicate _ _
  have hO : (4214784 : Nat) = (stdConfig.POINTERS_PER_INODE + stdConfig.POINTERS_PER_BLOCK)
      * stdConfig.BLOCK_SIZE := by decide
  have hw := fs_write_past_scheme stdConfig (by decide) (by decide) [7] 1 0 [7] d2 _
    ⟨stdConfig.MAGIC_NUMBER, (blankDisk stdConfig 20).blocks,
      ((blankDisk stdConfig 20).blocks + 9) / 10,
      ((blankDisk stdConfig 20).blocks + 9) / 10 * stdConfig.INODES_PER_BLOCK % 2 ^ 32⟩
    inv (by rw [hcount]; decide)
  rw [← hO] at hw
  obtain ⟨-, d', hd', -, -, hsz⟩ := fs_write_size stdConfig (by decide) _ d2 rfl inv.hlen
    inv.hsize 0 [7] 1 4214784 (by decide) 1 (by decide) hw
  rw [hc]
  have hdev : deviceOf (fs_write stdConfig
      ⟨some d2, some (List.replicate (((blankDisk stdConfig 20).blocks + 9) / 10 + 1) false
        ++ List.replicate ((blankDisk stdConfig 20).blocks
          - (((blankDisk stdConfig 20).blocks + 9) / 10 + 1)) true),
        ⟨stdConfig.MAGIC_NUMBER, (blankDisk stdConfig 20).blocks,
          ((blankDisk stdConfig 20).blocks + 9) / 10,
          ((blankDisk stdConfig 20).blocks + 9) / 10 * stdConfig.INODES_PER_BLOCK % 2 ^ 32⟩⟩
      0 [7] 1 4214784).2 = d' := by
    unfold deviceOf
    rw [hd']
    rfl
  have hsz1 : inode_size stdConfig (d'.data.getD 1 []) 0 = 4214785 := hsz
  refine ⟨rfl, hO, by decide, ?_, ?_, ?_⟩
  · exact hw
  · rw [hdev, hsz1]
    decide
  · rw [hdev, hsz1]

/-! ## `fs_read` along the logical-to-physical translation -/

theorem div_mod_unique (B q r x : Nat) (hB : 0 < B) (h : x = q * B + r) (hr : r < B) :
    x / B = q ∧ x % B = r := by
  subst h
  constructor
  · rw [Nat.add_comm, Nat.add_mul_div_right _ _ hB, Nat.div_eq_of_lt hr, Nat.zero_add]
  · rw [Nat.add_comm, Nat.add_mul_mod_self_right, Nat.mod_eq_of_lt hr]

/-- The step `read data block` of `fs_read` for a logical block whose physical block (and
indirect page, when it is used) is on the device: it yields the stored physical block. -/
theorem read_block_phys (cfg : Config) (d0 d : Disk) (hlen : d0.data.length = d0.blocks)
    (hd1 : d.blocks = d0.blocks) (hd2 : d.data = d0.data) (block : Block) (inum b : Nat)
    (hind : cfg.POINTERS_PER_INODE ≤ b → inode_indirect cfg block inum < d0.blocks)
    (hphys : physical cfg d0 block inum b < d0.blocks) :
    ∃ d', read_block cfg (some d) block inum b
        = (some d', some (d0.data.getD (physical cfg d0 block inum b) [])) ∧
      d'.blocks = d0.blocks ∧ d'.data = d0.data := by
  obtain ⟨blocks, reads, writes, dat⟩ := d
  simp only at hd1 hd2
  subst hd1
  subst hd2
  unfold read_block
  unfold physical at hphys ⊢
  by_cases hb : b < cfg.POINTERS_PER_INODE
  · rw [if_pos hb] at hphys ⊢
    rw [if_pos hb, disk_read_ok cfg ⟨d0.blocks, reads, writes, d0.data⟩ _ _ hlen hphys]
    simp only [block_size_ne_failure, if_false]
    exact ⟨_, rfl, rfl, rfl⟩
  · rw [if_neg hb] at hphys ⊢
    rw [if_neg hb, disk_read_ok cfg ⟨d0.blocks, reads, writes, d0.data⟩ _ _ hlen
      (hind (by omega))]
    simp only [block_size_ne_failure, if_false]
    rw [disk_read_ok cfg ⟨d0.blocks, reads + 1, writes, d0.data⟩ _ _ hlen hphys]
    simp only [block_size_ne_failure, if_false]
    exact ⟨_, rfl, rfl, rfl⟩

/-- The loop of `fs_read` from any offset over logical blocks whose physical blocks are on
the device: it runs to completion, byte `i` of the buffer receives byte `(O + i) %
BLOCK_SIZE` of the physical block of logical block `(O + i) / BLOCK_SIZE`, and the buffer
from index `len` on is not touched. -/
theorem read_loop_phys (cfg : Config) (hB : 0 < cfg.BLOCK_SIZE) (d0 : Disk)
    (hlen : d0.data.length = d0.blocks) (block : Block) (inum len O : Nat)
    (hlen32 : len < 2 ^ 32) (buf0 : List Nat) (hbuf : len ≤ buf0.length)
    (hmap : ∀ i, i < len →
      (cfg.POINTERS_PER_INODE ≤ (O + i) / cfg.BLOCK_SIZE →
        inode_indirect cfg block inum < d0.blocks) ∧
      physical cfg d0 block inum ((O + i) / cfg.BLOCK_SIZE) < d0.blocks)
    (fbs : Option (List Bool)) (m : SuperBlock) (fuel : Nat) :
    ∀ (nread data_b data_o ncopy : Nat) (d : Disk) (buf : List Nat),
    d.blocks = d0.blocks → d.data = d0.data → buf.length = buf0.length → nread ≤ len →
    (nread < len → O + nread = data_b * cfg.BLOCK_SIZE + data_o ∧ data_o < cfg.BLOCK_SIZE ∧
      ncopy = min (cfg.BLOCK_SIZE - data_o) (len - nread)) →
    (∀ i, i < nread → buf.getD i 0
      = (d0.data.getD (physical cfg d0 block inum ((O + i) / cfg.BLOCK_SIZE)) []).getD
          ((O + i) % cfg.BLOCK_SIZE) 0) →
    (∀ i, nread ≤ i → buf.getD i 0 = buf0.getD i 0) →
    len ≤ nread + fuel →
    ∃ d' buf', read_loop cfg block inum len fuel ⟨some d, fbs, m⟩ buf nread ncopy data_b data_o
        = ((len : Int), ⟨some d', fbs, m⟩, buf') ∧
      d'.blocks = d0.blocks ∧ d'.data = d0.data ∧ buf'.length = buf0.length ∧
      (∀ i, i < len → buf'.getD i 0
        = (d0.data.getD (physical cfg d0 block inum ((O + i) / cfg.BLOCK_SIZE)) []).getD
            ((O + i) % cfg.BLOCK_SIZE) 0) ∧
      (∀ i, len ≤ i → buf'.getD i 0 = buf0.getD i 0) := by
  induction fuel with
  | zero =>
    intro nread data_b data_o ncopy d buf hd1 hd2 hb hnr hst hpre hpost hf
    have he : nread = len := by omega
    subst he
    refine ⟨d, buf, ?_, hd1, hd2, hb, hpre, hpost⟩
    rw [read_loop, toSsize_small nread hlen32]
  | succ fuel ih =>
    intro nread data_b data_o ncopy d buf hd1 hd2 hb hnr hst hpre hpost hf
    by_cases hlt : nread < len
    · obtain ⟨hpos, hdo, hnc⟩ := hst hlt
      obtain ⟨hq, hr⟩ := div_mod_unique cfg.BLOCK_SIZE data_b data_o (O + nread) hB hpos hdo
      have hm := hmap nread hlt
      rw [hq] at hm
      obtain ⟨d1, r1, r2, r3⟩ := read_block_phys cfg d0 d hlen hd1 hd2 block inum data_b
        hm.1 hm.2
      have hc1 : 0 < ncopy := by omega
      have hc2 : ncopy ≤ len - nread := by omega
      have hnr1 : (nread + ncopy) % 2 ^ 64 = nread + ncopy := Nat.mod_eq_of_lt (by omega)
      have hsub : sub64 len (nread + ncopy) = len - (nread + ncopy) :=
        sub64_small _ _ hlen32 (by omega)
      have hnc1 : (if len - (nread + ncopy) > cfg.BLOCK_SIZE then cfg.BLOCK_SIZE
          else len - (nread + ncopy)) = min (cfg.BLOCK_SIZE - 0) (len - (nread + ncopy)) := by
        split <;> omega
      obtain ⟨d', buf', e1, e2, e3, e4, e5, e6⟩ := ih (nread + ncopy) (data_b + 1) 0
        (min (cfg.BLOCK_SIZE - 0) (len - (nread + ncopy))) d1
        (memcpy buf nread (d0.data.getD (physical cfg d0 block inum data_b) []) data_o ncopy)
        r2 r3 (by rw [memcpy_length]; exact hb) (by omega)
        (by
          intro hlt1
          refine ⟨?_, hB, rfl⟩
          have : ncopy = cfg.BLOCK_SIZE - data_o := by omega
          rw [Nat.succ_mul]
          omega)
        (by
          intro i hi
          rw [memcpy_getD _ _ _ _ _ _ (by rw [hb]; omega)]
          by_cases hw : nread ≤ i
          · rw [if_pos ⟨hw, hi⟩]
            obtain ⟨hq1, hr1⟩ := div_mod_unique cfg.BLOCK_SIZE data_b (data_o + (i - nread))
              (O + i) hB (by omega) (by omega)
            rw [hq1, hr1]
          · rw [if_neg (fun h => hw h.1)]
            exact hpre i (by omega))
        (by
          intro i hi
          by_cases hil : i < buf.length
          · rw [memcpy_getD _ _ _ _ _ _ hil, if_neg (by omega)]
            exact hpost i (by omega)
          · rw [List.getD_eq_default _ _ (by rw [memcpy_length]; omega),
              List.getD_eq_default _ _ (by rw [← hb]; omega)])
        (by omega)
      refine ⟨d', buf', ?_, e2, e3, e4, e5, e6⟩
      rw [read_loop, if_neg (not_not.mpr hlt)]
      simp only [r1, hnr1, hsub, hnc1]
      exact e1
    · have he : nread = len := by omega
      subst he
      refine ⟨d, buf, ?_, hd1, hd2, hb, hpre, hpost⟩
      rw [read_loop, if_pos hlt, toSsize_small nread hlen32]

/-- On a mounted session with the device as opened, `fs_read` at an offset within the
stored size over logical blocks whose physical blocks are on the device returns the
clamped length and fills the buffer along the logical-to-physical translation. -/
theorem fs_read_phys (cfg : Config) (hcfg : cfg.WF) (fs : FileSystem) (d : Disk)
    (hfs : fs.disk = some d) (hlen : d.data.length = d.blocks) (n : Nat)
    (hin : n / cfg.INODES_PER_BLOCK + 1 < d.blocks) (buf : List Nat) (L O S : Nat)
    (hS : inode_size cfg (d.data.getD (n / cfg.INODES_PER_BLOCK + 1) [])
      (n % cfg.INODES_PER_BLOCK) = S)
    (hO : O ≤ S) (hLO : L + O < 2 ^ 64) (hbuf : min L (S - O) ≤ buf.length)
    (hmap : ∀ i, i < min L (S - O) →
      (cfg.POINTERS_PER_INODE ≤ (O + i) / cfg.BLOCK_SIZE →
        inode_indirect cfg (d.data.getD (n / cfg.INODES_PER_BLOCK + 1) [])
          (n % cfg.INODES_PER_BLOCK) < d.blocks) ∧
      physical cfg d (d.data.getD (n / cfg.INODES_PER_BLOCK + 1) [])
        (n % cfg.INODES_PER_BLOCK) ((O + i) / cfg.BLOCK_SIZE) < d.blocks) :
    ∃ d' buf', fs_read cfg fs n buf L O
        = (((min L (S - O) : Nat) : Int), { fs with disk := some d' }, buf') ∧
      d'.blocks = d.blocks ∧ d'.data = d.data ∧ buf'.length = buf.length ∧
      (∀ i, i < min L (S - O) → buf'.getD i 0
        = (d.data.getD (physical cfg d (d.data.getD (n / cfg.INODES_PER_BLOCK + 1) [])
            (n % cfg.INODES_PER_BLOCK) ((O + i) / cfg.BLOCK_SIZE)) []).getD
            ((O + i) % cfg.BLOCK_SIZE) 0) ∧
      (∀ i, min L (S - O) ≤ i → buf'.getD i 0 = buf.getD i 0) := by
  have hB : 0 < cfg.BLOCK_SIZE := by have := hcfg.1; omega
  have hS32 : S < 2 ^ 32 := by rw [← hS]; exact get32_lt _ _
  obtain ⟨disk, fbs, m⟩ := fs
  simp only at hfs
  subst hfs
  have hmod := Nat.mod_le O cfg.BLOCK_SIZE
  have hmodlt := Nat.mod_lt O hB
  have hl1 : (if (L + O) % 2 ^ 64 > S then sub64 S O else L) = min L (S - O) := by
    rw [Nat.mod_eq_of_lt hLO, sub64_small S O hS32 hO]
    split <;> omega
  have hn1 : (if (min L (S - O) + O % cfg.BLOCK_SIZE) % 2 ^ 64 < cfg.BLOCK_SIZE
      then min L (S - O) else cfg.BLOCK_SIZE - O % cfg.BLOCK_SIZE)
      = min (cfg.BLOCK_SIZE - O % cfg.BLOCK_SIZE) (min L (S - O) - 0) := by
    rw [Nat.mod_eq_of_lt (by omega)]
    split <;> omega
  obtain ⟨d', buf', e1, e2, e3, e4, e5, e6⟩ :=
    read_loop_phys cfg hB d hlen (d.data.getD (n / cfg.INODES_PER_BLOCK + 1) [])
      (n % cfg.INODES_PER_BLOCK) (min L (S - O)) O (by omega) buf hbuf hmap fbs m
      (min L (S - O)) 0 (O / cfg.BLOCK_SIZE) (O % cfg.BLOCK_SIZE)
      (min (cfg.BLOCK_SIZE - O % cfg.BLOCK_SIZE) (min L (S - O) - 0))
      ⟨d.blocks, d.reads + 1, d.writes, d.data⟩ buf rfl rfl rfl (Nat.zero_le _)
      (fun _ => ⟨by rw [Nat.add_zero]; exact (Nat.div_add_mod' O cfg.BLOCK_SIZE).symm,
        hmodlt, rfl⟩)
      (fun i hi => absurd hi (by omega)) (fun _ _ => rfl) (by omega)
  refine ⟨d', buf', ?_, e2, e3, e4, e5, e6⟩
  unfold fs_read
  rw [disk_read_ok cfg d _ _ hlen hin]
  simp only [block_size_ne_failure, if_false, hS, hl1, hn1]
  exact e1

/-- Read follows the logical-to-physical translation as long as `length + offset` does
not wrap around: on a mounted session with the device as opened, for an inode with
stored size `S`, an offset `O ≤ S` and a length `L` with `L + O < 2^64`, let
`n = min L (S - O)`. When the caller's buffer has room for `n` bytes and every logical block `(O + i) / BLOCK_SIZE` of the range
has its physical block (and, from `POINTERS_PER_INODE` on, the indirect page) on the
device, `fs_read` returns `n`, byte `i < n` of the buffer is byte `(O + i) % BLOCK_SIZE`
of physical block `p(b)` for `b = (O + i) / BLOCK_SIZE`, where `p(b)` is `direct[b]` below
`POINTERS_PER_INODE` and otherwise entry `b - POINTERS_PER_INODE` of the page stored in the
inode's indirect block, and the bytes of the buffer from index `n` on are as before. -/
theorem fs_read_follows_translation (cfg : Config) (hcfg : cfg.WF) (fs : FileSystem)
    (d : Disk) (hfs : fs.disk = some d) (hlen : d.data.length = d.blocks) (n : Nat)
    (hin : n / cfg.INODES_PER_BLOCK + 1 < d.blocks) (buf : List Nat) (L O S : Nat)
    (hS : inode_size cfg (d.data.getD (n / cfg.INODES_PER_BLOCK + 1) [])
      (n % cfg.INODES_PER_BLOCK) = S)
    (hO : O ≤ S) (hLO : L + O < 2 ^ 64) (hbuf : min L (S - O) ≤ buf.length)
    (hmap : ∀ i, i < min L (S - O) →
      (cfg.POINTERS_PER_INODE ≤ (O + i) / cfg.BLOCK_SIZE →
        inode_indirect cfg (d.data.getD (n / cfg.INODES_PER_BLOCK + 1) [])
          (n % cfg.INODES_PER_BLOCK) < d.blocks) ∧
      physical cfg d (d.data.getD (n / cfg.INODES_PER_BLOCK + 1) [])
        (n % cfg.INODES_PER_BLOCK) ((O + i) / cfg.BLOCK_SIZE) < d.blocks) :
    (fs_read cfg fs n buf L O).1 = ((min L (S - O) : Nat) : Int) ∧
    (∀ i, i < min L (S - O) → (fs_read cfg fs n buf L O).2.2.getD i 0
      = (d.data.getD
          (if (O + i) / cfg.BLOCK_SIZE < cfg.POINTERS_PER_INODE then
            inode_direct cfg (d.data.getD (n / cfg.INODES_PER_BLOCK + 1) [])
              (n % cfg.INODES_PER_BLOCK) ((O + i) / cfg.BLOCK_SIZE)
          else
            pointer
              (d.data.getD (inode_indirect cfg (d.data.getD (n / cfg.INODES_PER_BLOCK + 1) [])
                (n % cfg.INODES_PER_BLOCK)) [])
              ((O + i) / cfg.BLOCK_SIZE - cfg.POINTERS_PER_INODE)) []).getD
          ((O + i) % cfg.BLOCK_SIZE) 0) ∧
    (∀ i, min L (S - O) ≤ i → (fs_read cfg fs n buf L O).2.2.getD i 0 = buf.getD i 0) ∧
    (fs_read cfg fs n buf L O).2.2.length = buf.length := by
  obtain ⟨d', buf', e1, -, -, e4, e5, e6⟩ :=
    fs_read_phys cfg hcfg fs d hfs hlen n hin buf L O S hS hO hLO hbuf hmap
  rw [e1]
  exact ⟨rfl, e5, e6, e4⟩

/-- An instance of the translation: the sample session of the small layout, whose inode
0 has size 70; a read of 40 bytes at offset 20 covers logical blocks 0 (direct, block 2)
and 1 (first entry of the page, block 4). -/
theorem fs_read_follows_translation_witness :
    smallConfig.WF ∧ sampleSession.disk = some ⟨8, 3, 0, sampleVolume.data⟩ ∧
    (fs_read smallConfig sampleSession 0 (List.replicate 40 0) 40 20).1
      = ((min 40 (70 - 20) : Nat) : Int) :=
  ⟨by decide, by decide,
    (fs_read_follows_translation smallConfig (by decide) sampleSession
      ⟨8, 3, 0, sampleVolume.data⟩ (by decide) (by decide) 0 (by decide)
      (List.replicate 40 0) 40 20 70 (by decide) (by decide) (by decide) (by decide)
      (by decide)).1⟩

/-! ## Holes and freshly allocated blocks -/

/-- A write that stays inside one logical block below `POINTERS_PER_INODE` whose direct
pointer is 0, with a free block in the bitmap: `fs_write` takes the first free block `b`,
stores the window into a zero block, writes it to block `b`, records `b` and the size
`length + offset` in the inode and writes the inode block. -/
theorem fs_write_fresh_direct (cfg : Config) (hcfg : cfg.WF) (d : Disk) (fb : List Bool)
    (m : SuperBlock) (n : Nat) (data : List Nat) (L O : Nat)
    (hlen : d.data.length = d.blocks) (hb32 : d.blocks < 2 ^ 32)
    (hfb : fb.length = d.blocks) (hzero : fb.getD 0 false = false) (hc : 0 < fb.count true)
    (hin : n / cfg.INODES_PER_BLOCK + 1 < d.blocks)
    (hblock : (d.data.getD (n / cfg.INODES_PER_BLOCK + 1) []).length = cfg.BLOCK_SIZE)
    (hdb : O / cfg.BLOCK_SIZE < cfg.POINTERS_PER_INODE)
    (hdir : inode_direct cfg (d.data.getD (n / cfg.INODES_PER_BLOCK + 1) [])
      (n % cfg.INODES_PER_BLOCK) (O / cfg.BLOCK_SIZE) = 0)
    (hL0 : 0 < L) (hL1 : L + O % cfg.BLOCK_SIZE ≤ cfg.BLOCK_SIZE) (hLO : L + O < 2 ^ 32) :
    ∃ b, 1 ≤ b ∧ b < d.blocks ∧ fb.getD b false = true ∧
      fs_write cfg ⟨some d, some fb, m⟩ n data L O
        = ((L : Int),
          ⟨some ⟨d.blocks, d.reads + 1, d.writes + 1 + 1,
            (d.data.set b (memcpy (zeroBlock cfg) (O % cfg.BLOCK_SIZE) data 0 L)).set
              (n / cfg.INODES_PER_BLOCK + 1)
              (set_inode_size cfg
                (set_inode_direct cfg (d.data.getD (n / cfg.INODES_PER_BLOCK + 1) [])
                  (n % cfg.INODES_PER_BLOCK) (O / cfg.BLOCK_SIZE) b)
                (n % cfg.INODES_PER_BLOCK) (L + O))⟩,
            some (fb.set b false), m⟩) := by
  have hB : 0 < cfg.BLOCK_SIZE := by have := hcfg.1; omega
  have hB32 : cfg.BLOCK_SIZE < 2 ^ 32 := by
    have h6 := hcfg.2.2.2.2.2
    have hppi : 0 < cfg.POINTERS_PER_INODE := Nat.lt_of_le_of_lt (Nat.zero_le _) hdb
    have := Nat.le_mul_of_pos_left cfg.BLOCK_SIZE
      (show 0 < cfg.POINTERS_PER_INODE + cfg.POINTERS_PER_BLOCK from Nat.add_pos_left hppi _)
    exact Nat.lt_of_le_of_lt this h6
  obtain ⟨b, hg, hb1, hb2, hb3⟩ :=
    gimme_block_some ⟨d.blocks, d.reads + 1, d.writes, d.data⟩ fb m hfb hzero hc
  simp only at hb2
  refine ⟨b, hb1, hb2, hb3, ?_⟩
  have hwd : write_direct cfg ⟨some ⟨d.blocks, d.reads + 1, d.writes, d.data⟩, some fb, m⟩
      (d.data.getD (n / cfg.INODES_PER_BLOCK + 1) []) (n % cfg.INODES_PER_BLOCK)
      (O / cfg.BLOCK_SIZE) 0
      = .ok (⟨some ⟨d.blocks, d.reads + 1, d.writes, d.data⟩, some (fb.set b false), m⟩,
          set_inode_direct cfg (d.data.getD (n / cfg.INODES_PER_BLOCK + 1) [])
            (n % cfg.INODES_PER_BLOCK) (O / cfg.BLOCK_SIZE) b,
          zeroBlock cfg, b) := by
    unfold write_direct
    rw [if_pos hdir, hg]
    simp only
    rw [direct_set_direct_same cfg hcfg _ _ _ _ hblock (Nat.mod_lt _ hcfg.2.1) hdb,
      Nat.mod_eq_of_lt (Nat.lt_trans hb2 hb32)]
  unfold fs_write
  rw [disk_read_ok cfg d _ _ hlen hin]
  simp only [block_size_ne_failure, if_false]
  cases L with
  | zero => omega
  | succ L1 =>
    rw [write_loop_last cfg n data (L1 + 1) O L1 _
      ⟨some ⟨d.blocks, d.reads + 1, d.writes, d.data⟩, some (fb.set b false), m⟩
      ⟨d.blocks, d.reads + 1, d.writes, d.data⟩ _ _ (zeroBlock cfg) 0 _ _ b (by omega)
      (by omega) hB32 (Nat.mod_lt _ hB) (by omega)
      (by rw [if_pos hdb]; exact hwd) rfl hlen hb2 hin]
    rfl

/-- C26, the code at a failing input (the example of the claim, with the usual
constants): on a freshly formatted and mounted device of 20 blocks, `fs_create` returns
inode 0 and `fs_write` of one byte at offset `2 * BLOCK_SIZE = 8192` returns 1; the inode
on the device then has size 8193 and `direct[0] == 0`, a hole at logical block 0. A read
of `BLOCK_SIZE = 4096` bytes at offset 0 does not fail: `fs_read` returns 4096, and the
bytes it stores are those of block 0 of the device, the super block. -/
theorem fs_read_hole_returns_count :
    (fs_create stdConfig (freshVolume stdConfig freshSession (blankDisk stdConfig 20))).1 = 0 ∧
    (fs_write stdConfig
      (fs_create stdConfig (freshVolume stdConfig freshSession (blankDisk stdConfig 20))).2
      0 [7] 1 (2 * stdConfig.BLOCK_SIZE)).1 = 1 ∧
    inode_size stdConfig
      ((deviceOf (fs_write stdConfig
        (fs_create stdConfig (freshVolume stdConfig freshSession (blankDisk stdConfig 20))).2
        0 [7] 1 (2 * stdConfig.BLOCK_SIZE)).2).data.getD 1 []) 0 = 8193 ∧
    inode_direct stdConfig
      ((deviceOf (fs_write stdConfig
        (fs_create stdConfig (freshVolume stdConfig freshSession (blankDisk stdConfig 20))).2
        0 [7] 1 (2 * stdConfig.BLOCK_SIZE)).2).data.getD 1 []) 0 0 = 0 ∧
    (fs_read stdConfig
      (fs_write stdConfig
        (fs_create stdConfig (freshVolume stdConfig freshSession (blankDisk stdConfig 20))).2
        0 [7] 1 (2 * stdConfig.BLOCK_SIZE)).2
      0 (List.replicate 4096 0) stdConfig.BLOCK_SIZE 0).1 = 4096 ∧
    ∀ i, i < 4096 →
      (fs_read stdConfig
        (fs_write stdConfig
          (fs_create stdConfig (freshVolume stdConfig freshSession (blankDisk stdConfig 20))).2
          0 [7] 1 (2 * stdConfig.BLOCK_SIZE)).2
        0 (List.replicate 4096 0) stdConfig.BLOCK_SIZE 0).2.2.getD i 0
      = ((deviceOf (fs_write stdConfig
          (fs_create stdConfig
            (freshVolume stdConfig freshSession (blankDisk stdConfig 20))).2
          0 [7] 1 (2 * stdConfig.BLOCK_SIZE)).2).data.getD 0 []).getD i 0 := by
  have hlen : (blankDisk stdConfig 20).data.length = (blankDisk stdConfig 20).blocks := by
    simp [blankDisk]
  have hwf : stdConfig.WF := by decide
  obtain ⟨d2, hc, hb1, inv⟩ := fresh_created_state stdConfig hwf freshSession rfl
    (blankDisk stdConfig 20) hlen (by decide) (by decide) [7] 1
  have hcount : (List.replicate (((blankDisk stdConfig 20).blocks + 9) / 10 + 1) false
      ++ List.replicate ((blankDisk stdConfig 20).blocks
        - (((blankDisk stdConfig 20).blocks + 9) / 10 + 1)) true).count true = 17 :=
    count_append_replicate _ _
  have hblocks : d2.blocks = 20 := by
    have := inv.hfb
    rw [← this]
    simp [blankDisk]
  have hdiv : 2 * stdConfig.BLOCK_SIZE / stdConfig.BLOCK_SIZE = 2 := by decide
  have hmod : 2 * stdConfig.BLOCK_SIZE % stdConfig.BLOCK_SIZE = 0 := by decide
  obtain ⟨b, hb1', hb2, hb3, hw⟩ := fs_write_fresh_direct stdConfig hwf d2 _
    ⟨stdConfig.MAGIC_NUMBER, (blankDisk stdConfig 20).blocks,
      ((blankDisk stdConfig 20).blocks + 9) / 10,
      ((blankDisk stdConfig 20).blocks + 9) / 10 * stdConfig.INODES_PER_BLOCK % 2 ^ 32⟩
    0 [7] 1 (2 * stdConfig.BLOCK_SIZE) inv.hlen inv.hb32 inv.hfb inv.hzero
    (by rw [hcount]; decide) inv.hiblk inv.hblock (by rw [hdiv]; decide)
    (by rw [hdiv]; exact inv.hdirect0 2 (Nat.zero_le _) (by decide))
    (by decide) (by rw [hmod]; decide) (by decide)
  rw [hdiv, hmod] at hw
  have hi0 : (0 : Nat) / stdConfig.INODES_PER_BLOCK + 1 = 1 := rfl
  have hm0 : (0 : Nat) % stdConfig.INODES_PER_BLOCK = 0 := rfl
  rw [hi0, hm0] at hw
  rw [hc, hw]
  have hdev : ∀ x, (((d2.data.set b (memcpy (zeroBlock stdConfig) 0 [7] 0 1)).set 1
      (set_inode_size stdConfig (set_inode_direct stdConfig (d2.data.getD 1 []) 0 2 b) 0
        (1 + 2 * stdConfig.BLOCK_SIZE))).getD x [])
      = if 1 = x then set_inode_size stdConfig
          (set_inode_direct stdConfig (d2.data.getD 1 []) 0 2 b) 0
          (1 + 2 * stdConfig.BLOCK_SIZE)
        else if b = x then memcpy (zeroBlock stdConfig) 0 [7] 0 1 else d2.data.getD x [] := by
    intro x
    rw [getD_set_data _ _ _ _ (by rw [List.length_set, inv.hlen, hblocks]; decide),
      getD_set_data _ _ _ _ (by rw [inv.hlen]; exact hb2)]
  have hB1 : (set_inode_direct stdConfig (d2.data.getD 1 []) 0 2 b).length
      = stdConfig.BLOCK_SIZE := by
    unfold set_inode_direct; rw [set32_length]; exact inv.hblock
  have hsz : inode_size stdConfig
      (set_inode_size stdConfig (set_inode_direct stdConfig (d2.data.getD 1 []) 0 2 b) 0
        (1 + 2 * stdConfig.BLOCK_SIZE)) 0 = 8193 := by
    rw [size_set_size stdConfig hwf _ _ _ hB1 (by decide)]
    decide
  have hd0 : inode_direct stdConfig
      (set_inode_size stdConfig (set_inode_direct stdConfig (d2.data.getD 1 []) 0 2 b) 0
        (1 + 2 * stdConfig.BLOCK_SIZE)) 0 0 = 0 := by
    rw [direct_set_size, direct_set_direct_ne _ _ _ _ _ _ (by decide)]
    exact inv.hdirect0 0 (Nat.zero_le _) (by decide)
  obtain ⟨d', buf', e1, e2, e3, e4, e5, e6⟩ := fs_read_phys stdConfig hwf
    ⟨some ⟨d2.blocks, d2.reads + 1, d2.writes + 1 + 1,
      (d2.data.set b (memcpy (zeroBlock stdConfig) 0 [7] 0 1)).set 1
        (set_inode_size stdConfig (set_inode_direct stdConfig (d2.data.getD 1 []) 0 2 b) 0
          (1 + 2 * stdConfig.BLOCK_SIZE))⟩,
      some ((List.replicate (((blankDisk stdConfig 20).blocks + 9) / 10 + 1) false
        ++ List.replicate ((blankDisk stdConfig 20).blocks
          - (((blankDisk stdConfig 20).blocks + 9) / 10 + 1)) true).set b false),
      ⟨stdConfig.MAGIC_NUMBER, (blankDisk stdConfig 20).blocks,
        ((blankDisk stdConfig 20).blocks + 9) / 10,
        ((blankDisk stdConfig 20).blocks + 9) / 10 * stdConfig.INODES_PER_BLOCK % 2 ^ 32⟩⟩
    _ rfl (by simp only [List.length_set]; exact inv.hlen) 0
    (by simp only; rw [hblocks]; decide) (List.replicate 4096 0) stdConfig.BLOCK_SIZE 0 8193
    (by simp only; rw [hi0, hm0, hdev, if_pos rfl]; exact hsz)
    (by decide) (by decide) (by rw [List.length_replicate]; decide)
    (by
      intro i hi
      have hi' : i < 4096 := by
        have : min stdConfig.BLOCK_SIZE (8193 - 0) = 4096 := by decide
        rw [this] at hi; exact hi
      have hq : (0 + i) / stdConfig.BLOCK_SIZE = 0 := by
        rw [Nat.zero_add]; exact Nat.div_eq_of_lt hi'
      rw [hq]
      simp only
      rw [hi0, hm0, hdev, if_pos rfl]
      refine ⟨fun h => absurd h (by decide), ?_⟩
      unfold physical
      rw [if_pos (by decide), hd0, hblocks]
      decide)
  have hmin : min stdConfig.BLOCK_SIZE (8193 - 0) = 4096 := by decide
  rw [hmin] at e1 e5
  rw [e1]
  unfold deviceOf
  simp only [Option.getD_some]
  rw [hdev 1, if_pos rfl]
  refine ⟨trivial, rfl, hsz, hd0, rfl, ?_⟩
  intro i hi
  have hq : (0 + i) / stdConfig.BLOCK_SIZE = 0 := by
    rw [Nat.zero_add]; exact Nat.div_eq_of_lt hi
  have hr : (0 + i) % stdConfig.BLOCK_SIZE = i := by
    rw [Nat.zero_add]; exact Nat.mod_eq_of_lt hi
  have h5 := e5 i hi
  rw [hq, hr] at h5
  simp only at h5
  rw [hi0, hm0, hdev 1, if_pos rfl] at h5
  unfold physical at h5
  rw [if_pos (by decide), hd0] at h5
  exact h5

/-! ## The window of `fs_write` -/

theorem get32_congr (b b' : Block) (w : Nat)
    (h : ∀ t, 4 * w ≤ t → t < 4 * w + 4 → b.getD t 0 = b'.getD t 0) :
    get32 b w = get32 b' w := by
  unfold get32
  rw [h (4 * w) (by omega) (by omega), h (4 * w + 1) (by omega) (by omega),
    h (4 * w + 2) (by omega) (by omega), h (4 * w + 3) (by omega) (by omega)]

theorem set_getD_self (l : List Block) (q : Nat) : l.set q (l.getD q []) = l := by
  apply list_ext_getD _ _ [] (by rw [List.length_set])
  intro i _
  rw [getD_set_eq]
  split
  · rename_i h
    rw [h.1]
  · rfl

/-- The first half of the body of the loop of `fs_write` for a logical block that is
already mapped to a block `p` on the device: it reads block `p` and changes nothing on
the device (the indirect page, when used, is written back as it was read). -/
theorem write_found_mapped (cfg : Config) (d : Disk) (fbs : Option (List Bool))
    (m : SuperBlock) (block : Block) (inum k nw : Nat) (hlen : d.data.length = d.blocks)
    (hp0 : physical cfg d block inum k ≠ 0) (hp1 : physical cfg d block inum k < d.blocks)
    (hq : cfg.POINTERS_PER_INODE ≤ k →
      inode_indirect cfg block inum ≠ 0 ∧ inode_indirect cfg block inum < d.blocks) :
    ∃ d1, (if k < cfg.POINTERS_PER_INODE then write_direct cfg ⟨some d, fbs, m⟩ block inum k nw
        else write_indirect cfg ⟨some d, fbs, m⟩ block inum k nw)
        = .ok (⟨some d1, fbs, m⟩, block, d.data.getD (physical cfg d block inum k) [],
            physical cfg d block inum k) ∧
      d1.blocks = d.blocks ∧ d1.data = d.data := by
  unfold physical at hp0 hp1 ⊢
  by_cases hk : k < cfg.POINTERS_PER_INODE
  · rw [if_pos hk] at hp0 hp1
    simp only [if_pos hk]
    unfold write_direct
    rw [if_neg hp0, disk_read_ok cfg d _ _ hlen hp1]
    simp only [block_size_ne_failure, if_false]
    exact ⟨_, rfl, rfl, rfl⟩
  · rw [if_neg hk] at hp0 hp1
    simp only [if_neg hk]
    obtain ⟨hq0, hq1⟩ := hq (by omega)
    unfold write_indirect write_find_indirect
    rw [if_neg hq0, disk_read_ok cfg d _ _ hlen hq1]
    simp only [block_size_ne_failure, if_false]
    rw [if_neg hp0, disk_read_ok cfg ⟨d.blocks, d.reads + 1, d.writes, d.data⟩ _ _ hlen hp1]
    simp only [block_size_ne_failure, if_false]
    rw [disk_write_ok cfg ⟨d.blocks, d.reads + 1 + 1, d.writes, d.data⟩ _ _ hlen hq1]
    simp only [block_size_ne_failure, if_false]
    exact ⟨_, rfl, rfl, set_getD_self _ _⟩

/-- The loop of `fs_write` over logical blocks that are already mapped, from any offset:
it runs to completion, byte `i` of `data` lands at byte `(O + i) % BLOCK_SIZE` of the
physical block of logical block `(O + i) / BLOCK_SIZE`, every other byte of every block
but the inode-table block is as before, and in the inode-table block only the size word
of the inode changes. `P` is the translation on the device as it was before the call. -/
theorem write_loop_mapped (cfg : Config) (hcfg : cfg.WF) (d0 : Disk)
    (hsize0 : ∀ i, i < d0.blocks → (d0.data.getD i []).length = cfg.BLOCK_SIZE)
    (n iblk inum : Nat) (hiblk : iblk = n / cfg.INODES_PER_BLOCK + 1)
    (hinum : inum = n % cfg.INODES_PER_BLOCK) (hin : iblk < d0.blocks)
    (B : Block)
    (P : Nat → Nat) (hP : ∀ b, P b = physical cfg d0 B inum b)
    (data : List Nat) (L O : Nat) (hLO : L + O < 2 ^ 32)
    (hmap : ∀ i, i < L → P ((O + i) / cfg.BLOCK_SIZE) ≠ 0 ∧
      P ((O + i) / cfg.BLOCK_SIZE) < d0.blocks ∧ P ((O + i) / cfg.BLOCK_SIZE) ≠ iblk)
    (hq : ∀ i, i < L → cfg.POINTERS_PER_INODE ≤ (O + i) / cfg.BLOCK_SIZE →
      inode_indirect cfg B inum ≠ 0 ∧ inode_indirect cfg B inum < d0.blocks ∧
      inode_indirect cfg B inum ≠ iblk ∧
      ∀ j, j < L → P ((O + j) / cfg.BLOCK_SIZE) ≠ inode_indirect cfg B inum)
    (hinj : ∀ i j, i < L → j < L →
      P ((O + i) / cfg.BLOCK_SIZE) = P ((O + j) / cfg.BLOCK_SIZE) →
      (O + i) / cfg.BLOCK_SIZE = (O + j) / cfg.BLOCK_SIZE)
    (fbs : Option (List Bool)) (m : SuperBlock) (fuel : Nat) :
    ∀ (nw data_b data_o : Nat) (d : Disk) (block : Block),
    d.blocks = d0.blocks → d.data.length = d0.blocks → block.length = cfg.BLOCK_SIZE →
    (∀ w, w ≠ inum * inodeWords cfg + 1 → get32 block w = get32 B w) →
    d.data.getD iblk [] = block →
    nw ≤ L →
    (nw < L → O + nw = data_b * cfg.BLOCK_SIZE + data_o ∧ data_o < cfg.BLOCK_SIZE) →
    (∀ i, i < nw → (O + i) / cfg.BLOCK_SIZE < data_b) →
    (∀ x, x ≠ iblk → (d.data.getD x []).length = (d0.data.getD x []).length) →
    (∀ i, i < nw → (d.data.getD (P ((O + i) / cfg.BLOCK_SIZE)) []).getD
      ((O + i) % cfg.BLOCK_SIZE) 0 = data.getD i 0) →
    (∀ x t, x ≠ iblk →
      (∀ i, i < nw → ¬ (P ((O + i) / cfg.BLOCK_SIZE) = x ∧ (O + i) % cfg.BLOCK_SIZE = t)) →
      (d.data.getD x []).getD t 0 = (d0.data.getD x []).getD t 0) →
    L ≤ nw + fuel →
    ∃ d', write_loop cfg n data L O fuel ⟨some d, fbs, m⟩ block nw data_b data_o
        = ((L : Int), ⟨some d', fbs, m⟩) ∧
      d'.blocks = d0.blocks ∧ d'.data.length = d0.blocks ∧
      (∀ w, w ≠ inum * inodeWords cfg + 1 → get32 (d'.data.getD iblk []) w = get32 B w) ∧
      (∀ x, x ≠ iblk → (d'.data.getD x []).length = (d0.data.getD x []).length) ∧
      (∀ i, i < L → (d'.data.getD (P ((O + i) / cfg.BLOCK_SIZE)) []).getD
        ((O + i) % cfg.BLOCK_SIZE) 0 = data.getD i 0) ∧
      (∀ x t, x ≠ iblk →
        (∀ i, i < L → ¬ (P ((O + i) / cfg.BLOCK_SIZE) = x ∧ (O + i) % cfg.BLOCK_SIZE = t)) →
        (d'.data.getD x []).getD t 0 = (d0.data.getD x []).getD t 0) := by
  have hB : 0 < cfg.BLOCK_SIZE := by have := hcfg.1; omega
  induction fuel with
  | zero =>
    intro nw data_b data_o d block hdb hdl hbl hframe hsync hnw hst hprev hlens ha hb hf
    have he : nw = L := by omega
    subst he
    refine ⟨d, ?_, hdb, hdl, by rw [hsync]; exact hframe, hlens, ha, hb⟩
    rw [write_loop, toSsize_small nw (by omega)]
  | succ fuel ih =>
    intro nw data_b data_o d block hdb hdl hbl hframe hsync hnw hst hprev hlens ha hb hf
    by_cases hlt : nw < L
    · obtain ⟨hpos, hdo⟩ := hst hlt
      obtain ⟨hqq, hrr⟩ := div_mod_unique cfg.BLOCK_SIZE data_b data_o (O + nw) hB hpos hdo
      have hm := hmap nw hlt
      rw [hqq] at hm
      obtain ⟨hm0, hm1, hm2⟩ := hm
      have hqi : inode_indirect cfg block inum = inode_indirect cfg B inum :=
        hframe _ (by omega)
      have hphys : physical cfg d block inum data_b = P data_b := by
        rw [hP]
        unfold physical
        by_cases hk : data_b < cfg.POINTERS_PER_INODE
        · rw [if_pos hk, if_pos hk]
          exact hframe _ (by omega)
        · rw [if_neg hk, if_neg hk, hqi]
          obtain ⟨q0, q1, q2, q3⟩ := hq nw hlt (by rw [hqq]; omega)
          unfold pointer
          apply get32_congr
          intro t _ _
          exact hb _ t q2 (fun i hi h => q3 i (by omega) h.1)
      have hl : d.data.length = d.blocks := by rw [hdl, hdb]
      obtain ⟨d1, hfound, hd1b, hd1d⟩ := write_found_mapped cfg d fbs m block inum data_b nw hl
        (by rw [hphys]; exact hm0) (by rw [hphys, hdb]; exact hm1)
        (by
          intro hk
          obtain ⟨q0, q1, _, _⟩ := hq nw hlt (by rw [hqq]; exact hk)
          rw [hqi, hdb]
          exact ⟨q0, q1⟩)
      rw [hphys] at hfound
      obtain ⟨b1, r1, w1, dat1⟩ := d1
      simp only at hd1b hd1d
      subst hd1b
      subst hd1d
      have hnc : (if ((L - nw) + data_o) % 2 ^ 64 < cfg.BLOCK_SIZE then L - nw
          else cfg.BLOCK_SIZE - data_o) = min (L - nw) (cfg.BLOCK_SIZE - data_o) := by
        have hdO : data_o ≤ O + nw := by rw [hpos]; omega
        rw [Nat.mod_eq_of_lt (by omega)]
        split <;> omega
      have hmod : (nw + min (L - nw) (cfg.BLOCK_SIZE - data_o)) % 2 ^ 64
          = nw + min (L - nw) (cfg.BLOCK_SIZE - data_o) := Nat.mod_eq_of_lt (by omega)
      have hget : ∀ x, (((d.data.set (P data_b)
          (memcpy (d.data.getD (P data_b) []) data_o data nw
            (min (L - nw) (cfg.BLOCK_SIZE - data_o)))).set iblk
          (set_inode_size cfg block inum
            ((nw + min (L - nw) (cfg.BLOCK_SIZE - data_o) + O) % 2 ^ 64))).getD x [])
          = if iblk = x then set_inode_size cfg block inum
              ((nw + min (L - nw) (cfg.BLOCK_SIZE - data_o) + O) % 2 ^ 64)
            else if P data_b = x then memcpy (d.data.getD (P data_b) []) data_o data nw
              (min (L - nw) (cfg.BLOCK_SIZE - data_o))
            else d.data.getD x [] := by
        intro x
        rw [getD_set_data _ _ _ _ (by rw [List.length_set, hdl]; exact hin),
          getD_set_data _ _ _ _ (by rw [hdl]; exact hm1)]
      have hDlen : (d.data.getD (P data_b) []).length = cfg.BLOCK_SIZE := by
        rw [hlens _ hm2]; exact hsize0 _ hm1
      rw [write_loop, if_neg (not_not.mpr hlt)]
      rw [← hinum]
      simp only [hfound, hnc, hmod]
      rw [disk_write_ok cfg ⟨d.blocks, r1, w1, d.data⟩ (P data_b) _ hl (by rw [hdb]; exact hm1)]
      simp only [block_size_ne_failure, if_false]
      rw [← hiblk, disk_write_ok cfg ⟨d.blocks, r1, w1 + 1, d.data.set (P data_b)
        (memcpy (d.data.getD (P data_b) []) data_o data nw
          (min (L - nw) (cfg.BLOCK_SIZE - data_o)))⟩ iblk _
        (by simp only [List.length_set]; exact hl) (by rw [hdb]; exact hin)]
      simp only [block_size_ne_failure, if_false]
      apply ih
      · exact hdb
      · simp only [List.length_set]; exact hdl
      · unfold set_inode_size; rw [set32_length]; exact hbl
      · intro w hw
        unfold set_inode_size
        rw [get32_set32_ne _ _ _ _ (Ne.symm hw)]
        exact hframe w hw
      · simp only
        rw [hget, if_pos rfl]
      · omega
      · intro hlt1
        refine ⟨?_, hB⟩
        rw [Nat.succ_mul]
        omega
      · intro i hi
        by_cases hi1 : i < nw
        · have := hprev i hi1
          omega
        · obtain ⟨h1, _⟩ := div_mod_unique cfg.BLOCK_SIZE data_b (data_o + (i - nw)) (O + i) hB
            (by omega) (by omega)
          rw [h1]
          exact Nat.lt_succ_self _
      · intro x hx
        simp only
        rw [hget, if_neg (Ne.symm hx)]
        split
        · rename_i hpx
          rw [memcpy_length, ← hpx]
          exact hlens _ hm2
        · exact hlens x hx
      · intro i hi
        simp only
        have hmi := hmap i (by omega)
        rw [hget, if_neg (Ne.symm hmi.2.2)]
        by_cases hi1 : i < nw
        · have hne : P data_b ≠ P ((O + i) / cfg.BLOCK_SIZE) := by
            intro he
            have h1 := hinj i nw (by omega) hlt (by rw [hqq]; exact he.symm)
            have h2 := hprev i hi1
            rw [hqq] at h1
            omega
          rw [if_neg hne]
          exact ha i hi1
        · obtain ⟨h1, h2⟩ := div_mod_unique cfg.BLOCK_SIZE data_b (data_o + (i - nw)) (O + i)
            hB (by omega) (by omega)
          rw [h1, h2, if_pos rfl, memcpy_getD _ _ _ _ _ _ (by rw [hDlen]; omega),
            if_pos ⟨by omega, by omega⟩]
          congr 1
          omega
      · intro x t hx hun
        simp only
        rw [hget, if_neg (Ne.symm hx)]
        have hun0 : ∀ i, i < nw →
            ¬ (P ((O + i) / cfg.BLOCK_SIZE) = x ∧ (O + i) % cfg.BLOCK_SIZE = t) :=
          fun i hi => hun i (by omega)
        by_cases hpx : P data_b = x
        · rw [if_pos hpx]
          by_cases ht : t < (d.data.getD (P data_b) []).length
          · rw [memcpy_getD _ _ _ _ _ _ ht]
            by_cases hwin : data_o ≤ t ∧ t < data_o + min (L - nw) (cfg.BLOCK_SIZE - data_o)
            · exfalso
              obtain ⟨h1, h2⟩ := div_mod_unique cfg.BLOCK_SIZE data_b t
                (O + (nw + (t - data_o))) hB (by omega) (by omega)
              exact hun (nw + (t - data_o)) (by omega) ⟨by rw [h1]; exact hpx, h2⟩
            · rw [if_neg hwin, hpx]
              exact hb x t hx hun0
          · rw [List.getD_eq_default _ _ (by rw [memcpy_length]; omega)]
            rw [← hb x t hx hun0, ← hpx, List.getD_eq_default _ _ (by omega)]
        · rw [if_neg hpx]
          exact hb x t hx hun0
      · omega
    · have he : nw = L := by omega
      subst he
      refine ⟨d, ?_, hdb, hdl, by rw [hsync]; exact hframe, hlens, ha, hb⟩
      rw [write_loop, if_pos hlt, toSsize_small nw (by omega)]

theorem zeroBlock_getD (cfg : Config) (t : Nat) : (zeroBlock cfg).getD t 0 = 0 := by
  unfold zeroBlock
  by_cases h : t < cfg.BLOCK_SIZE
  · rw [List.getD_eq_getElem _ _ (by rw [List.length_replicate]; exact h),
      List.getElem_replicate]
  · rw [List.getD_eq_default _ _ (by rw [List.length_replicate]; omega)]

/-- On a mounted session with the device as opened, `fs_write` over logical blocks that
are already mapped to distinct blocks of the device, none of them the inode-table block
or the indirect page, returns the length and changes the device as follows: byte `i` of
`data` lands at byte `(O + i) % BLOCK_SIZE` of the physical block of logical block
`(O + i) / BLOCK_SIZE`, every other byte of every block but the inode-table block is as
before, and in the inode-table block only the size word of the inode changes. -/
theorem fs_write_mapped (cfg : Config) (hcfg : cfg.WF) (fs : FileSystem) (d : Disk)
    (hfs : fs.disk = some d) (hlen : d.data.length = d.blocks)
    (hsize : ∀ i, i < d.blocks → (d.data.getD i []).length = cfg.BLOCK_SIZE)
    (n : Nat) (hin : n / cfg.INODES_PER_BLOCK + 1 < d.blocks)
    (P : Nat → Nat)
    (hP : ∀ b, P b = physical cfg d (d.data.getD (n / cfg.INODES_PER_BLOCK + 1) [])
      (n % cfg.INODES_PER_BLOCK) b)
    (data : List Nat) (L O : Nat) (hLO : L + O < 2 ^ 32)
    (hmap : ∀ i, i < L → P ((O + i) / cfg.BLOCK_SIZE) ≠ 0 ∧
      P ((O + i) / cfg.BLOCK_SIZE) < d.blocks ∧
      P ((O + i) / cfg.BLOCK_SIZE) ≠ n / cfg.INODES_PER_BLOCK + 1)
    (hq : ∀ i, i < L → cfg.POINTERS_PER_INODE ≤ (O + i) / cfg.BLOCK_SIZE →
      inode_indirect cfg (d.data.getD (n / cfg.INODES_PER_BLOCK + 1) [])
        (n % cfg.INODES_PER_BLOCK) ≠ 0 ∧
      inode_indirect cfg (d.data.getD (n / cfg.INODES_PER_BLOCK + 1) [])
        (n % cfg.INODES_PER_BLOCK) < d.blocks ∧
      inode_indirect cfg (d.data.getD (n / cfg.INODES_PER_BLOCK + 1) [])
        (n % cfg.INODES_PER_BLOCK) ≠ n / cfg.INODES_PER_BLOCK + 1 ∧
      ∀ j, j < L → P ((O + j) / cfg.BLOCK_SIZE)
        ≠ inode_indirect cfg (d.data.getD (n / cfg.INODES_PER_BLOCK + 1) [])
          (n % cfg.INODES_PER_BLOCK))
    (hinj : ∀ i j, i < L → j < L →
      P ((O + i) / cfg.BLOCK_SIZE) = P ((O + j) / cfg.BLOCK_SIZE) →
      (O + i) / cfg.BLOCK_SIZE = (O + j) / cfg.BLOCK_SIZE) :
    ∃ d', fs_write cfg fs n data L O = ((L : Int), { fs with disk := some d' }) ∧
      d'.blocks = d.blocks ∧ d'.data.length = d.blocks ∧
      (∀ w, w ≠ n % cfg.INODES_PER_BLOCK * inodeWords cfg + 1 →
        get32 (d'.data.getD (n / cfg.INODES_PER_BLOCK + 1) []) w
          = get32 (d.data.getD (n / cfg.INODES_PER_BLOCK + 1) []) w) ∧
      (∀ x, x ≠ n / cfg.INODES_PER_BLOCK + 1 →
        (d'.data.getD x []).length = (d.data.getD x []).length) ∧
      (∀ i, i < L → (d'.data.getD (P ((O + i) / cfg.BLOCK_SIZE)) []).getD
        ((O + i) % cfg.BLOCK_SIZE) 0 = data.getD i 0) ∧
      (∀ x t, x ≠ n / cfg.INODES_PER_BLOCK + 1 →
        (∀ i, i < L → ¬ (P ((O + i) / cfg.BLOCK_SIZE) = x ∧ (O + i) % cfg.BLOCK_SIZE = t)) →
        (d'.data.getD x []).getD t 0 = (d.data.getD x []).getD t 0) := by
  have hB : 0 < cfg.BLOCK_SIZE := by have := hcfg.1; omega
  obtain ⟨disk, fbs, m⟩ := fs
  simp only at hfs
  subst hfs
  unfold fs_write
  rw [disk_read_ok cfg d _ _ hlen hin]
  simp only [block_size_ne_failure, if_false]
  exact write_loop_mapped cfg hcfg d hsize n _ _ rfl rfl hin _ P hP data L O hLO hmap hq hinj
    fbs m L 0 (O / cfg.BLOCK_SIZE) (O % cfg.BLOCK_SIZE)
    ⟨d.blocks, d.reads + 1, d.writes, d.data⟩ _ rfl hlen (hsize _ hin) (fun _ _ => rfl) rfl
    (Nat.zero_le _)
    (fun _ => ⟨by rw [Nat.add_zero]; exact (Nat.div_add_mod' O cfg.BLOCK_SIZE).symm,
      Nat.mod_lt _ hB⟩)
    (fun i hi => absurd hi (by omega)) (fun _ _ => rfl) (fun i hi => absurd hi (by omega))
    (fun _ _ _ _ => rfl) (by omega)

/-- The first half of the body of the loop of `fs_write` when it allocates the data
block: the direct pointer is 0, or the entry of the pointer page is 0 (the page being a
zero page when the inode has none, and else the page read from the indirect block). The
data block buffer it hands to the copy is then all zero. -/
theorem write_found_fresh (cfg : Config) (fs0 fs1 : FileSystem) (block block1 Dblock : Block)
    (inum k nw blk : Nat)
    (h : (if k < cfg.POINTERS_PER_INODE then write_direct cfg fs0 block inum k nw
      else write_indirect cfg fs0 block inum k nw) = .ok (fs1, block1, Dblock, blk))
    (hd : k < cfg.POINTERS_PER_INODE → inode_direct cfg block inum k = 0)
    (hi : cfg.POINTERS_PER_INODE ≤ k →
      pointer
        (if inode_indirect cfg block inum = 0 then zeroBlock cfg
          else (disk_read cfg fs0.disk (inode_indirect cfg block inum) (zeroBlock cfg)).2.2)
        (k - cfg.POINTERS_PER_INODE) = 0) :
    Dblock = zeroBlock cfg := by
  by_cases hk : k < cfg.POINTERS_PER_INODE
  · rw [if_pos hk] at h
    rcases hg1 : gimme_block fs0 with ⟨o1, fsa⟩
    unfold write_direct at h
    rw [if_pos (hd hk), hg1] at h
    cases o1 with
    | none => simp at h
    | some b =>
      simp only [Except.ok.injEq, Prod.mk.injEq] at h
      exact h.2.2.1.symm
  · rw [if_neg hk] at h
    have hi' := hi (by omega)
    rcases hg1 : gimme_block fs0 with ⟨o1, fsa⟩
    rcases hrd : disk_read cfg fs0.disk (inode_indirect cfg block inum) (zeroBlock cfg)
      with ⟨r, disk1, pblock⟩
    rw [hrd] at hi'
    simp only at hi'
    unfold write_indirect write_find_indirect at h
    by_cases hq : inode_indirect cfg block inum = 0
    · rw [if_pos hq] at hi'
      rw [if_pos hq, hg1] at h
      cases o1 with
      | none => simp at h
      | some i =>
        simp only at h
        rw [if_pos hi'] at h
        rcases hg2 : gimme_block fsa with ⟨o2, fsb⟩
        rw [hg2] at h
        cases o2 with
        | none => simp at h
        | some p =>
          simp only at h
          split at h
          · simp at h
          · simp only [Except.ok.injEq, Prod.mk.injEq] at h
            exact h.2.2.1.symm
    · rw [if_neg hq] at hi'
      rw [if_neg hq, hrd] at h
      simp only at h
      by_cases hr : r = DISK_FAILURE
      · rw [if_pos hr] at h
        simp at h
      · rw [if_neg hr] at h
        simp only at h
        rw [if_pos hi'] at h
        rcases hg2 : gimme_block ⟨disk1, fs0.free_blocks, fs0.meta_data⟩ with ⟨o2, fsb⟩
        rw [hg2] at h
        cases o2 with
        | none => simp at h
        | some p =>
          simp only at h
          split at h
          · simp at h
          · simp only [Except.ok.injEq, Prod.mk.injEq] at h
            exact h.2.2.1.symm

/-- Write keeps what is outside its window on a file whose touched blocks are pairwise
different: on a mounted session with the device as opened and `length + offset` below
`2 ^ 32`, write `p(b)` for the physical block of logical block `b` of the inode before the
call. First, when every logical block `(O + i) / BLOCK_SIZE` touched by the window is
mapped (`p(b) ≠ 0`) to a block of the device, different touched logical blocks have
different physical blocks, and none of these is the inode-table block or the indirect
page, then `fs_write` returns the length, leaves the bitmap alone, and afterwards byte
`(O + i) % BLOCK_SIZE` of block `p((O + i) / BLOCK_SIZE)` is byte `i` of `data`, every
byte position outside the window of every block other than the inode-table block is as
before, a block that is not touched (a data block of the file outside the range, or a
block of another inode) is unchanged, and in the inode-table block only the size word of
this inode changes. Second, when the window lies in one logical block below
`POINTERS_PER_INODE` whose direct pointer is 0 and the bitmap has a free block, `fs_write`
returns the length, the inode's direct pointer names a block `b` that was free, and
block `b` holds the bytes of `data` inside the window and zero everywhere else. Third, in
every iteration of the loop that allocates the data block (the direct pointer is 0, or the
entry of the pointer page is 0, the page being a zero page when the inode has none and
else the page read from the indirect block), the buffer `Dblock` into which the chunk is
copied and which is then written to the new block is all zero. -/
theorem fs_write_keeps_outside_window (cfg : Config) (hcfg : cfg.WF) (fs : FileSystem)
    (d : Disk) (hfs : fs.disk = some d) (hlen : d.data.length = d.blocks)
    (hsize : ∀ i, i < d.blocks → (d.data.getD i []).length = cfg.BLOCK_SIZE)
    (n : Nat) (hin : n / cfg.INODES_PER_BLOCK + 1 < d.blocks)
    (data : List Nat) (L O : Nat) (hLO : L + O < 2 ^ 32) :
    ((∀ i, i < L →
        physical cfg d (d.data.getD (n / cfg.INODES_PER_BLOCK + 1) [])
          (n % cfg.INODES_PER_BLOCK) ((O + i) / cfg.BLOCK_SIZE) ≠ 0 ∧
        physical cfg d (d.data.getD (n / cfg.INODES_PER_BLOCK + 1) [])
          (n % cfg.INODES_PER_BLOCK) ((O + i) / cfg.BLOCK_SIZE) < d.blocks ∧
        physical cfg d (d.data.getD (n / cfg.INODES_PER_BLOCK + 1) [])
          (n % cfg.INODES_PER_BLOCK) ((O + i) / cfg.BLOCK_SIZE)
          ≠ n / cfg.INODES_PER_BLOCK + 1) →
      (∀ i, i < L → cfg.POINTERS_PER_INODE ≤ (O + i) / cfg.BLOCK_SIZE →
        inode_indirect cfg (d.data.getD (n / cfg.INODES_PER_BLOCK + 1) [])
          (n % cfg.INODES_PER_BLOCK) ≠ 0 ∧
        inode_indirect cfg (d.data.getD (n / cfg.INODES_PER_BLOCK + 1) [])
          (n % cfg.INODES_PER_BLOCK) < d.blocks ∧
        inode_indirect cfg (d.data.getD (n / cfg.INODES_PER_BLOCK + 1) [])
          (n % cfg.INODES_PER_BLOCK) ≠ n / cfg.INODES_PER_BLOCK + 1 ∧
        ∀ j, j < L →
          physical cfg d (d.data.getD (n / cfg.INODES_PER_BLOCK + 1) [])
            (n % cfg.INODES_PER_BLOCK) ((O + j) / cfg.BLOCK_SIZE)
          ≠ inode_indirect cfg (d.data.getD (n / cfg.INODES_PER_BLOCK + 1) [])
            (n % cfg.INODES_PER_BLOCK)) →
      (∀ i, i < L → ∀ j, j < L →
        physical cfg d (d.data.getD (n / cfg.INODES_PER_BLOCK + 1) [])
          (n % cfg.INODES_PER_BLOCK) ((O + i) / cfg.BLOCK_SIZE)
        = physical cfg d (d.data.getD (n / cfg.INODES_PER_BLOCK + 1) [])
          (n % cfg.INODES_PER_BLOCK) ((O + j) / cfg.BLOCK_SIZE) →
        (O + i) / cfg.BLOCK_SIZE = (O + j) / cfg.BLOCK_SIZE) →
      (fs_write cfg fs n data L O).1 = (L : Int) ∧
      (fs_write cfg fs n data L O).2.free_blocks = fs.free_blocks ∧
      (∀ i, i < L →
        ((deviceOf (fs_write cfg fs n data L O).2).data.getD
          (physical cfg d (d.data.getD (n / cfg.INODES_PER_BLOCK + 1) [])
            (n % cfg.INODES_PER_BLOCK) ((O + i) / cfg.BLOCK_SIZE)) []).getD
          ((O + i) % cfg.BLOCK_SIZE) 0 = data.getD i 0) ∧
      (∀ x t, x ≠ n / cfg.INODES_PER_BLOCK + 1 →
        (∀ i, i < L →
          ¬ (physical cfg d (d.data.getD (n / cfg.INODES_PER_BLOCK + 1) [])
              (n % cfg.INODES_PER_BLOCK) ((O + i) / cfg.BLOCK_SIZE) = x ∧
            (O + i) % cfg.BLOCK_SIZE = t)) →
        ((deviceOf (fs_write cfg fs n data L O).2).data.getD x []).getD t 0
          = (d.data.getD x []).getD t 0) ∧
      (∀ x, x ≠ n / cfg.INODES_PER_BLOCK + 1 →
        (∀ i, i < L →
          physical cfg d (d.data.getD (n / cfg.INODES_PER_BLOCK + 1) [])
            (n % cfg.INODES_PER_BLOCK) ((O + i) / cfg.BLOCK_SIZE) ≠ x) →
        (deviceOf (fs_write cfg fs n data L O).2).data.getD x [] = d.data.getD x []) ∧
      (∀ w, w ≠ n % cfg.INODES_PER_BLOCK * inodeWords cfg + 1 →
        get32 ((deviceOf (fs_write cfg fs n data L O).2).data.getD
            (n / cfg.INODES_PER_BLOCK + 1) []) w
          = get32 (d.data.getD (n / cfg.INODES_PER_BLOCK + 1) []) w)) ∧
    (∀ fb : List Bool, fs.free_blocks = some fb → fb.length = d.blocks →
      fb.getD 0 false = false → fb.getD (n / cfg.INODES_PER_BLOCK + 1) false = false →
      0 < fb.count true → d.blocks < 2 ^ 32 →
      O / cfg.BLOCK_SIZE < cfg.POINTERS_PER_INODE →
      inode_direct cfg (d.data.getD (n / cfg.INODES_PER_BLOCK + 1) [])
        (n % cfg.INODES_PER_BLOCK) (O / cfg.BLOCK_SIZE) = 0 →
      0 < L → L + O % cfg.BLOCK_SIZE ≤ cfg.BLOCK_SIZE →
      ∃ b, 1 ≤ b ∧ fb.getD b false = true ∧
        (fs_write cfg fs n data L O).1 = (L : Int) ∧
        inode_direct cfg
          ((deviceOf (fs_write cfg fs n data L O).2).data.getD
            (n / cfg.INODES_PER_BLOCK + 1) [])
          (n % cfg.INODES_PER_BLOCK) (O / cfg.BLOCK_SIZE) = b ∧
        ∀ t, ((deviceOf (fs_write cfg fs n data L O).2).data.getD b []).getD t 0
          = if O % cfg.BLOCK_SIZE ≤ t ∧ t < O % cfg.BLOCK_SIZE + L then
              data.getD (t - O % cfg.BLOCK_SIZE) 0
            else 0) ∧
    (∀ (fs0 fs1 : FileSystem) (block block1 Dblock : Block) (k nw blk : Nat),
      (if k < cfg.POINTERS_PER_INODE then
          write_direct cfg fs0 block (n % cfg.INODES_PER_BLOCK) k nw
        else write_indirect cfg fs0 block (n % cfg.INODES_PER_BLOCK) k nw)
        = .ok (fs1, block1, Dblock, blk) →
      (k < cfg.POINTERS_PER_INODE →
        inode_direct cfg block (n % cfg.INODES_PER_BLOCK) k = 0) →
      (cfg.POINTERS_PER_INODE ≤ k →
        pointer
          (if inode_indirect cfg block (n % cfg.INODES_PER_BLOCK) = 0 then zeroBlock cfg
            else (disk_read cfg fs0.disk (inode_indirect cfg block (n % cfg.INODES_PER_BLOCK))
              (zeroBlock cfg)).2.2)
          (k - cfg.POINTERS_PER_INODE) = 0) →
      Dblock = zeroBlock cfg) := by
  refine ⟨?_, ?_, fun fs0 fs1 block block1 Dblock k nw blk h hd hi =>
    write_found_fresh cfg fs0 fs1 block block1 Dblock _ k nw blk h hd hi⟩
  · intro hmap hq hinj
    obtain ⟨d', e1, e2, e3, e4, e5, e6, e7⟩ := fs_write_mapped cfg hcfg fs d hfs hlen hsize n hin
      _ (fun _ => rfl) data L O hLO hmap hq (fun i j hi hj => hinj i hi j hj)
    rw [e1]
    refine ⟨rfl, rfl, e6, e7, ?_, e4⟩
    intro x hx hun
    apply list_ext_getD _ _ 0 (e5 x hx)
    intro t _
    exact e7 x t hx (fun i hi h => hun i hi h.1)
  · intro fb hfb hfl hz hiu hc hb32 hdb hdir hL0 hL1
    obtain ⟨disk, fbs, m⟩ := fs
    simp only at hfs hfb
    subst hfs
    subst hfb
    obtain ⟨b, hb1, hb2, hb3, hw⟩ := fs_write_fresh_direct cfg hcfg d fb m n data L O hlen hb32
      hfl hz hc hin (hsize _ hin) hdb hdir hL0 hL1 hLO
    have hbi : b ≠ n / cfg.INODES_PER_BLOCK + 1 := by
      intro h
      rw [h, hiu] at hb3
      exact absurd hb3 (by decide)
    refine ⟨b, hb1, hb3, ?_, ?_, ?_⟩
    · rw [hw]
    · rw [hw]
      unfold deviceOf
      simp only [Option.getD_some]
      rw [getD_set_data _ _ _ _ (by rw [List.length_set, hlen]; exact hin), if_pos rfl,
        direct_set_size,
        direct_set_direct_same cfg hcfg _ _ _ _ (hsize _ hin) (Nat.mod_lt _ hcfg.2.1) hdb,
        Nat.mod_eq_of_lt (Nat.lt_trans hb2 hb32)]
    · intro t
      rw [hw]
      unfold deviceOf
      simp only [Option.getD_some]
      rw [getD_set_data _ _ _ _ (by rw [List.length_set, hlen]; exact hin),
        if_neg (Ne.symm hbi), getD_set_data _ _ _ _ (by rw [hlen]; exact hb2), if_pos rfl]
      by_cases ht : t < cfg.BLOCK_SIZE
      · rw [memcpy_getD _ _ _ _ _ _ (by rw [zeroBlock_length]; exact ht), Nat.zero_add,
          zeroBlock_getD]
      · rw [List.getD_eq_default _ _ (by rw [memcpy_length, zeroBlock_length]; omega),
          if_neg (by omega)]

/-- Instances in the small layout. For the mapped case: the sample session, whose
inode 0 has logical block 0 in block 2 and logical block 1 in block 4, and a write of 14
bytes at offset 25, which touches both. For the fresh case: the freshly formatted and
mounted device of 8 blocks and a write of 2 bytes at offset 3 to inode 0. -/
theorem fs_write_keeps_outside_window_witness :
    (fs_write smallConfig sampleSession 0 (sampleBytes 14) 14 25).1 = ((14 : Nat) : Int) ∧
    (∃ b, 1 ≤ b ∧ [false, false, true, true, true, true, true, true].getD b false = true ∧
      (fs_write smallConfig mountedSession 0 [9, 9] 2 3).1 = ((2 : Nat) : Int) ∧
      inode_direct smallConfig
        ((deviceOf (fs_write smallConfig mountedSession 0 [9, 9] 2 3).2).data.getD
          (0 / smallConfig.INODES_PER_BLOCK + 1) [])
        (0 % smallConfig.INODES_PER_BLOCK) (3 / smallConfig.BLOCK_SIZE) = b ∧
      ∀ t, ((deviceOf (fs_write smallConfig mountedSession 0 [9, 9] 2 3).2).data.getD b []).getD
          t 0
        = if 3 % smallConfig.BLOCK_SIZE ≤ t ∧ t < 3 % smallConfig.BLOCK_SIZE + 2 then
            [9, 9].getD (t - 3 % smallConfig.BLOCK_SIZE) 0
          else 0) ∧
    ((if 0 < smallConfig.POINTERS_PER_INODE then
        write_direct smallConfig mountedSession (zeroBlock smallConfig)
          (0 % smallConfig.INODES_PER_BLOCK) 0 0
      else write_indirect smallConfig mountedSession (zeroBlock smallConfig)
        (0 % smallConfig.INODES_PER_BLOCK) 0 0)
      = .ok (⟨mountedSession.disk, some [false, false, false, true, true, true, true, true],
          mountedSession.meta_data⟩,
        set_inode_direct smallConfig (zeroBlock smallConfig) 0 0 2, List.replicate 32 0, 2) ∧
      List.replicate 32 0 = zeroBlock smallConfig) :=
  ⟨((fs_write_keeps_outside_window smallConfig (by decide) sampleSession
      ⟨8, 3, 0, sampleVolume.data⟩ (by decide) (by decide) (by decide) 0 (by decide)
      (sampleBytes 14) 14 25 (by decide)).1 (by decide) (by decide) (by decide)).1,
    (fs_write_keeps_outside_window smallConfig (by decide) mountedSession
      ⟨8, 2, 8, (volume smallConfig ⟨4042273808, 8, 1, 2⟩ 8).data⟩ (by decide) (by decide)
      (by decide) 0 (by decide) [9, 9] 2 3 (by decide)).2.1
      [false, false, true, true, true, true, true, true] (by decide) (by decide) (by decide)
      (by decide) (by decide) (by decide) (by decide) (by decide) (by decide) (by decide),
    rfl,
    (fs_write_keeps_outside_window smallConfig (by decide) mountedSession
      ⟨8, 2, 8, (volume smallConfig ⟨4042273808, 8, 1, 2⟩ 8).data⟩ (by decide) (by decide)
      (by decide) 0 (by decide) [9, 9] 2 3 (by decide)).2.2 mountedSession _
      (zeroBlock smallConfig) _ (List.replicate 32 0) 0 0 2 rfl (fun _ => by decide)
      (fun h => absurd h (by decide))⟩

/-! ## Exhaustion of the free blocks on any volume -/

theorem getD_set32 (b : Block) (w v i : Nat) :
    (set32 b w v).getD i 0
      = if i = 4 * w + 3 ∧ i < b.length then v / 16777216 % 256
        else if i = 4 * w + 2 ∧ i < b.length then v / 65536 % 256
        else if i = 4 * w + 1 ∧ i < b.length then v / 256 % 256
        else if i = 4 * w ∧ i < b.length then v % 256
        else b.getD i 0 := by
  simp only [set32, getD_set_eq, List.length_set]
  repeat' split
  all_goals first | rfl | omega

/-- A second store to the same word replaces the first. -/
theorem set32_overwrite (b : Block) (w a v : Nat) :
    set32 (set32 b w a) w v = set32 b w v := by
  apply list_ext_getD _ _ 0 (by simp only [set32_length])
  intro i _
  simp only [getD_set32, set32_length]
  repeat' split
  all_goals rfl

/-- Stores to different words commute. -/
theorem set32_comm (b : Block) (w w' a v : Nat) (h : w ≠ w') :
    set32 (set32 b w a) w' v = set32 (set32 b w' v) w a := by
  apply list_ext_getD _ _ 0 (by simp only [set32_length])
  intro i _
  simp only [getD_set32, set32_length]
  repeat' split
  all_goals first | rfl | omega

/-- Writing block `j` of a device on which block `i` was replaced gives the device
written at `j` with block `i` replaced. -/
theorem set_set_twin (l : List Block) (i j : Nat) (X buf : Block) :
    ∃ X', (l.set i X).set j buf = (l.set j buf).set i X' := by
  by_cases h : i = j
  · subst h
    exact ⟨buf, by rw [List.set_set, List.set_set]⟩
  · exact ⟨X, List.set_comm _ _ _ h⟩

/-- The scan of `gimme_block` does not look at the contents of the device. -/
theorem gimme_block_twin (dA dB : Disk) (fbs : Option (List Bool)) (m : SuperBlock)
    (hb : dA.blocks = dB.blocks) :
    ∃ r fbs', gimme_block ⟨some dA, fbs, m⟩ = (r, ⟨some dA, fbs', m⟩) ∧
      gimme_block ⟨some dB, fbs, m⟩ = (r, ⟨some dB, fbs', m⟩) := by
  unfold gimme_block
  cases fbs with
  | none => exact ⟨none, none, rfl, rfl⟩
  | some fb =>
    simp only [hb]
    cases gimme_scan fb (dB.blocks - 1) 1 with
    | none => exact ⟨none, some fb, rfl, rfl⟩
    | some i => exact ⟨some i, some (fb.set i false), rfl, rfl⟩

/-- The first half of the body of the loop of `fs_write`, on a logical block that has no
pointer yet, does not depend on the `size` field of the inode nor on what the device
holds in block `iblk`: run on the inode block with another size and on the device with
block `iblk` replaced, it returns the same result or finds the same blocks. -/
theorem write_found_twin (cfg : Config) (dA : Disk) (X : Block) (iblk : Nat)
    (fbs : Option (List Bool)) (m : SuperBlock) (block : Block) (inum data_b nw s0 : Nat)
    (hlen : dA.data.length = dA.blocks)
    (hdir : data_b < cfg.POINTERS_PER_INODE → inode_direct cfg block inum data_b = 0)
    (hind : cfg.POINTERS_PER_INODE ≤ data_b → inode_indirect cfg block inum = 0) :
    (∃ e e',
      (if data_b < cfg.POINTERS_PER_INODE then
          write_direct cfg ⟨some dA, fbs, m⟩ block inum data_b nw
        else write_indirect cfg ⟨some dA, fbs, m⟩ block inum data_b nw) = .error e ∧
      (if data_b < cfg.POINTERS_PER_INODE then
          write_direct cfg ⟨some ⟨dA.blocks, dA.reads, dA.writes, dA.data.set iblk X⟩, fbs, m⟩
            (set_inode_size cfg block inum s0) inum data_b nw
        else write_indirect cfg
          ⟨some ⟨dA.blocks, dA.reads, dA.writes, dA.data.set iblk X⟩, fbs, m⟩
          (set_inode_size cfg block inum s0) inum data_b nw) = .error e' ∧
      e'.1 = e.1) ∨
    (∃ dA' X' fbs' block1 Dblock blk,
      (if data_b < cfg.POINTERS_PER_INODE then
          write_direct cfg ⟨some dA, fbs, m⟩ block inum data_b nw
        else write_indirect cfg ⟨some dA, fbs, m⟩ block inum data_b nw)
        = .ok (⟨some dA', fbs', m⟩, block1, Dblock, blk) ∧
      (if data_b < cfg.POINTERS_PER_INODE then
          write_direct cfg ⟨some ⟨dA.blocks, dA.reads, dA.writes, dA.data.set iblk X⟩, fbs, m⟩
            (set_inode_size cfg block inum s0) inum data_b nw
        else write_indirect cfg
          ⟨some ⟨dA.blocks, dA.reads, dA.writes, dA.data.set iblk X⟩, fbs, m⟩
          (set_inode_size cfg block inum s0) inum data_b nw)
        = .ok (⟨some ⟨dA'.blocks, dA'.reads, dA'.writes, dA'.data.set iblk X'⟩, fbs', m⟩,
            set_inode_size cfg block1 inum s0, Dblock, blk) ∧
      dA'.data.length = dA'.blocks) := by
  by_cases hk : data_b < cfg.POINTERS_PER_INODE
  · simp only [if_pos hk]
    unfold write_direct
    rw [if_pos (hdir hk), if_pos (by rw [direct_set_size]; exact hdir hk)]
    obtain ⟨r, fbs', hgA, hgB⟩ := gimme_block_twin dA
      ⟨dA.blocks, dA.reads, dA.writes, dA.data.set iblk X⟩ fbs m rfl
    rw [hgA, hgB]
    cases r with
    | none => exact Or.inl ⟨_, _, rfl, rfl, rfl⟩
    | some b =>
      refine Or.inr ⟨dA, X, fbs', _, _, _, rfl, ?_, hlen⟩
      have hc : set_inode_direct cfg (set_inode_size cfg block inum s0) inum data_b b
          = set_inode_size cfg (set_inode_direct cfg block inum data_b b) inum s0 := by
        unfold set_inode_direct set_inode_size
        exact set32_comm _ _ _ _ _ (by omega)
      simp only [hc, direct_set_size]
  · simp only [if_neg hk]
    unfold write_indirect write_find_indirect
    rw [if_pos (hind (by omega)), if_pos (by rw [indirect_set_size]; exact hind (by omega))]
    obtain ⟨r, fbs', hgA, hgB⟩ := gimme_block_twin dA
      ⟨dA.blocks, dA.reads, dA.writes, dA.data.set iblk X⟩ fbs m rfl
    rw [hgA, hgB]
    cases r with
    | none => exact Or.inl ⟨_, _, rfl, rfl, rfl⟩
    | some i =>
      simp only [pointer_zeroBlock, if_true]
      obtain ⟨r2, fbs2, hgA2, hgB2⟩ := gimme_block_twin dA
        ⟨dA.blocks, dA.reads, dA.writes, dA.data.set iblk X⟩ fbs' m rfl
      rw [hgA2, hgB2]
      cases r2 with
      | none => exact Or.inl ⟨_, _, rfl, rfl, rfl⟩
      | some p =>
        have hc : set_inode_indirect cfg (set_inode_size cfg block inum s0) inum i
            = set_inode_size cfg (set_inode_indirect cfg block inum i) inum s0 := by
          unfold set_inode_indirect set_inode_size
          exact set32_comm _ _ _ _ _ (by omega)
        simp only [hc, indirect_set_size]
        rw [disk_write_eq cfg dA _ _ hlen,
          disk_write_eq cfg ⟨dA.blocks, dA.reads, dA.writes, dA.data.set iblk X⟩ _ _
            (by simp only [List.length_set]; exact hlen)]
        by_cases hq : inode_indirect cfg (set_inode_indirect cfg block inum i) inum < dA.blocks
        · simp only [if_pos hq, block_size_ne_failure, if_false]
          obtain ⟨X', hX'⟩ := set_set_twin dA.data iblk
            (inode_indirect cfg (set_inode_indirect cfg block inum i) inum) X
            (set_pointer (zeroBlock cfg) (data_b - cfg.POINTERS_PER_INODE) p)
          refine Or.inr ⟨_, X', fbs2, _, _, _, rfl, ?_, ?_⟩
          · simp only [hX']
          · simp only [List.length_set]; exact hlen
        · simp only [if_neg hq, if_true]
          exact Or.inl ⟨_, _, rfl, rfl, rfl⟩

/-- The result of the loop of `fs_write`, started on a logical block that has no pointer
yet, does not depend on the `size` field of the inode nor on what the device holds in
the inode-table block: the first iteration assigns the size and writes the block back. -/
theorem write_loop_twin (cfg : Config) (n : Nat) (data : List Nat) (L O fuel : Nat)
    (dA : Disk) (X : Block) (fbs : Option (List Bool)) (m : SuperBlock) (block : Block)
    (nw data_b data_o s0 : Nat) (hlen : dA.data.length = dA.blocks)
    (hdir : data_b < cfg.POINTERS_PER_INODE →
      inode_direct cfg block (n % cfg.INODES_PER_BLOCK) data_b = 0)
    (hind : cfg.POINTERS_PER_INODE ≤ data_b →
      inode_indirect cfg block (n % cfg.INODES_PER_BLOCK) = 0) :
    (write_loop cfg n data L O fuel
      ⟨some ⟨dA.blocks, dA.reads, dA.writes, dA.data.set (n / cfg.INODES_PER_BLOCK + 1) X⟩,
        fbs, m⟩
      (set_inode_size cfg block (n % cfg.INODES_PER_BLOCK) s0) nw data_b data_o).1
      = (write_loop cfg n data L O fuel ⟨some dA, fbs, m⟩ block nw data_b data_o).1 := by
  cases fuel with
  | zero => rfl
  | succ fuel =>
    rw [write_loop, write_loop]
    by_cases hlt : nw < L
    · rw [if_neg (not_not.mpr hlt), if_neg (not_not.mpr hlt)]
      rcases write_found_twin cfg dA X (n / cfg.INODES_PER_BLOCK + 1) fbs m block
        (n % cfg.INODES_PER_BLOCK) data_b nw s0 hlen hdir hind with
        ⟨e, e', hA, hB, he⟩ | ⟨dA', X', fbs', block1, Dblock, blk, hA, hB, hlen'⟩
      · simp only [hA, hB]
        exact he
      · simp only [hA, hB]
        have hov : ∀ v, set_inode_size cfg (set_inode_size cfg block1
            (n % cfg.INODES_PER_BLOCK) s0) (n % cfg.INODES_PER_BLOCK) v
            = set_inode_size cfg block1 (n % cfg.INODES_PER_BLOCK) v := by
          intro v
          unfold set_inode_size
          exact set32_overwrite _ _ _ _
        simp only [hov]
        rw [disk_write_eq cfg dA' _ _ hlen',
          disk_write_eq cfg ⟨dA'.blocks, dA'.reads, dA'.writes,
            dA'.data.set (n / cfg.INODES_PER_BLOCK + 1) X'⟩ _ _
            (by simp only [List.length_set]; exact hlen')]
        by_cases hb : blk < dA'.blocks
        · simp only [if_pos hb, block_size_ne_failure, if_false]
          obtain ⟨X2, hX2⟩ := set_set_twin dA'.data (n / cfg.INODES_PER_BLOCK + 1) blk X'
            (memcpy Dblock data_o data nw
              (if ((L - nw) + data_o) % 2 ^ 64 < cfg.BLOCK_SIZE then L - nw
                else cfg.BLOCK_SIZE - data_o))
          rw [hX2]
          rw [disk_write_eq cfg ⟨dA'.blocks, dA'.reads, dA'.writes + 1, _⟩ _ _
              (by simp only [List.length_set]; exact hlen'),
            disk_write_eq cfg ⟨dA'.blocks, dA'.reads, dA'.writes + 1, _⟩ _ _
              (by simp only [List.length_set]; exact hlen')]
          by_cases hi : n / cfg.INODES_PER_BLOCK + 1 < dA'.blocks
          · simp only [if_pos hi, block_size_ne_failure, if_false, List.set_set]
          · simp only [if_neg hi, if_true]
        · simp only [if_neg hb, if_true]
    · rw [if_pos hlt, if_pos hlt]

/-- The result of `fs_write` on an inode whose first logical block of the window has no
pointer does not depend on the `size` field the inode has on the device. -/
theorem fs_write_twin (cfg : Config) (d : Disk) (fbs : Option (List Bool)) (m : SuperBlock)
    (n : Nat) (data : List Nat) (L O s0 : Nat) (hlen : d.data.length = d.blocks)
    (hdir : O / cfg.BLOCK_SIZE < cfg.POINTERS_PER_INODE →
      inode_direct cfg (d.data.getD (n / cfg.INODES_PER_BLOCK + 1) [])
        (n % cfg.INODES_PER_BLOCK) (O / cfg.BLOCK_SIZE) = 0)
    (hind : cfg.POINTERS_PER_INODE ≤ O / cfg.BLOCK_SIZE →
      inode_indirect cfg (d.data.getD (n / cfg.INODES_PER_BLOCK + 1) [])
        (n % cfg.INODES_PER_BLOCK) = 0) :
    (fs_write cfg
      ⟨some ⟨d.blocks, d.reads, d.writes, d.data.set (n / cfg.INODES_PER_BLOCK + 1)
        (set_inode_size cfg (d.data.getD (n / cfg.INODES_PER_BLOCK + 1) [])
          (n % cfg.INODES_PER_BLOCK) s0)⟩, fbs, m⟩ n data L O).1
      = (fs_write cfg ⟨some d, fbs, m⟩ n data L O).1 := by
  unfold fs_write
  rw [disk_read_eq cfg d _ _ hlen,
    disk_read_eq cfg ⟨d.blocks, d.reads, d.writes, _⟩ _ _
      (by simp only [List.length_set]; exact hlen)]
  by_cases hin : n / cfg.INODES_PER_BLOCK + 1 < d.blocks
  · simp only [if_pos hin, block_size_ne_failure, if_false]
    rw [getD_set_data _ _ _ _ (by rw [hlen]; exact hin), if_pos rfl]
    exact write_loop_twin cfg n data L O L ⟨d.blocks, d.reads + 1, d.writes, d.data⟩ _ fbs m
      _ 0 _ _ s0 hlen hdir hind
  · simp only [if_neg hin, if_true]

/-- C20, amended: exhaustion gives the blocks the free space leaves for data. On every
mounted volume (the device as opened with fewer than `2^32` blocks, a bitmap with one bit
per block that marks block 0 and the inode-table block of the inode used) with exactly
`k` free blocks in the bitmap, `k <= POINTERS_PER_INODE + POINTERS_PER_BLOCK`, for every
inode that owns no block (all direct pointers 0 and `indirect` 0, as after creation;
whatever its number, its `valid` and `size` fields and whatever else the volume holds)
and every length `N` with `k * BLOCK_SIZE < N < 2^64`, `fs_write` at offset 0 returns
`k * BLOCK_SIZE` when `k <= POINTERS_PER_INODE`, and `(k - 1) * BLOCK_SIZE` when
`k > POINTERS_PER_INODE`, where one free block goes to the indirect page; in both cases
a non-negative partial count. -/
theorem fs_write_exhaustion (cfg : Config) (hcfg : cfg.WF) (d : Disk) (fb : List Bool)
    (m : SuperBlock) (n : Nat) (data : List Nat) (N : Nat)
    (hlen : d.data.length = d.blocks) (hb32 : d.blocks < 2 ^ 32)
    (hsize : ∀ i, i < d.blocks → (d.data.getD i []).length = cfg.BLOCK_SIZE)
    (hfb : fb.length = d.blocks) (hzero : fb.getD 0 false = false)
    (hin : n / cfg.INODES_PER_BLOCK + 1 < d.blocks)
    (hiused : fb.getD (n / cfg.INODES_PER_BLOCK + 1) false = false)
    (hdir : ∀ j, j < cfg.POINTERS_PER_INODE →
      inode_direct cfg (d.data.getD (n / cfg.INODES_PER_BLOCK + 1) [])
        (n % cfg.INODES_PER_BLOCK) j = 0)
    (hind : inode_indirect cfg (d.data.getD (n / cfg.INODES_PER_BLOCK + 1) [])
      (n % cfg.INODES_PER_BLOCK) = 0)
    (hN64 : N < 2 ^ 64) (hfree : fb.count true * cfg.BLOCK_SIZE < N)
    (hcap : fb.count true ≤ cfg.POINTERS_PER_INODE + cfg.POINTERS_PER_BLOCK) :
    (fs_write cfg ⟨some d, some fb, m⟩ n data N 0).1
      = (((if cfg.POINTERS_PER_INODE < fb.count true then fb.count true - 1
          else fb.count true) * cfg.BLOCK_SIZE : Nat) : Int) ∧
    0 ≤ (fs_write cfg ⟨some d, some fb, m⟩ n data N 0).1 := by
  have hinum : n % cfg.INODES_PER_BLOCK < cfg.INODES_PER_BLOCK := Nat.mod_lt _ hcfg.2.1
  have hblk := hsize _ hin
  have hl0 : (d.data.set (n / cfg.INODES_PER_BLOCK + 1)
      (set_inode_size cfg (d.data.getD (n / cfg.INODES_PER_BLOCK + 1) [])
        (n % cfg.INODES_PER_BLOCK) 0)).length = d.blocks := by
    rw [List.length_set]; exact hlen
  have hg : ∀ x, (d.data.set (n / cfg.INODES_PER_BLOCK + 1)
      (set_inode_size cfg (d.data.getD (n / cfg.INODES_PER_BLOCK + 1) [])
        (n % cfg.INODES_PER_BLOCK) 0)).getD x []
      = if n / cfg.INODES_PER_BLOCK + 1 = x then
          set_inode_size cfg (d.data.getD (n / cfg.INODES_PER_BLOCK + 1) [])
            (n % cfg.INODES_PER_BLOCK) 0
        else d.data.getD x [] :=
    fun x => getD_set_data _ _ _ _ (by rw [hlen]; exact hin)
  have inv0 : WriteInv cfg data N (n / cfg.INODES_PER_BLOCK + 1) (n % cfg.INODES_PER_BLOCK)
      0 0
      ⟨d.blocks, d.reads, d.writes, d.data.set (n / cfg.INODES_PER_BLOCK + 1)
        (set_inode_size cfg (d.data.getD (n / cfg.INODES_PER_BLOCK + 1) [])
          (n % cfg.INODES_PER_BLOCK) 0)⟩ fb
      ((d.data.set (n / cfg.INODES_PER_BLOCK + 1)
        (set_inode_size cfg (d.data.getD (n / cfg.INODES_PER_BLOCK + 1) [])
          (n % cfg.INODES_PER_BLOCK) 0)).getD (n / cfg.INODES_PER_BLOCK + 1) []) := by
    apply writeInv_empty cfg data N _ _
      ⟨d.blocks, d.reads, d.writes, d.data.set (n / cfg.INODES_PER_BLOCK + 1)
        (set_inode_size cfg (d.data.getD (n / cfg.INODES_PER_BLOCK + 1) [])
          (n % cfg.INODES_PER_BLOCK) 0)⟩ fb hl0 hb32 _ hfb hzero hin hiused
    · simp only
      rw [hg, if_pos rfl, size_set_size cfg hcfg _ _ _ hblk hinum]
      rfl
    · intro j hj
      simp only
      rw [hg, if_pos rfl, direct_set_size]
      exact hdir j hj
    · simp only
      rw [hg, if_pos rfl, indirect_set_size]
      exact hind
    · intro i hi
      simp only
      rw [hg]
      split
      · rw [set_inode_size_length]; exact hblk
      · exact hsize i hi
  obtain ⟨T, d', fb', block', fbf, hT, hw, _⟩ :=
    fs_write_exhaust cfg hcfg data N n hN64 _ fb m inv0 hfree hcap
  have htw := fs_write_twin cfg d (some fb) m n data N 0 0 hlen
    (fun h => by rw [Nat.zero_div] at h ⊢; exact hdir 0 h)
    (fun _ => hind)
  rw [← htw, hw, hT]
  exact ⟨rfl, Int.ofNat_nonneg _⟩

/-- Witness of C20: the sample volume of the small layout, which is not fresh: inode 0
holds a file of 70 bytes in four blocks, inode 1 owns no block and two blocks are free,
one more than the direct pointers; a write of 96 bytes to inode 1 returns 32. -/
theorem fs_write_exhaustion_witness :
    smallConfig.WF ∧
    sampleSession = ⟨some ⟨8, 3, 0, sampleVolume.data⟩,
      some [false, false, false, false, false, false, true, true],
      ⟨4042273808, 8, 1, 2⟩⟩ ∧
    [false, false, false, false, false, false, true, true].count true = 2 ∧
    (fs_write smallConfig sampleSession 1 (sampleBytes 96) 96 0).1 = 32 ∧
    ((fs_write smallConfig ⟨some ⟨8, 3, 0, sampleVolume.data⟩,
        some [false, false, false, false, false, false, true, true],
        ⟨4042273808, 8, 1, 2⟩⟩ 1 (sampleBytes 96) 96 0).1
      = (((if smallConfig.POINTERS_PER_INODE
            < [false, false, false, false, false, false, true, true].count true
          then [false, false, false, false, false, false, true, true].count true - 1
          else [false, false, false, false, false, false, true, true].count true)
          * smallConfig.BLOCK_SIZE : Nat) : Int) ∧
    0 ≤ (fs_write smallConfig ⟨some ⟨8, 3, 0, sampleVolume.data⟩,
        some [false, false, false, false, false, false, true, true],
        ⟨4042273808, 8, 1, 2⟩⟩ 1 (sampleBytes 96) 96 0).1) :=
  ⟨by decide, by decide, by decide, by decide,
    fs_write_exhaustion smallConfig (by decide) ⟨8, 3, 0, sampleVolume.data⟩
      [false, false, false, false, false, false, true, true] ⟨4042273808, 8, 1, 2⟩ 1
      (sampleBytes 96) 96 (by decide) (by decide) (by decide) (by decide) (by decide)
      (by decide) (by decide) (by decide) (by decide) (by decide) (by decide)
      (by decide)⟩

/-! ## A length that wraps around the clamp of `fs_read` -/

theorem fs_run_create (cfg : Config) (fs : FileSystem) :
    fs_run cfg fs [.create] = (fs_create cfg fs).2 := rfl

theorem fs_run_create_write_write (cfg : Config) (fs : FileSystem) (n : Nat)
    (data : List Nat) (length offset n2 : Nat) (data2 : List Nat) (length2 offset2 : Nat) :
    fs_run cfg fs [.create, .write n data length offset, .write n2 data2 length2 offset2]
      = (fs_write cfg (fs_write cfg (fs_create cfg fs).2 n data length offset).2
          n2 data2 length2 offset2).2 := rfl

theorem fs_run_write (cfg : Config) (fs : FileSystem) (n : Nat) (data : List Nat)
    (length offset : Nat) :
    fs_run cfg fs [.write n data length offset] = (fs_write cfg fs n data length offset).2 :=
  rfl

theorem remount_eq (cfg : Config) (fs : FileSystem) :
    remount cfg fs = (fs_mount cfg (fs_unmount fs) (some (deviceOf fs))).2.1 := rfl

/-- One iteration of the loop of `fs_read` whose block read succeeds. -/
theorem read_loop_step (cfg : Config) (block : Block) (inum length fuel : Nat)
    (disk : Option Disk) (fbs : Option (List Bool)) (m : SuperBlock) (buf : List Nat)
    (nread ncopy data_b data_o : Nat) (disk1 : Option Disk) (Dblock : Block)
    (hlt : nread < length)
    (hrb : read_block cfg disk block inum data_b = (disk1, some Dblock)) :
    read_loop cfg block inum length (fuel + 1) ⟨disk, fbs, m⟩ buf nread ncopy data_b data_o
      = read_loop cfg block inum length fuel ⟨disk1, fbs, m⟩
          (memcpy buf nread Dblock data_o ncopy) ((nread + ncopy) % 2 ^ 64)
          (if sub64 length ((nread + ncopy) % 2 ^ 64) > cfg.BLOCK_SIZE then cfg.BLOCK_SIZE
            else sub64 length ((nread + ncopy) % 2 ^ 64)) (data_b + 1) 0 := by
  rw [read_loop, if_neg (not_not.mpr hlt)]
  simp only [hrb]

/-- One iteration of the loop of `fs_read` whose block read fails: the call returns -1
and leaves the buffer as the earlier iterations filled it. -/
theorem read_loop_fail (cfg : Config) (block : Block) (inum length fuel : Nat)
    (disk : Option Disk) (fbs : Option (List Bool)) (m : SuperBlock) (buf : List Nat)
    (nread ncopy data_b data_o : Nat) (disk1 : Option Disk)
    (hlt : nread < length)
    (hrb : read_block cfg disk block inum data_b = (disk1, none)) :
    read_loop cfg block inum length (fuel + 1) ⟨disk, fbs, m⟩ buf nread ncopy data_b data_o
      = (-1, ⟨disk1, fbs, m⟩, buf) := by
  rw [read_loop, if_neg (not_not.mpr hlt)]
  simp only [hrb]

/-- The step `read data block` of `fs_read` past the direct pointers, when the entry of
the page names a block that is not on the device: the read fails. -/
theorem read_block_page_fail (cfg : Config) (d0 d : Disk) (hlen : d0.data.length = d0.blocks)
    (hd1 : d.blocks = d0.blocks) (hd2 : d.data = d0.data) (block : Block) (inum b : Nat)
    (hb : cfg.POINTERS_PER_INODE ≤ b)
    (hind : inode_indirect cfg block inum < d0.blocks)
    (hbig : d0.blocks ≤ pointer (d0.data.getD (inode_indirect cfg block inum) [])
      (b - cfg.POINTERS_PER_INODE)) :
    ∃ d', read_block cfg (some d) block inum b = (some d', none) := by
  obtain ⟨blocks, reads, writes, dat⟩ := d
  simp only at hd1 hd2
  subst hd1
  subst hd2
  unfold read_block
  rw [if_neg (by omega), disk_read_ok cfg ⟨d0.blocks, reads, writes, d0.data⟩ _ _ hlen hind]
  simp only [block_size_ne_failure, if_false]
  rw [disk_read_fail cfg ⟨d0.blocks, reads + 1, writes, d0.data⟩ _ _ hbig]
  simp only [if_true]
  exact ⟨_, rfl⟩

/-- With the usual constants, on an inode 0 of size 5000 whose `direct[1]` is on the
device, whose `direct[2..4]` and `indirect` are 0, on a device whose block 0 starts with
a number that is not a block of the device (the magic number), `fs_read` of
`2^64 - 4000` bytes at offset 4096 is not clamped, because `length + offset` wraps to 96:
it copies the whole block `direct[1]` and three times block 0 into the buffer, then
reads block 0 as the indirect page, fails on its first entry and returns -1. -/
theorem fs_read_wrapped (d : Disk) (fbs : Option (List Bool)) (m : SuperBlock)
    (buf : List Nat) (hlen : d.data.length = d.blocks) (h1 : 1 < d.blocks)
    (hsz : inode_size stdConfig (d.data.getD 1 []) 0 = 5000)
    (hp1 : inode_direct stdConfig (d.data.getD 1 []) 0 1 < d.blocks)
    (hd2 : inode_direct stdConfig (d.data.getD 1 []) 0 2 = 0)
    (hd3 : inode_direct stdConfig (d.data.getD 1 []) 0 3 = 0)
    (hd4 : inode_direct stdConfig (d.data.getD 1 []) 0 4 = 0)
    (hind : inode_indirect stdConfig (d.data.getD 1 []) 0 = 0)
    (hbig : d.blocks ≤ pointer (d.data.getD 0 []) 0) :
    ∃ fs', fs_read stdConfig ⟨some d, fbs, m⟩ 0 buf (2 ^ 64 - 4000) 4096
      = (-1, fs',
        memcpy (memcpy (memcpy (memcpy buf 0
          (d.data.getD (inode_direct stdConfig (d.data.getD 1 []) 0 1) []) 0 4096)
          4096 (d.data.getD 0 []) 0 4096) 8192 (d.data.getD 0 []) 0 4096)
          12288 (d.data.getD 0 []) 0 4096) := by
  have h0 : 0 < d.blocks := by omega
  have hph1 : physical stdConfig d (d.data.getD 1 []) 0 1
      = inode_direct stdConfig (d.data.getD 1 []) 0 1 := rfl
  have hph2 : physical stdConfig d (d.data.getD 1 []) 0 2 = 0 := hd2
  have hph3 : physical stdConfig d (d.data.getD 1 []) 0 3 = 0 := hd3
  have hph4 : physical stdConfig d (d.data.getD 1 []) 0 4 = 0 := hd4
  have hno : ∀ b, b < 5 → stdConfig.POINTERS_PER_INODE ≤ b →
      inode_indirect stdConfig (d.data.getD 1 []) 0 < d.blocks :=
    fun b hb h => absurd h (Nat.not_le.mpr hb)
  have hnc : ∀ x, x = 4096 ∨ x = 8192 ∨ x = 12288 ∨ x = 16384 →
      (if sub64 (2 ^ 64 - 4000) x > stdConfig.BLOCK_SIZE then stdConfig.BLOCK_SIZE
        else sub64 (2 ^ 64 - 4000) x) = 4096 := by
    intro x hx
    rcases hx with rfl | rfl | rfl | rfl <;> decide
  obtain ⟨f, hf⟩ : ∃ f, 2 ^ 64 - 4000 = f + 1 + 1 + 1 + 1 + 1 := ⟨2 ^ 64 - 4005, by decide⟩
  obtain ⟨d1, r1, b1, a1⟩ := read_block_phys stdConfig d
    ⟨d.blocks, d.reads + 1, d.writes, d.data⟩ hlen rfl rfl (d.data.getD 1 []) 0 1
    (hno 1 (by decide)) (by rw [hph1]; exact hp1)
  obtain ⟨d2, r2, b2, a2⟩ := read_block_phys stdConfig d d1 hlen b1 a1 (d.data.getD 1 []) 0 2
    (hno 2 (by decide)) (by rw [hph2]; exact h0)
  obtain ⟨d3, r3, b3, a3⟩ := read_block_phys stdConfig d d2 hlen b2 a2 (d.data.getD 1 []) 0 3
    (hno 3 (by decide)) (by rw [hph3]; exact h0)
  obtain ⟨d4, r4, b4, a4⟩ := read_block_phys stdConfig d d3 hlen b3 a3 (d.data.getD 1 []) 0 4
    (hno 4 (by decide)) (by rw [hph4]; exact h0)
  obtain ⟨d5, r5⟩ := read_block_page_fail stdConfig d d4 hlen b4 a4 (d.data.getD 1 []) 0 5
    (by decide) (by rw [hind]; exact h0) (by rw [hind]; exact hbig)
  rw [hph1] at r1
  rw [hph2] at r2
  rw [hph3] at r3
  rw [hph4] at r4
  have hi0 : (0 : Nat) / stdConfig.INODES_PER_BLOCK + 1 = 1 := rfl
  have hm0 : (0 : Nat) % stdConfig.INODES_PER_BLOCK = 0 := rfl
  have hq : 4096 / stdConfig.BLOCK_SIZE = 1 := rfl
  have hr : 4096 % stdConfig.BLOCK_SIZE = 0 := rfl
  have hclamp : ¬ ((2 ^ 64 - 4000 + 4096) % 2 ^ 64 > 5000) := by decide
  have hfirst : ¬ ((2 ^ 64 - 4000 + 0) % 2 ^ 64 < stdConfig.BLOCK_SIZE) := by decide
  have hbs : stdConfig.BLOCK_SIZE - 0 = 4096 := rfl
  refine ⟨⟨some d5, fbs, m⟩, ?_⟩
  unfold fs_read
  rw [hi0, hm0, hq, hr, disk_read_ok stdConfig d 1 _ hlen h1]
  simp only [block_size_ne_failure, if_false, hsz]
  rw [if_neg hclamp, if_neg hfirst, hbs]
  nth_rewrite 2 [hf]
  rw [read_loop_step stdConfig _ 0 _ _ _ fbs m buf 0 4096 1 0 _ _ (by decide) r1]
  rw [show (0 + 4096) % 2 ^ 64 = 4096 from rfl, hnc 4096 (Or.inl rfl)]
  rw [read_loop_step stdConfig _ 0 _ _ _ fbs m _ 4096 4096 2 0 _ _ (by decide) r2]
  rw [show (4096 + 4096) % 2 ^ 64 = 8192 from rfl, hnc 8192 (Or.inr (Or.inl rfl))]
  rw [read_loop_step stdConfig _ 0 _ _ _ fbs m _ 8192 4096 3 0 _ _ (by decide) r3]
  rw [show (8192 + 4096) % 2 ^ 64 = 12288 from rfl, hnc 12288 (Or.inr (Or.inr (Or.inl rfl)))]
  rw [read_loop_step stdConfig _ 0 _ _ _ fbs m _ 12288 4096 4 0 _ _ (by decide) r4]
  rw [show (12288 + 4096) % 2 ^ 64 = 16384 from rfl,
    hnc 16384 (Or.inr (Or.inr (Or.inr rfl)))]
  rw [read_loop_fail stdConfig _ 0 _ _ _ fbs m _ 16384 4096 5 0 _ (by decide) r5]

/-- With the usual constants, two writes to an empty inode 0, of 4096 bytes at offset 0
and of 904 bytes at offset 4096, with two free blocks: both succeed, and they leave a
file of 5000 bytes whose logical blocks 0 and 1 are in `direct[0]` and `direct[1]`, with
the other pointers 0, block 0 of the device as it was, and zero bytes in the second data
block after the 904 bytes written. -/
theorem fs_write_two_blocks (data1 data2 : List Nat) (d : Disk) (fb : List Bool)
    (m : SuperBlock)
    (inv : WriteInv stdConfig data1 4096 1 0 0 0 d fb (d.data.getD 1 []))
    (hc : 2 ≤ fb.count true) :
    ∃ s1 d' fb',
      fs_write stdConfig ⟨some d, some fb, m⟩ 0 data1 4096 0 = (4096, s1) ∧
      fs_write stdConfig s1 0 data2 904 4096 = (904, ⟨some d', some fb', m⟩) ∧
      d'.data.length = d'.blocks ∧ d'.blocks = d.blocks ∧
      d'.data.getD 0 [] = d.data.getD 0 [] ∧
      inode_size stdConfig (d'.data.getD 1 []) 0 = 5000 ∧
      0 < inode_direct stdConfig (d'.data.getD 1 []) 0 1 ∧
      inode_direct stdConfig (d'.data.getD 1 []) 0 1 < d'.blocks ∧
      inode_direct stdConfig (d'.data.getD 1 []) 0 2 = 0 ∧
      inode_direct stdConfig (d'.data.getD 1 []) 0 3 = 0 ∧
      inode_direct stdConfig (d'.data.getD 1 []) 0 4 = 0 ∧
      inode_indirect stdConfig (d'.data.getD 1 []) 0 = 0 ∧
      (d'.data.getD (inode_direct stdConfig (d'.data.getD 1 []) 0 1) []).getD 904 0 = 0 := by
  have hwf : stdConfig.WF := by decide
  have hi0 : (0 : Nat) / stdConfig.INODES_PER_BLOCK + 1 = 1 := rfl
  have hm0 : (0 : Nat) % stdConfig.INODES_PER_BLOCK = 0 := rfl
  have hq0 : 0 / stdConfig.BLOCK_SIZE = 0 := rfl
  have hr0 : 0 % stdConfig.BLOCK_SIZE = 0 := rfl
  have hq1 : 4096 / stdConfig.BLOCK_SIZE = 1 := rfl
  have hr1 : 4096 % stdConfig.BLOCK_SIZE = 0 := rfl
  have h1 : 1 < d.blocks := inv.hiblk
  -- first write
  obtain ⟨b0, hb01, hb02, hb03, hw1⟩ := fs_write_fresh_direct stdConfig hwf d fb m 0 data1
    4096 0 inv.hlen inv.hb32 inv.hfb inv.hzero (by omega) inv.hiblk inv.hblock (by decide)
    (inv.hdirect0 0 (Nat.zero_le _) (by decide)) (by decide) (by decide) (by decide)
  rw [hi0, hm0, hq0, hr0] at hw1
  have hb0n1 : b0 ≠ 1 := by
    intro h
    rw [h, inv.hiused] at hb03
    exact absurd hb03 (by decide)
  have hT0 : (set_inode_direct stdConfig (d.data.getD 1 []) 0 0 b0).length
      = stdConfig.BLOCK_SIZE := by
    unfold set_inode_direct; rw [set32_length]; exact inv.hblock
  have hT1 : (set_inode_size stdConfig
      (set_inode_direct stdConfig (d.data.getD 1 []) 0 0 b0) 0 (4096 + 0)).length
      = stdConfig.BLOCK_SIZE := by
    unfold set_inode_size; rw [set32_length]; exact hT0
  have hdev1 : ∀ x, (((d.data.set b0 (memcpy (zeroBlock stdConfig) 0 data1 0 4096)).set 1
      (set_inode_size stdConfig (set_inode_direct stdConfig (d.data.getD 1 []) 0 0 b0) 0
        (4096 + 0))).getD x [])
      = if 1 = x then set_inode_size stdConfig
          (set_inode_direct stdConfig (d.data.getD 1 []) 0 0 b0) 0 (4096 + 0)
        else if b0 = x then memcpy (zeroBlock stdConfig) 0 data1 0 4096
        else d.data.getD x [] := by
    intro x
    rw [getD_set_data _ _ _ _ (by rw [List.length_set, inv.hlen]; exact h1),
      getD_set_data _ _ _ _ (by rw [inv.hlen]; exact hb02)]
  have hcnt1 : (fb.set b0 false).count true + 1 = fb.count true := count_set_false fb b0 hb03
  -- second write
  obtain ⟨b1, hb11, hb12, hb13, hw2⟩ := fs_write_fresh_direct stdConfig hwf
    ⟨d.blocks, d.reads + 1, d.writes + 1 + 1,
      (d.data.set b0 (memcpy (zeroBlock stdConfig) 0 data1 0 4096)).set 1
        (set_inode_size stdConfig (set_inode_direct stdConfig (d.data.getD 1 []) 0 0 b0) 0
          (4096 + 0))⟩
    (fb.set b0 false) m 0 data2 904 4096
    (by simp only [List.length_set]; exact inv.hlen) inv.hb32
    (by rw [List.length_set]; exact inv.hfb)
    (by rw [getD_set_eq]; split
        · rfl
        · exact inv.hzero)
    (by omega) inv.hiblk
    (by simp only; rw [hi0, hdev1, if_pos rfl]; exact hT1)
    (by decide)
    (by simp only
        rw [hi0, hm0, hq1, hdev1, if_pos rfl, direct_set_size,
          direct_set_direct_ne _ _ _ _ _ _ (by decide)]
        exact inv.hdirect0 1 (Nat.zero_le _) (by decide))
    (by decide) (by decide) (by decide)
  simp only at hb12 hw2
  rw [hi0, hm0, hq1, hr1, hdev1 1, if_pos rfl] at hw2
  have hb1n1 : b1 ≠ 1 := by
    intro h
    rw [h, getD_set_eq] at hb13
    split at hb13
    · exact absurd hb13 (by decide)
    · rw [inv.hiused] at hb13
      exact absurd hb13 (by decide)
  have hb1n0 : b1 ≠ b0 := by
    intro h
    rw [h, getD_set_eq, if_pos ⟨rfl, by rw [inv.hfb]; exact hb02⟩] at hb13
    exact absurd hb13 (by decide)
  have hT2 : (set_inode_direct stdConfig
      (set_inode_size stdConfig (set_inode_direct stdConfig (d.data.getD 1 []) 0 0 b0) 0
        (4096 + 0)) 0 1 b1).length = stdConfig.BLOCK_SIZE := by
    unfold set_inode_direct; rw [set32_length]; exact hT1
  have hlen1 : ((d.data.set b0 (memcpy (zeroBlock stdConfig) 0 data1 0 4096)).set 1
      (set_inode_size stdConfig (set_inode_direct stdConfig (d.data.getD 1 []) 0 0 b0) 0
        (4096 + 0))).length = d.blocks := by
    simp only [List.length_set]; exact inv.hlen
  have hdev2 : ∀ x, (((((d.data.set b0 (memcpy (zeroBlock stdConfig) 0 data1 0 4096)).set 1
      (set_inode_size stdConfig (set_inode_direct stdConfig (d.data.getD 1 []) 0 0 b0) 0
        (4096 + 0))).set b1 (memcpy (zeroBlock stdConfig) 0 data2 0 904)).set 1
      (set_inode_size stdConfig (set_inode_direct stdConfig
        (set_inode_size stdConfig (set_inode_direct stdConfig (d.data.getD 1 []) 0 0 b0) 0
          (4096 + 0)) 0 1 b1) 0 (904 + 4096))).getD x [])
      = if 1 = x then set_inode_size stdConfig (set_inode_direct stdConfig
          (set_inode_size stdConfig (set_inode_direct stdConfig (d.data.getD 1 []) 0 0 b0) 0
            (4096 + 0)) 0 1 b1) 0 (904 + 4096)
        else if b1 = x then memcpy (zeroBlock stdConfig) 0 data2 0 904
        else if b0 = x then memcpy (zeroBlock stdConfig) 0 data1 0 4096
        else d.data.getD x [] := by
    intro x
    rw [getD_set_data _ _ _ _ (by rw [List.length_set, hlen1]; exact h1),
      getD_set_data _ _ _ _ (by rw [hlen1]; exact hb12), hdev1]
    by_cases hx : 1 = x
    · simp only [if_pos hx]
    · simp only [if_neg hx]
  have hdir1 : inode_direct stdConfig (set_inode_size stdConfig (set_inode_direct stdConfig
      (set_inode_size stdConfig (set_inode_direct stdConfig (d.data.getD 1 []) 0 0 b0) 0
        (4096 + 0)) 0 1 b1) 0 (904 + 4096)) 0 1 = b1 := by
    rw [direct_set_size, direct_set_direct_same stdConfig hwf _ _ _ _ hT1 (by decide)
      (by decide)]
    exact Nat.mod_eq_of_lt (Nat.lt_trans hb12 inv.hb32)
  have hdirz : ∀ j, 2 ≤ j → j < 5 →
      inode_direct stdConfig (set_inode_size stdConfig (set_inode_direct stdConfig
        (set_inode_size stdConfig (set_inode_direct stdConfig (d.data.getD 1 []) 0 0 b0) 0
          (4096 + 0)) 0 1 b1) 0 (904 + 4096)) 0 j = 0 := by
    intro j hj1 hj2
    rw [direct_set_size, direct_set_direct_ne _ _ _ _ _ _ (by omega), direct_set_size,
      direct_set_direct_ne _ _ _ _ _ _ (by omega)]
    exact inv.hdirect0 j (Nat.zero_le _) hj2
  refine ⟨_, _, _, hw1, hw2, ?_, rfl, ?_, ?_, ?_, ?_, ?_, ?_, ?_, ?_, ?_⟩
  · simp only [List.length_set]; exact inv.hlen
  · simp only
    rw [hdev2, if_neg (by decide), if_neg (by omega), if_neg (by omega)]
  · simp only
    rw [hdev2, if_pos rfl, size_set_size stdConfig hwf _ _ _ hT2 (by decide)]
    rfl
  · simp only
    rw [hdev2, if_pos rfl, hdir1]; exact hb11
  · simp only
    rw [hdev2, if_pos rfl, hdir1]; exact hb12
  · simp only
    rw [hdev2, if_pos rfl]; exact hdirz 2 (by decide) (by decide)
  · simp only
    rw [hdev2, if_pos rfl]; exact hdirz 3 (by decide) (by decide)
  · simp only
    rw [hdev2, if_pos rfl]; exact hdirz 4 (by decide) (by decide)
  · simp only
    rw [hdev2, if_pos rfl, indirect_set_size, indirect_set_direct _ _ _ _ _ (by decide),
      indirect_set_size, indirect_set_direct _ _ _ _ _ (by decide)]
    exact inv.hind0 (Nat.zero_le _)
  · simp only
    rw [hdev2 1, if_pos rfl, hdir1, hdev2, if_neg (fun h => hb1n1 h.symm), if_pos rfl,
      memcpy_getD _ _ _ _ _ _ (by rw [zeroBlock_length]; decide), if_neg (by omega)]
    exact zeroBlock_getD stdConfig 904

/-- C25, the code at a failing input: with the usual constants, on a freshly formatted
and mounted device of 20 blocks, `fs_create` returns inode 0, `fs_write` of 4096 bytes at
offset 0 returns 4096 and `fs_write` of 904 bytes at offset 4096 returns 904; inode 0
then has size `S = 5000` and its logical block 1 is mapped to a block of the device.
For the offset `O = 4096 <= S` and the length `L = 2^64 - 4000` the claim gives
`n = min(L, S - O) = 904`, and the only logical block of the range is block 1. Yet
`fs_read(0, buf, L, O)` with a buffer of 16384 bytes returns -1, and byte 904 of the
buffer, which held 255, is overwritten with 0: `length + offset` wraps around to 96,
the test `length + offset > size` fails, and the length is not clamped. -/
theorem fs_read_wrapped_length_fails :
    (fs_create stdConfig (freshVolume stdConfig freshSession (blankDisk stdConfig 20))).1 = 0 ∧
    (fs_write stdConfig
      (fs_run stdConfig (freshVolume stdConfig freshSession (blankDisk stdConfig 20))
        [.create]) 0 (sampleBytes 4096) 4096 0).1 = 4096 ∧
    (fs_write stdConfig
      (fs_run stdConfig (freshVolume stdConfig freshSession (blankDisk stdConfig 20))
        [.create, .write 0 (sampleBytes 4096) 4096 0]) 0 (sampleBytes 904) 904 4096).1 = 904 ∧
    inode_size stdConfig
      ((deviceOf (fs_run stdConfig (freshVolume stdConfig freshSession (blankDisk stdConfig 20))
        [.create, .write 0 (sampleBytes 4096) 4096 0,
          .write 0 (sampleBytes 904) 904 4096])).data.getD 1 []) 0 = 5000 ∧
    0 < physical stdConfig
      (deviceOf (fs_run stdConfig (freshVolume stdConfig freshSession (blankDisk stdConfig 20))
        [.create, .write 0 (sampleBytes 4096) 4096 0, .write 0 (sampleBytes 904) 904 4096]))
      ((deviceOf (fs_run stdConfig (freshVolume stdConfig freshSession (blankDisk stdConfig 20))
        [.create, .write 0 (sampleBytes 4096) 4096 0,
          .write 0 (sampleBytes 904) 904 4096])).data.getD 1 []) 0 1 ∧
    physical stdConfig
      (deviceOf (fs_run stdConfig (freshVolume stdConfig freshSession (blankDisk stdConfig 20))
        [.create, .write 0 (sampleBytes 4096) 4096 0, .write 0 (sampleBytes 904) 904 4096]))
      ((deviceOf (fs_run stdConfig (freshVolume stdConfig freshSession (blankDisk stdConfig 20))
        [.create, .write 0 (sampleBytes 4096) 4096 0,
          .write 0 (sampleBytes 904) 904 4096])).data.getD 1 []) 0 1
      < (deviceOf (fs_run stdConfig
          (freshVolume stdConfig freshSession (blankDisk stdConfig 20))
          [.create, .write 0 (sampleBytes 4096) 4096 0,
            .write 0 (sampleBytes 904) 904 4096])).blocks ∧
    min (2 ^ 64 - 4000) (5000 - 4096) = 904 ∧
    (fs_read stdConfig
      (fs_run stdConfig (freshVolume stdConfig freshSession (blankDisk stdConfig 20))
        [.create, .write 0 (sampleBytes 4096) 4096 0, .write 0 (sampleBytes 904) 904 4096])
      0 (List.replicate 16384 255) (2 ^ 64 - 4000) 4096).1 = -1 ∧
    (List.replicate 16384 255).getD 904 0 = 255 ∧
    (fs_read stdConfig
      (fs_run stdConfig (freshVolume stdConfig freshSession (blankDisk stdConfig 20))
        [.create, .write 0 (sampleBytes 4096) 4096 0, .write 0 (sampleBytes 904) 904 4096])
      0 (List.replicate 16384 255) (2 ^ 64 - 4000) 4096).2.2.getD 904 0 = 0 := by
  have hlen : (blankDisk stdConfig 20).data.length = (blankDisk stdConfig 20).blocks := by
    simp [blankDisk]
  have hwf : stdConfig.WF := by decide
  have hok := format_mount_succeed stdConfig hwf freshSession rfl
    (blankDisk stdConfig 20) hlen (by decide) (by decide)
  obtain ⟨d2, hc, _, inv⟩ := fresh_created_state stdConfig hwf freshSession rfl
    (blankDisk stdConfig 20) hlen (by decide) (by decide) (sampleBytes 4096) 4096
  obtain ⟨d2', fbx, mx, hc', _, hmagic, _⟩ := fresh_volume_created stdConfig hwf
    freshSession (blankDisk stdConfig 20) hlen hok.1 hok.2 [] 0
  rw [hc] at hc'
  simp only [Prod.mk.injEq, FileSystem.mk.injEq, Option.some.injEq, true_and] at hc'
  obtain ⟨hd2e, _, _⟩ := hc'
  subst hd2e
  have hcount : (List.replicate (((blankDisk stdConfig 20).blocks + 9) / 10 + 1) false
      ++ List.replicate ((blankDisk stdConfig 20).blocks
        - (((blankDisk stdConfig 20).blocks + 9) / 10 + 1)) true).count true = 17 :=
    count_append_replicate _ _
  obtain ⟨s1, d', fb', hw1, hw2, hlen', hblocks', hblk0, hsz, hp0, hp1, hz2, hz3, hz4, hind,
    hbyte⟩ := fs_write_two_blocks (sampleBytes 4096) (sampleBytes 904) d2 _
    ⟨stdConfig.MAGIC_NUMBER, (blankDisk stdConfig 20).blocks,
      ((blankDisk stdConfig 20).blocks + 9) / 10,
      ((blankDisk stdConfig 20).blocks + 9) / 10 * stdConfig.INODES_PER_BLOCK % 2 ^ 32⟩
    inv (by rw [hcount]; decide)
  have hblocks : d2.blocks = 20 := by
    have := inv.hfb
    rw [← this]
    simp [blankDisk]
  have hp : pointer (d'.data.getD 0 []) 0 = stdConfig.MAGIC_NUMBER := by
    rw [hblk0]; exact hmagic
  obtain ⟨fs', hrd⟩ := fs_read_wrapped d' (some fb')
    ⟨stdConfig.MAGIC_NUMBER, (blankDisk stdConfig 20).blocks,
      ((blankDisk stdConfig 20).blocks + 9) / 10,
      ((blankDisk stdConfig 20).blocks + 9) / 10 * stdConfig.INODES_PER_BLOCK % 2 ^ 32⟩
    (List.replicate 16384 255) hlen' (by rw [hblocks', hblocks]; decide) hsz hp1 hz2 hz3 hz4
    hind (by rw [hp, hblocks', hblocks]; decide)
  rw [fs_run_create, fs_run_create_write, fs_run_create_write_write, hc]
  simp only
  rw [hw1]
  simp only
  rw [hw2]
  simp only [deviceOf, Option.getD_some]
  rw [hrd]
  have hphys : physical stdConfig d' (d'.data.getD 1 []) 0 1
      = inode_direct stdConfig (d'.data.getD 1 []) 0 1 := rfl
  rw [hphys]
  refine ⟨trivial, trivial, trivial, hsz, hp0, hp1, by decide, rfl, ?_, ?_⟩
  · rw [List.getD_eq_getElem?_getD, List.getElem?_replicate]
    rfl
  simp only
  rw [memcpy_getD _ _ _ _ _ _ (by simp only [memcpy_length, List.length_replicate]; decide),
    if_neg (by omega),
    memcpy_getD _ _ _ _ _ _ (by simp only [memcpy_length, List.length_replicate]; decide),
    if_neg (by omega),
    memcpy_getD _ _ _ _ _ _ (by simp only [memcpy_length, List.length_replicate]; decide),
    if_neg (by omega),
    memcpy_getD _ _ _ _ _ _ (by simp only [List.length_replicate]; decide),
    if_pos (by omega)]
  exact hbyte

/-! ## A file whose logical blocks share a physical block -/

/-- On a mounted volume whose inode 0 is not valid, `fs_create` claims inode 0: it sets
the `valid` field of slot 0 of the first inode-table block, leaves the other fields of
the slot as they are on the device, and writes the block back. -/
theorem fs_create_slot_zero (cfg : Config) (hipb : 0 < cfg.INODES_PER_BLOCK) (d1 : Disk)
    (fbs : Option (List Bool)) (m : SuperBlock) (hlen : d1.data.length = d1.blocks)
    (hib : 1 ≤ m.inode_blocks) (h1 : 1 < d1.blocks)
    (hv : inode_valid cfg (d1.data.getD 1 []) 0 = 0) :
    fs_create cfg ⟨some d1, fbs, m⟩
      = (0, ⟨some ⟨d1.blocks, d1.reads + 1, d1.writes + 1,
          d1.data.set 1 (set_inode_valid cfg (d1.data.getD 1 []) 0 1)⟩, fbs, m⟩) := by
  unfold fs_create
  obtain ⟨ib, hib'⟩ : ∃ ib, m.inode_blocks = ib + 1 := ⟨m.inode_blocks - 1, by omega⟩
  obtain ⟨p, hp⟩ : ∃ p, cfg.INODES_PER_BLOCK = p + 1 := ⟨cfg.INODES_PER_BLOCK - 1, by omega⟩
  simp only [hib']
  rw [create_scan]
  simp only [Nat.zero_add]
  rw [disk_read_ok cfg d1 1 _ hlen h1]
  simp only [block_size_ne_failure, if_false]
  have hf : create_find cfg (d1.data.getD 1 []) cfg.INODES_PER_BLOCK 0 = some 0 := by
    rw [hp, create_find, if_pos hv]
  rw [hf]
  simp only [Nat.zero_div, Nat.zero_add]
  rw [disk_write_ok cfg ⟨d1.blocks, d1.reads + 1, d1.writes, d1.data⟩ 1 _ hlen h1]
  simp only [block_size_ne_failure, if_false, Nat.zero_mul, Nat.add_zero]
  rfl

/-- A volume whose super block passes the checks of `fs_mount` and whose inode table
fits the device and holds no valid inode mounts on an unmounted session, whatever the
other fields of its inodes are. -/
theorem fs_mount_no_valid (cfg : Config) (fs : FileSystem) (hfs : fs.disk = none) (d : Disk)
    (hlen : d.data.length = d.blocks)
    (hz : ∀ k, 1 ≤ k → k ≤ (d.data.getD 0 []).super.inode_blocks →
      ∀ j, inode_valid cfg (d.data.getD k []) j = 0)
    (hm : (d.data.getD 0 []).super.magic_number = cfg.MAGIC_NUMBER)
    (hb : (d.data.getD 0 []).super.blocks = d.blocks)
    (hi : d.blocks / 10 ≤ (d.data.getD 0 []).super.inode_blocks)
    (hn : (d.data.getD 0 []).super.inodes
      = ((d.data.getD 0 []).super.inode_blocks * cfg.INODES_PER_BLOCK) % 2 ^ 32)
    (hfit : (d.data.getD 0 []).super.inode_blocks + 1 ≤ d.blocks) :
    (fs_mount cfg fs (some d)).1 = true := by
  have hpos : 0 < d.blocks := by omega
  unfold fs_mount
  rw [disk_read_eq cfg d _ _ hlen]
  simp only [if_pos hpos, block_size_ne_failure, if_false]
  rw [if_neg (not_not.mpr hm), if_neg (not_not.mpr hb), if_neg (by omega), if_neg (not_not.mpr hn)]
  simp only [hfs, Option.isSome_none, Bool.false_eq_true, if_false]
  apply mount_scan_invalid cfg _ 1 _ _ (by simpa using hlen) (by simp only; omega)
  intro k hk1 hk2 j
  exact hz k hk1 (by omega) j

/-- With the usual constants, assigning `size` or a direct pointer of inode 0 changes
the `valid` flag of no inode of the block. -/
theorem valid_set_size_zero (b : Block) (v j : Nat) :
    inode_valid stdConfig (set_inode_size stdConfig b 0 v) j = inode_valid stdConfig b j := by
  have hW : inodeWords stdConfig = 8 := rfl
  unfold inode_valid set_inode_size
  rw [hW]
  exact get32_set32_ne _ _ _ _ (by omega)

theorem valid_set_direct_zero (b : Block) (k v j : Nat) (hk : k < 5) :
    inode_valid stdConfig (set_inode_direct stdConfig b 0 k v) j
      = inode_valid stdConfig b j := by
  have hW : inodeWords stdConfig = 8 := rfl
  unfold inode_valid set_inode_direct
  rw [hW]
  exact get32_set32_ne _ _ _ _ (by omega)

theorem direct_set_valid (cfg : Config) (b : Block) (i k v : Nat) :
    inode_direct cfg (set_inode_valid cfg b i v) i k = inode_direct cfg b i k :=
  get32_set32_ne _ _ _ _ (by omega)

theorem valid_set_valid (cfg : Config) (hcfg : cfg.WF) (b : Block) (i v : Nat)
    (hb : b.length = cfg.BLOCK_SIZE) (hi : i < cfg.INODES_PER_BLOCK) :
    inode_valid cfg (set_inode_valid cfg b i v) i = v % 2 ^ 32 := by
  unfold inode_valid set_inode_valid
  have := inode_word_bound cfg hcfg i 0 hi (by unfold inodeWords; omega)
  exact get32_set32_same _ _ _ (by rw [hb]; omega)

/-- One iteration of the loop of `fs_write` on a logical block below
`POINTERS_PER_INODE` whose direct pointer names a block of the device: the block is
read, the chunk is copied into it, and the block and the inode block are written. -/
theorem write_loop_direct_mapped (cfg : Config) (n : Nat) (data : List Nat)
    (L O fuel : Nat) (d : Disk) (fbs : Option (List Bool)) (m : SuperBlock) (block : Block)
    (nw data_b data_o : Nat) (hlt : nw < L) (hlen : d.data.length = d.blocks)
    (hk : data_b < cfg.POINTERS_PER_INODE)
    (hp0 : inode_direct cfg block (n % cfg.INODES_PER_BLOCK) data_b ≠ 0)
    (hp1 : inode_direct cfg block (n % cfg.INODES_PER_BLOCK) data_b < d.blocks)
    (hin : n / cfg.INODES_PER_BLOCK + 1 < d.blocks) :
    write_loop cfg n data L O (fuel + 1) ⟨some d, fbs, m⟩ block nw data_b data_o
      = write_loop cfg n data L O fuel
          ⟨some ⟨d.blocks, d.reads + 1, d.writes + 1 + 1,
            (d.data.set (inode_direct cfg block (n % cfg.INODES_PER_BLOCK) data_b)
              (memcpy (d.data.getD (inode_direct cfg block (n % cfg.INODES_PER_BLOCK) data_b) [])
                data_o data nw
                (if ((L - nw) + data_o) % 2 ^ 64 < cfg.BLOCK_SIZE then L - nw
                  else cfg.BLOCK_SIZE - data_o))).set (n / cfg.INODES_PER_BLOCK + 1)
              (set_inode_size cfg block (n % cfg.INODES_PER_BLOCK)
                (((nw + (if ((L - nw) + data_o) % 2 ^ 64 < cfg.BLOCK_SIZE then L - nw
                  else cfg.BLOCK_SIZE - data_o)) % 2 ^ 64 + O) % 2 ^ 64))⟩, fbs, m⟩
          (set_inode_size cfg block (n % cfg.INODES_PER_BLOCK)
            (((nw + (if ((L - nw) + data_o) % 2 ^ 64 < cfg.BLOCK_SIZE then L - nw
              else cfg.BLOCK_SIZE - data_o)) % 2 ^ 64 + O) % 2 ^ 64))
          ((nw + (if ((L - nw) + data_o) % 2 ^ 64 < cfg.BLOCK_SIZE then L - nw
            else cfg.BLOCK_SIZE - data_o)) % 2 ^ 64) (data_b + 1) 0 := by
  rw [write_loop, if_neg (not_not.mpr hlt)]
  simp only [if_pos hk]
  unfold write_direct
  rw [if_neg hp0, disk_read_ok cfg d _ _ hlen hp1]
  simp only [block_size_ne_failure, if_false]
  rw [disk_write_ok cfg ⟨d.blocks, d.reads + 1, d.writes, d.data⟩ _ _ hlen hp1]
  simp only [block_size_ne_failure, if_false]
  rw [disk_write_ok cfg ⟨d.blocks, d.reads + 1, d.writes + 1, _⟩ _ _
    (by simp only [List.length_set]; exact hlen) hin]
  simp only [block_size_ne_failure, if_false]

theorem count_pos_of_getD (l : List Bool) (i : Nat) (h : l.getD i false = true) :
    0 < l.count true := by
  have := count_set_false l i h
  omega

/-- One iteration of the loop of `fs_write` on a mapped logical block below
`POINTERS_PER_INODE`, by its effect: the data block receives the chunk, the inode block
the new size, and the device keeps its length. -/
theorem write_loop_direct_step (cfg : Config) (n : Nat) (data : List Nat)
    (L O fuel : Nat) (d : Disk) (fbs : Option (List Bool)) (m : SuperBlock) (block : Block)
    (nw data_b data_o p ncopy nw1 : Nat) (hlt : nw < L) (hlen : d.data.length = d.blocks)
    (hk : data_b < cfg.POINTERS_PER_INODE)
    (hp : inode_direct cfg block (n % cfg.INODES_PER_BLOCK) data_b = p)
    (hp0 : p ≠ 0) (hp1 : p < d.blocks) (hin : n / cfg.INODES_PER_BLOCK + 1 < d.blocks)
    (hne : p ≠ n / cfg.INODES_PER_BLOCK + 1)
    (hnc : (if ((L - nw) + data_o) % 2 ^ 64 < cfg.BLOCK_SIZE then L - nw
      else cfg.BLOCK_SIZE - data_o) = ncopy)
    (hnw : (nw + ncopy) % 2 ^ 64 = nw1) :
    ∃ d', write_loop cfg n data L O (fuel + 1) ⟨some d, fbs, m⟩ block nw data_b data_o
        = write_loop cfg n data L O fuel ⟨some d', fbs, m⟩
            (set_inode_size cfg block (n % cfg.INODES_PER_BLOCK) ((nw1 + O) % 2 ^ 64))
            nw1 (data_b + 1) 0 ∧
      d'.blocks = d.blocks ∧ d'.data.length = d'.blocks ∧
      d'.data.getD (n / cfg.INODES_PER_BLOCK + 1) []
        = set_inode_size cfg block (n % cfg.INODES_PER_BLOCK) ((nw1 + O) % 2 ^ 64) ∧
      d'.data.getD p [] = memcpy (d.data.getD p []) data_o data nw ncopy := by
  subst hp
  rw [write_loop_direct_mapped cfg n data L O fuel d fbs m block nw data_b data_o hlt hlen hk
    hp0 hp1 hin, hnc, hnw]
  refine ⟨_, rfl, rfl, ?_, ?_, ?_⟩
  · simp only [List.length_set]; exact hlen
  · simp only
    rw [getD_set_data _ _ _ _ (by rw [List.length_set, hlen]; exact hin), if_pos rfl]
  · simp only
    rw [getD_set_data _ _ _ _ (by rw [List.length_set, hlen]; exact hin),
      if_neg (fun h => hne h.symm), getD_set_data _ _ _ _ (by rw [hlen]; exact hp1), if_pos rfl]

/-- With the usual constants, a write of 4098 bytes at offset 0 to an inode 0 whose
`direct[0]` and `direct[1]` both name block 2: both logical blocks are mapped, the call
returns 4098, and byte 0 of block 2 ends up holding `data[4096]`, the first byte of the
second logical block. -/
theorem fs_write_aliased (d : Disk) (fbs : Option (List Bool)) (m : SuperBlock)
    (data : List Nat) (hblocks : d.blocks = 3) (hlen : d.data.length = d.blocks)
    (hd0 : inode_direct stdConfig (d.data.getD 1 []) 0 0 = 2)
    (hd1 : inode_direct stdConfig (d.data.getD 1 []) 0 1 = 2)
    (h2 : (d.data.getD 2 []).length = 4096) :
    ∃ s5, fs_write stdConfig ⟨some d, fbs, m⟩ 0 data 4098 0 = (4098, s5) ∧
      ((deviceOf s5).data.getD 2 []).getD 0 0 = data.getD 4096 0 := by
  have hi0 : (0 : Nat) / stdConfig.INODES_PER_BLOCK + 1 = 1 := rfl
  have hm0 : (0 : Nat) % stdConfig.INODES_PER_BLOCK = 0 := rfl
  have hq0 : 0 / stdConfig.BLOCK_SIZE = 0 := rfl
  have hr0 : 0 % stdConfig.BLOCK_SIZE = 0 := rfl
  have hloop : ∀ f, ∃ s5,
      write_loop stdConfig 0 data 4098 0 (f + 1 + 1)
        ⟨some ⟨d.blocks, d.reads + 1, d.writes, d.data⟩, fbs, m⟩ (d.data.getD 1 []) 0 0 0
        = (4098, s5) ∧
      ((deviceOf s5).data.getD 2 []).getD 0 0 = data.getD 4096 0 := by
    intro f
    obtain ⟨d1, e1, b1, l1, t1, x1⟩ := write_loop_direct_step stdConfig 0 data 4098 0 (f + 1)
      ⟨d.blocks, d.reads + 1, d.writes, d.data⟩ fbs m (d.data.getD 1 []) 0 0 0 2 4096 4096
      (by decide) hlen (by decide) hd0 (by decide) (by simp only; omega)
      (by simp only; rw [hi0]; omega) (by decide) rfl rfl
    simp only at b1 x1
    rw [hi0, hm0] at t1
    rw [hm0] at e1
    obtain ⟨d2, e2, b2, l2, t2, x2⟩ := write_loop_direct_step stdConfig 0 data 4098 0 f
      d1 fbs m (set_inode_size stdConfig (d.data.getD 1 []) 0 ((4096 + 0) % 2 ^ 64))
      4096 (0 + 1) 0 2 2 4098
      (by decide) l1 (by decide) (by rw [hm0, direct_set_size]; exact hd1) (by decide)
      (by omega) (by rw [hi0]; omega) (by decide) rfl rfl
    rw [e1, e2, write_loop_done _ _ _ _ _ _ _ _ _ _ _ (le_refl _),
      toSsize_small 4098 (by decide)]
    refine ⟨_, rfl, ?_⟩
    simp only [deviceOf, Option.getD_some]
    rw [x2, x1, memcpy_getD _ _ _ _ _ _ (by rw [memcpy_length, h2]; decide),
      if_pos (by omega)]
  obtain ⟨s5, h5, h6⟩ := hloop 4096
  refine ⟨s5, ?_, h6⟩
  unfold fs_write
  rw [hi0, hq0, hr0, disk_read_ok stdConfig d 1 _ hlen (by omega)]
  simp only [block_size_ne_failure, if_false]
  exact h5

/-- With the usual constants, the fields of inode 0 after `size`, `direct[0]`, `valid`,
`direct[1]` and `size` were assigned in this order. -/
theorem alias_inode_fields (b : Block) (hb : b.length = stdConfig.BLOCK_SIZE) (s1 s2 : Nat) :
    inode_valid stdConfig (set_inode_size stdConfig (set_inode_direct stdConfig
      (set_inode_valid stdConfig (set_inode_size stdConfig
        (set_inode_direct stdConfig b 0 0 2) 0 s1) 0 1) 0 1 2) 0 s2) 0 = 1 ∧
    inode_size stdConfig (set_inode_size stdConfig (set_inode_direct stdConfig
      (set_inode_valid stdConfig (set_inode_size stdConfig
        (set_inode_direct stdConfig b 0 0 2) 0 s1) 0 1) 0 1 2) 0 s2) 0 = s2 % 2 ^ 32 ∧
    inode_direct stdConfig (set_inode_size stdConfig (set_inode_direct stdConfig
      (set_inode_valid stdConfig (set_inode_size stdConfig
        (set_inode_direct stdConfig b 0 0 2) 0 s1) 0 1) 0 1 2) 0 s2) 0 0 = 2 ∧
    inode_direct stdConfig (set_inode_size stdConfig (set_inode_direct stdConfig
      (set_inode_valid stdConfig (set_inode_size stdConfig
        (set_inode_direct stdConfig b 0 0 2) 0 s1) 0 1) 0 1 2) 0 s2) 0 1 = 2 := by
  have hwf : stdConfig.WF := by decide
  have hl1 : (set_inode_direct stdConfig b 0 0 2).length = stdConfig.BLOCK_SIZE := by
    unfold set_inode_direct; rw [set32_length]; exact hb
  have hl2 : (set_inode_size stdConfig (set_inode_direct stdConfig b 0 0 2) 0 s1).length
      = stdConfig.BLOCK_SIZE := by
    unfold set_inode_size; rw [set32_length]; exact hl1
  have hl3 : (set_inode_valid stdConfig (set_inode_size stdConfig
      (set_inode_direct stdConfig b 0 0 2) 0 s1) 0 1).length = stdConfig.BLOCK_SIZE := by
    rw [set_inode_valid_length]; exact hl2
  have hl4 : (set_inode_direct stdConfig (set_inode_valid stdConfig (set_inode_size stdConfig
      (set_inode_direct stdConfig b 0 0 2) 0 s1) 0 1) 0 1 2).length
      = stdConfig.BLOCK_SIZE := by
    unfold set_inode_direct; rw [set32_length]; exact hl3
  refine ⟨?_, ?_, ?_, ?_⟩
  · rw [valid_set_size_zero, valid_set_direct_zero _ _ _ _ (by decide),
      valid_set_valid stdConfig hwf _ _ _ hl2 (by decide)]
    rfl
  · rw [size_set_size stdConfig hwf _ _ _ hl4 (by decide)]
  · rw [direct_set_size, direct_set_direct_ne _ _ _ _ _ _ (by decide), direct_set_valid,
      direct_set_size, direct_set_direct_same stdConfig hwf _ _ _ _ hb (by decide) (by decide)]
    rfl
  · rw [direct_set_size,
      direct_set_direct_same stdConfig hwf _ _ _ _ hl3 (by decide) (by decide)]
    rfl

/-- With the usual constants, on a mounted device of 3 blocks whose only free block is
block 2 and whose inode table is zero: a write of one byte to the inode 0 that was never
created takes block 2; after `fs_unmount` and `fs_mount` the bitmap has block 2 free
again, because the slot is not valid; `fs_create` returns 0 and keeps the pointer; a
write of one byte at offset 4096 takes block 2 a second time. The file then has
`direct[0] = direct[1] = 2`, and a write of 4098 bytes at offset 0, all of whose logical
blocks are mapped, succeeds and leaves `data[4096]` in byte 0 of block 2. -/
theorem stale_pointer_alias (d : Disk) (fb : List Bool) (m : SuperBlock) (data : List Nat)
    (hblocks : d.blocks = 3) (hlen : d.data.length = d.blocks)
    (h0 : d.data.getD 0 [] = format_super stdConfig 3)
    (h1 : d.data.getD 1 [] = zeroBlock stdConfig)
    (hfb : fb.length = 3) (hf0 : fb.getD 0 false = false) (hf1 : fb.getD 1 false = false)
    (hf2 : fb.getD 2 false = true) :
    ∃ s1 s2 s3 s4 s5 d4,
      fs_write stdConfig ⟨some d, some fb, m⟩ 0 [5] 1 0 = (1, s1) ∧
      (fs_mount stdConfig (fs_unmount s1) (some (deviceOf s1))).1 = true ∧
      (fs_mount stdConfig (fs_unmount s1) (some (deviceOf s1))).2.1 = s2 ∧
      fs_create stdConfig s2 = (0, s3) ∧
      fs_write stdConfig s3 0 [6] 1 4096 = (1, s4) ∧
      s4.disk = some d4 ∧ d4.blocks = 3 ∧
      inode_valid stdConfig (d4.data.getD 1 []) 0 = 1 ∧
      inode_size stdConfig (d4.data.getD 1 []) 0 = 4097 ∧
      inode_direct stdConfig (d4.data.getD 1 []) 0 0 = 2 ∧
      inode_direct stdConfig (d4.data.getD 1 []) 0 1 = 2 ∧
      fs_write stdConfig s4 0 data 4098 0 = (4098, s5) ∧
      ((deviceOf s5).data.getD 2 []).getD 0 0 = data.getD 4096 0 := by
  have hwf : stdConfig.WF := by decide
  have hi0 : (0 : Nat) / stdConfig.INODES_PER_BLOCK + 1 = 1 := rfl
  have hm0 : (0 : Nat) % stdConfig.INODES_PER_BLOCK = 0 := rfl
  have hq0 : 0 / stdConfig.BLOCK_SIZE = 0 := rfl
  have hr0 : 0 % stdConfig.BLOCK_SIZE = 0 := rfl
  have hq1 : 4096 / stdConfig.BLOCK_SIZE = 1 := rfl
  have hr1 : 4096 % stdConfig.BLOCK_SIZE = 0 := rfl
  have hdlen : d.data.length = 3 := by rw [hlen, hblocks]
  -- the first write, to the slot that was never created
  obtain ⟨b0, hb01, hb02, hb03, hw1⟩ := fs_write_fresh_direct stdConfig hwf d fb m 0 [5]
    1 0 hlen (by rw [hblocks]; decide) (by rw [hfb, hblocks]) hf0 (count_pos_of_getD fb 2 hf2)
    (by rw [hi0, hblocks]; decide) (by rw [hi0, h1]; exact zeroBlock_length _) (by decide)
    (by rw [hi0, hm0, hq0, h1]; exact get32_zeroBlock _ _) (by decide) (by decide) (by decide)
  have hb0 : b0 = 2 := by
    have : b0 = 1 ∨ b0 = 2 := by omega
    rcases this with h | h
    · rw [h, hf1] at hb03; exact absurd hb03 (by decide)
    · exact h
  subst hb0
  rw [hi0, hm0, hq0, hr0, h1] at hw1
  have hT1len : (set_inode_size stdConfig
      (set_inode_direct stdConfig (zeroBlock stdConfig) 0 0 2) 0 (1 + 0)).length
      = stdConfig.BLOCK_SIZE := by
    unfold set_inode_size set_inode_direct
    rw [set32_length, set32_length]; exact zeroBlock_length _
  have hT1valid : ∀ j, inode_valid stdConfig (set_inode_size stdConfig
      (set_inode_direct stdConfig (zeroBlock stdConfig) 0 0 2) 0 (1 + 0)) j = 0 := by
    intro j
    rw [valid_set_size_zero, valid_set_direct_zero _ _ _ _ (by decide)]
    exact get32_zeroBlock _ _
  have hlen1 : ((d.data.set 2 (memcpy (zeroBlock stdConfig) 0 [5] 0 1)).set 1
      (set_inode_size stdConfig (set_inode_direct stdConfig (zeroBlock stdConfig) 0 0 2) 0
        (1 + 0))).length = 3 := by
    simp only [List.length_set]; exact hdlen
  have hdev1 : ∀ x, (((d.data.set 2 (memcpy (zeroBlock stdConfig) 0 [5] 0 1)).set 1
      (set_inode_size stdConfig (set_inode_direct stdConfig (zeroBlock stdConfig) 0 0 2) 0
        (1 + 0))).getD x [])
      = if 1 = x then set_inode_size stdConfig
          (set_inode_direct stdConfig (zeroBlock stdConfig) 0 0 2) 0 (1 + 0)
        else if 2 = x then memcpy (zeroBlock stdConfig) 0 [5] 0 1
        else d.data.getD x [] := by
    intro x
    rw [getD_set_data _ _ _ _ (by rw [List.length_set, hdlen]; decide),
      getD_set_data _ _ _ _ (by rw [hdlen]; decide)]
  -- unmount and mount again
  have hsup : (format_super stdConfig 3).super
      = ⟨stdConfig.MAGIC_NUMBER, 3 % 2 ^ 32, format_ceil 3,
          (format_ceil 3 * stdConfig.INODES_PER_BLOCK) % 2 ^ 32⟩ :=
    format_super_fields stdConfig hwf 3
  have hceil : format_ceil 3 = 1 := by decide
  have hmnt : (fs_mount stdConfig ⟨none, none, m⟩
      (some ⟨d.blocks, d.reads + 1, d.writes + 1 + 1,
        (d.data.set 2 (memcpy (zeroBlock stdConfig) 0 [5] 0 1)).set 1
          (set_inode_size stdConfig (set_inode_direct stdConfig (zeroBlock stdConfig) 0 0 2) 0
            (1 + 0))⟩)).1 = true := by
    apply fs_mount_no_valid stdConfig _ rfl _ (by simp only; rw [hlen1, hblocks])
    · intro k hk1 hk2 j
      simp only at hk2 ⊢
      rw [hdev1, if_neg (by decide), if_neg (by decide), h0, hsup] at hk2
      simp only [hceil] at hk2
      have hk : k = 1 := by omega
      subst hk
      rw [hdev1, if_pos rfl]
      exact hT1valid j
    · simp only
      rw [hdev1, if_neg (by decide), if_neg (by decide), h0, hsup]
    · simp only
      rw [hdev1, if_neg (by decide), if_neg (by decide), h0, hsup, hblocks]
      rfl
    · simp only
      rw [hdev1, if_neg (by decide), if_neg (by decide), h0, hsup, hblocks]
      decide
    · simp only
      rw [hdev1, if_neg (by decide), if_neg (by decide), h0, hsup]
    · simp only
      rw [hdev1, if_neg (by decide), if_neg (by decide), h0, hsup, hblocks, hceil]
      decide
  obtain ⟨_, _, _, _, _, _, _, d', fb', _, e2, e3, e4, e5, e6⟩ :=
    fs_mount_true stdConfig ⟨none, none, m⟩ _ (by simp only; rw [hlen1, hblocks]) hmnt
  simp only at e2 e3 e5 e6
  rw [hdev1, if_neg (by decide), if_neg (by decide), h0] at e4 e6
  obtain ⟨bl', r', w', dat'⟩ := d'
  simp only at e2 e3
  subst e2
  subst e3
  have hib : (format_super stdConfig 3).super.inode_blocks = 1 := by rw [hsup]; exact hceil
  rw [hib] at e6
  rw [hblocks] at e5 e6
  have hg0 : fb'.getD 0 false = false := by
    rw [getD_of_lt fb' 0 false true (by omega)]
    exact (e6 0 (by decide)).mpr (Or.inl rfl)
  have hg1 : fb'.getD 1 false = false := by
    rw [getD_of_lt fb' 1 false true (by omega)]
    exact (e6 1 (by decide)).mpr (Or.inr (Or.inl ⟨le_refl _, le_refl _⟩))
  have hg2 : fb'.getD 2 false = true := by
    rw [getD_of_lt fb' 2 false true (by omega)]
    cases hx : fb'.getD 2 true with
    | true => rfl
    | false =>
      exfalso
      rcases (e6 2 (by decide)).mp hx with h | ⟨_, h⟩ | ⟨i, j, hi1, hi2, _, hu⟩
      · exact absurd h (by decide)
      · exact absurd h (by decide)
      · have hi : i = 1 := by omega
        subst hi
        apply hu.1
        simp only
        rw [hdev1, if_pos rfl]
        exact hT1valid j
  -- create: the slot is handed out with its old pointer
  have hcr := fs_create_slot_zero stdConfig (by decide)
    ⟨d.blocks, r', w', (d.data.set 2 (memcpy (zeroBlock stdConfig) 0 [5] 0 1)).set 1
      (set_inode_size stdConfig (set_inode_direct stdConfig (zeroBlock stdConfig) 0 0 2) 0
        (1 + 0))⟩
    (some fb') (format_super stdConfig 3).super (by simp only; rw [hlen1, hblocks])
    (by rw [hib]) (by simp only; rw [hblocks]; decide)
    (by simp only; rw [hdev1, if_pos rfl]; exact hT1valid 0)
  simp only at hcr
  rw [hdev1 1, if_pos rfl] at hcr
  have hTvlen : (set_inode_valid stdConfig (set_inode_size stdConfig
      (set_inode_direct stdConfig (zeroBlock stdConfig) 0 0 2) 0 (1 + 0)) 0 1).length
      = stdConfig.BLOCK_SIZE := by
    rw [set_inode_valid_length]; exact hT1len
  have hlen3 : (((d.data.set 2 (memcpy (zeroBlock stdConfig) 0 [5] 0 1)).set 1
      (set_inode_size stdConfig (set_inode_direct stdConfig (zeroBlock stdConfig) 0 0 2) 0
        (1 + 0))).set 1 (set_inode_valid stdConfig (set_inode_size stdConfig
          (set_inode_direct stdConfig (zeroBlock stdConfig) 0 0 2) 0 (1 + 0)) 0 1)).length
      = 3 := by
    rw [List.length_set]; exact hlen1
  have hdev3 : (((d.data.set 2 (memcpy (zeroBlock stdConfig) 0 [5] 0 1)).set 1
      (set_inode_size stdConfig (set_inode_direct stdConfig (zeroBlock stdConfig) 0 0 2) 0
        (1 + 0))).set 1 (set_inode_valid stdConfig (set_inode_size stdConfig
          (set_inode_direct stdConfig (zeroBlock stdConfig) 0 0 2) 0 (1 + 0)) 0 1)).getD 1 []
      = set_inode_valid stdConfig (set_inode_size stdConfig
          (set_inode_direct stdConfig (zeroBlock stdConfig) 0 0 2) 0 (1 + 0)) 0 1 := by
    rw [getD_set_data _ _ _ _ (by rw [hlen1]; decide), if_pos rfl]
  -- the second write takes block 2 again
  obtain ⟨b1, hb11, hb12, hb13, hw2⟩ := fs_write_fresh_direct stdConfig hwf
    ⟨d.blocks, r' + 1, w' + 1,
      ((d.data.set 2 (memcpy (zeroBlock stdConfig) 0 [5] 0 1)).set 1
        (set_inode_size stdConfig (set_inode_direct stdConfig (zeroBlock stdConfig) 0 0 2) 0
          (1 + 0))).set 1 (set_inode_valid stdConfig (set_inode_size stdConfig
            (set_inode_direct stdConfig (zeroBlock stdConfig) 0 0 2) 0 (1 + 0)) 0 1)⟩
    fb' (format_super stdConfig 3).super 0 [6] 1 4096
    (by simp only; rw [hlen3, hblocks]) (by simp only; rw [hblocks]; decide)
    (by simp only; rw [e5, hblocks]) hg0 (count_pos_of_getD fb' 2 hg2)
    (by simp only; rw [hi0, hblocks]; decide)
    (by simp only; rw [hi0, hdev3]; exact hTvlen) (by decide)
    (by simp only
        rw [hi0, hm0, hq1, hdev3, direct_set_valid, direct_set_size,
          direct_set_direct_ne _ _ _ _ _ _ (by decide)]
        exact get32_zeroBlock _ _)
    (by decide) (by decide) (by decide)
  simp only at hb12 hw2
  have hb1 : b1 = 2 := by
    have : b1 = 1 ∨ b1 = 2 := by omega
    rcases this with h | h
    · rw [h, hg1] at hb13; exact absurd hb13 (by decide)
    · exact h
  subst hb1
  rw [hi0, hm0, hq1, hr1, hdev3] at hw2
  have hlen4 : ((((d.data.set 2 (memcpy (zeroBlock stdConfig) 0 [5] 0 1)).set 1
      (set_inode_size stdConfig (set_inode_direct stdConfig (zeroBlock stdConfig) 0 0 2) 0
        (1 + 0))).set 1 (set_inode_valid stdConfig (set_inode_size stdConfig
          (set_inode_direct stdConfig (zeroBlock stdConfig) 0 0 2) 0 (1 + 0)) 0 1)).set 2
      (memcpy (zeroBlock stdConfig) 0 [6] 0 1)).length = 3 := by
    rw [List.length_set]; exact hlen3
  have hdev4 : ∀ x, ((((((d.data.set 2 (memcpy (zeroBlock stdConfig) 0 [5] 0 1)).set 1
      (set_inode_size stdConfig (set_inode_direct stdConfig (zeroBlock stdConfig) 0 0 2) 0
        (1 + 0))).set 1 (set_inode_valid stdConfig (set_inode_size stdConfig
          (set_inode_direct stdConfig (zeroBlock stdConfig) 0 0 2) 0 (1 + 0)) 0 1)).set 2
      (memcpy (zeroBlock stdConfig) 0 [6] 0 1)).set 1
      (set_inode_size stdConfig (set_inode_direct stdConfig
        (set_inode_valid stdConfig (set_inode_size stdConfig
          (set_inode_direct stdConfig (zeroBlock stdConfig) 0 0 2) 0 (1 + 0)) 0 1) 0 1 2) 0
        (1 + 4096))).getD x [])
      = if 1 = x then set_inode_size stdConfig (set_inode_direct stdConfig
          (set_inode_valid stdConfig (set_inode_size stdConfig
            (set_inode_direct stdConfig (zeroBlock stdConfig) 0 0 2) 0 (1 + 0)) 0 1) 0 1 2) 0
          (1 + 4096)
        else if 2 = x then memcpy (zeroBlock stdConfig) 0 [6] 0 1
        else ((((d.data.set 2 (memcpy (zeroBlock stdConfig) 0 [5] 0 1)).set 1
          (set_inode_size stdConfig (set_inode_direct stdConfig (zeroBlock stdConfig) 0 0 2) 0
            (1 + 0))).set 1 (set_inode_valid stdConfig (set_inode_size stdConfig
              (set_inode_direct stdConfig (zeroBlock stdConfig) 0 0 2) 0 (1 + 0)) 0 1)).getD
            x []) := by
    intro x
    rw [getD_set_data _ _ _ _ (by rw [hlen4]; decide),
      getD_set_data _ _ _ _ (by rw [hlen3]; decide)]
  obtain ⟨hv, hs, hdz, hdo⟩ := alias_inode_fields (zeroBlock stdConfig)
    (zeroBlock_length _) (1 + 0) (1 + 4096)
  obtain ⟨s5, h5, h6⟩ := fs_write_aliased
    ⟨d.blocks, r' + 1 + 1, w' + 1 + 1 + 1,
      ((((d.data.set 2 (memcpy (zeroBlock stdConfig) 0 [5] 0 1)).set 1
        (set_inode_size stdConfig (set_inode_direct stdConfig (zeroBlock stdConfig) 0 0 2) 0
          (1 + 0))).set 1 (set_inode_valid stdConfig (set_inode_size stdConfig
            (set_inode_direct stdConfig (zeroBlock stdConfig) 0 0 2) 0 (1 + 0)) 0 1)).set 2
        (memcpy (zeroBlock stdConfig) 0 [6] 0 1)).set 1
        (set_inode_size stdConfig (set_inode_direct stdConfig
          (set_inode_valid stdConfig (set_inode_size stdConfig
            (set_inode_direct stdConfig (zeroBlock stdConfig) 0 0 2) 0 (1 + 0)) 0 1) 0 1 2) 0
          (1 + 4096))⟩
    (some (fb'.set 2 false)) (format_super stdConfig 3).super data hblocks
    (by simp only; rw [List.length_set, hlen4, hblocks])
    (by simp only; rw [hdev4, if_pos rfl]; exact hdz)
    (by simp only; rw [hdev4, if_pos rfl]; exact hdo)
    (by simp only
        rw [hdev4, if_neg (by decide), if_pos rfl, memcpy_length]
        exact zeroBlock_length _)
  refine ⟨_, _, _, _, s5, _, hw1, hmnt, e4, hcr, hw2, rfl, hblocks, ?_, ?_, ?_, ?_, h5, h6⟩
  · simp only
    rw [hdev4, if_pos rfl]; exact hv
  · simp only
    rw [hdev4, if_pos rfl]; exact hs
  · simp only
    rw [hdev4, if_pos rfl]; exact hdz
  · simp only
    rw [hdev4, if_pos rfl]; exact hdo

/-- C28, the code at a failing input: with the usual constants, on a freshly formatted
and mounted device of 3 blocks (block 2 is the only data block), the calls
`fs_write(0, {5}, 1, 0)` on the never created inode 0 (returns 1), `fs_unmount`,
`fs_mount` (succeeds), `fs_create` (returns 0) and `fs_write(0, {6}, 1, 4096)`
(returns 1) leave a valid inode 0 of size 4097 whose logical blocks 0 and 1 are both
mapped to physical block 2. On this file every logical block touched by
`fs_write(0, data, 4098, 0)` is already mapped and the call succeeds, returning 4098;
yet afterwards byte 0 of physical block 2, the block of logical block 0, is not
`data[0] = 7` but `data[4096] = 9`: the window bytes of logical block 0 were overwritten
through logical block 1. -/
theorem fs_write_aliased_block_loses_window :
    (fs_write stdConfig (freshVolume stdConfig freshSession (blankDisk stdConfig 3))
      0 [5] 1 0).1 = 1 ∧
    (fs_mount stdConfig
      (fs_unmount (fs_run stdConfig
        (freshVolume stdConfig freshSession (blankDisk stdConfig 3)) [.write 0 [5] 1 0]))
      (some (deviceOf (fs_run stdConfig
        (freshVolume stdConfig freshSession (blankDisk stdConfig 3))
        [.write 0 [5] 1 0])))).1 = true ∧
    (fs_create stdConfig (remount stdConfig (fs_run stdConfig
      (freshVolume stdConfig freshSession (blankDisk stdConfig 3)) [.write 0 [5] 1 0]))).1
      = 0 ∧
    (fs_write stdConfig (fs_run stdConfig (remount stdConfig (fs_run stdConfig
      (freshVolume stdConfig freshSession (blankDisk stdConfig 3)) [.write 0 [5] 1 0]))
      [.create]) 0 [6] 1 4096).1 = 1 ∧
    (deviceOf (fs_run stdConfig (remount stdConfig (fs_run stdConfig
      (freshVolume stdConfig freshSession (blankDisk stdConfig 3)) [.write 0 [5] 1 0]))
      [.create, .write 0 [6] 1 4096])).blocks = 3 ∧
    inode_valid stdConfig ((deviceOf (fs_run stdConfig (remount stdConfig (fs_run stdConfig
      (freshVolume stdConfig freshSession (blankDisk stdConfig 3)) [.write 0 [5] 1 0]))
      [.create, .write 0 [6] 1 4096])).data.getD 1 []) 0 = 1 ∧
    inode_size stdConfig ((deviceOf (fs_run stdConfig (remount stdConfig (fs_run stdConfig
      (freshVolume stdConfig freshSession (blankDisk stdConfig 3)) [.write 0 [5] 1 0]))
      [.create, .write 0 [6] 1 4096])).data.getD 1 []) 0 = 4097 ∧
    physical stdConfig
      (deviceOf (fs_run stdConfig (remount stdConfig (fs_run stdConfig
        (freshVolume stdConfig freshSession (blankDisk stdConfig 3)) [.write 0 [5] 1 0]))
        [.create, .write 0 [6] 1 4096]))
      ((deviceOf (fs_run stdConfig (remount stdConfig (fs_run stdConfig
        (freshVolume stdConfig freshSession (blankDisk stdConfig 3)) [.write 0 [5] 1 0]))
        [.create, .write 0 [6] 1 4096])).data.getD 1 []) 0 0 = 2 ∧
    physical stdConfig
      (deviceOf (fs_run stdConfig (remount stdConfig (fs_run stdConfig
        (freshVolume stdConfig freshSession (blankDisk stdConfig 3)) [.write 0 [5] 1 0]))
        [.create, .write 0 [6] 1 4096]))
      ((deviceOf (fs_run stdConfig (remount stdConfig (fs_run stdConfig
        (freshVolume stdConfig freshSession (blankDisk stdConfig 3)) [.write 0 [5] 1 0]))
        [.create, .write 0 [6] 1 4096])).data.getD 1 []) 0 1 = 2 ∧
    (fs_write stdConfig (fs_run stdConfig (remount stdConfig (fs_run stdConfig
      (freshVolume stdConfig freshSession (blankDisk stdConfig 3)) [.write 0 [5] 1 0]))
      [.create, .write 0 [6] 1 4096]) 0 (List.replicate 4096 7 ++ [9, 9]) 4098 0).1 = 4098 ∧
    (List.replicate 4096 7 ++ [9, 9]).getD 0 0 = 7 ∧
    ((deviceOf (fs_write stdConfig (fs_run stdConfig (remount stdConfig (fs_run stdConfig
      (freshVolume stdConfig freshSession (blankDisk stdConfig 3)) [.write 0 [5] 1 0]))
      [.create, .write 0 [6] 1 4096]) 0
      (List.replicate 4096 7 ++ [9, 9]) 4098 0).2).data.getD 2 []).getD 0 0 = 9 := by
  have hlen : (blankDisk stdConfig 3).data.length = (blankDisk stdConfig 3).blocks := by
    simp [blankDisk]
  obtain ⟨d1, e1, e2, e3⟩ := fresh_volume_state stdConfig (by decide) freshSession rfl
    (blankDisk stdConfig 3) hlen (by decide) (by decide)
  have hb : d1.blocks = 3 := e2
  have hdl : d1.data.length = d1.blocks := by
    rw [e3, e2]; simp only [List.length_cons, List.length_replicate]; rfl
  have h0 : d1.data.getD 0 [] = format_super stdConfig 3 := by rw [e3]; rfl
  have h1 : d1.data.getD 1 [] = zeroBlock stdConfig := by
    rw [e3]; exact volume_getD_succ stdConfig _ 3 1 (by decide) (by decide)
  obtain ⟨s1, s2, s3, s4, s5, d4, hw1, hm1, hm2, hcr, hw2, hs4, hb4, hv, hs, hdz, hdo, hw3, hby⟩ :=
    stale_pointer_alias d1
      (List.replicate (((blankDisk stdConfig 3).blocks + 9) / 10 + 1) false
        ++ List.replicate ((blankDisk stdConfig 3).blocks
          - (((blankDisk stdConfig 3).blocks + 9) / 10 + 1)) true)
      ⟨stdConfig.MAGIC_NUMBER, (blankDisk stdConfig 3).blocks,
        ((blankDisk stdConfig 3).blocks + 9) / 10,
        ((blankDisk stdConfig 3).blocks + 9) / 10 * stdConfig.INODES_PER_BLOCK % 2 ^ 32⟩
      (List.replicate 4096 7 ++ [9, 9]) hb hdl h0 h1
      (by decide) (by decide) (by decide) (by decide)
  have hd9 : (List.replicate 4096 7 ++ [9, 9]).getD 4096 0 = 9 := by
    rw [List.getD_append_right _ _ _ _ (by rw [List.length_replicate]), List.length_replicate]
    rfl
  have hd7 : (List.replicate 4096 7 ++ [9, 9]).getD 0 0 = 7 := by
    rw [List.getD_append _ _ _ _ (by rw [List.length_replicate]; decide),
      List.getD_eq_getElem?_getD, List.getElem?_replicate]
    rfl
  have hdev : deviceOf s4 = d4 := by
    unfold deviceOf
    rw [hs4]
    rfl
  have hp0 : physical stdConfig d4 (d4.data.getD 1 []) 0 0
      = inode_direct stdConfig (d4.data.getD 1 []) 0 0 := rfl
  have hp1 : physical stdConfig d4 (d4.data.getD 1 []) 0 1
      = inode_direct stdConfig (d4.data.getD 1 []) 0 1 := rfl
  rw [fs_run_create_write, fs_run_create, remount_eq, fs_run_write, e1, hw1]
  simp only
  rw [hm2, hcr]
  simp only
  rw [hw2]
  simp only
  rw [hw3, hdev, hp0, hp1]
  simp only
  rw [hby]
  exact ⟨trivial, hm1, trivial, trivial, hb4, hv, hs, hdz, hdo, trivial, hd7, hd9⟩

end SimpleFS

namespace SimpleShell

/-! ## The queue: first-in first-out order and `queue_remove` -/

theorem set_next_other (mem : Memory) (a x : Nat) (v : Ptr) (h : x ≠ a) :
    set_next mem a v x = mem x := by
  unfold set_next
  rw [if_neg h]

theorem set_next_same (mem : Memory) (a : Nat) (v : Ptr) : (set_next mem a v a).next = v := by
  unfold set_next
  rw [if_pos rfl]

/-- Pushing a new process behind the last node of a chain of distinct nodes extends the
chain by that process. -/
theorem chain_push (mem : Memory) (t p : Nat) :
    ∀ (l : List Nat) (hd : Ptr), Chain mem hd l → l.getLast? = some t → p ∉ l → l.Nodup →
    Chain (set_next (set_next mem t (some p)) p none) hd (l ++ [p]) := by
  intro l
  induction l with
  | nil => intro hd _ ht; simp at ht
  | cons a rest ih =>
    intro hd hc ht hp hnd
    obtain ⟨h1, h2⟩ := hc
    have hap : a ≠ p := fun h => hp (by rw [h]; exact List.mem_cons_self _ _)
    cases rest with
    | nil =>
      simp only [List.getLast?_singleton, Option.some.injEq] at ht
      subst ht
      refine ⟨h1, ?_⟩
      rw [set_next_other _ _ _ _ hap, set_next_same]
      exact ⟨rfl, by rw [set_next_same]; rfl⟩
    | cons b r =>
      have hlast : (b :: r).getLast? = some t := by
        rw [List.getLast?_cons_cons] at ht; exact ht
      have htm : t ∈ b :: r := List.mem_of_getLast?_eq_some hlast
      have hat : a ≠ t := by
        intro h
        rw [h] at hnd
        exact (List.nodup_cons.mp hnd).1 htm
      refine ⟨h1, ?_⟩
      rw [set_next_other _ _ _ _ hap, set_next_other _ _ _ _ hat]
      exact ih _ h2 hlast (fun h => hp (List.mem_cons_of_mem _ h)) (List.nodup_cons.mp hnd).2

/-- A push of a process that is not in a well-formed queue of distinct processes leaves
a well-formed queue with the process appended; on the empty queue the process must have
no successor. -/
theorem queue_push_holds (mem : Memory) (q : Queue) (l : List Nat) (p : Nat)
    (h : QueueHolds mem q l) (hnd : l.Nodup) (hp : p ∉ l)
    (hnext : l = [] → (mem p).next = none) :
    ∃ mem1 q1, queue_push mem q p = some (mem1, q1) ∧ QueueHolds mem1 q1 (l ++ [p]) ∧
      ∀ x, x ∉ l → x ≠ p → mem1 x = mem x := by
  obtain ⟨hc, ht, hs⟩ := h
  unfold queue_push
  cases l with
  | nil =>
    rw [if_pos (by rw [hs]; rfl)]
    exact ⟨_, _, rfl, ⟨⟨rfl, hnext rfl⟩, rfl, rfl⟩, fun _ _ _ => rfl⟩
  | cons a rest =>
    rw [if_neg (by rw [hs]; simp)]
    obtain ⟨t, hlast⟩ : ∃ t, (a :: rest).getLast? = some t :=
      ⟨(a :: rest).getLast (by simp), List.getLast?_eq_getLast _ _⟩
    rw [hlast] at ht
    rw [ht]
    refine ⟨_, _, rfl, ⟨chain_push mem t p _ _ hc hlast hp hnd, ?_, ?_⟩, ?_⟩
    · exact (List.getLast?_concat (a :: rest)).symm
    · simp only [List.length_append, List.length_singleton]
      rw [hs]
    · intro x hx hxp
      rw [set_next_other _ _ _ _ hxp, set_next_other _ _ _ _
        (fun h => hx (by rw [h]; exact List.mem_of_getLast?_eq_some hlast))]

theorem queue_run_push (fuel : Nat) (mem : Memory) (q : Queue) (p : Nat) (ops : List QueueOp)
    (mem1 : Memory) (q1 : Queue) (h : queue_push mem q p = some (mem1, q1)) :
    queue_run fuel mem q (.push p :: ops) = queue_run fuel mem1 q1 ops := by
  rw [queue_run, h]

theorem queue_run_pop (fuel : Nat) (mem : Memory) (q : Queue) (ops : List QueueOp)
    (r : Ptr) (q1 : Queue) (rs : List Ptr) (mem2 : Memory) (q2 : Queue)
    (h : queue_pop mem q = some (r, q1))
    (h2 : queue_run fuel mem q1 ops = some (rs, mem2, q2)) :
    queue_run fuel mem q (.pop :: ops) = some (r :: rs, mem2, q2) := by
  rw [queue_run, h]
  simp only [h2]

/-- Pushing distinct processes that are not yet in a well-formed queue appends them in
order. -/
theorem queue_run_pushes (fuel : Nat) : ∀ (ps : List Nat) (mem : Memory) (q : Queue)
    (l : List Nat), QueueHolds mem q l → (l ++ ps).Nodup →
    (∀ p, p ∈ ps → (mem p).next = none) →
    ∃ mem1 q1, queue_run fuel mem q (ps.map QueueOp.push) = some ([], mem1, q1) ∧
      QueueHolds mem1 q1 (l ++ ps) := by
  intro ps
  induction ps with
  | nil =>
    intro mem q l h _ _
    exact ⟨mem, q, rfl, by rw [List.append_nil]; exact h⟩
  | cons p ps ih =>
    intro mem q l h hnd hnext
    have hnd1 : (l ++ [p] ++ ps).Nodup := by
      rw [List.append_assoc]; exact hnd
    have hl : l.Nodup := (List.nodup_append.mp hnd).1
    have hpl : p ∉ l := by
      intro hm
      exact (List.nodup_append.mp hnd).2.2 hm (List.mem_cons_self _ _)
    obtain ⟨mem1, q1, e1, e2, e3⟩ := queue_push_holds mem q l p h hl hpl
      (fun _ => hnext p (List.mem_cons_self _ _))
    obtain ⟨mem2, q2, e4, e5⟩ := ih mem1 q1 (l ++ [p]) e2 hnd1 (by
      intro x hx
      have hxl : x ∉ l := fun hm =>
        (List.nodup_append.mp hnd).2.2 hm (List.mem_cons_of_mem _ hx)
      have hxp : x ≠ p := by
        intro he
        rw [he] at hx
        have := (List.nodup_append.mp hnd).2.1
        exact (List.nodup_cons.mp this).1 hx
      rw [e3 x hxl hxp]
      exact hnext x (List.mem_cons_of_mem _ hx))
    refine ⟨mem2, q2, ?_, by rw [List.append_assoc] at e5; exact e5⟩
    rw [List.map_cons, queue_run_push fuel mem q p _ mem1 q1 e1]
    exact e4

/-- Popping a well-formed queue as many times as it has processes returns them in order
and leaves the empty queue. -/
theorem queue_run_pops (fuel : Nat) (mem : Memory) : ∀ (l : List Nat) (q : Queue),
    QueueHolds mem q l →
    queue_run fuel mem q (List.replicate l.length QueueOp.pop)
      = some (l.map some, mem, emptyQueue) := by
  intro l
  induction l with
  | nil =>
    intro q h
    obtain ⟨hc, ht, hs⟩ := h
    obtain ⟨hd, tl, sz⟩ := q
    simp only at hc ht hs
    have hc' : hd = none := hc
    subst hc'
    subst ht
    subst hs
    rfl
  | cons a rest ih =>
    intro q h
    obtain ⟨hc, ht, hs⟩ := h
    obtain ⟨h1, h2⟩ := hc
    rw [List.length_cons, List.replicate_succ]
    cases rest with
    | nil =>
      have hp : queue_pop mem q = some (some a, emptyQueue) := by
        unfold queue_pop
        rw [if_neg (by rw [hs]; simp), if_pos (by rw [hs]; rfl), h1, hs]
        rfl
      exact queue_run_pop fuel mem q _ _ _ _ _ _ hp rfl
    | cons b r =>
      have hp : queue_pop mem q
          = some (some a, ⟨(mem a).next, q.tail, q.size - 1⟩) := by
        unfold queue_pop
        rw [if_neg (by rw [hs]; simp), if_neg (by rw [hs]; simp), h1]
      have hq : QueueHolds mem ⟨(mem a).next, q.tail, q.size - 1⟩ (b :: r) := by
        refine ⟨h2, ?_, ?_⟩
        · rw [List.getLast?_cons_cons] at ht; exact ht
        · simp only; rw [hs]; simp
      exact queue_run_pop fuel mem q _ _ _ _ _ _ hp (ih _ hq)

theorem queue_run_append (fuel : Nat) : ∀ (ops1 ops2 : List QueueOp) (mem : Memory)
    (q : Queue) (rs1 rs2 : List Ptr) (mem1 mem2 : Memory) (q1 q2 : Queue),
    queue_run fuel mem q ops1 = some (rs1, mem1, q1) →
    queue_run fuel mem1 q1 ops2 = some (rs2, mem2, q2) →
    queue_run fuel mem q (ops1 ++ ops2) = some (rs1 ++ rs2, mem2, q2) := by
  intro ops1
  induction ops1 with
  | nil =>
    intro ops2 mem q rs1 rs2 mem1 mem2 q1 q2 h1 h2
    rw [queue_run] at h1
    simp only [Option.some.injEq, Prod.mk.injEq] at h1
    obtain ⟨e1, e2, e3⟩ := h1
    subst e1
    subst e2
    subst e3
    exact h2
  | cons op ops ih =>
    intro ops2 mem q rs1 rs2 mem1 mem2 q1 q2 h1 h2
    rw [List.cons_append]
    cases op with
    | push p =>
      rw [queue_run] at h1 ⊢
      cases hp : queue_push mem q p with
      | none => rw [hp] at h1; simp at h1
      | some r =>
        obtain ⟨ma, qa⟩ := r
        rw [hp] at h1
        simp only at h1 ⊢
        exact ih ops2 ma qa rs1 rs2 mem1 mem2 q1 q2 h1 h2
    | pop =>
      rw [queue_run] at h1 ⊢
      cases hp : queue_pop mem q with
      | none => rw [hp] at h1; simp at h1
      | some r =>
        obtain ⟨r0, qa⟩ := r
        rw [hp] at h1
        simp only at h1 ⊢
        cases hr : queue_run fuel mem qa ops with
        | none => rw [hr] at h1; simp at h1
        | some x =>
          obtain ⟨rs, mb, qb⟩ := x
          rw [hr] at h1
          simp only [Option.some.injEq, Prod.mk.injEq] at h1
          obtain ⟨e1, e2, e3⟩ := h1
          subst e1
          subst e2
          subst e3
          rw [ih ops2 mem qa rs rs2 mb mem2 qb q2 hr h2]
          rfl
    | remove pid =>
      rw [queue_run] at h1 ⊢
      cases hp : queue_remove fuel mem q pid with
      | none => rw [hp] at h1; simp at h1
      | some r =>
        obtain ⟨r0, ma, qa⟩ := r
        rw [hp] at h1
        simp only at h1 ⊢
        cases hr : queue_run fuel ma qa ops with
        | none => rw [hr] at h1; simp at h1
        | some x =>
          obtain ⟨rs, mb, qb⟩ := x
          rw [hr] at h1
          simp only [Option.some.injEq, Prod.mk.injEq] at h1
          obtain ⟨e1, e2, e3⟩ := h1
          subst e1
          subst e2
          subst e3
          rw [ih ops2 ma qa rs rs2 mb mem2 qb q2 hr h2]
          rfl

/-- C31: the queue is first-in first-out. For every memory and every sequence of
distinct processes `ps`, each with `next == NULL`, pushed with `queue_push` onto the
empty queue in order: all pushes succeed and the size is the number of processes; as
many calls of `queue_pop` as there are processes return them in the order of the pushes
and leave size 0 with `head` and `tail` `NULL`; and a further `queue_pop` returns `NULL`.
The last conjunct is the same run as one sequence of calls. -/
theorem queue_fifo (fuel : Nat) (mem : Memory) (ps : List Nat) (hnd : ps.Nodup)
    (hnext : ∀ p, p ∈ ps → (mem p).next = none) :
    ∃ mem1 q1,
      queue_run fuel mem emptyQueue (ps.map QueueOp.push) = some ([], mem1, q1) ∧
      q1.size = ps.length ∧
      queue_run fuel mem1 q1 (List.replicate ps.length QueueOp.pop)
        = some (ps.map some, mem1, ⟨none, none, 0⟩) ∧
      queue_pop mem1 ⟨none, none, 0⟩ = some (none, ⟨none, none, 0⟩) ∧
      queue_run fuel mem emptyQueue
          (ps.map QueueOp.push ++ List.replicate ps.length QueueOp.pop ++ [QueueOp.pop])
        = some (ps.map some ++ [none], mem1, ⟨none, none, 0⟩) := by
  obtain ⟨mem1, q1, e1, e2⟩ := queue_run_pushes fuel ps mem emptyQueue []
    ⟨rfl, rfl, rfl⟩ (by rw [List.nil_append]; exact hnd) hnext
  rw [List.nil_append] at e2
  have e3 := queue_run_pops fuel mem1 ps q1 e2
  have e4 : queue_run fuel mem1 emptyQueue [QueueOp.pop]
      = some ([none], mem1, emptyQueue) := rfl
  refine ⟨mem1, q1, e1, e2.2.2, e3, rfl, ?_⟩
  have e5 := queue_run_append fuel _ _ _ _ _ _ _ _ _ _ e1 e3
  rw [List.nil_append] at e5
  exact queue_run_append fuel _ _ _ _ _ _ _ _ _ _ e5 e4

/-- Witness of C31: the processes at addresses 1, 2 and 3 of the sample memory. -/
theorem queue_fifo_witness :
    [1, 2, 3].Nodup ∧ (∀ p, p ∈ [1, 2, 3] → (sampleProcesses p).next = none) ∧
    ∃ mem1 q1,
      queue_run 0 sampleProcesses emptyQueue ([1, 2, 3].map QueueOp.push)
        = some ([], mem1, q1) ∧
      q1.size = [1, 2, 3].length ∧
      queue_run 0 mem1 q1 (List.replicate [1, 2, 3].length QueueOp.pop)
        = some ([1, 2, 3].map some, mem1, ⟨none, none, 0⟩) ∧
      queue_pop mem1 ⟨none, none, 0⟩ = some (none, ⟨none, none, 0⟩) ∧
      queue_run 0 sampleProcesses emptyQueue
          ([1, 2, 3].map QueueOp.push ++ List.replicate [1, 2, 3].length QueueOp.pop
            ++ [QueueOp.pop])
        = some ([1, 2, 3].map some ++ [none], mem1, ⟨none, none, 0⟩) :=
  ⟨by decide, by decide, queue_fifo 0 sampleProcesses [1, 2, 3] (by decide) (by decide)⟩

theorem chain_frame (mem : Memory) (x : Nat) (v : Ptr) :
    ∀ (l : List Nat) (p : Ptr), Chain mem p l → x ∉ l → Chain (set_next mem x v) p l := by
  intro l
  induction l with
  | nil => intro p h _; exact h
  | cons a rest ih =>
    intro p h hx
    obtain ⟨h1, h2⟩ := h
    refine ⟨h1, ?_⟩
    rw [set_next_other _ _ _ _ (fun e => hx (by rw [← e]; exact List.mem_cons_self _ _))]
    exact ih _ h2 (fun hm => hx (List.mem_cons_of_mem _ hm))

/-- Redirecting the link of the node before `c` to the successor of `c` takes `c` out of
a chain of distinct nodes. -/
theorem chain_unlink (mem : Memory) (pv c : Nat) (l2 : List Nat) :
    ∀ (l1 : List Nat) (hd : Ptr), Chain mem hd (l1 ++ c :: l2) → l1.getLast? = some pv →
    (l1 ++ c :: l2).Nodup → Chain (set_next mem pv (mem c).next) hd (l1 ++ l2) := by
  intro l1
  induction l1 with
  | nil => intro hd _ ht; simp at ht
  | cons a rest ih =>
    intro hd hc ht hnd
    obtain ⟨h1, h2⟩ := hc
    have hnd' : (rest ++ c :: l2).Nodup := (List.nodup_cons.mp hnd).2
    have han : a ∉ rest ++ c :: l2 := (List.nodup_cons.mp hnd).1
    cases rest with
    | nil =>
      simp only [List.getLast?_singleton, Option.some.injEq] at ht
      subst ht
      obtain ⟨_, h4⟩ := h2
      refine ⟨h1, ?_⟩
      rw [set_next_same]
      exact chain_frame mem a _ l2 _ h4
        (fun hm => han (List.mem_cons_of_mem _ hm))
    | cons b r =>
      have hlast : (b :: r).getLast? = some pv := by
        rw [List.getLast?_cons_cons] at ht; exact ht
      have hpm : pv ∈ b :: r := List.mem_of_getLast?_eq_some hlast
      have hap : a ≠ pv := fun e => han (by rw [e]; exact List.mem_append_left _ hpm)
      refine ⟨h1, ?_⟩
      rw [set_next_other _ _ _ _ hap]
      exact ih _ h2 hlast hnd'

/-- The loop of `queue_remove` over nodes that do not have the pid: it reaches the end of
the chain and returns `NULL` without any change. -/
theorem remove_loop_miss (pid : Int) (mem : Memory) (q : Queue) :
    ∀ (l : List Nat) (curr prev : Ptr) (fuel : Nat), Chain mem curr l →
    (∀ a, a ∈ l → (mem a).pid ≠ pid) → l.length ≤ fuel →
    remove_loop pid fuel mem q curr prev = some (none, mem, q) := by
  intro l
  induction l with
  | nil =>
    intro curr prev fuel h _ _
    have hc : curr = none := h
    subst hc
    cases fuel <;> rfl
  | cons a rest ih =>
    intro curr prev fuel h hp hf
    obtain ⟨h1, h2⟩ := h
    subst h1
    cases fuel with
    | zero => simp at hf
    | succ f =>
      simp only [remove_loop, if_neg (hp a (List.mem_cons_self _ _))]
      exact ih _ _ f h2 (fun x hx => hp x (List.mem_cons_of_mem _ hx))
        (by simp only [List.length_cons] at hf; omega)

/-- The loop of `queue_remove` over a nonempty run of nodes that do not have the pid,
followed by the node `c` that has it and is not the head: `c` is unlinked from the last
node of the run. -/
theorem remove_loop_hit (pid : Int) (mem : Memory) (q : Queue) (c : Nat) (l2 : List Nat)
    (hc : (mem c).pid = pid) (hh : some c ≠ q.head) :
    ∀ (l1 : List Nat) (curr prev : Ptr) (fuel : Nat) (pv : Nat),
    Chain mem curr (l1 ++ c :: l2) → l1.getLast? = some pv →
    (∀ a, a ∈ l1 → (mem a).pid ≠ pid) → l1.length < fuel →
    remove_loop pid fuel mem q curr prev
      = some (some c, set_next mem pv (mem c).next, ⟨q.head, q.tail, q.size - 1⟩) := by
  intro l1
  induction l1 with
  | nil => intro curr prev fuel pv _ ht; simp at ht
  | cons a rest ih =>
    intro curr prev fuel pv h ht hp hf
    obtain ⟨h1, h2⟩ := h
    subst h1
    cases fuel with
    | zero => simp at hf
    | succ f =>
      simp only [remove_loop, if_neg (hp a (List.mem_cons_self _ _))]
      cases rest with
      | nil =>
        simp only [List.getLast?_singleton, Option.some.injEq] at ht
        subst ht
        obtain ⟨h3, _⟩ := h2
        rw [h3]
        cases f with
        | zero => simp at hf
        | succ f' => simp only [remove_loop, if_pos hc, if_neg hh]
      | cons b r =>
        exact ih _ _ f pv h2 (by rw [List.getLast?_cons_cons] at ht; exact ht)
          (fun x hx => hp x (List.mem_cons_of_mem _ hx))
          (by simp only [List.length_cons] at hf ⊢; omega)

/-- What `queue_remove` does on a well-formed queue of distinct processes, for every
loop bound of at least the number of processes. When no process has the pid it returns
`NULL` and changes nothing. Otherwise it returns the first process `c` with the pid and
decreases the size by one; the queue afterwards is well formed and holds the other
processes in their order when `c` is the only process or is not the last one, and when
`c` is the last of two or more processes `tail` still points to `c`. -/
theorem queue_remove_spec (fuel : Nat) (mem : Memory) (q : Queue) (l : List Nat) (pid : Int)
    (h : QueueHolds mem q l) (hnd : l.Nodup) (hf : l.length ≤ fuel) :
    ((∀ a, a ∈ l → (mem a).pid ≠ pid) → queue_remove fuel mem q pid = some (none, mem, q)) ∧
    (∀ l1 c l2, l = l1 ++ c :: l2 → (mem c).pid = pid → (∀ a, a ∈ l1 → (mem a).pid ≠ pid) →
      ∃ mem1 q1, queue_remove fuel mem q pid = some (some c, mem1, q1) ∧
        q1.size = q.size - 1 ∧
        ((l2 ≠ [] ∨ l1 = []) → QueueHolds mem1 q1 (l1 ++ l2)) ∧
        (l2 = [] → l1 ≠ [] → q1.tail = some c)) := by
  obtain ⟨hc, ht, hs⟩ := h
  constructor
  · intro hp
    unfold queue_remove
    cases l with
    | nil => rw [if_pos (by rw [hs]; rfl)]
    | cons a rest =>
      rw [if_neg (by rw [hs]; simp)]
      obtain ⟨h1, h2⟩ := hc
      by_cases he : q.head = q.tail
      · rw [if_pos he, h1]
        simp only
        rw [if_neg (hp a (List.mem_cons_self _ _))]
      · rw [if_neg he]
        exact remove_loop_miss pid mem q (a :: rest) _ _ fuel ⟨h1, h2⟩ hp hf
  · intro l1 c l2 hl hcp hp
    subst hl
    unfold queue_remove
    rw [if_neg (by rw [hs]; simp)]
    cases l1 with
    | nil =>
      rw [List.nil_append] at hc ht hs hnd hf
      obtain ⟨h1, h2⟩ := hc
      cases l2 with
      | nil =>
        simp only [List.getLast?_singleton] at ht
        rw [if_pos (by rw [h1, ht]), h1]
        simp only
        rw [if_pos hcp]
        exact ⟨_, _, rfl, rfl, fun _ => ⟨rfl, rfl, by simp only; rw [hs]; rfl⟩,
          fun _ h => absurd rfl h⟩
      | cons b r =>
        have hne : q.head ≠ q.tail := by
          rw [h1, ht, List.getLast?_cons_cons]
          intro e
          have hm : c ∈ b :: r := List.mem_of_getLast?_eq_some e.symm
          exact (List.nodup_cons.mp hnd).1 hm
        rw [if_neg hne, h1]
        cases fuel with
        | zero => simp at hf
        | succ f =>
          simp only [remove_loop, if_pos hcp, if_pos h1.symm]
          refine ⟨_, _, rfl, rfl, fun _ => ⟨h2, ?_, ?_⟩, fun h => absurd h (by simp)⟩
          · rw [ht, List.getLast?_cons_cons]; rfl
          · simp only [List.nil_append]; rw [hs]; simp
    | cons a rest =>
      have hca : c ≠ a := by
        intro e
        rw [e] at hnd
        exact (List.nodup_cons.mp hnd).1 (List.mem_append_right _ (List.mem_cons_self _ _))
      have hhead : q.head = some a := hc.1
      have hh : some c ≠ q.head := by
        rw [hhead]
        intro e
        exact hca (Option.some.inj e)
      obtain ⟨pv, hpv⟩ : ∃ pv, (a :: rest).getLast? = some pv :=
        ⟨(a :: rest).getLast (by simp), List.getLast?_eq_getLast _ _⟩
      have hne : q.head ≠ q.tail := by
        rw [hhead, ht]
        intro e
        have e' : (a :: rest ++ c :: l2).getLast? = some a := e.symm
        rw [List.cons_append] at e' hnd
        have hnil : rest ++ c :: l2 ≠ [] := by simp
        obtain ⟨b, r, hbr⟩ : ∃ b r, rest ++ c :: l2 = b :: r := by
          cases hx : rest ++ c :: l2 with
          | nil => exact absurd hx hnil
          | cons b r => exact ⟨b, r, rfl⟩
        rw [hbr, List.getLast?_cons_cons] at e'
        rw [hbr] at hnd
        exact (List.nodup_cons.mp hnd).1 (List.mem_of_getLast?_eq_some e')
      rw [if_neg hne]
      rw [remove_loop_hit pid mem q c l2 hcp hh (a :: rest) _ _ fuel pv hc hpv hp
        (by
          simp only [List.length_append, List.length_cons] at hf ⊢
          omega)]
      refine ⟨_, _, rfl, rfl, ?_, ?_⟩
      · intro hl2
        rcases hl2 with hl2 | hl2
        · refine ⟨chain_unlink mem pv c l2 _ _ hc hpv hnd, ?_, ?_⟩
          · simp only
            rw [ht, List.getLast?_append_of_ne_nil _ (by simp),
              List.getLast?_append_of_ne_nil _ hl2]
            cases l2 with
            | nil => exact absurd rfl hl2
            | cons b r => rw [List.getLast?_cons_cons]
          · simp only [List.length_append, List.length_cons] at hs ⊢
            rw [hs]
            omega
        · exact absurd hl2 (by simp)
      · intro hl2 _
        subst hl2
        simp only
        rw [ht]
        exact List.getLast?_concat _

/-- C32, the code at a failing input: in the sample memory (the process at address `a`
has pid `a`) push processes 1 and 2 onto the empty queue; the queue is well formed and
holds 1, 2. `queue_remove` with pid 2 returns process 2, the tail, and leaves size 1 and
head 1, but `tail` still points to the removed process 2: the queue is not well formed
for any list of processes. A following `queue_push` of process 3 links it behind the
removed process, and the next two calls of `queue_pop` return process 1 and then `NULL`:
process 3 is never returned. -/
theorem queue_remove_tail_loses_push (fuel : Nat) :
    ∃ mem0 q0 mem1 mem2 q2,
      queue_run (fuel + 2) sampleProcesses emptyQueue [.push 1, .push 2]
        = some ([], mem0, q0) ∧
      QueueHolds mem0 q0 [1, 2] ∧
      queue_remove (fuel + 2) mem0 q0 2 = some (some 2, mem1, ⟨some 1, some 2, 1⟩) ∧
      (∀ l, ¬ QueueHolds mem1 ⟨some 1, some 2, 1⟩ l) ∧
      queue_run (fuel + 2) mem1 ⟨some 1, some 2, 1⟩ [.push 3, .pop, .pop]
        = some ([some 1, none], mem2, q2) ∧
      q2.size = 0 ∧
      queue_run (fuel + 2) sampleProcesses emptyQueue
          [.push 1, .push 2, .remove 2, .push 3, .pop, .pop]
        = some ([some 2, some 1, none], mem2, q2) := by
  refine ⟨_, _, _, _, _, rfl, ⟨⟨rfl, rfl, rfl⟩, rfl, rfl⟩, rfl, ?_, rfl, rfl, rfl⟩
  intro l h
  obtain ⟨hc, ht, hs⟩ := h
  match l, hc, ht, hs with
  | [], _, _, hs => simp at hs
  | [x], hc, ht, _ =>
    obtain ⟨h1, _⟩ := hc
    simp only [Option.some.injEq] at h1
    subst h1
    simp at ht
  | _ :: _ :: _, _, _, hs => simp at hs

end SimpleShell

namespace Malloc

/-! ## The searches of the free list -/

/-- The loop of `free_list_search_ff` over a list that reaches the list head: it ends
within as many iterations as the list has blocks and returns the first block of
capacity at least `size`, or `NULL` when there is none. -/
theorem search_ff_loop_spec (mem : Memory) (FreeList size : Nat) :
    ∀ (l : List Nat) (p : Ptr) (fuel : Nat), ListFrom mem FreeList p l → l.length ≤ fuel →
    ∃ r, search_ff_loop mem FreeList size fuel p = some r ∧
      (r = none ↔ ∀ a, a ∈ l → (mem a).capacity < size) ∧
      (∀ b, r = some b → size ≤ (mem b).capacity ∧
        ∃ l1 l2, l = l1 ++ b :: l2 ∧ ∀ a, a ∈ l1 → (mem a).capacity < size) := by
  intro l
  induction l with
  | nil =>
    intro p fuel hl _
    have hp : p = some FreeList := hl
    subst hp
    refine ⟨none, ?_, ⟨fun _ a ha => absurd ha (List.not_mem_nil a), fun _ => rfl⟩,
      fun b hb => absurd hb (by simp)⟩
    cases fuel with
    | zero => rw [search_ff_loop, if_pos rfl]
    | succ f => rw [search_ff_loop]; simp only [if_true]
  | cons a rest ih =>
    intro p fuel hl hf
    obtain ⟨hp, ha, hrest⟩ := hl
    subst hp
    cases fuel with
    | zero => simp at hf
    | succ f =>
      rw [search_ff_loop]
      simp only [if_neg ha]
      by_cases hc : (mem a).capacity ≥ size
      · rw [if_pos hc]
        refine ⟨some a, rfl, ⟨fun h => absurd h (by simp), fun h => ?_⟩, ?_⟩
        · have := h a (List.mem_cons_self _ _)
          omega
        · intro b hb
          simp only [Option.some.injEq] at hb
          subst hb
          exact ⟨hc, [], rest, rfl, fun x hx => absurd hx (List.not_mem_nil x)⟩
      · rw [if_neg hc]
        obtain ⟨r, e1, e2, e3⟩ := ih (mem a).next f hrest
          (by simp only [List.length_cons] at hf; omega)
        refine ⟨r, e1, ⟨fun h x hx => ?_, fun h => e2.mpr (fun x hx =>
          h x (List.mem_cons_of_mem _ hx))⟩, ?_⟩
        · rcases List.mem_cons.mp hx with hx | hx
          · rw [hx]; omega
          · exact e2.mp h x hx
        · intro b hb
          obtain ⟨h1, l1, l2, h2, h3⟩ := e3 b hb
          refine ⟨h1, a :: l1, l2, by rw [h2]; rfl, fun x hx => ?_⟩
          rcases List.mem_cons.mp hx with hx | hx
          · rw [hx]; omega
          · exact h3 x hx

/-- The loop of `free_list_search_bf` over a list that reaches the list head, started
with a candidate of capacity above `size` (or none): it ends within as many iterations as
the list has blocks and returns a block of least capacity among the candidate and the
blocks of capacity at least `size`, or `NULL` when there is neither. -/
theorem search_bf_loop_spec (mem : Memory) (FreeList size : Nat) :
    ∀ (l : List Nat) (p : Ptr) (fuel : Nat) (closest : Ptr),
    ListFrom mem FreeList p l → l.length ≤ fuel →
    (∀ k, closest = some k → size < (mem k).capacity) →
    ∃ r, search_bf_loop mem FreeList size fuel p closest = some r ∧
      (r = none ↔ closest = none ∧ ∀ a, a ∈ l → (mem a).capacity < size) ∧
      (∀ b, r = some b → (r = closest ∨ b ∈ l) ∧ size ≤ (mem b).capacity ∧
        (∀ k, closest = some k → (mem b).capacity ≤ (mem k).capacity) ∧
        ∀ a, a ∈ l → size ≤ (mem a).capacity → (mem b).capacity ≤ (mem a).capacity) := by
  intro l
  induction l with
  | nil =>
    intro p fuel closest hl _ hcl
    have hp : p = some FreeList := hl
    subst hp
    refine ⟨closest, ?_, ⟨fun h => ⟨h, fun a ha => absurd ha (List.not_mem_nil a)⟩,
      fun h => h.1⟩, fun b hb => ⟨Or.inl rfl, ?_, ?_, fun a ha => absurd ha (List.not_mem_nil a)⟩⟩
    · cases fuel with
      | zero => simp only [search_bf_loop, if_true]
      | succ f => simp only [search_bf_loop, if_true]
    · have := hcl b hb; omega
    · intro k hk
      rw [hb] at hk
      simp only [Option.some.injEq] at hk
      rw [hk]
  | cons a rest ih =>
    intro p fuel closest hl hf hcl
    obtain ⟨hp, ha, hrest⟩ := hl
    subst hp
    cases fuel with
    | zero => simp at hf
    | succ f =>
      have hf' : rest.length ≤ f := by simp only [List.length_cons] at hf; omega
      simp only [search_bf_loop, if_neg ha]
      by_cases hc : (mem a).capacity = size
      · rw [if_pos hc]
        refine ⟨some a, rfl, ⟨fun h => absurd h (by simp), fun h => ?_⟩, ?_⟩
        · have := h.2 a (List.mem_cons_self _ _)
          omega
        · intro b hb
          simp only [Option.some.injEq] at hb
          subst hb
          refine ⟨Or.inr (List.mem_cons_self _ _), by omega, fun k hk => ?_, fun x _ hx => by omega⟩
          have := hcl k hk
          omega
      · rw [if_neg hc]
        cases closest with
        | none =>
          by_cases hgt : (mem a).capacity > size
          · simp only [if_pos hgt, lt_irrefl, and_false, if_false]
            obtain ⟨r, e1, e2, e3⟩ := ih (mem a).next f (some a) hrest hf'
              (fun k hk => by simp only [Option.some.injEq] at hk; rw [← hk]; exact hgt)
            refine ⟨r, e1, ⟨fun h => absurd (e2.mp h).1 (by simp), fun h => ?_⟩, ?_⟩
            · have := h.2 a (List.mem_cons_self _ _)
              omega
            · intro b hb
              obtain ⟨h1, h2, h3, h4⟩ := e3 b hb
              refine ⟨Or.inr ?_, h2, fun k hk => absurd hk (by simp), fun x hx hxs => ?_⟩
              · rcases h1 with h1 | h1
                · rw [hb] at h1
                  simp only [Option.some.injEq] at h1
                  rw [h1]; exact List.mem_cons_self _ _
                · exact List.mem_cons_of_mem _ h1
              · rcases List.mem_cons.mp hx with hx | hx
                · rw [hx]; exact h3 a rfl
                · exact h4 x hx hxs
          · simp only [if_neg hgt]
            obtain ⟨r, e1, e2, e3⟩ := ih (mem a).next f none hrest hf'
              (fun k hk => absurd hk (by simp))
            refine ⟨r, e1, ⟨fun h => ⟨trivial, fun x hx => ?_⟩, fun h => e2.mpr ⟨rfl, fun x hx =>
              h.2 x (List.mem_cons_of_mem _ hx)⟩⟩, ?_⟩
            · rcases List.mem_cons.mp hx with hx | hx
              · rw [hx]; omega
              · exact (e2.mp h).2 x hx
            · intro b hb
              obtain ⟨h1, h2, h3, h4⟩ := e3 b hb
              refine ⟨Or.inr ?_, h2, fun k hk => absurd hk (by simp), fun x hx hxs => ?_⟩
              · rcases h1 with h1 | h1
                · rw [hb] at h1; simp at h1
                · exact List.mem_cons_of_mem _ h1
              · rcases List.mem_cons.mp hx with hx | hx
                · rw [hx] at hxs; omega
                · exact h4 x hx hxs
        | some k =>
          have hk := hcl k rfl
          simp only
          by_cases hlt : (mem a).capacity > size ∧ (mem a).capacity < (mem k).capacity
          · rw [if_pos hlt]
            obtain ⟨r, e1, e2, e3⟩ := ih (mem a).next f (some a) hrest hf'
              (fun k' hk' => by simp only [Option.some.injEq] at hk'; rw [← hk']; exact hlt.1)
            refine ⟨r, e1, ⟨fun h => absurd (e2.mp h).1 (by simp),
              fun h => absurd h.1 (by simp)⟩, ?_⟩
            intro b hb
            obtain ⟨h1, h2, h3, h4⟩ := e3 b hb
            refine ⟨Or.inr ?_, h2, fun k' hk' => ?_, fun x hx hxs => ?_⟩
            · rcases h1 with h1 | h1
              · rw [hb] at h1
                simp only [Option.some.injEq] at h1
                rw [h1]; exact List.mem_cons_self _ _
              · exact List.mem_cons_of_mem _ h1
            · simp only [Option.some.injEq] at hk'
              rw [← hk']
              have := h3 a rfl
              omega
            · rcases List.mem_cons.mp hx with hx | hx
              · rw [hx]; exact h3 a rfl
              · exact h4 x hx hxs
          · rw [if_neg hlt]
            obtain ⟨r, e1, e2, e3⟩ := ih (mem a).next f (some k) hrest hf'
              (fun k' hk' => by simp only [Option.some.injEq] at hk'; rw [← hk']; exact hk)
            refine ⟨r, e1, ⟨fun h => absurd (e2.mp h).1 (by simp),
              fun h => absurd h.1 (by simp)⟩, ?_⟩
            intro b hb
            obtain ⟨h1, h2, h3, h4⟩ := e3 b hb
            refine ⟨?_, h2, h3, fun x hx hxs => ?_⟩
            · rcases h1 with h1 | h1
              · exact Or.inl h1
              · exact Or.inr (List.mem_cons_of_mem _ h1)
            · rcases List.mem_cons.mp hx with hx | hx
              · rw [hx] at hxs ⊢
                have := h3 k rfl
                omega
              · exact h4 x hx hxs

/-- The loop of `free_list_search_wf` over a list that reaches the list head, started
with a candidate of capacity at least `size` (or none): it ends within as many
iterations as the list has blocks and returns a block of greatest capacity among the
candidate and the blocks of capacity at least `size`, or `NULL` when there is neither. -/
theorem search_wf_loop_spec (mem : Memory) (FreeList size : Nat) :
    ∀ (l : List Nat) (p : Ptr) (fuel : Nat) (worst : Ptr),
    ListFrom mem FreeList p l → l.length ≤ fuel →
    (∀ k, worst = some k → size ≤ (mem k).capacity) →
    ∃ r, search_wf_loop mem FreeList size fuel p worst = some r ∧
      (r = none ↔ worst = none ∧ ∀ a, a ∈ l → (mem a).capacity < size) ∧
      (∀ b, r = some b → (r = worst ∨ b ∈ l) ∧ size ≤ (mem b).capacity ∧
        (∀ k, worst = some k → (mem k).capacity ≤ (mem b).capacity) ∧
        ∀ a, a ∈ l → size ≤ (mem a).capacity → (mem a).capacity ≤ (mem b).capacity) := by
  intro l
  induction l with
  | nil =>
    intro p fuel worst hl _ hcl
    have hp : p = some FreeList := hl
    subst hp
    refine ⟨worst, ?_, ⟨fun h => ⟨h, fun a ha => absurd ha (List.not_mem_nil a)⟩,
      fun h => h.1⟩, fun b hb => ⟨Or.inl rfl, hcl b hb, ?_,
        fun a ha => absurd ha (List.not_mem_nil a)⟩⟩
    · cases fuel with
      | zero => simp only [search_wf_loop, if_true]
      | succ f => simp only [search_wf_loop, if_true]
    · intro k hk
      rw [hb] at hk
      simp only [Option.some.injEq] at hk
      rw [hk]
  | cons a rest ih =>
    intro p fuel worst hl hf hcl
    obtain ⟨hp, ha, hrest⟩ := hl
    subst hp
    cases fuel with
    | zero => simp at hf
    | succ f =>
      have hf' : rest.length ≤ f := by simp only [List.length_cons] at hf; omega
      simp only [search_wf_loop, if_neg ha]
      cases worst with
      | none =>
        by_cases hge : (mem a).capacity ≥ size
        · simp only [if_pos hge, gt_iff_lt, lt_irrefl, and_false, if_false]
          obtain ⟨r, e1, e2, e3⟩ := ih (mem a).next f (some a) hrest hf'
            (fun k hk => by simp only [Option.some.injEq] at hk; rw [← hk]; exact hge)
          refine ⟨r, e1, ⟨fun h => absurd (e2.mp h).1 (by simp), fun h => ?_⟩, ?_⟩
          · have := h.2 a (List.mem_cons_self _ _)
            omega
          · intro b hb
            obtain ⟨h1, h2, h3, h4⟩ := e3 b hb
            refine ⟨Or.inr ?_, h2, fun k hk => absurd hk (by simp), fun x hx hxs => ?_⟩
            · rcases h1 with h1 | h1
              · rw [hb] at h1
                simp only [Option.some.injEq] at h1
                rw [h1]; exact List.mem_cons_self _ _
              · exact List.mem_cons_of_mem _ h1
            · rcases List.mem_cons.mp hx with hx | hx
              · rw [hx]; exact h3 a rfl
              · exact h4 x hx hxs
        · simp only [if_neg hge]
          obtain ⟨r, e1, e2, e3⟩ := ih (mem a).next f none hrest hf'
            (fun k hk => absurd hk (by simp))
          refine ⟨r, e1, ⟨fun h => ⟨trivial, fun x hx => ?_⟩, fun h => e2.mpr ⟨rfl, fun x hx =>
            h.2 x (List.mem_cons_of_mem _ hx)⟩⟩, ?_⟩
          · rcases List.mem_cons.mp hx with hx | hx
            · rw [hx]; omega
            · exact (e2.mp h).2 x hx
          · intro b hb
            obtain ⟨h1, h2, h3, h4⟩ := e3 b hb
            refine ⟨Or.inr ?_, h2, fun k hk => absurd hk (by simp), fun x hx hxs => ?_⟩
            · rcases h1 with h1 | h1
              · rw [hb] at h1; simp at h1
              · exact List.mem_cons_of_mem _ h1
            · rcases List.mem_cons.mp hx with hx | hx
              · rw [hx] at hxs; omega
              · exact h4 x hx hxs
      | some k =>
        have hk := hcl k rfl
        simp only
        by_cases hlt : (mem a).capacity ≥ size ∧ (mem a).capacity > (mem k).capacity
        · rw [if_pos hlt]
          obtain ⟨r, e1, e2, e3⟩ := ih (mem a).next f (some a) hrest hf'
            (fun k' hk' => by simp only [Option.some.injEq] at hk'; rw [← hk']; exact hlt.1)
          refine ⟨r, e1, ⟨fun h => absurd (e2.mp h).1 (by simp),
            fun h => absurd h.1 (by simp)⟩, ?_⟩
          intro b hb
          obtain ⟨h1, h2, h3, h4⟩ := e3 b hb
          refine ⟨Or.inr ?_, h2, fun k' hk' => ?_, fun x hx hxs => ?_⟩
          · rcases h1 with h1 | h1
            · rw [hb] at h1
              simp only [Option.some.injEq] at h1
              rw [h1]; exact List.mem_cons_self _ _
            · exact List.mem_cons_of_mem _ h1
          · simp only [Option.some.injEq] at hk'
            rw [← hk']
            have := h3 a rfl
            omega
          · rcases List.mem_cons.mp hx with hx | hx
            · rw [hx]; exact h3 a rfl
            · exact h4 x hx hxs
        · rw [if_neg hlt]
          obtain ⟨r, e1, e2, e3⟩ := ih (mem a).next f (some k) hrest hf'
            (fun k' hk' => by simp only [Option.some.injEq] at hk'; rw [← hk']; exact hk)
          refine ⟨r, e1, ⟨fun h => absurd (e2.mp h).1 (by simp),
            fun h => absurd h.1 (by simp)⟩, ?_⟩
          intro b hb
          obtain ⟨h1, h2, h3, h4⟩ := e3 b hb
          refine ⟨?_, h2, h3, fun x hx hxs => ?_⟩
          · rcases h1 with h1 | h1
            · exact Or.inl h1
            · exact Or.inr (List.mem_cons_of_mem _ h1)
          · rcases List.mem_cons.mp hx with hx | hx
            · rw [hx] at hxs ⊢
              have := h3 k rfl
              omega
            · exact h4 x hx hxs

/-- C33: the searches of the free list. For every memory in which the free list holds
the blocks `l` (the `next` links from `FreeList.next` run through `l` and reach the list
head) and every requested size, each search ends within `l.length` iterations, and:
`free_list_search_bf` returns `NULL` if and only if no block of the list has capacity at
least `size`, and otherwise a block of the list with capacity at least `size` whose
capacity is least among all such blocks, so a block of capacity exactly `size` when the
list has one; `free_list_search_wf` returns `NULL` under the same condition and otherwise
a block of the list with capacity at least `size` whose capacity is greatest among all
such blocks; `free_list_search_ff` returns `NULL` under the same condition and otherwise
the first block in list order with capacity at least `size`. -/
theorem free_list_search_fits (mem : Memory) (FreeList size : Nat) (l : List Nat)
    (fuel : Nat) (hl : FreeListIs mem FreeList l) (hf : l.length ≤ fuel) :
    (∃ r, free_list_search_bf mem FreeList size fuel = some r ∧
      (r = none ↔ ∀ a, a ∈ l → (mem a).capacity < size) ∧
      (∀ b, r = some b → b ∈ l ∧ size ≤ (mem b).capacity ∧
        (∀ a, a ∈ l → size ≤ (mem a).capacity → (mem b).capacity ≤ (mem a).capacity) ∧
        ((∃ a, a ∈ l ∧ (mem a).capacity = size) → (mem b).capacity = size))) ∧
    (∃ r, free_list_search_wf mem FreeList size fuel = some r ∧
      (r = none ↔ ∀ a, a ∈ l → (mem a).capacity < size) ∧
      (∀ b, r = some b → b ∈ l ∧ size ≤ (mem b).capacity ∧
        ∀ a, a ∈ l → size ≤ (mem a).capacity → (mem a).capacity ≤ (mem b).capacity)) ∧
    (∃ r, free_list_search_ff mem FreeList size fuel = some r ∧
      (r = none ↔ ∀ a, a ∈ l → (mem a).capacity < size) ∧
      (∀ b, r = some b → size ≤ (mem b).capacity ∧
        ∃ l1 l2, l = l1 ++ b :: l2 ∧ ∀ a, a ∈ l1 → (mem a).capacity < size)) := by
  refine ⟨?_, ?_, search_ff_loop_spec mem FreeList size l _ fuel hl hf⟩
  · obtain ⟨r, e1, e2, e3⟩ := search_bf_loop_spec mem FreeList size l _ fuel none hl hf
      (fun k hk => absurd hk (by simp))
    refine ⟨r, e1, ⟨fun h => (e2.mp h).2, fun h => e2.mpr ⟨rfl, h⟩⟩, ?_⟩
    intro b hb
    obtain ⟨h1, h2, _, h4⟩ := e3 b hb
    refine ⟨?_, h2, h4, ?_⟩
    · rcases h1 with h1 | h1
      · rw [hb] at h1; simp at h1
      · exact h1
    · rintro ⟨a, ha, hac⟩
      have := h4 a ha (by omega)
      omega
  · obtain ⟨r, e1, e2, e3⟩ := search_wf_loop_spec mem FreeList size l _ fuel none hl hf
      (fun k hk => absurd hk (by simp))
    refine ⟨r, e1, ⟨fun h => (e2.mp h).2, fun h => e2.mpr ⟨rfl, h⟩⟩, ?_⟩
    intro b hb
    obtain ⟨h1, h2, _, h4⟩ := e3 b hb
    refine ⟨?_, h2, h4⟩
    rcases h1 with h1 | h1
    · rw [hb] at h1; simp at h1
    · exact h1

/-- Witness of C33: the sample memory, whose free list holds block 1 (capacity 64),
block 2 (capacity 16) and block 3 (capacity 32), and the requested size 20: best fit
returns block 3, worst fit and first fit return block 1. -/
theorem free_list_search_fits_witness :
    FreeListIs sampleBlocks 0 [1, 2, 3] ∧
    free_list_search_bf sampleBlocks 0 20 3 = some (some 3) ∧
    free_list_search_wf sampleBlocks 0 20 3 = some (some 1) ∧
    free_list_search_ff sampleBlocks 0 20 3 = some (some 1) ∧
    ((∃ r, free_list_search_bf sampleBlocks 0 20 3 = some r ∧
      (r = none ↔ ∀ a, a ∈ [1, 2, 3] → (sampleBlocks a).capacity < 20) ∧
      (∀ b, r = some b → b ∈ [1, 2, 3] ∧ 20 ≤ (sampleBlocks b).capacity ∧
        (∀ a, a ∈ [1, 2, 3] → 20 ≤ (sampleBlocks a).capacity →
          (sampleBlocks b).capacity ≤ (sampleBlocks a).capacity) ∧
        ((∃ a, a ∈ [1, 2, 3] ∧ (sampleBlocks a).capacity = 20) →
          (sampleBlocks b).capacity = 20))) ∧
    (∃ r, free_list_search_wf sampleBlocks 0 20 3 = some r ∧
      (r = none ↔ ∀ a, a ∈ [1, 2, 3] → (sampleBlocks a).capacity < 20) ∧
      (∀ b, r = some b → b ∈ [1, 2, 3] ∧ 20 ≤ (sampleBlocks b).capacity ∧
        ∀ a, a ∈ [1, 2, 3] → 20 ≤ (sampleBlocks a).capacity →
          (sampleBlocks a).capacity ≤ (sampleBlocks b).capacity)) ∧
    (∃ r, free_list_search_ff sampleBlocks 0 20 3 = some r ∧
      (r = none ↔ ∀ a, a ∈ [1, 2, 3] → (sampleBlocks a).capacity < 20) ∧
      (∀ b, r = some b → 20 ≤ (sampleBlocks b).capacity ∧
        ∃ l1 l2, [1, 2, 3] = l1 ++ b :: l2 ∧
          ∀ a, a ∈ l1 → (sampleBlocks a).capacity < 20))) :=
  ⟨⟨rfl, by decide, rfl, by decide, rfl, by decide, rfl⟩, by decide, by decide, by decide,
    free_list_search_fits sampleBlocks 0 20 [1, 2, 3] 3
      ⟨rfl, by decide, rfl, by decide, rfl, by decide, rfl⟩ (by decide)⟩

end Malloc
